import Mathlib

/-! # Koinos bridge validator: signature aggregation

A shallow embedding of the validator node of the Koinos / Ethereum bridge
(`internal/api/api.go`, `internal/util/util.go`,
`internal/streamer/ethereum_streamer.go`, `internal/streamer/koinos_streamer.go`)
together with theorems about the peer-submission endpoint, the event processors
and the signature threshold.

Conventions of the embedding.

* Go `string` is `String`, `[]byte` is `Bytes` (a list of `UInt8`), `uint64` is
  `Nat` with an explicit `% 2 ^ 64` wherever the Go arithmetic can wrap.
* A Go `map[string]V` is an insertion ordered association list (`GoMap V`).  Go
  leaves the iteration order of a map unspecified, so every `range` over a map
  goes through a `MapOrder`, an arbitrary permutation chosen by the caller.
* Functions of external libraries (hashing, ECDSA recovery, base58 / base64 / hex
  codecs, protobuf encoding, `strconv.ParseUint`) are the fields of `Lib`.
* A database is an association list from keys to records; backend failures are
  not modelled, so `Get` returns the record last `Put` under the key.
* A Go `panic` is an explicit outcome.
-/

namespace KoinosBridge

/-! ## Go values -/

/-- Byte strings (`[]byte`). -/
abbrev Bytes := List UInt8

/-- A Go map with string keys, kept as an association list with distinct keys. -/
abbrev GoMap (α : Type) := List (String × α)

/-- Go `m[k]` with the comma-ok idiom. -/
def mapGet {α : Type} (m : GoMap α) (k : String) : Option α :=
  match m with
  | [] => none
  | (k', v) :: rest => if k' = k then some v else mapGet rest k

/-- Go `_, found := m[k]`. -/
def mapHas {α : Type} (m : GoMap α) (k : String) : Bool :=
  (mapGet m k).isSome

/-- Go `m[k] = v`: replaces the value of an existing key, adds the key otherwise. -/
def mapSet {α : Type} (m : GoMap α) (k : String) (v : α) : GoMap α :=
  match m with
  | [] => [(k, v)]
  | (k', v') :: rest => if k' = k then (k, v) :: rest else (k', v') :: mapSet rest k v

/-- The order in which one `range` loop visits the entries of a map: some
permutation of the entries. -/
structure MapOrder where
  iter : {α : Type} → GoMap α → GoMap α
  perm : ∀ {α : Type} (m : GoMap α), (iter m).Perm m

/-- The iteration order that visits the entries in insertion order. -/
def insertionOrder : MapOrder where
  iter := fun m => m
  perm := fun m => List.Perm.refl m

/-- The iteration order that visits the entries in reverse insertion order. -/
def reverseOrder : MapOrder where
  iter := fun m => m.reverse
  perm := fun m => List.reverse_perm m

/-- Go `[]byte(s)`: the UTF-8 bytes of a string. -/
def stringBytes (s : String) : Bytes := s.toUTF8.data.toList

/-- Go `uint64` addition. -/
def addU64 (a b : Nat) : Nat := (a + b) % 2 ^ 64

/-! ## Records (`bridge_pb`) -/

/-- Origin chain of a transfer (`bridge_pb.TransactionType`). -/
inductive TransactionType where
  | ethereum
  | koinos
  deriving DecidableEq, Repr

/-- Lifecycle status of a transfer (`bridge_pb.TransactionStatus`). -/
inductive TransactionStatus where
  | gathering_signatures
  | signed
  | completed
  deriving DecidableEq, Repr

/-- The transfer record `bridge_pb.Transaction`.  The default values are the
zero values of the Go struct `&bridge_pb.Transaction{}`. -/
structure Transaction where
  type : TransactionType := TransactionType.ethereum
  id : String := ""
  opId : String := ""
  sender : String := ""
  ethToken : String := ""
  koinosToken : String := ""
  amount : String := ""
  payment : String := ""
  recipient : String := ""
  relayer : String := ""
  hash : String := ""
  metadata : String := ""
  blockNumber : Nat := 0
  blockTime : Nat := 0
  expiration : Nat := 0
  toChain : String := ""
  validators : List String := []
  signatures : List String := []
  status : TransactionStatus := TransactionStatus.gathering_signatures
  completionTransactionId : String := ""
  deriving DecidableEq, Repr

/-- The envelope `bridge_pb.SubmittedSignature` posted to `/SubmitSignature`. -/
structure SubmittedSignature where
  transaction : Transaction
  signature : String
  expiration : Int
  deriving DecidableEq, Repr

/-- The message `bridge_pb.CompleteTransferHash` hashed for the Koinos contract. -/
structure CompleteTransferHash where
  action : Nat
  transactionId : Bytes
  token : Bytes
  recipient : Bytes
  relayer : Bytes
  amount : Nat
  payment : Nat
  contractId : Bytes
  metadata : String
  expiration : Nat
  chain : Nat
  deriving DecidableEq, Repr

/-- Configuration entry `util.ValidatorConfig`. -/
structure ValidatorConfig where
  ethereumAddress : String
  koinosAddress : String
  apiUrl : String
  deriving DecidableEq, Repr

/-- Configuration entry `util.TokenConfig`. -/
structure TokenConfig where
  ethereumAddress : String := ""
  koinosAddress : String := ""
  deriving DecidableEq, Repr

/-! ## External libraries -/

/-- The library functions the validator calls.  Each field names the Go function
it stands for; `none` is a returned error. -/
structure Lib where
  /-- `sha256.Sum256`. -/
  sha256 : Bytes → Bytes
  /-- `crypto.Keccak256Hash` of the concatenated arguments. -/
  keccak256 : Bytes → Bytes
  /-- `base64.URLEncoding.EncodeToString`. -/
  base64Encode : Bytes → String
  /-- `base64.URLEncoding.DecodeString`. -/
  base64Decode : String → Option Bytes
  /-- `base58.Encode`. -/
  base58Encode : Bytes → String
  /-- `base58.Decode`. -/
  base58Decode : String → Option Bytes
  /-- `common.FromHex`. -/
  fromHex : String → Bytes
  /-- `common.Hex2Bytes`, applied to the bytes of its argument. -/
  hex2Bytes : Bytes → Bytes
  /-- `common.Bytes2Hex`. -/
  bytes2Hex : Bytes → String
  /-- `common.HexToAddress(s).Bytes()`. -/
  hexToAddress : String → Bytes
  /-- `common.Address.Hex` of an address given by its bytes. -/
  addressHex : Bytes → String
  /-- `common.Hash.Hex` of a hash given by its bytes. -/
  hashHex : Bytes → String
  /-- `strconv.ParseUint(s, 0, bitSize)`. -/
  parseUint : String → Nat → Option Nat
  /-- `proto.Marshal` of a transfer record. -/
  marshalTransaction : Transaction → Option Bytes
  /-- `proto.Marshal` of a `CompleteTransferHash`. -/
  marshalCompleteTransferHash : CompleteTransferHash → Option Bytes
  /-- `btcec.RecoverCompact(btcec.S256(), signature, hash)`: the public key. -/
  recoverCompact : Bytes → Bytes → Option Bytes
  /-- `btcutil.NewAddressPubKey(pubkey.SerializeCompressed(), mainnet).EncodeAddress()`. -/
  encodeAddressPubKey : Bytes → String
  /-- `btcec.SignCompact(btcec.S256(), key, hash, true)`. -/
  signCompact : Bytes → Bytes → Bytes
  /-- `crypto.SigToPub(hash, signature)`. -/
  sigToPub : Bytes → Bytes → Option Bytes
  /-- `crypto.PubkeyToAddress(pubkey).Bytes()`. -/
  pubkeyToAddress : Bytes → Bytes
  /-- `crypto.Sign(hash, key)`, 65 bytes with the recovery id last. -/
  cryptoSign : Bytes → Bytes → Bytes
  /-- `bridge_pb.ActionId_complete_transfer.Number()`. -/
  completeTransferAction : Nat

/-! ## `internal/util/util.go` -/

/-- Minimal big-endian bytes of a natural number below `256 ^ fuel`
(`big.Int.Bytes`; empty for zero). -/
def natBytes : Nat → Nat → Bytes
  | 0, _ => []
  | fuel + 1, n => if n = 0 then [] else natBytes fuel (n / 256) ++ [UInt8.ofNat (n % 256)]

/-- Go `big.NewInt(int64(x)).Bytes()` for a `uint64` value `x`: the conversion to
`int64` reinterprets values from `2 ^ 63` on as negative numbers, and `Bytes`
returns the bytes of the absolute value. -/
def bigInt64Bytes (x : Nat) : Bytes :=
  let u := x % 2 ^ 64
  natBytes 8 (if u < 2 ^ 63 then u else 2 ^ 64 - u)

/-- Go-ethereum `common.LeftPadBytes(slice, l)`. -/
def leftPadBytes (slice : Bytes) (l : Nat) : Bytes :=
  if l ≤ slice.length then slice else List.replicate (l - slice.length) 0 ++ slice

/-- Source function `SignKoinosHash`. -/
def SignKoinosHash (L : Lib) (key hash : Bytes) : Bytes :=
  L.signCompact key hash

/-- Source function `SignEthereumHash`; `none` is the panic of an out-of-range
index when the library returns fewer than 65 bytes. -/
def SignEthereumHash (L : Lib) (key hash : Bytes) : Option Bytes :=
  let signatureBytes := L.cryptoSign hash key
  match signatureBytes[64]? with
  | none => none
  | some v => some (signatureBytes.set 64 (v + 27))

/-- Source function `KoinosPublicKeyToAddress`. -/
def KoinosPublicKeyToAddress (L : Lib) (pubkey : Bytes) : Option Bytes :=
  L.base58Decode (L.encodeAddressPubKey pubkey)

/-- Outcome of a Go function that returns `(value, error)` and may panic. -/
inductive GoResult (α : Type) where
  | ok (value : α)
  | error
  | panic
  deriving DecidableEq, Repr

/-- Source function `RecoverEthereumAddressFromSignature`.  The slice
`signature[2:]` panics on a string of fewer than two bytes and the index
`signatureBytes[crypto.RecoveryIDOffset]` panics on fewer than 65 decoded bytes. -/
def RecoverEthereumAddressFromSignature (L : Lib) (signature : String)
    (prefixedHash : Bytes) : GoResult String :=
  if (stringBytes signature).length < 2 then GoResult.panic
  else
    let signatureBytes := L.hex2Bytes ((stringBytes signature).drop 2)
    match signatureBytes[64]? with
    | none => GoResult.panic
    | some v =>
      match L.sigToPub prefixedHash (signatureBytes.set 64 (v - 27)) with
      | none => GoResult.error
      | some recovered => GoResult.ok (L.addressHex (L.pubkeyToAddress recovered))

/-- Source function `RecoverKoinosAddressFromSignature`; `none` is a returned error. -/
def RecoverKoinosAddressFromSignature (L : Lib) (signature : String) (hash : Bytes) :
    Option String :=
  match L.base64Decode signature with
  | none => none
  | some signatureBytes =>
    match L.recoverCompact signatureBytes hash with
    | none => none
    | some validatorPubKey =>
      match KoinosPublicKeyToAddress L validatorPubKey with
      | none => none
      | some validatorAddressBytes => some (L.base58Encode validatorAddressBytes)

/-- The byte string hashed first by `GenerateEthereumCompleteTransferHash`. -/
def ethereumPreimage (L : Lib) (txIdBytes : Bytes) (operationId : Nat)
    (ethToken recipient relayer : Bytes) (payment amount : Nat)
    (ethContractAddress : Bytes) (metadataStr : String) (expiration chainId : Nat) : Bytes :=
  leftPadBytes (bigInt64Bytes L.completeTransferAction) 32
    ++ txIdBytes
    ++ leftPadBytes (bigInt64Bytes operationId) 32
    ++ ethToken
    ++ relayer
    ++ recipient
    ++ leftPadBytes (bigInt64Bytes amount) 32
    ++ leftPadBytes (bigInt64Bytes payment) 32
    ++ stringBytes metadataStr
    ++ ethContractAddress
    ++ leftPadBytes (bigInt64Bytes expiration) 32
    ++ leftPadBytes (bigInt64Bytes chainId) 4

/-- Source function `GenerateEthereumCompleteTransferHash`, returning
`(hash, prefixedHash)`; `none` is the panic raised when `amountStr` or
`paymentStr` does not parse as a `uint64`. -/
def GenerateEthereumCompleteTransferHash (L : Lib) (txIdBytes : Bytes) (operationId : Nat)
    (ethToken recipient relayer : Bytes) (paymentStr amountStr : String)
    (ethContractAddress : Bytes) (metadataStr : String) (expiration chainId : Nat) :
    Option (Bytes × Bytes) :=
  match L.parseUint amountStr 64 with
  | none => none
  | some amount =>
    match L.parseUint paymentStr 64 with
    | none => none
    | some payment =>
      let hash := L.keccak256 (ethereumPreimage L txIdBytes operationId ethToken recipient
        relayer payment amount ethContractAddress metadataStr expiration chainId)
      let prefixedHash := L.keccak256
        (stringBytes "\x19Ethereum Signed Message:\n32" ++ hash)
      some (hash, prefixedHash)

/-- The threshold `((((N/2)*10)/3)*2)/10+1` used by `SubmitSignature`, by the first
write of the Ethereum re-sign and by the merge after the Koinos re-sign broadcast. -/
def thresholdA (n : Nat) : Nat := ((((n / 2) * 10) / 3) * 2) / 10 + 1

/-- The threshold `((((N/7)*20)/5)*6)/12+3` used by the merge after the Ethereum
re-sign broadcast and by the first write of the Koinos re-sign. -/
def thresholdB (n : Nat) : Nat := ((((n / 7) * 20) / 5) * 6) / 12 + 3

/-- The threshold `((N/2)*10)/7` used by the merge after the broadcast in the
processing of a `TokensLocked` event on either chain. -/
def thresholdC (n : Nat) : Nat := ((n / 2) * 10) / 7

/-! ## `internal/api/api.go` -/

/-- The configuration held by `Api` (the two stores are passed as state). -/
structure Api where
  koinosContractAddress : Bytes
  ethContractAddress : Bytes
  validators : GoMap ValidatorConfig
  koinosAddress : String
  ethAddress : String

/-- The two transfer databases. -/
structure Stores where
  ethTxStore : GoMap Transaction
  koinosTxStore : GoMap Transaction
  deriving DecidableEq, Repr

/-- What a request handler does: it writes a status code and a body, or panics. -/
inductive HttpResult where
  | response (code : Nat) (body : String)
  | panic
  deriving DecidableEq, Repr

/-- Lines 183-217 of `SubmitSignature`: expiry of the envelope and recovery of its
signer.  `some r` is the early return with response `r`. -/
def checkEnvelope (L : Lib) (api : Api) (now : Int) (sub : SubmittedSignature) :
    Option HttpResult :=
  if now > sub.expiration then some (HttpResult.response 400 "Expired signature")
  else
    let expirationBytes := stringBytes (toString sub.expiration)
    match L.marshalTransaction sub.transaction with
    | none => some (HttpResult.response 400 "Invalid transactionBytes")
    | some transactionBytes =>
      let hash := L.sha256 (transactionBytes ++ expirationBytes)
      match RecoverKoinosAddressFromSignature L sub.signature hash with
      | none => some (HttpResult.response 400 "cannot recover signer address")
      | some signer =>
        if mapHas api.validators signer then none
        else some (HttpResult.response 400 ("signer " ++ signer ++ " is not allowed"))

/-- Lines 222-296 of `SubmitSignature`: the digest of an Ethereum transfer recomputed
from the fields of the record, as `(hash, hashB64)`; an error is the 400 response
of the failing step. -/
def ethereumTransferDigest (L : Lib) (koinosContractAddress : Bytes) (tx : Transaction) :
    Except HttpResult (Bytes × String) :=
  let txIdBytes := L.fromHex tx.id
  match L.parseUint tx.amount 64 with
  | none => Except.error (HttpResult.response 400 "Invalid amount")
  | some amount =>
    match L.parseUint tx.payment 64 with
    | none => Except.error (HttpResult.response 400 "Invalid payment")
    | some payment =>
      match L.parseUint tx.toChain 32 with
      | none => Except.error (HttpResult.response 400 "Invalid chain")
      | some chain64 =>
        if chain64 > 2 ^ 32 - 1 then Except.error (HttpResult.response 400 "Invalid overflow")
        else
          match L.base58Decode tx.koinosToken with
          | none => Except.error (HttpResult.response 400 "Invalid koinosToken")
          | some koinosToken =>
            match L.base58Decode tx.recipient with
            | none => Except.error (HttpResult.response 400 "Invalid recipient")
            | some recipient =>
              match L.base58Decode tx.relayer with
              | none => Except.error (HttpResult.response 400 "Invalid relayer")
              | some relayer =>
                match L.marshalCompleteTransferHash
                    { action := L.completeTransferAction, transactionId := txIdBytes,
                      token := koinosToken, recipient := recipient, relayer := relayer,
                      amount := amount, payment := payment,
                      contractId := koinosContractAddress, metadata := tx.metadata,
                      expiration := tx.expiration, chain := chain64 % 2 ^ 32 } with
                | none => Except.error (HttpResult.response 400 "Invalid completeTransferHash")
                | some completeTransferHashBytes =>
                  let hash := L.sha256 completeTransferHashBytes
                  Except.ok (hash, L.base64Encode hash)

/-- Lines 428-469 of `SubmitSignature`: the prefixed digest of a Koinos transfer
recomputed from the fields of the record; an error is the 400 response of the
failing step or the panic of `GenerateEthereumCompleteTransferHash`. -/
def koinosTransferDigest (L : Lib) (ethContractAddress : Bytes) (tx : Transaction) :
    Except HttpResult Bytes :=
  let txIdBytes := L.fromHex tx.id
  let ethToken := L.fromHex tx.ethToken
  let recipient := L.fromHex tx.recipient
  let relayer := L.fromHex tx.relayer
  match L.parseUint tx.toChain 64 with
  | none => Except.error (HttpResult.response 400 "invalid chain id")
  | some chainId =>
    match L.parseUint tx.opId 64 with
    | none => Except.error (HttpResult.response 400 "invalid operation id")
    | some operationId =>
      match GenerateEthereumCompleteTransferHash L txIdBytes operationId ethToken recipient
          relayer tx.payment tx.amount ethContractAddress tx.metadata tx.expiration chainId with
      | none => Except.error HttpResult.panic
      | some (_, prefixedHash) => Except.ok prefixedHash

/-- Lines 313-340 of `SubmitSignature`: the loop over the submitted signatures of an
Ethereum transfer.  `none` means that every signature passed. -/
def checkKoinosSignatures (L : Lib) (api : Api) (hash : Bytes) :
    List String → List String → Option HttpResult
  | [], _ => none
  | _ :: _, [] => some HttpResult.panic
  | signature :: signatures, validatorReceived :: validators =>
    if mapHas api.validators validatorReceived then
      match RecoverKoinosAddressFromSignature L signature hash with
      | none => some (HttpResult.response 400 "cannot recover validator address")
      | some validatorCalculated =>
        if validatorReceived ≠ validatorCalculated then
          some (HttpResult.response 400 ("the signature provided for validator "
            ++ validatorReceived ++ " does not match the address recovered "
            ++ validatorCalculated))
        else checkKoinosSignatures L api hash signatures validators
    else some (HttpResult.response 400 ("validator " ++ validatorReceived ++ " is not allowed"))

/-- Lines 486-513 of `SubmitSignature`: the loop over the submitted signatures of a
Koinos transfer.  `none` means that every signature passed. -/
def checkEthereumSignatures (L : Lib) (api : Api) (prefixedHash : Bytes) :
    List String → List String → Option HttpResult
  | [], _ => none
  | _ :: _, [] => some HttpResult.panic
  | signature :: signatures, validatorReceived :: validators =>
    if mapHas api.validators validatorReceived then
      match RecoverEthereumAddressFromSignature L signature prefixedHash with
      | GoResult.panic => some HttpResult.panic
      | GoResult.error => some (HttpResult.response 400 "cannot recover validator address")
      | GoResult.ok recoveredAddr =>
        if validatorReceived ≠ recoveredAddr then
          some (HttpResult.response 400 ("the signature provided for validator "
            ++ validatorReceived ++ " does not match the address recovered "
            ++ recoveredAddr))
        else checkEthereumSignatures L api prefixedHash signatures validators
    else some (HttpResult.response 400 ("validator " ++ validatorReceived ++ " is not allowed"))

/-- The loop `for index, validatr := range tx.Validators` that remembers
`tx.Signatures[index]` of the local validator (lines 357-361); `none` is the panic
of an out-of-range index. -/
def findLocalSignature (localAddress : String) (signatures : List String) :
    List String → Nat → String → Option String
  | [], _, response => some response
  | validatr :: rest, index, response =>
    if validatr = localAddress then
      match signatures[index]? with
      | none => none
      | some sig => findLocalSignature localAddress signatures rest (index + 1) sig
    else findLocalSignature localAddress signatures rest (index + 1) response

/-- The loop of lines 380-386: every stored pair is written into the map and the
signature of the local validator is remembered; `none` is the panic of an
out-of-range index. -/
def loadSignatures (localAddress : String) (signatures : List String) :
    List String → Nat → GoMap String → String → Option (GoMap String × String)
  | [], _, m, response => some (m, response)
  | validatr :: rest, index, m, response =>
    match signatures[index]? with
    | none => none
    | some sig =>
      loadSignatures localAddress signatures rest (index + 1) (mapSet m validatr sig)
        (if validatr = localAddress then sig else response)

/-- The loop `if !found { m[validatr] = signatures[index] }` (lines 388-393 of
`SubmitSignature` and the merge loops of the streamers); `none` is the panic of an
out-of-range index. -/
def addMissingSignatures (signatures : List String) :
    List String → Nat → GoMap String → Option (GoMap String)
  | [], _, m => some m
  | validatr :: rest, index, m =>
    if mapHas m validatr then addMissingSignatures signatures rest (index + 1) m
    else
      match signatures[index]? with
      | none => none
      | some sig => addMissingSignatures signatures rest (index + 1) (mapSet m validatr sig)

/-- Rebuilds the parallel arrays of a record from a signature map, in the order in
which the map is ranged over. -/
def withSignatureMap (ord : MapOrder) (tx : Transaction) (m : GoMap String) : Transaction :=
  { tx with validators := (ord.iter m).map Prod.fst, signatures := (ord.iter m).map Prod.snd }

/-- What the store section of `SubmitSignature` decides: an answer without a write,
or a record to `Put` together with the body of the 200 answer. -/
inductive MergeResult where
  | reply (r : HttpResult)
  | store (record : Transaction) (response : String)
  deriving DecidableEq, Repr

/-- Lines 353-407 (Ethereum transfers, `localAddress = api.koinosAddress`) and
527-581 (Koinos transfers, `localAddress = api.ethAddress`) of `SubmitSignature`:
merge of the submitted transfer `tx` with the record `prior` read from the store. -/
def mergeSubmission (ord : MapOrder) (nValidators : Nat) (localAddress hashStr : String)
    (prior : Option Transaction) (tx : Transaction) : MergeResult :=
  let finish := fun (record : Transaction) (response : String) =>
    MergeResult.store
      (if record.signatures.length ≥ thresholdA nValidators then
        { record with status := TransactionStatus.signed } else record)
      response
  match prior with
  | some stored =>
    if stored.status = TransactionStatus.completed then
      match findLocalSignature localAddress stored.signatures stored.validators 0 "" with
      | none => MergeResult.reply HttpResult.panic
      | some response => MergeResult.reply (HttpResult.response 200 response)
    else if stored.hash ≠ hashStr then
      MergeResult.reply (HttpResult.response 400
        ("the calculated hash for tx " ++ tx.hash ++ " is different than the one received "
          ++ stored.hash ++ " != calculated " ++ hashStr))
    else
      match loadSignatures localAddress stored.signatures stored.validators 0 [] "" with
      | none => MergeResult.reply HttpResult.panic
      | some (signatures, response) =>
        match addMissingSignatures tx.signatures tx.validators 0 signatures with
        | none => MergeResult.reply HttpResult.panic
        | some merged => finish (withSignatureMap ord stored merged) response
  | none => finish tx ""

/-- Lines 219-423 of `SubmitSignature`: a submission of an Ethereum transfer whose
envelope has been accepted. -/
def submitEthereum (L : Lib) (ord : MapOrder) (api : Api) (stores : Stores)
    (tx : Transaction) : HttpResult × Stores :=
  match ethereumTransferDigest L api.koinosContractAddress tx with
  | Except.error r => (r, stores)
  | Except.ok (hash, hashB64) =>
    if hashB64 ≠ tx.hash then
      (HttpResult.response 400 ("the calulated hash for tx " ++ tx.id
        ++ " is different than the one received " ++ tx.hash ++ " != calculated " ++ hashB64),
        stores)
    else if tx.validators.length ≠ tx.signatures.length then
      (HttpResult.response 400 "mismatch number validators and signatures", stores)
    else
      match checkKoinosSignatures L api hash tx.signatures tx.validators with
      | some r => (r, stores)
      | none =>
        match mergeSubmission ord api.validators.length api.koinosAddress hashB64
            (mapGet stores.ethTxStore tx.id) tx with
        | MergeResult.reply r => (r, stores)
        | MergeResult.store ethTx response =>
          (HttpResult.response 200 response,
            { stores with ethTxStore := mapSet stores.ethTxStore ethTx.id ethTx })

/-- Lines 425-598 of `SubmitSignature`: a submission of a Koinos transfer whose
envelope has been accepted. -/
def submitKoinos (L : Lib) (ord : MapOrder) (api : Api) (stores : Stores)
    (tx : Transaction) : HttpResult × Stores :=
  match koinosTransferDigest L api.ethContractAddress tx with
  | Except.error r => (r, stores)
  | Except.ok prefixedHash =>
    if L.hashHex prefixedHash ≠ tx.hash then
      (HttpResult.response 400 ("the calulated hash for tx " ++ tx.id
        ++ " is different than the one received " ++ tx.hash ++ " != calculated "
        ++ L.hashHex prefixedHash), stores)
    else if tx.validators.length ≠ tx.signatures.length then
      (HttpResult.response 400 "mismatch number validators and signatures", stores)
    else
      match checkEthereumSignatures L api prefixedHash tx.signatures tx.validators with
      | some r => (r, stores)
      | none =>
        let txKey := tx.id ++ "-" ++ tx.opId
        match mergeSubmission ord api.validators.length api.ethAddress (L.hashHex prefixedHash)
            (mapGet stores.koinosTxStore txKey) tx with
        | MergeResult.reply r => (r, stores)
        | MergeResult.store koinosTx response =>
          (HttpResult.response 200 response,
            { stores with koinosTxStore := mapSet stores.koinosTxStore txKey koinosTx })

/-- Source function `Api.SubmitSignature` on a request whose method is `POST` and
whose body decodes to `sub`, received at time `now` (milliseconds): the answer and
the two stores after the request. -/
def SubmitSignature (L : Lib) (ord : MapOrder) (api : Api) (now : Int) (stores : Stores)
    (sub : SubmittedSignature) : HttpResult × Stores :=
  match checkEnvelope L api now sub with
  | some r => (r, stores)
  | none =>
    match sub.transaction.type with
    | TransactionType.ethereum => submitEthereum L ord api stores sub.transaction
    | TransactionType.koinos => submitKoinos L ord api stores sub.transaction

/-! ## `BroadcastTransaction` (`internal/util/util.go`) -/

/-- The peers as seen by one broadcast: for the url and the envelope of a request,
`none` when the request cannot be made or fails, and otherwise the status code and
the body of the answer. -/
abbrev Network := String → SubmittedSignature → Option (Nat × String)

/-- The loop of `BroadcastTransaction` over the validators map (lines 227-272),
with the urls already served and the signatures gathered so far. -/
def broadcastLoop (net : Network) (envelope : SubmittedSignature) (koinosAddress : String) :
    List (String × ValidatorConfig) → List String → GoMap String → GoMap String
  | [], _, signatures => signatures
  | (_, validator) :: rest, processedApiUrls, signatures =>
    if validator.koinosAddress = koinosAddress then
      broadcastLoop net envelope koinosAddress rest processedApiUrls signatures
    else if validator.apiUrl ∈ processedApiUrls then
      broadcastLoop net envelope koinosAddress rest processedApiUrls signatures
    else
      match net (validator.apiUrl ++ "/SubmitSignature") envelope with
      | none => broadcastLoop net envelope koinosAddress rest processedApiUrls signatures
      | some (statusCode, body) =>
        broadcastLoop net envelope koinosAddress rest (validator.apiUrl :: processedApiUrls)
          (if statusCode = 200 then
            (if body ≠ "" then mapSet signatures validator.koinosAddress body else signatures)
           else signatures)

/-- Source function `BroadcastTransaction` called at time `now` (milliseconds): the
signatures returned by the peers, keyed by Koinos address; `none` is the error
return (with a nil map) when the record cannot be encoded. -/
def BroadcastTransaction (L : Lib) (ord : MapOrder) (net : Network) (now : Int)
    (tx : Transaction) (koinosPK : Bytes) (koinosAddress : String)
    (validators : GoMap ValidatorConfig) : Option (GoMap String) :=
  match L.marshalTransaction tx with
  | none => none
  | some txBytes =>
    let expiration := now + 60000
    let expirationBytes := stringBytes (toString expiration)
    let hash := L.sha256 (txBytes ++ expirationBytes)
    let sigB64 := L.base64Encode (SignKoinosHash L koinosPK hash)
    let submittedSignature : SubmittedSignature :=
      { transaction := tx, signature := sigB64, expiration := expiration }
    some (broadcastLoop net submittedSignature koinosAddress (ord.iter validators) [] [])

/-! ## The streamers (`internal/streamer`) -/

/-- The parameters shared by the event processors of both streamers. -/
structure StreamerConfig where
  koinosPK : Bytes
  koinosAddress : String
  koinosContractAddr : Bytes
  ethereumPK : Bytes
  ethereumAddress : String
  ethereumContractAddr : Bytes
  tokenAddresses : GoMap TokenConfig
  signaturesExpiration : Nat
  validators : GoMap ValidatorConfig

/-- Go `tokenAddresses[key]`: the zero `TokenConfig` for a missing key. -/
def tokenConfig (tokenAddresses : GoMap TokenConfig) (key : String) : TokenConfig :=
  (mapGet tokenAddresses key).getD {}

/-- The merge that follows a broadcast (`ethereum_streamer.go` lines 478-512 and
718-752, `koinos_streamer.go` lines 310-344 and 517-552): the record is read back,
the pairs it holds are added to the returned map unless the map has the validator,
the arrays are rebuilt and the status is raised when `threshold` is met.  The map is
`none` when the broadcast returned a nil map.  The result `none` is a panic, which
precedes the write. -/
def mergeBroadcast (ord : MapOrder) (threshold : Nat) (store : GoMap Transaction)
    (key : String) (signatures : Option (GoMap String)) : Option (GoMap Transaction) :=
  match mapGet store key with
  | none => none
  | some tx =>
    let merged : Option (GoMap String) :=
      match signatures with
      | some m => addMissingSignatures tx.signatures tx.validators 0 m
      | none => if tx.validators = [] then some [] else none
    match merged with
    | none => none
    | some m =>
      let tx1 := withSignatureMap ord tx m
      let tx2 :=
        if tx1.status ≠ TransactionStatus.completed ∧ tx1.signatures.length ≥ threshold then
          { tx1 with status := TransactionStatus.signed } else tx1
      some (mapSet store key tx2)

/-- The remapping of the signatures returned by a broadcast from Koinos addresses
to Ethereum addresses (`koinos_streamer.go` lines 304-307 and 511-514). -/
def remapToEthereum (ord : MapOrder) (validators : GoMap ValidatorConfig)
    (koinosSignatures : Option (GoMap String)) : GoMap String :=
  match koinosSignatures with
  | none => []
  | some m =>
    (ord.iter m).foldl
      (fun acc entry =>
        mapSet acc
          (match mapGet validators entry.1 with
            | some v => v.ethereumAddress
            | none => "")
          entry.2)
      []

/-- A decoded `TokensLockedEvent` log of the Ethereum bridge contract. -/
structure EthereumTokensLockedLog where
  blockNumber : Nat
  txHash : Bytes
  token : Bytes
  sender : Bytes
  metadata : String
  relayer : String
  recipient : String
  payment : Nat
  amount : Nat
  blocktime : Nat
  chain : Nat
  deriving DecidableEq, Repr

/-- Lines 602-703 of `processEthereumTokensLockedEvent`: the record committed before
the broadcast, given the record `prior` read from the store; `none` is a panic. -/
def ethereumLockedRecord (L : Lib) (cfg : StreamerConfig) (prior : Option Transaction)
    (ev : EthereumTokensLockedLog) : Option Transaction :=
  let txId := ev.txHash
  let txIdHex := L.hashHex ev.txHash
  let ethFrom := L.addressHex ev.sender
  let ethToken := L.addressHex ev.token
  let amount := ev.amount % 2 ^ 64
  let payment := ev.payment % 2 ^ 64
  let blocktime := ev.blocktime % 2 ^ 64
  match L.base58Decode (tokenConfig cfg.tokenAddresses ethToken).koinosAddress with
  | none => none
  | some koinosToken =>
    match L.base58Decode ev.recipient with
    | none => none
    | some recipient =>
      match L.base58Decode ev.relayer with
      | none => none
      | some relayer =>
        let expiration := addU64 blocktime cfg.signaturesExpiration
        match L.marshalCompleteTransferHash
            { action := L.completeTransferAction, transactionId := txId,
              token := koinosToken, recipient := recipient, relayer := relayer,
              amount := amount, payment := payment, contractId := cfg.koinosContractAddr,
              metadata := ev.metadata, expiration := expiration, chain := ev.chain } with
        | none => none
        | some completeTransferHashBytes =>
          let hash := L.sha256 completeTransferHashBytes
          let hashB64 := L.base64Encode hash
          let sigB64 := L.base64Encode (SignKoinosHash L cfg.koinosPK hash)
          let fill := fun (ethTx : Transaction) =>
            some { ethTx with
              type := TransactionType.ethereum
              id := txIdHex
              sender := ethFrom
              ethToken := ethToken
              koinosToken := (tokenConfig cfg.tokenAddresses ethToken).koinosAddress
              amount := toString ev.amount
              payment := toString ev.payment
              recipient := ev.recipient
              relayer := ev.relayer
              hash := hashB64
              metadata := ev.metadata
              blockNumber := ev.blockNumber
              blockTime := blocktime
              expiration := expiration
              toChain := toString ev.chain
              status := if ethTx.status ≠ TransactionStatus.completed then
                TransactionStatus.gathering_signatures else ethTx.status }
          match prior with
          | none => fill { validators := [cfg.koinosAddress], signatures := [sigB64] }
          | some ethTx =>
            if ethTx.hash ≠ "" ∧ ethTx.hash ≠ hashB64 then none
            else fill { ethTx with
              validators := ethTx.validators ++ [cfg.koinosAddress]
              signatures := ethTx.signatures ++ [sigB64] }

/-- What processing one event leaves behind: the store, and whether the processor
panicked (the process aborts; the writes made before the panic persist). -/
structure Processed where
  store : GoMap Transaction
  panicked : Bool
  deriving DecidableEq, Repr

/-- Source function `processEthereumTokensLockedEvent` on a decoded log, with the
peers `net` answering the broadcast made at time `now`. -/
def processEthereumTokensLockedEvent (L : Lib) (ord : MapOrder) (net : Network) (now : Int)
    (cfg : StreamerConfig) (ethTxStore : GoMap Transaction) (ev : EthereumTokensLockedLog) :
    Processed :=
  let txIdHex := L.hashHex ev.txHash
  match ethereumLockedRecord L cfg (mapGet ethTxStore txIdHex) ev with
  | none => { store := ethTxStore, panicked := true }
  | some ethTx =>
    let committed := mapSet ethTxStore txIdHex ethTx
    let signatures := BroadcastTransaction L ord net now ethTx cfg.koinosPK cfg.koinosAddress
      cfg.validators
    match mergeBroadcast ord (thresholdC cfg.validators.length) committed txIdHex signatures with
    | none => { store := committed, panicked := true }
    | some merged => { store := merged, panicked := false }

/-- A decoded `RequestNewSignaturesEvent` log of the Ethereum bridge contract. -/
structure EthereumRequestNewSignaturesLog where
  txId : Bytes
  blocktime : Nat
  deriving DecidableEq, Repr

/-- The clean-up loop of a re-sign (`ethereum_streamer.go` lines 436-447): a stored
pair is kept when its validator is not in the map yet and `recover` maps its
signature to its validator; `none` is the panic of an out-of-range index. -/
def keepMatchingKoinosSignatures (L : Lib) (hash : Bytes) (signatures : List String) :
    List String → Nat → GoMap String → Option (GoMap String)
  | [], _, m => some m
  | validatr :: rest, index, m =>
    if mapHas m validatr then keepMatchingKoinosSignatures L hash signatures rest (index + 1) m
    else
      match signatures[index]? with
      | none => none
      | some sig =>
        let recoveredAddr := (RecoverKoinosAddressFromSignature L sig hash).getD ""
        keepMatchingKoinosSignatures L hash signatures rest (index + 1)
          (if recoveredAddr = validatr then mapSet m validatr sig else m)

/-- What the first, locked section of a re-sign does. -/
inductive ResignStep where
  | skipped
  | panicked
  | stored (record : Transaction)
  deriving DecidableEq, Repr

/-- Lines 364-463 of `processEthereumRequestNewSignaturesEvent`: the record written
before the re-broadcast, given the record `prior` read from the store. -/
def ethereumResignRecord (L : Lib) (ord : MapOrder) (cfg : StreamerConfig)
    (prior : Option Transaction) (blocktime : Nat) : ResignStep :=
  let newExpiration := addU64 blocktime cfg.signaturesExpiration
  match prior with
  | none => ResignStep.skipped
  | some ethTx =>
    if ethTx.status = TransactionStatus.completed then ResignStep.skipped
    else if blocktime ≥ addU64 ethTx.expiration cfg.signaturesExpiration then
      let txId := L.fromHex ethTx.id
      match L.base58Decode ethTx.koinosToken with
      | none => ResignStep.panicked
      | some koinosToken =>
        match L.base58Decode ethTx.recipient with
        | none => ResignStep.panicked
        | some recipient =>
          match L.base58Decode ethTx.relayer with
          | none => ResignStep.panicked
          | some relayer =>
            match L.parseUint ethTx.amount 64 with
            | none => ResignStep.panicked
            | some amount =>
              match L.parseUint ethTx.payment 64 with
              | none => ResignStep.panicked
              | some payment =>
                match L.parseUint ethTx.toChain 32 with
                | none => ResignStep.panicked
                | some chain =>
                  match L.marshalCompleteTransferHash
                      { action := L.completeTransferAction, transactionId := txId,
                        token := koinosToken, recipient := recipient, relayer := relayer,
                        amount := amount, payment := payment,
                        contractId := cfg.koinosContractAddr, metadata := ethTx.metadata,
                        expiration := newExpiration, chain := chain % 2 ^ 32 } with
                  | none => ResignStep.panicked
                  | some completeTransferHashBytes =>
                    let hash := L.sha256 completeTransferHashBytes
                    let hashB64 := L.base64Encode hash
                    let sigB64 := L.base64Encode (SignKoinosHash L cfg.koinosPK hash)
                    match keepMatchingKoinosSignatures L hash ethTx.signatures ethTx.validators 0
                        [(cfg.koinosAddress, sigB64)] with
                    | none => ResignStep.panicked
                    | some newSignatures =>
                      let tx1 := withSignatureMap ord
                        { ethTx with expiration := newExpiration, hash := hashB64 } newSignatures
                      ResignStep.stored
                        { tx1 with status :=
                            if tx1.signatures.length ≥ thresholdA cfg.validators.length then
                              TransactionStatus.signed
                            else TransactionStatus.gathering_signatures }
    else ResignStep.skipped

/-- Source function `processEthereumRequestNewSignaturesEvent` on a decoded log. -/
def processEthereumRequestNewSignaturesEvent (L : Lib) (ord : MapOrder) (net : Network)
    (now : Int) (cfg : StreamerConfig) (ethTxStore : GoMap Transaction)
    (ev : EthereumRequestNewSignaturesLog) : Processed :=
  let transactionId := "0x" ++ L.bytes2Hex ev.txId
  let blocktime := ev.blocktime % 2 ^ 64
  match ethereumResignRecord L ord cfg (mapGet ethTxStore transactionId) blocktime with
  | ResignStep.skipped => { store := ethTxStore, panicked := false }
  | ResignStep.panicked => { store := ethTxStore, panicked := true }
  | ResignStep.stored ethTx =>
    let committed := mapSet ethTxStore transactionId ethTx
    let koinosSignatures := BroadcastTransaction L ord net now ethTx cfg.koinosPK
      cfg.koinosAddress cfg.validators
    match mergeBroadcast ord (thresholdB cfg.validators.length) committed transactionId
        koinosSignatures with
    | none => { store := committed, panicked := true }
    | some merged => { store := merged, panicked := false }

/-- A decoded `TransferCompletedEvent` log of the Ethereum bridge contract. -/
structure EthereumTransferCompletedLog where
  txHash : Bytes
  txId : Bytes
  operationId : Nat
  deriving DecidableEq, Repr

/-- The update both completion processors apply to the record they read
(`ethereum_streamer.go` lines 555-562, `koinos_streamer.go` lines 384-391): a
missing record is replaced by an empty record of the origin kind. -/
def completedRecord (kind : TransactionType) (prior : Option Transaction)
    (completionTransactionId : String) : Transaction :=
  { (prior.getD { type := kind }) with
    status := TransactionStatus.completed
    completionTransactionId := completionTransactionId }

/-- Source function `processEthereumTransferCompletedEvent` on a decoded log; it
writes to the store of the Koinos transfers. -/
def processEthereumTransferCompletedEvent (L : Lib) (koinosTxStore : GoMap Transaction)
    (ev : EthereumTransferCompletedLog) : GoMap Transaction :=
  let ethTxId := L.hashHex ev.txHash
  let koinosTxId := "0x" ++ L.bytes2Hex ev.txId
  let koinosOpId := toString ev.operationId
  let txKey := koinosTxId ++ "-" ++ koinosOpId
  mapSet koinosTxStore txKey
    (completedRecord TransactionType.koinos (mapGet koinosTxStore txKey) ethTxId)

/-- A `bridge.tokens_locked_event` of the Koinos bridge contract with the block,
receipt and event data the processor reads. -/
structure KoinosTokensLockedEvent where
  blockHeight : Nat
  timestamp : Nat
  receiptId : Bytes
  sequence : Nat
  sender : Bytes
  token : Bytes
  amount : String
  payment : String
  relayer : String
  recipient : String
  metadata : String
  chainId : Nat
  deriving DecidableEq, Repr

/-- Lines 423-495 of `processKoinosTokensLockedEvent`: the record committed before
the broadcast, given the record `prior` read from the store; `none` is a panic. -/
def koinosLockedRecord (L : Lib) (cfg : StreamerConfig) (prior : Option Transaction)
    (ev : KoinosTokensLockedEvent) : Option Transaction :=
  let txId := ev.receiptId
  let txIdHex := "0x" ++ L.bytes2Hex ev.receiptId
  let operationIdStr := toString ev.sequence
  let sender := L.base58Encode ev.sender
  let koinosToken := L.base58Encode ev.token
  let relayer := L.hexToAddress ev.relayer
  let recipient := L.hexToAddress ev.recipient
  let blocktime := ev.timestamp
  let chainIdStr := toString ev.chainId
  let ethereumToken := L.hexToAddress (tokenConfig cfg.tokenAddresses koinosToken).ethereumAddress
  let expiration := addU64 blocktime cfg.signaturesExpiration
  match GenerateEthereumCompleteTransferHash L txId ev.sequence ethereumToken recipient relayer
      ev.payment ev.amount cfg.ethereumContractAddr ev.metadata expiration ev.chainId with
  | none => none
  | some (_, prefixedHash) =>
    match SignEthereumHash L cfg.ethereumPK prefixedHash with
    | none => none
    | some sigBytes =>
      let sigHex := "0x" ++ L.bytes2Hex sigBytes
      let fill := fun (koinosTx : Transaction) =>
        some { koinosTx with
          type := TransactionType.koinos
          id := txIdHex
          opId := operationIdStr
          sender := sender
          ethToken := (tokenConfig cfg.tokenAddresses koinosToken).ethereumAddress
          koinosToken := koinosToken
          amount := ev.amount
          payment := ev.payment
          recipient := L.addressHex recipient
          relayer := L.addressHex relayer
          hash := L.hashHex prefixedHash
          blockNumber := ev.blockHeight
          metadata := ev.metadata
          blockTime := blocktime
          expiration := expiration
          toChain := chainIdStr
          status := if koinosTx.status ≠ TransactionStatus.completed then
            TransactionStatus.gathering_signatures else koinosTx.status }
      match prior with
      | none => fill { validators := [cfg.ethereumAddress], signatures := [sigHex] }
      | some koinosTx =>
        if koinosTx.hash ≠ "" ∧ koinosTx.hash ≠ L.hashHex prefixedHash then none
        else fill { koinosTx with
          validators := koinosTx.validators ++ [cfg.ethereumAddress]
          signatures := koinosTx.signatures ++ [sigHex] }

/-- Source function `processKoinosTokensLockedEvent` on a decoded event, with the
peers `net` answering the broadcast made at time `now`. -/
def processKoinosTokensLockedEvent (L : Lib) (ord : MapOrder) (net : Network) (now : Int)
    (cfg : StreamerConfig) (koinosTxStore : GoMap Transaction) (ev : KoinosTokensLockedEvent) :
    Processed :=
  let txKey := "0x" ++ L.bytes2Hex ev.receiptId ++ "-" ++ toString ev.sequence
  match koinosLockedRecord L cfg (mapGet koinosTxStore txKey) ev with
  | none => { store := koinosTxStore, panicked := true }
  | some koinosTx =>
    let committed := mapSet koinosTxStore txKey koinosTx
    let koinosSignatures := BroadcastTransaction L ord net now koinosTx cfg.koinosPK
      cfg.koinosAddress cfg.validators
    let ethSignatures := remapToEthereum ord cfg.validators koinosSignatures
    match mergeBroadcast ord (thresholdC cfg.validators.length) committed txKey
        (some ethSignatures) with
    | none => { store := committed, panicked := true }
    | some merged => { store := merged, panicked := false }

/-- A `bridge.request_new_signatures_event` of the Koinos bridge contract with the
timestamp of its block. -/
structure KoinosRequestNewSignaturesEvent where
  timestamp : Nat
  transactionId : String
  operationId : String
  deriving DecidableEq, Repr

/-- The clean-up loop of a re-sign of a Koinos transfer (`koinos_streamer.go` lines
261-272); `none` is a panic (an out-of-range index, or the panic of
`RecoverEthereumAddressFromSignature`). -/
def keepMatchingEthereumSignatures (L : Lib) (prefixedHash : Bytes) (signatures : List String) :
    List String → Nat → GoMap String → Option (GoMap String)
  | [], _, m => some m
  | validatr :: rest, index, m =>
    if mapHas m validatr then
      keepMatchingEthereumSignatures L prefixedHash signatures rest (index + 1) m
    else
      match signatures[index]? with
      | none => none
      | some sig =>
        match RecoverEthereumAddressFromSignature L sig prefixedHash with
        | GoResult.panic => none
        | GoResult.error =>
          keepMatchingEthereumSignatures L prefixedHash signatures rest (index + 1)
            (if "" = validatr then mapSet m validatr sig else m)
        | GoResult.ok recoveredAddr =>
          keepMatchingEthereumSignatures L prefixedHash signatures rest (index + 1)
            (if recoveredAddr = validatr then mapSet m validatr sig else m)

/-- Lines 229-288 of `processRequestNewSignaturesEvent`: the record written before
the re-broadcast, given the record `prior` read from the store. -/
def koinosResignRecord (L : Lib) (ord : MapOrder) (cfg : StreamerConfig)
    (prior : Option Transaction) (blocktime : Nat) : ResignStep :=
  let newExpiration := addU64 blocktime cfg.signaturesExpiration
  match prior with
  | none => ResignStep.skipped
  | some koinosTx =>
    if koinosTx.status = TransactionStatus.completed then ResignStep.skipped
    else if blocktime ≥ addU64 koinosTx.expiration cfg.signaturesExpiration then
      let ethereumToken := L.hexToAddress koinosTx.ethToken
      let recipient := L.hexToAddress koinosTx.recipient
      let relayer := L.hexToAddress koinosTx.relayer
      let txId := L.fromHex koinosTx.id
      match L.parseUint koinosTx.opId 64 with
      | none => ResignStep.panicked
      | some opId =>
        match L.parseUint koinosTx.toChain 64 with
        | none => ResignStep.panicked
        | some chain =>
          match GenerateEthereumCompleteTransferHash L txId opId ethereumToken recipient relayer
              koinosTx.payment koinosTx.amount cfg.ethereumContractAddr koinosTx.metadata
              newExpiration chain with
          | none => ResignStep.panicked
          | some (_, prefixedHash) =>
            match SignEthereumHash L cfg.ethereumPK prefixedHash with
            | none => ResignStep.panicked
            | some sigBytes =>
              let sigHex := "0x" ++ L.bytes2Hex sigBytes
              match keepMatchingEthereumSignatures L prefixedHash koinosTx.signatures
                  koinosTx.validators 0 [(cfg.ethereumAddress, sigHex)] with
              | none => ResignStep.panicked
              | some newSignatures =>
                let tx1 := withSignatureMap ord
                  { koinosTx with expiration := newExpiration, hash := L.hashHex prefixedHash }
                  newSignatures
                ResignStep.stored
                  { tx1 with status :=
                      if tx1.signatures.length ≥ thresholdB cfg.validators.length then
                        TransactionStatus.signed
                      else TransactionStatus.gathering_signatures }
    else ResignStep.skipped

/-- The key under which `processRequestNewSignaturesEvent` looks the transfer up
(lines 204-227): the operation id defaults to `1`, and `3` is tried when the
default `1` finds nothing. -/
def koinosResignKey (koinosTxStore : GoMap Transaction) (ev : KoinosRequestNewSignaturesEvent) :
    String :=
  let operationId := if ev.operationId = "" then "1" else ev.operationId
  let txKey := ev.transactionId ++ "-" ++ operationId
  if (mapGet koinosTxStore txKey).isNone ∧ operationId = "1" then ev.transactionId ++ "-" ++ "3"
  else txKey

/-- Source function `processRequestNewSignaturesEvent` (Koinos streamer). -/
def processRequestNewSignaturesEvent (L : Lib) (ord : MapOrder) (net : Network) (now : Int)
    (cfg : StreamerConfig) (koinosTxStore : GoMap Transaction)
    (ev : KoinosRequestNewSignaturesEvent) : Processed :=
  let txKey := koinosResignKey koinosTxStore ev
  match koinosResignRecord L ord cfg (mapGet koinosTxStore txKey) ev.timestamp with
  | ResignStep.skipped => { store := koinosTxStore, panicked := false }
  | ResignStep.panicked => { store := koinosTxStore, panicked := true }
  | ResignStep.stored koinosTx =>
    let committed := mapSet koinosTxStore txKey koinosTx
    let koinosSignatures := BroadcastTransaction L ord net now koinosTx cfg.koinosPK
      cfg.koinosAddress cfg.validators
    let ethSignatures := remapToEthereum ord cfg.validators koinosSignatures
    match mergeBroadcast ord (thresholdA cfg.validators.length) committed txKey
        (some ethSignatures) with
    | none => { store := committed, panicked := true }
    | some merged => { store := merged, panicked := false }

/-- A `bridge.transfer_completed_event` of the Koinos bridge contract with the
receipt and event data the processor reads. -/
structure KoinosTransferCompletedEvent where
  receiptId : Bytes
  sequence : Nat
  txId : Bytes
  deriving DecidableEq, Repr

/-- Source function `processKoinosTransferCompletedEvent` on a decoded event; it
writes to the store of the Ethereum transfers. -/
def processKoinosTransferCompletedEvent (L : Lib) (ethTxStore : GoMap Transaction)
    (ev : KoinosTransferCompletedEvent) : GoMap Transaction :=
  let ethTxId := "0x" ++ L.bytes2Hex ev.txId
  let koinosTxId := "0x" ++ L.bytes2Hex ev.receiptId
  let koinosOpId := toString ev.sequence
  mapSet ethTxStore ethTxId
    (completedRecord TransactionType.ethereum (mapGet ethTxStore ethTxId)
      (koinosTxId ++ "-" ++ koinosOpId))

/-! ## A concrete library and configuration

A small executable instance of `Lib`, used to run the processors on concrete
inputs: digests are one byte long, a Koinos signature is the key followed by the
digest, an Ethereum signature is the key followed by the digest, padded to 65
bytes, and every codec between bytes and text maps a byte to the character with
that code. -/

/-- Text of a byte string: one character per byte. -/
def encodeBytes (b : Bytes) : String :=
  String.mk (b.map (fun x => Char.ofNat x.toNat))

/-- Bytes of a text: one byte per character. -/
def decodeString (s : String) : Bytes :=
  s.data.map (fun c => UInt8.ofNat c.toNat)

/-- Removes a leading `0x`. -/
def stripHexMarker (s : String) : String :=
  match s.data with
  | '0' :: 'x' :: rest => String.mk rest
  | _ => s

/-- Value of a string of decimal digits read after the accumulator `acc`. -/
def parseDigits : List Char → Nat → Option Nat
  | [], acc => some acc
  | c :: cs, acc =>
    if 48 ≤ c.toNat ∧ c.toNat ≤ 57 then parseDigits cs (acc * 10 + (c.toNat - 48)) else none

/-- Decimal `ParseUint`: a non-empty string of digits whose value fits `bitSize` bits. -/
def parseDecimal (s : String) (bitSize : Nat) : Option Nat :=
  if s.data = [] then none
  else
    match parseDigits s.data 0 with
    | none => none
    | some n => if n < 2 ^ bitSize then some n else none

/-- A one-byte digest below 128. -/
def sampleDigest (b : Bytes) : Bytes :=
  [UInt8.ofNat ((b.foldl (fun acc x => acc * 31 + x.toNat) 7) % 128)]

/-- Recovery for the sample Koinos scheme: the signature is the key followed by the
digest. -/
def sampleRecoverCompact (signature hash : Bytes) : Option Bytes :=
  match signature with
  | [] => none
  | k :: rest => if rest = hash then some [k] else none

/-- Signing for the sample Ethereum scheme: key, digest, zero padding up to 64
bytes, recovery id 0. -/
def sampleCryptoSign (hash key : Bytes) : Bytes :=
  (key ++ hash ++ List.replicate 64 0).take 64 ++ [0]

/-- Recovery for the sample Ethereum scheme. -/
def sampleSigToPub (hash signature : Bytes) : Option Bytes :=
  match signature with
  | [] => none
  | k :: rest =>
    if signature.length = 65 ∧ rest.take hash.length = hash ∧ signature[64]? = some 0 then
      some [k]
    else none

/-- The sample library. -/
def sampleLib : Lib where
  sha256 := sampleDigest
  keccak256 := sampleDigest
  base64Encode := encodeBytes
  base64Decode := fun s => some (decodeString s)
  base58Encode := encodeBytes
  base58Decode := fun s => some (decodeString s)
  fromHex := fun s => decodeString (stripHexMarker s)
  hex2Bytes := fun b => b
  bytes2Hex := encodeBytes
  hexToAddress := fun s => decodeString (stripHexMarker s)
  addressHex := fun b => "0x" ++ encodeBytes b
  hashHex := fun b => "0x" ++ encodeBytes b
  parseUint := parseDecimal
  marshalTransaction := fun tx =>
    some (stringBytes tx.id ++ stringBytes tx.hash ++ stringBytes (toString tx.expiration))
  marshalCompleteTransferHash := fun h =>
    some (h.transactionId ++ h.token ++ h.recipient ++ h.relayer
      ++ stringBytes (toString h.amount) ++ stringBytes (toString h.payment)
      ++ h.contractId ++ stringBytes h.metadata ++ stringBytes (toString h.expiration)
      ++ stringBytes (toString h.chain))
  recoverCompact := sampleRecoverCompact
  encodeAddressPubKey := encodeBytes
  signCompact := fun key hash => key ++ hash
  sigToPub := sampleSigToPub
  pubkeyToAddress := fun pubkey => pubkey
  cryptoSign := sampleCryptoSign
  completeTransferAction := 1

/-- Validator `A` / `0xa`. -/
def validatorA : ValidatorConfig :=
  { ethereumAddress := "0xa", koinosAddress := "A", apiUrl := "http://a" }

/-- Validator `B` / `0xb`. -/
def validatorB : ValidatorConfig :=
  { ethereumAddress := "0xb", koinosAddress := "B", apiUrl := "http://b" }

/-- Validator `C` / `0xc`. -/
def validatorC : ValidatorConfig :=
  { ethereumAddress := "0xc", koinosAddress := "C", apiUrl := "http://c" }

/-- A validators map of three validators, each under both of its addresses. -/
def sampleValidators : GoMap ValidatorConfig :=
  [("A", validatorA), ("0xa", validatorA), ("B", validatorB), ("0xb", validatorB),
   ("C", validatorC), ("0xc", validatorC)]

/-- The endpoint configuration of validator `A`. -/
def sampleApi : Api where
  koinosContractAddress := [75]
  ethContractAddress := [69]
  validators := sampleValidators
  koinosAddress := "A"
  ethAddress := "0xa"

/-- The streamer configuration of validator `A`. -/
def sampleConfig : StreamerConfig where
  koinosPK := [65]
  koinosAddress := "A"
  koinosContractAddr := [75]
  ethereumPK := [97]
  ethereumAddress := "0xa"
  ethereumContractAddr := [69]
  tokenAddresses :=
    [("0xt", { ethereumAddress := "0xt", koinosAddress := "T" }),
     ("T", { ethereumAddress := "0xt", koinosAddress := "T" })]
  signaturesExpiration := 100
  validators := sampleValidators

/-- Two empty stores. -/
def emptyStores : Stores := { ethTxStore := [], koinosTxStore := [] }

/-! ## Views of a record used in the statements -/

/-- The signature a pair of parallel arrays gives for validator `x` when the pairs
are written into a map one after the other: the one at the last position of `x`. -/
def lastSignatureOf : List String → List String → String → Option String
  | v :: vs, s :: ss, x =>
    match lastSignatureOf vs ss x with
    | some r => some r
    | none => if v = x then some s else none
  | _, _, _ => none

/-- The signature a pair of parallel arrays gives for validator `x` when only the
first pair of each validator is written into a map. -/
def firstSignatureOf : List String → List String → String → Option String
  | v :: vs, s :: ss, x => if v = x then some s else firstSignatureOf vs ss x
  | _, _, _ => none

/-- The store `SubmitSignature` reads for a transfer of the given type. -/
def transferStore (stores : Stores) (type : TransactionType) : GoMap Transaction :=
  match type with
  | TransactionType.ethereum => stores.ethTxStore
  | TransactionType.koinos => stores.koinosTxStore

/-- The key under which `SubmitSignature` looks a submitted transfer up. -/
def submissionKey (tx : Transaction) : String :=
  match tx.type with
  | TransactionType.ethereum => tx.id
  | TransactionType.koinos => tx.id ++ "-" ++ tx.opId

/-- The checks of `SubmitSignature` on an Ethereum transfer all pass, with digest
`hash` and its text `hashB64`. -/
def ethereumChecksPass (L : Lib) (api : Api) (tx : Transaction) (hash : Bytes)
    (hashB64 : String) : Prop :=
  ethereumTransferDigest L api.koinosContractAddress tx = Except.ok (hash, hashB64) ∧
  hashB64 = tx.hash ∧
  tx.validators.length = tx.signatures.length ∧
  checkKoinosSignatures L api hash tx.signatures tx.validators = none

/-- The checks of `SubmitSignature` on a Koinos transfer all pass, with prefixed
digest `prefixedHash`. -/
def koinosChecksPass (L : Lib) (api : Api) (tx : Transaction) (prefixedHash : Bytes) : Prop :=
  koinosTransferDigest L api.ethContractAddress tx = Except.ok prefixedHash ∧
  L.hashHex prefixedHash = tx.hash ∧
  tx.validators.length = tx.signatures.length ∧
  checkEthereumSignatures L api prefixedHash tx.signatures tx.validators = none

/-! ## Sample transfers -/

/-- The envelope a validator with Koinos key `koinosPK` builds around `tx`, as in
`BroadcastTransaction`, with the given expiration. -/
def signEnvelope (L : Lib) (koinosPK : Bytes) (tx : Transaction) (expiration : Int) :
    SubmittedSignature :=
  { transaction := tx
    signature := L.base64Encode (SignKoinosHash L koinosPK
      (L.sha256 ((L.marshalTransaction tx).getD [] ++ stringBytes (toString expiration))))
    expiration := expiration }

/-- The signature of the sample Koinos scheme by `key` over `hash`, as text. -/
def sampleKoinosSignature (key hash : Bytes) : String :=
  encodeBytes (key ++ hash)

/-- The signature of the sample Ethereum scheme by `key` over `hash`, as text. -/
def sampleEthereumSignature (key hash : Bytes) : String :=
  "0x" ++ encodeBytes ((SignEthereumHash sampleLib key hash).getD [])

/-- A `TokensLockedEvent` log of the Ethereum contract: 5 units of token `t`. -/
def sampleEthereumLog : EthereumTokensLockedLog :=
  { blockNumber := 10, txHash := [49], token := [116], sender := [102], metadata := "",
    relayer := "R", recipient := "P", payment := 1, amount := 5, blocktime := 1000,
    chain := 1 }

/-- The Ethereum transfer of `sampleEthereumLog` as validator `A` commits it, with
the given validators and signatures.  Its digest is the byte 78 (`N`). -/
def sampleEthereumTransfer (validators signatures : List String) : Transaction :=
  { type := TransactionType.ethereum, id := "0x1", sender := "0xf", ethToken := "0xt",
    koinosToken := "T", amount := "5", payment := "1", recipient := "P", relayer := "R",
    hash := "N", metadata := "", blockNumber := 10, blockTime := 1000, expiration := 1100,
    toChain := "1", validators := validators, signatures := signatures }

/-- A `tokens_locked_event` of the Koinos contract: 5 units of token `T`. -/
def sampleKoinosEvent : KoinosTokensLockedEvent :=
  { blockHeight := 10, timestamp := 1000, receiptId := [49], sequence := 1, sender := [102],
    token := [84], amount := "5", payment := "1", relayer := "0xr", recipient := "0xp",
    metadata := "", chainId := 1 }

/-- The Koinos transfer of `sampleKoinosEvent` as validator `A` commits it, with the
given validators and signatures.  Its prefixed digest is the byte 55 (`7`). -/
def sampleKoinosTransfer (validators signatures : List String) : Transaction :=
  { type := TransactionType.koinos, id := "0x1", opId := "1", sender := "f",
    ethToken := "0xt", koinosToken := "T", amount := "5", payment := "1",
    recipient := "0xp", relayer := "0xr", hash := "0x7", metadata := "", blockNumber := 10,
    blockTime := 1000, expiration := 1100, toChain := "1", validators := validators,
    signatures := signatures }

/-- Peers that answer 200 with the body listed for their url and fail otherwise. -/
def peersAnswering (bodies : GoMap String) : Network :=
  fun url _ => (mapGet bodies url).map (fun body => (200, body))

/-! ## Sequences of operations -/

/-- The first locked section of `processEthereumTokensLockedEvent` alone (lines
663-712): the commit that precedes the broadcast.  A panic writes nothing. -/
def commitEthereumLocked (L : Lib) (cfg : StreamerConfig) (ethTxStore : GoMap Transaction)
    (ev : EthereumTokensLockedLog) : GoMap Transaction :=
  match ethereumLockedRecord L cfg (mapGet ethTxStore (L.hashHex ev.txHash)) ev with
  | none => ethTxStore
  | some ethTx => mapSet ethTxStore (L.hashHex ev.txHash) ethTx

/-- The first locked section of `processKoinosTokensLockedEvent` alone. -/
def commitKoinosLocked (L : Lib) (cfg : StreamerConfig) (koinosTxStore : GoMap Transaction)
    (ev : KoinosTokensLockedEvent) : GoMap Transaction :=
  match koinosLockedRecord L cfg
      (mapGet koinosTxStore ("0x" ++ L.bytes2Hex ev.receiptId ++ "-" ++ toString ev.sequence))
      ev with
  | none => koinosTxStore
  | some koinosTx =>
    mapSet koinosTxStore ("0x" ++ L.bytes2Hex ev.receiptId ++ "-" ++ toString ev.sequence)
      koinosTx

/-- The first locked section of `processEthereumRequestNewSignaturesEvent` alone. -/
def commitEthereumResign (L : Lib) (ord : MapOrder) (cfg : StreamerConfig)
    (ethTxStore : GoMap Transaction) (ev : EthereumRequestNewSignaturesLog) :
    GoMap Transaction :=
  match ethereumResignRecord L ord cfg (mapGet ethTxStore ("0x" ++ L.bytes2Hex ev.txId))
      (ev.blocktime % 2 ^ 64) with
  | ResignStep.stored ethTx => mapSet ethTxStore ("0x" ++ L.bytes2Hex ev.txId) ethTx
  | _ => ethTxStore

/-- The first locked section of `processRequestNewSignaturesEvent` alone. -/
def commitKoinosResign (L : Lib) (ord : MapOrder) (cfg : StreamerConfig)
    (koinosTxStore : GoMap Transaction) (ev : KoinosRequestNewSignaturesEvent) :
    GoMap Transaction :=
  match koinosResignRecord L ord cfg (mapGet koinosTxStore (koinosResignKey koinosTxStore ev))
      ev.timestamp with
  | ResignStep.stored koinosTx => mapSet koinosTxStore (koinosResignKey koinosTxStore ev) koinosTx
  | _ => koinosTxStore

/-- What the validator can do to its two transfer stores: the event processors,
the submission endpoint, and, for runs in which other operations come between the
two locked sections of a processor, each locked section on its own (the merge
section with whatever signatures the broadcast returned). -/
inductive Operation where
  | ethereumTokensLocked (ord : MapOrder) (net : Network) (now : Int)
      (ev : EthereumTokensLockedLog)
  | ethereumRequestNewSignatures (ord : MapOrder) (net : Network) (now : Int)
      (ev : EthereumRequestNewSignaturesLog)
  | ethereumTransferCompleted (ev : EthereumTransferCompletedLog)
  | koinosTokensLocked (ord : MapOrder) (net : Network) (now : Int)
      (ev : KoinosTokensLockedEvent)
  | koinosRequestNewSignatures (ord : MapOrder) (net : Network) (now : Int)
      (ev : KoinosRequestNewSignaturesEvent)
  | koinosTransferCompleted (ev : KoinosTransferCompletedEvent)
  | submitSignature (ord : MapOrder) (now : Int) (sub : SubmittedSignature)
  | ethereumLockedCommit (ev : EthereumTokensLockedLog)
  | ethereumResignCommit (ord : MapOrder) (ev : EthereumRequestNewSignaturesLog)
  | koinosLockedCommit (ev : KoinosTokensLockedEvent)
  | koinosResignCommit (ord : MapOrder) (ev : KoinosRequestNewSignaturesEvent)
  | ethereumStoreMerge (ord : MapOrder) (threshold : Nat) (key : String)
      (signatures : Option (GoMap String))
  | koinosStoreMerge (ord : MapOrder) (threshold : Nat) (key : String)
      (signatures : GoMap String)

/-- The stores after one operation.  A processor that panics leaves the writes it
made before the panic. -/
def applyOperation (L : Lib) (api : Api) (cfg : StreamerConfig) (stores : Stores) :
    Operation → Stores
  | Operation.ethereumTokensLocked ord net now ev =>
    { stores with ethTxStore :=
        (processEthereumTokensLockedEvent L ord net now cfg stores.ethTxStore ev).store }
  | Operation.ethereumRequestNewSignatures ord net now ev =>
    { stores with ethTxStore :=
        (processEthereumRequestNewSignaturesEvent L ord net now cfg stores.ethTxStore ev).store }
  | Operation.ethereumTransferCompleted ev =>
    { stores with koinosTxStore :=
        processEthereumTransferCompletedEvent L stores.koinosTxStore ev }
  | Operation.koinosTokensLocked ord net now ev =>
    { stores with koinosTxStore :=
        (processKoinosTokensLockedEvent L ord net now cfg stores.koinosTxStore ev).store }
  | Operation.koinosRequestNewSignatures ord net now ev =>
    { stores with koinosTxStore :=
        (processRequestNewSignaturesEvent L ord net now cfg stores.koinosTxStore ev).store }
  | Operation.koinosTransferCompleted ev =>
    { stores with ethTxStore := processKoinosTransferCompletedEvent L stores.ethTxStore ev }
  | Operation.submitSignature ord now sub => (SubmitSignature L ord api now stores sub).2
  | Operation.ethereumLockedCommit ev =>
    { stores with ethTxStore := commitEthereumLocked L cfg stores.ethTxStore ev }
  | Operation.ethereumResignCommit ord ev =>
    { stores with ethTxStore := commitEthereumResign L ord cfg stores.ethTxStore ev }
  | Operation.koinosLockedCommit ev =>
    { stores with koinosTxStore := commitKoinosLocked L cfg stores.koinosTxStore ev }
  | Operation.koinosResignCommit ord ev =>
    { stores with koinosTxStore := commitKoinosResign L ord cfg stores.koinosTxStore ev }
  | Operation.ethereumStoreMerge ord threshold key signatures =>
    { stores with ethTxStore :=
        (mergeBroadcast ord threshold stores.ethTxStore key signatures).getD stores.ethTxStore }
  | Operation.koinosStoreMerge ord threshold key signatures =>
    { stores with koinosTxStore :=
        ((mergeBroadcast ord threshold stores.koinosTxStore key (some signatures)).getD
          stores.koinosTxStore) }

/-- The stores after a sequence of operations. -/
def runOperations (L : Lib) (api : Api) (cfg : StreamerConfig) (stores : Stores)
    (ops : List Operation) : Stores :=
  ops.foldl (applyOperation L api cfg) stores

/-- The record under `key` exists and has status `completed`. -/
def completedAt (store : GoMap Transaction) (key : String) : Prop :=
  ∃ tx, mapGet store key = some tx ∧ tx.status = TransactionStatus.completed

/-- Every record of the store of Ethereum transfers that is not completed is stored
under its own `id`. -/
def keyedById (store : GoMap Transaction) : Prop :=
  ∀ key tx, mapGet store key = some tx →
    tx.status = TransactionStatus.completed ∨ tx.id = key

/-- The record the `TokensLocked` processors start from (`ethereum_streamer.go`
lines 671-684, `koinos_streamer.go` lines 463-475): a new record listing the local
validator, or the prior record with the local validator appended. -/
def lockedBase (prior : Option Transaction) (validator signature : String) : Transaction :=
  match prior with
  | none => { validators := [validator], signatures := [signature] }
  | some p =>
    { p with validators := p.validators ++ [validator], signatures := p.signatures ++ [signature] }

/-- The status the `TokensLocked` processors commit: `completed` is kept, anything
else becomes `gathering_signatures`. -/
def lockedStatus (prior : Option Transaction) : TransactionStatus :=
  match prior with
  | none => TransactionStatus.gathering_signatures
  | some p =>
    if p.status ≠ TransactionStatus.completed then TransactionStatus.gathering_signatures
    else p.status

/-- Invariant I1 for one record: its `hash` is the digest that `SubmitSignature`
recomputes from the fields of the record (with the Koinos contract for an Ethereum
transfer and the Ethereum contract for a Koinos transfer).  A record whose digest
cannot be recomputed does not satisfy it. -/
def hashMatchesFields (L : Lib) (koinosContract ethContract : Bytes) (tx : Transaction) : Bool :=
  match tx.type with
  | TransactionType.ethereum =>
    match ethereumTransferDigest L koinosContract tx with
    | Except.ok (_, hashB64) => decide (hashB64 = tx.hash)
    | Except.error _ => false
  | TransactionType.koinos =>
    match koinosTransferDigest L ethContract tx with
    | Except.ok prefixedHash => decide (L.hashHex prefixedHash = tx.hash)
    | Except.error _ => false

/-- Every record of the store `after` either is the record `before` holds under
the same key or satisfies `P`: the records written on the way from `before` to
`after` and still present satisfy `P`. -/
def newRecordsSatisfy (P : Transaction → Prop) (before after : GoMap Transaction) : Prop :=
  ∀ key r, mapGet after key = some r → mapGet before key = some r ∨ P r

/-- Whether `signature` recovers to `validator` under the stored hash text `hash`,
with the scheme of the destination chain of a transfer of type `type`: the Koinos
scheme over the base64 decoded digest for an Ethereum transfer, the Ethereum scheme
over the hex decoded prefixed digest for a Koinos transfer. -/
def recoversUnderHash (L : Lib) (type : TransactionType) (hash signature validator : String) :
    Bool :=
  match type with
  | TransactionType.ethereum =>
    match L.base64Decode hash with
    | some digest => decide (RecoverKoinosAddressFromSignature L signature digest = some validator)
    | none => false
  | TransactionType.koinos =>
    decide (RecoverEthereumAddressFromSignature L signature (L.fromHex hash)
      = GoResult.ok validator)

/-- Invariant I2 for one record: the arrays are parallel, every listed validator is
a key of the validators map and every signature recovers to its validator under
the stored hash. -/
def signaturesValid (L : Lib) (validators : GoMap ValidatorConfig) (tx : Transaction) : Bool :=
  decide (tx.validators.length = tx.signatures.length) &&
    (tx.validators.zip tx.signatures).all
      (fun p => mapHas validators p.1 && recoversUnderHash L tx.type tx.hash p.2 p.1)

/-- Lines 370-423 of `processEthereumRequestNewSignaturesEvent` alone: the digest
the re-sign computes from the stored transfer `ethTx` under the expiration
`newExpiration`; `none` is a panic. -/
def ethereumResignDigest (L : Lib) (cfg : StreamerConfig) (ethTx : Transaction)
    (newExpiration : Nat) : Option Bytes :=
  match L.base58Decode ethTx.koinosToken with
  | none => none
  | some koinosToken =>
    match L.base58Decode ethTx.recipient with
    | none => none
    | some recipient =>
      match L.base58Decode ethTx.relayer with
      | none => none
      | some relayer =>
        match L.parseUint ethTx.amount 64 with
        | none => none
        | some amount =>
          match L.parseUint ethTx.payment 64 with
          | none => none
          | some payment =>
            match L.parseUint ethTx.toChain 32 with
            | none => none
            | some chain =>
              match L.marshalCompleteTransferHash
                  { action := L.completeTransferAction, transactionId := L.fromHex ethTx.id,
                    token := koinosToken, recipient := recipient, relayer := relayer,
                    amount := amount, payment := payment,
                    contractId := cfg.koinosContractAddr, metadata := ethTx.metadata,
                    expiration := newExpiration, chain := chain % 2 ^ 32 } with
              | none => none
              | some completeTransferHashBytes => some (L.sha256 completeTransferHashBytes)

/-- Lines 235-251 of `processRequestNewSignaturesEvent` alone: the prefixed digest
the re-sign computes from the stored transfer `koinosTx` under the expiration
`newExpiration`; `none` is a panic. -/
def koinosResignDigest (L : Lib) (cfg : StreamerConfig) (koinosTx : Transaction)
    (newExpiration : Nat) : Option Bytes :=
  match L.parseUint koinosTx.opId 64 with
  | none => none
  | some opId =>
    match L.parseUint koinosTx.toChain 64 with
    | none => none
    | some chain =>
      match GenerateEthereumCompleteTransferHash L (L.fromHex koinosTx.id) opId
          (L.hexToAddress koinosTx.ethToken) (L.hexToAddress koinosTx.recipient)
          (L.hexToAddress koinosTx.relayer) koinosTx.payment koinosTx.amount
          cfg.ethereumContractAddr koinosTx.metadata newExpiration chain with
      | none => none
      | some (_, prefixedHash) => some prefixedHash

/-- The stores of validator `A` after it processed the sample `TokensLocked` events
of both chains, without answers from its peers, and then received the submissions
of `B` and of `C` for both transfers. -/
def sampleSignedStores : Stores :=
  let locked : Stores :=
    { ethTxStore := (processEthereumTokensLockedEvent sampleLib insertionOrder
        (peersAnswering []) 0 sampleConfig [] sampleEthereumLog).store
      koinosTxStore := (processKoinosTokensLockedEvent sampleLib insertionOrder
        (peersAnswering []) 0 sampleConfig [] sampleKoinosEvent).store }
  [signEnvelope sampleLib [66] (sampleEthereumTransfer ["B"] ["BN"]) 60000,
   signEnvelope sampleLib [67] (sampleEthereumTransfer ["C"] ["CN"]) 60000,
   signEnvelope sampleLib [66]
     (sampleKoinosTransfer ["0xb"] [sampleEthereumSignature [98] [55]]) 60000,
   signEnvelope sampleLib [67]
     (sampleKoinosTransfer ["0xc"] [sampleEthereumSignature [99] [55]]) 60000].foldl
    (fun stores sub => (SubmitSignature sampleLib insertionOrder sampleApi 0 stores sub).2)
    locked

/-- The address under which `SubmitSignature` looks up the signature of the local
validator in a transfer of the given type. -/
def localAddressOf (api : Api) (type : TransactionType) : String :=
  match type with
  | TransactionType.ethereum => api.koinosAddress
  | TransactionType.koinos => api.ethAddress

/-- The checks of `SubmitSignature` that do not read a store all pass for the
submission `sub` received at time `now`. -/
def submissionChecksPass (L : Lib) (api : Api) (now : Int) (sub : SubmittedSignature) : Prop :=
  checkEnvelope L api now sub = none ∧
  match sub.transaction.type with
  | TransactionType.ethereum =>
    ∃ hash hashB64, ethereumChecksPass L api sub.transaction hash hashB64
  | TransactionType.koinos =>
    ∃ prefixedHash, koinosChecksPass L api sub.transaction prefixedHash

/-- The stores after the `Put` of `record` that ends the store section of
`SubmitSignature` for the submitted transfer `tx` (lines 404 and 578). -/
def putSubmission (stores : Stores) (tx record : Transaction) : Stores :=
  match tx.type with
  | TransactionType.ethereum =>
    Stores.mk (mapSet stores.ethTxStore record.id record) stores.koinosTxStore
  | TransactionType.koinos =>
    Stores.mk stores.ethTxStore (mapSet stores.koinosTxStore (submissionKey tx) record)

/-- The threshold step that ends the store section of `SubmitSignature` (lines
400-402 and 574-576). -/
def raiseWhenSigned (nValidators : Nat) (record : Transaction) : Transaction :=
  if record.signatures.length ≥ thresholdA nValidators then
    { record with status := TransactionStatus.signed } else record

/-- Records `a` and `b` agree in every field other than the two arrays, their
arrays are parallel, and they list the same (validator, signature) pairs, possibly
in a different order. -/
def sameUpToPairOrder (a b : Transaction) : Prop :=
  { b with validators := a.validators, signatures := a.signatures } = a ∧
  a.validators.length = a.signatures.length ∧
  b.validators.length = b.signatures.length ∧
  (a.validators.zip a.signatures).Perm (b.validators.zip b.signatures)

/-- Store `t` is store `s`, or `s` with one record replaced by a record that lists
the same pairs in a possibly different order. -/
def storeSameUpToPairOrder (s t : GoMap Transaction) : Prop :=
  t = s ∨ ∃ key a b, mapGet s key = some a ∧ t = mapSet s key b ∧ sameUpToPairOrder a b

/-- The answer and the stores in which the store section of `SubmitSignature` ends
for the submitted transfer `tx`, given what the merge decided. -/
def answerOfMerge (stores : Stores) (tx : Transaction) : MergeResult → HttpResult × Stores
  | MergeResult.reply r => (r, stores)
  | MergeResult.store record response =>
    (HttpResult.response 200 response, putSubmission stores tx record)

/-- A second signature of the sample Ethereum scheme by `key` over `hash`: one
padding byte differs and the recovered key is the same. -/
def sampleEthereumSignatureAlt (key hash : Bytes) : String :=
  "0x" ++ encodeBytes ((key ++ hash ++ [1] ++ List.replicate 64 0).take 64 ++ [27])

/-- The stores of validator `A` after it processed the sample `TokensLocked` event
of the Koinos chain without answers from its peers. -/
def sampleLockedStores : Stores :=
  { ethTxStore := []
    koinosTxStore := (processKoinosTokensLockedEvent sampleLib insertionOrder
      (peersAnswering []) 0 sampleConfig [] sampleKoinosEvent).store }

/-- The `Backend` a store wraps, with its state made explicit: `put` returns the
state after the write and `get` the bytes held for a key; `none` is a returned
error.  The backend is not defined in the source files at hand and is a
parameter. -/
structure Backend (σ : Type) where
  put : σ → Bytes → Bytes → Option σ
  get : σ → Bytes → Option Bytes

/-- `proto.Marshal` and `proto.Unmarshal` for the stored message type; `none` is a
returned error. -/
structure MessageCodec (α : Type) where
  marshal : α → Option Bytes
  unmarshal : Bytes → Option α

/-- What a store operation returns: a value with a nil error, or one of the
wrapped errors. -/
inductive StoreResult (α : Type) where
  | ok (value : α)
  | errSerialization
  | errBackend
  | errDeserialization
  deriving DecidableEq, Repr

/-- Source function `KoinosTransactionsStore.Put`: the backend state after the
write. -/
def KoinosTransactionsStore.Put {σ α : Type} (backend : Backend σ) (codec : MessageCodec α)
    (state : σ) (key : String) (transaction : α) : StoreResult σ :=
  match codec.marshal transaction with
  | none => StoreResult.errSerialization
  | some itemBytes =>
    match backend.put state (stringBytes key) itemBytes with
    | none => StoreResult.errBackend
    | some state' => StoreResult.ok state'

/-- Source function `KoinosTransactionsStore.Get`; `ok none` is the return
`nil, nil`. -/
def KoinosTransactionsStore.Get {σ α : Type} (backend : Backend σ) (codec : MessageCodec α)
    (state : σ) (key : String) : StoreResult (Option α) :=
  match backend.get state (stringBytes key) with
  | none => StoreResult.errBackend
  | some itemBytes =>
    if itemBytes.length ≠ 0 then
      match codec.unmarshal itemBytes with
      | none => StoreResult.errDeserialization
      | some item => StoreResult.ok (some item)
    else StoreResult.ok none

/-- A backend over an association list: a missing key reads as no bytes and no
operation fails. -/
def sampleBackend : Backend (List (Bytes × Bytes)) where
  put := fun state key value => some ((key, value) :: state)
  get := fun state key => some ((state.lookup key).getD [])

/-- A message with one integer field, as a stand-in for a stored message. -/
structure SampleMessage where
  status : Nat
  deriving DecidableEq, Repr

/-- The wire format of `SampleMessage` in the manner of proto3: a field at its
default value is not written, so the default message has an empty encoding; the
field is the tag byte 8 followed by a one-byte value. -/
def sampleCodec : MessageCodec SampleMessage where
  marshal := fun m =>
    if m.status = 0 then some []
    else if m.status < 128 then some [8, UInt8.ofNat m.status] else none
  unmarshal := fun b =>
    match b with
    | [] => some { status := 0 }
    | [tag, value] =>
      if tag = 8 ∧ value.toNat ≠ 0 ∧ value.toNat < 128 then some { status := value.toNat }
      else none
    | _ => none

/-! ## The read endpoints of `internal/api/api.go` -/

/-- Source function `Api.GetEthereumTransaction` on a request with the given method
and the values of the query parameter `TransactionId`; `jsonMarshal` is
`protojson.Marshal` with `EmitUnpopulated`, `none` its error. -/
def GetEthereumTransaction (jsonMarshal : Transaction → Option String)
    (ethTxStore : GoMap Transaction) (method : String) (transactionIdParams : List String) :
    HttpResult :=
  if method ≠ "GET" then HttpResult.response 400 "Bad Request"
  else
    match transactionIdParams with
    | [] => HttpResult.response 400 "Missing TransactionId param"
    | transactionId :: _ =>
      match mapGet ethTxStore transactionId with
      | none => HttpResult.response 404 "transaction does not exist"
      | some transaction =>
        match jsonMarshal transaction with
        | none => HttpResult.response 400 "unknown error"
        | some jsonBytes => HttpResult.response 200 jsonBytes

/-- Source function `Api.GetKoinosTransaction` on a request with the given method
and the values of the query parameters `TransactionId` and `OpId`. -/
def GetKoinosTransaction (jsonMarshal : Transaction → Option String)
    (koinosTxStore : GoMap Transaction) (method : String)
    (transactionIdParams opIdParams : List String) : HttpResult :=
  if method ≠ "GET" then HttpResult.response 400 "Bad Request"
  else
    match transactionIdParams with
    | [] => HttpResult.response 400 "Missing TransactionId param"
    | transactionId :: _ =>
      let opId :=
        match opIdParams with
        | [] => "1"
        | first :: _ => first
      let found : Option Transaction :=
        match mapGet koinosTxStore (transactionId ++ "-" ++ opId) with
        | some transaction => some transaction
        | none =>
          if opId = "1" then mapGet koinosTxStore (transactionId ++ "-" ++ "3") else none
      match found with
      | none => HttpResult.response 404 "transaction does not exist"
      | some transaction =>
        match jsonMarshal transaction with
        | none => HttpResult.response 400 "unknown error"
        | some jsonBytes => HttpResult.response 200 jsonBytes

/-- The answer of the read endpoints for the record they found. -/
def answerRecord (jsonMarshal : Transaction → Option String) (found : Option Transaction) :
    HttpResult :=
  match found with
  | none => HttpResult.response 404 "transaction does not exist"
  | some transaction =>
    match jsonMarshal transaction with
    | none => HttpResult.response 400 "unknown error"
    | some jsonBytes => HttpResult.response 200 jsonBytes

/-- A stand-in for the JSON encoding: the id and the operation id of the record. -/
def sampleJson (tx : Transaction) : Option String :=
  some (tx.id ++ "/" ++ tx.opId)

/-! ## The polling loops of the streamers -/

/-- Go `int64(x)` for a `uint64` value `x`. -/
def toInt64 (x : Nat) : Int :=
  if x % 2 ^ 64 < 2 ^ 63 then ((x % 2 ^ 64 : Nat) : Int) else ((x % 2 ^ 64 : Nat) : Int) - 2 ^ 64

/-- The block range of an `ethereum.FilterQuery`. -/
structure FilterQuery where
  fromBlock : Int
  toBlock : Int
  deriving DecidableEq, Repr

/-- Lines 226-245 of `StreamEthereumBlocks`: the last block of the range one poll
queries, given the head `latestblock` returned by the node; `none` when the poll
waits for a block. -/
def ethereumToBlock (latestblock ethConfirmations fromBlock ethMaxBlocksToStream : Nat) :
    Option Nat :=
  let latestblock := if latestblock < ethConfirmations then 0 else latestblock - ethConfirmations
  let blockDelta := if latestblock > fromBlock then latestblock - fromBlock else 0
  let toBlock :=
    if blockDelta > ethMaxBlocksToStream then addU64 fromBlock ethMaxBlocksToStream
    else addU64 fromBlock blockDelta
  if toBlock ≤ latestblock then some toBlock else none

/-- The query one poll of `StreamEthereumBlocks` makes (lines 246-260), if any. -/
def ethereumFilterQuery (latestblock ethConfirmations fromBlock ethMaxBlocksToStream : Nat) :
    Option FilterQuery :=
  (ethereumToBlock latestblock ethConfirmations fromBlock ethMaxBlocksToStream).map
    (fun toBlock => { fromBlock := toInt64 fromBlock, toBlock := toInt64 toBlock })

/-- The event a log of the bridge contract carries, by its first topic. -/
inductive EthereumEvent where
  | tokensLocked (ev : EthereumTokensLockedLog)
  | transferCompleted (ev : EthereumTransferCompletedLog)
  | requestNewSignatures (ev : EthereumRequestNewSignaturesLog)
  | other
  deriving DecidableEq, Repr

/-- A log returned by `FilterLogs`. -/
structure EthereumLog where
  blockNumber : Nat
  removed : Bool
  event : EthereumEvent
  deriving DecidableEq, Repr

/-- The variables of the loop of `StreamEthereumBlocks` together with the two
transfer stores; `panicked` records that an event processor panicked, which ends
the program. -/
structure EthereumStream where
  fromBlock : Nat
  lastEthereumBlockParsed : Nat
  stores : Stores
  panicked : Bool
  deriving DecidableEq, Repr

/-- The dispatch of one log that is not removed (lines 270-305). -/
def dispatchEthereumLog (L : Lib) (ord : MapOrder) (net : Network) (now : Int)
    (cfg : StreamerConfig) (vLog : EthereumLog) (st : EthereumStream) : EthereumStream :=
  match vLog.event with
  | EthereumEvent.tokensLocked ev =>
    let done := processEthereumTokensLockedEvent L ord net now cfg st.stores.ethTxStore
      { ev with blockNumber := vLog.blockNumber }
    { st with stores := Stores.mk done.store st.stores.koinosTxStore, panicked := done.panicked }
  | EthereumEvent.transferCompleted ev =>
    let koinosTxStore := processEthereumTransferCompletedEvent L st.stores.koinosTxStore ev
    { st with stores := Stores.mk st.stores.ethTxStore koinosTxStore }
  | EthereumEvent.requestNewSignatures ev =>
    let done := processEthereumRequestNewSignaturesEvent L ord net now cfg st.stores.ethTxStore ev
    { st with stores := Stores.mk done.store st.stores.koinosTxStore, panicked := done.panicked }
  | EthereumEvent.other => st

/-- The loop `for _, vLog := range logs` of `StreamEthereumBlocks` (lines 263-308). -/
def processEthereumLogs (L : Lib) (ord : MapOrder) (net : Network) (now : Int)
    (cfg : StreamerConfig) : List EthereumLog → EthereumStream → EthereumStream
  | [], st => st
  | vLog :: rest, st =>
    if vLog.removed then processEthereumLogs L ord net now cfg rest st
    else
      let st1 := dispatchEthereumLog L ord net now cfg vLog st
      if st1.panicked then st1
      else
        processEthereumLogs L ord net now cfg rest
          { st1 with lastEthereumBlockParsed := vLog.blockNumber }

/-- What follows a successful `FilterLogs` over a range ending at `toBlock` (lines
266-316): the logs are processed and the loop variables are moved. -/
def ethereumAfterLogs (L : Lib) (ord : MapOrder) (net : Network) (now : Int)
    (cfg : StreamerConfig) (toBlock : Nat) (logs : List EthereumLog) (st : EthereumStream) :
    EthereumStream :=
  let st1 := processEthereumLogs L ord net now cfg logs st
  if st1.panicked then st1
  else if logs.length = 0 then
    { st1 with fromBlock := addU64 toBlock 1, lastEthereumBlockParsed := toBlock }
  else { st1 with fromBlock := addU64 st1.lastEthereumBlockParsed 1 }

/-- What follows the call of `FilterLogs` (lines 261-317); an error is only logged. -/
def ethereumOnAnswer (L : Lib) (ord : MapOrder) (net : Network) (now : Int)
    (cfg : StreamerConfig) (toBlock : Nat) (answer : Option (List EthereumLog))
    (st : EthereumStream) : EthereumStream :=
  match answer with
  | none => st
  | some logs => ethereumAfterLogs L ord net now cfg toBlock logs st

/-- One pass through the polling branch of `StreamEthereumBlocks` (lines 218-321):
`latestblock` is what `BlockNumber` returns and `filterLogs` what `FilterLogs`
returns for a query, `none` being an error. -/
def ethereumPoll (L : Lib) (ord : MapOrder) (net : Network) (now : Int) (cfg : StreamerConfig)
    (ethConfirmations ethMaxBlocksToStream : Nat) (latestblock : Option Nat)
    (filterLogs : FilterQuery → Option (List EthereumLog)) (st : EthereumStream) :
    EthereumStream :=
  match latestblock with
  | none => st
  | some latestblock =>
    match ethereumToBlock latestblock ethConfirmations st.fromBlock ethMaxBlocksToStream with
    | none => st
    | some toBlock =>
      ethereumOnAnswer L ord net now cfg toBlock
        (filterLogs { fromBlock := toInt64 st.fromBlock, toBlock := toInt64 toBlock }) st

/-- The two cursors kept in the metadata store. -/
structure Metadata where
  lastEthereumBlockParsed : Nat
  lastKoinosBlockParsed : Nat
  deriving DecidableEq, Repr

/-- The loop variables with which `StreamEthereumBlocks` enters its loop (lines
185-195) when started with the cursor `startBlock`. -/
def ethereumStreamStart (startBlock : Nat) (stores : Stores) : EthereumStream :=
  { fromBlock := addU64 startBlock 1, lastEthereumBlockParsed := 0, stores := stores,
    panicked := false }

/-- The cancellation branch of `StreamEthereumBlocks` (lines 200-216): the metadata
it puts, given what `metadataStore.Get` returns; `none` when it returns on an
error without a write. -/
def ethereumCancel (stored : Option Metadata) (st : EthereumStream) : Option Metadata :=
  match stored with
  | none => none
  | some metadata =>
    some { metadata with lastEthereumBlockParsed := st.lastEthereumBlockParsed }

/-- A run of `StreamEthereumBlocks` from the cursor `startBlock`: the polls made
before the cancellation, each with the answers of the node, and then the
cancellation; the result is the metadata written, if any. -/
def StreamEthereumBlocks (L : Lib) (ord : MapOrder) (net : Network) (now : Int)
    (cfg : StreamerConfig) (ethConfirmations ethMaxBlocksToStream : Nat) (startBlock : Nat)
    (stores : Stores) (polls : List (Option Nat × (FilterQuery → Option (List EthereumLog))))
    (stored : Option Metadata) : Option Metadata :=
  ethereumCancel stored
    (polls.foldl
      (fun st poll => ethereumPoll L ord net now cfg ethConfirmations ethMaxBlocksToStream
        poll.1 poll.2 st)
      (ethereumStreamStart startBlock stores))

/-- The event of the bridge contract an `EventData` carries, by its name. -/
inductive KoinosBridgeEvent where
  | tokensLocked (ev : KoinosTokensLockedEvent)
  | transferCompleted (ev : KoinosTransferCompletedEvent)
  | requestNewSignatures (ev : KoinosRequestNewSignaturesEvent)
  | other
  deriving DecidableEq, Repr

/-- An event of a transaction receipt: the contract that emitted it and what it
decodes to, together with the fields of its block and of its receipt that the
processor reads. -/
structure KoinosEventData where
  source : Bytes
  event : KoinosBridgeEvent
  deriving DecidableEq, Repr

/-- A transaction receipt of a block. -/
structure KoinosReceipt where
  reverted : Bool
  events : List KoinosEventData
  deriving DecidableEq, Repr

/-- A block returned by `GetBlocksByHeight`. -/
structure KoinosBlockItem where
  blockHeight : Nat
  receipts : List KoinosReceipt
  deriving DecidableEq, Repr

/-- The variables of the loop of `StreamKoinosBlocks` together with the two
transfer stores. -/
structure KoinosStream where
  fromBlock : Nat
  lastKoinosBlockParsed : Nat
  stores : Stores
  panicked : Bool
  deriving DecidableEq, Repr

/-- The dispatch of one event of a receipt that did not revert, in a block of
height `blockHeight` (lines 117-155). -/
def dispatchKoinosEvent (L : Lib) (ord : MapOrder) (net : Network) (now : Int)
    (cfg : StreamerConfig) (blockHeight : Nat) (event : KoinosEventData) (st : KoinosStream) :
    KoinosStream :=
  if event.source = cfg.koinosContractAddr then
    match event.event with
    | KoinosBridgeEvent.tokensLocked ev =>
      let done := processKoinosTokensLockedEvent L ord net now cfg st.stores.koinosTxStore
        { ev with blockHeight := blockHeight }
      { st with stores := Stores.mk st.stores.ethTxStore done.store, panicked := done.panicked }
    | KoinosBridgeEvent.transferCompleted ev =>
      let ethTxStore := processKoinosTransferCompletedEvent L st.stores.ethTxStore ev
      { st with stores := Stores.mk ethTxStore st.stores.koinosTxStore }
    | KoinosBridgeEvent.requestNewSignatures ev =>
      let done := processRequestNewSignaturesEvent L ord net now cfg st.stores.koinosTxStore ev
      { st with stores := Stores.mk st.stores.ethTxStore done.store, panicked := done.panicked }
    | KoinosBridgeEvent.other => st
  else st

/-- The loop `for _, event := range receipt.Events` (line 116). -/
def processKoinosEvents (L : Lib) (ord : MapOrder) (net : Network) (now : Int)
    (cfg : StreamerConfig) (blockHeight : Nat) :
    List KoinosEventData → KoinosStream → KoinosStream
  | [], st => st
  | event :: rest, st =>
    let st1 := dispatchKoinosEvent L ord net now cfg blockHeight event st
    if st1.panicked then st1 else processKoinosEvents L ord net now cfg blockHeight rest st1

/-- The loop `for _, receipt := range block.Receipt.TransactionReceipts` (line 112). -/
def processKoinosReceipts (L : Lib) (ord : MapOrder) (net : Network) (now : Int)
    (cfg : StreamerConfig) (blockHeight : Nat) :
    List KoinosReceipt → KoinosStream → KoinosStream
  | [], st => st
  | receipt :: rest, st =>
    let st1 :=
      if receipt.reverted then st
      else processKoinosEvents L ord net now cfg blockHeight receipt.events st
    if st1.panicked then st1 else processKoinosReceipts L ord net now cfg blockHeight rest st1

/-- The loop `for _, block := range blocks.BlockItems` (lines 111-161). -/
def processKoinosBlocks (L : Lib) (ord : MapOrder) (net : Network) (now : Int)
    (cfg : StreamerConfig) : List KoinosBlockItem → KoinosStream → KoinosStream
  | [], st => st
  | block :: rest, st =>
    let st1 := processKoinosReceipts L ord net now cfg block.blockHeight block.receipts st
    if st1.panicked then st1
    else
      processKoinosBlocks L ord net now cfg rest
        { st1 with lastKoinosBlockParsed := block.blockHeight }

/-- One pass through the polling branch of `StreamKoinosBlocks` (lines 83-170):
`lastIrreversibleBlock` is what `GetHeadInfo` reports and `getBlocksByHeight` what
`GetBlocksByHeight` returns for a start height and a number of blocks, `none`
being an error. -/
def koinosPoll (L : Lib) (ord : MapOrder) (net : Network) (now : Int) (cfg : StreamerConfig)
    (koinosMaxBlocksToStream : Nat) (lastIrreversibleBlock : Option Nat)
    (getBlocksByHeight : Nat → Nat → Option (List KoinosBlockItem)) (st : KoinosStream) :
    KoinosStream :=
  match lastIrreversibleBlock with
  | none => st
  | some lastIrreversibleBlock =>
    let nbBlocksToFetch :=
      if lastIrreversibleBlock > st.fromBlock then lastIrreversibleBlock - st.fromBlock else 0
    let nbBlocksToFetch :=
      if nbBlocksToFetch > koinosMaxBlocksToStream then koinosMaxBlocksToStream
      else nbBlocksToFetch
    let toBlock := addU64 st.fromBlock nbBlocksToFetch
    if toBlock ≤ lastIrreversibleBlock then
      match getBlocksByHeight st.fromBlock (nbBlocksToFetch % 2 ^ 32) with
      | none => st
      | some blockItems =>
        let st1 := processKoinosBlocks L ord net now cfg blockItems st
        if st1.panicked then st1
        else if blockItems.length > 0 then
          { st1 with fromBlock := addU64 st1.lastKoinosBlockParsed 1 }
        else st1
    else st

/-- The loop variables with which `StreamKoinosBlocks` enters its loop (lines
53-63) when started with the cursor `startBlock`. -/
def koinosStreamStart (startBlock : Nat) (stores : Stores) : KoinosStream :=
  { fromBlock := addU64 startBlock 1, lastKoinosBlockParsed := 0, stores := stores,
    panicked := false }

/-- The cancellation branch of `StreamKoinosBlocks` (lines 67-81): the metadata it
puts, given what `metadataStore.Get` returns; `none` when it returns on an error
without a write. -/
def koinosCancel (stored : Option Metadata) (st : KoinosStream) : Option Metadata :=
  match stored with
  | none => none
  | some metadata => some { metadata with lastKoinosBlockParsed := st.lastKoinosBlockParsed }

/-- A run of `StreamKoinosBlocks` from the cursor `startBlock`: the polls made
before the cancellation, each with the answers of the node, and then the
cancellation; the result is the metadata written, if any. -/
def StreamKoinosBlocks (L : Lib) (ord : MapOrder) (net : Network) (now : Int)
    (cfg : StreamerConfig) (koinosMaxBlocksToStream : Nat) (startBlock : Nat)
    (stores : Stores) (polls : List (Option Nat × (Nat → Nat → Option (List KoinosBlockItem))))
    (stored : Option Metadata) : Option Metadata :=
  koinosCancel stored
    (polls.foldl
      (fun st poll => koinosPoll L ord net now cfg koinosMaxBlocksToStream poll.1 poll.2 st)
      (koinosStreamStart startBlock stores))

/-- The block of the last log of a result that is not flagged as removed, if there
is one. -/
def lastProcessedBlock : List EthereumLog → Option Nat
  | [] => none
  | vLog :: rest =>
    match lastProcessedBlock rest with
    | some b => some b
    | none => if vLog.removed then none else some vLog.blockNumber

/-- A log of the bridge contract at block `blockNumber` that carries the lock of
`sampleEthereumLog`. -/
def sampleLog (blockNumber : Nat) (removed : Bool) : EthereumLog :=
  { blockNumber := blockNumber, removed := removed,
    event := EthereumEvent.tokensLocked sampleEthereumLog }

/-- The metadata of a validator that has parsed the Ethereum chain up to block 100
and the Koinos chain up to block 50. -/
def sampleMetadata : Metadata := { lastEthereumBlockParsed := 100, lastKoinosBlockParsed := 50 }

/-! ## The digest preimage of a submission -/

/-- What `SubmitSignature` hashes to recompute the digest of a submitted transfer:
the `CompleteTransferHash` message whose encoding is hashed for an Ethereum
transfer, and the packed byte string hashed first by
`GenerateEthereumCompleteTransferHash` for a Koinos transfer. -/
inductive DigestPreimage where
  | message (m : CompleteTransferHash)
  | packed (b : Bytes)
  deriving DecidableEq, Repr

/-- Lines 222-282 of `SubmitSignature`: the message built from the fields of a
submitted Ethereum transfer; `none` when a field does not decode. -/
def ethereumDigestMessage (L : Lib) (koinosContractAddress : Bytes) (tx : Transaction) :
    Option CompleteTransferHash :=
  let txIdBytes := L.fromHex tx.id
  match L.parseUint tx.amount 64 with
  | none => none
  | some amount =>
    match L.parseUint tx.payment 64 with
    | none => none
    | some payment =>
      match L.parseUint tx.toChain 32 with
      | none => none
      | some chain64 =>
        if chain64 > 2 ^ 32 - 1 then none
        else
          match L.base58Decode tx.koinosToken with
          | none => none
          | some koinosToken =>
            match L.base58Decode tx.recipient with
            | none => none
            | some recipient =>
              match L.base58Decode tx.relayer with
              | none => none
              | some relayer =>
                some { action := L.completeTransferAction, transactionId := txIdBytes,
                       token := koinosToken, recipient := recipient, relayer := relayer,
                       amount := amount, payment := payment,
                       contractId := koinosContractAddress, metadata := tx.metadata,
                       expiration := tx.expiration, chain := chain64 % 2 ^ 32 }

/-- Lines 428-452 of `SubmitSignature` and 277-306 of
`GenerateEthereumCompleteTransferHash`: the byte string packed from the fields of
a submitted Koinos transfer; `none` when a number does not parse. -/
def koinosDigestPreimage (L : Lib) (ethContractAddress : Bytes) (tx : Transaction) :
    Option Bytes :=
  let txIdBytes := L.fromHex tx.id
  let ethToken := L.fromHex tx.ethToken
  let recipient := L.fromHex tx.recipient
  let relayer := L.fromHex tx.relayer
  match L.parseUint tx.toChain 64 with
  | none => none
  | some chainId =>
    match L.parseUint tx.opId 64 with
    | none => none
    | some operationId =>
      match L.parseUint tx.amount 64 with
      | none => none
      | some amount =>
        match L.parseUint tx.payment 64 with
        | none => none
        | some payment =>
          some (ethereumPreimage L txIdBytes operationId ethToken recipient relayer payment
            amount ethContractAddress tx.metadata tx.expiration chainId)

/-- The digest preimage `SubmitSignature` recomputes for a submitted transfer. -/
def submissionPreimage (L : Lib) (api : Api) (tx : Transaction) : Option DigestPreimage :=
  match tx.type with
  | TransactionType.ethereum =>
    (ethereumDigestMessage L api.koinosContractAddress tx).map DigestPreimage.message
  | TransactionType.koinos =>
    (koinosDigestPreimage L api.ethContractAddress tx).map DigestPreimage.packed

/-- The number a big-endian byte string denotes. -/
def bytesValue (b : Bytes) : Nat :=
  b.foldl (fun acc x => acc * 256 + x.toNat) 0

/-- The stores after `record` is put under `key` into the store of the transfers of
the given type. -/
def putUnderKey (stores : Stores) (type : TransactionType) (key : String)
    (record : Transaction) : Stores :=
  match type with
  | TransactionType.ethereum =>
    Stores.mk (mapSet stores.ethTxStore key record) stores.koinosTxStore
  | TransactionType.koinos =>
    Stores.mk stores.ethTxStore (mapSet stores.koinosTxStore key record)

/-- The sample Koinos transfer with a metadata of 31 zero bytes followed by the byte
1, signed by `0xb`; its prefixed digest is the byte 86 (`V`). -/
def samplePackedTransfer : Transaction :=
  { sampleKoinosTransfer ["0xb"] [sampleEthereumSignature [98] [86]] with
    metadata := String.mk (List.replicate 31 (Char.ofNat 0)) ++ "\x01"
    hash := "0xV" }

/-- A Koinos transfer with another id and another operation id that packs to the
bytes of `samplePackedTransfer`: its id goes on with the 35 bytes that follow the
id in that packing (operation id, token, relayer and recipient), its operation id
is the amount 5, its token, relayer and recipient are empty, its amount and its
payment are 1 and its metadata is empty. -/
def sampleShiftedTransfer : Transaction :=
  { sampleKoinosTransfer ["0xb"] [sampleEthereumSignature [98] [86]] with
    id := "0x1" ++ String.mk (List.replicate 31 (Char.ofNat 0)) ++ "\x01trp"
    opId := "5"
    ethToken := ""
    recipient := ""
    relayer := ""
    amount := "1"
    payment := "1"
    metadata := ""
    hash := "0xV" }

/-! # Properties

Lemmas and theorems about the definitions above. -/

/-! ## Go maps -/

theorem mapGet_mapSet_self {α : Type} (m : GoMap α) (k : String) (v : α) :
    mapGet (mapSet m k v) k = some v := by
  induction m with
  | nil => simp [mapSet, mapGet]
  | cons e rest ih =>
    obtain ⟨k', v'⟩ := e
    by_cases h : k' = k
    · simp [mapSet, mapGet, h]
    · simp [mapSet, mapGet, h, ih]

theorem mapGet_mapSet_ne {α : Type} (m : GoMap α) (k k' : String) (v : α) (hne : k ≠ k') :
    mapGet (mapSet m k v) k' = mapGet m k' := by
  induction m with
  | nil => simp [mapSet, mapGet, hne]
  | cons e rest ih =>
    obtain ⟨k₀, v₀⟩ := e
    by_cases h : k₀ = k
    · subst h
      simp [mapSet, mapGet, hne]
    · by_cases h' : k₀ = k'
      · subst h'
        simp [mapSet, mapGet, h]
      · simp [mapSet, mapGet, h, h', ih]

theorem mapGet_mapSet {α : Type} (m : GoMap α) (k k' : String) (v : α) :
    mapGet (mapSet m k v) k' = if k = k' then some v else mapGet m k' := by
  by_cases h : k = k'
  · subst h
    simp [mapGet_mapSet_self]
  · simp [h, mapGet_mapSet_ne m k k' v h]

theorem mapGet_isSome_iff_mem_keys {α : Type} (m : GoMap α) (k : String) :
    (mapGet m k).isSome = true ↔ k ∈ m.map Prod.fst := by
  induction m with
  | nil => simp [mapGet]
  | cons e rest ih =>
    obtain ⟨k₀, v₀⟩ := e
    by_cases h : k₀ = k
    · simp [mapGet, h]
    · have h' : ¬ k = k₀ := fun e => h e.symm
      simp [mapGet, h, h', ih]

theorem mapHas_iff_mem_keys {α : Type} (m : GoMap α) (k : String) :
    mapHas m k = true ↔ k ∈ m.map Prod.fst := by
  unfold mapHas
  exact mapGet_isSome_iff_mem_keys m k

theorem keys_mapSet_of_mem {α : Type} (m : GoMap α) (k : String) (v : α)
    (hmem : k ∈ m.map Prod.fst) : (mapSet m k v).map Prod.fst = m.map Prod.fst := by
  induction m with
  | nil => simp at hmem
  | cons e rest ih =>
    obtain ⟨k₀, v₀⟩ := e
    by_cases h : k₀ = k
    · simp [mapSet, h]
    · have hrest : k ∈ rest.map Prod.fst := by
        simp only [List.map_cons, List.mem_cons] at hmem
        rcases hmem with h1 | h1
        · exact absurd h1.symm h
        · exact h1
      simp [mapSet, h, ih hrest]

theorem keys_mapSet_of_not_mem {α : Type} (m : GoMap α) (k : String) (v : α)
    (hmem : k ∉ m.map Prod.fst) : (mapSet m k v).map Prod.fst = m.map Prod.fst ++ [k] := by
  induction m with
  | nil => simp [mapSet]
  | cons e rest ih =>
    obtain ⟨k₀, v₀⟩ := e
    simp only [List.map_cons, List.mem_cons, not_or] at hmem
    have h : ¬ k₀ = k := fun e => hmem.1 e.symm
    simp [mapSet, h, ih hmem.2]

theorem keys_nodup_mapSet {α : Type} (m : GoMap α) (k : String) (v : α)
    (hnodup : (m.map Prod.fst).Nodup) : ((mapSet m k v).map Prod.fst).Nodup := by
  by_cases hmem : k ∈ m.map Prod.fst
  · rw [keys_mapSet_of_mem m k v hmem]
    exact hnodup
  · rw [keys_mapSet_of_not_mem m k v hmem]
    exact List.Nodup.append hnodup (List.nodup_singleton k) (by simpa using hmem)

theorem mapGet_eq_some_iff_mem {α : Type} (m : GoMap α) (hnodup : (m.map Prod.fst).Nodup)
    (k : String) (v : α) : mapGet m k = some v ↔ (k, v) ∈ m := by
  induction m with
  | nil => simp [mapGet]
  | cons e rest ih =>
    obtain ⟨k₀, v₀⟩ := e
    simp only [List.map_cons, List.nodup_cons] at hnodup
    by_cases h : k₀ = k
    · subst h
      have hno : (k₀, v) ∉ rest := fun hmem => hnodup.1 (List.mem_map_of_mem Prod.fst hmem)
      simp only [mapGet, if_true, Option.some.injEq, List.mem_cons, Prod.mk.injEq, true_and]
      constructor
      · intro h1
        exact Or.inl h1.symm
      · rintro (h1 | h1)
        · exact h1.symm
        · exact absurd h1 hno
    · have h' : ¬ k = k₀ := fun e => h e.symm
      simp [mapGet, h, h', ih hnodup.2]

theorem mapGet_perm {α : Type} (m m' : GoMap α) (hperm : m'.Perm m)
    (hnodup : (m.map Prod.fst).Nodup) (k : String) : mapGet m' k = mapGet m k := by
  have hnodup' : (m'.map Prod.fst).Nodup := (hperm.map Prod.fst).nodup_iff.mpr hnodup
  cases hget : mapGet m k with
  | some v =>
    rw [mapGet_eq_some_iff_mem m hnodup] at hget
    rw [mapGet_eq_some_iff_mem m' hnodup']
    exact hperm.mem_iff.mpr hget
  | none =>
    cases hget' : mapGet m' k with
    | none => rfl
    | some v =>
      rw [mapGet_eq_some_iff_mem m' hnodup'] at hget'
      have := (mapGet_eq_some_iff_mem m hnodup k v).mpr (hperm.mem_iff.mp hget')
      rw [hget] at this
      cases this
theorem drop_of_getElem? {α : Type} (l : List α) (i : Nat) (a : α) (h : l[i]? = some a) :
    l.drop i = a :: l.drop (i + 1) := by
  have hi : i < l.length := by
    by_contra hcon
    rw [List.getElem?_eq_none (by omega)] at h
    cases h
  rw [List.getElem?_eq_getElem hi] at h
  injection h with h
  rw [← h]
  exact List.drop_eq_getElem_cons hi

theorem loadSignatures_spec (loc : String) (sigs : List String) :
    ∀ (vals : List String) (i : Nat) (m : GoMap String) (resp : String) (m' : GoMap String)
      (resp' : String),
      loadSignatures loc sigs vals i m resp = some (m', resp') →
      (m.map Prod.fst).Nodup →
      (m'.map Prod.fst).Nodup ∧
        ∀ x, mapGet m' x = (lastSignatureOf vals (sigs.drop i) x).or (mapGet m x) := by
  intro vals
  induction vals with
  | nil =>
    intro i m resp m' resp' h hnodup
    simp only [loadSignatures, Option.some.injEq, Prod.mk.injEq] at h
    obtain ⟨h1, _⟩ := h
    subst h1
    refine ⟨hnodup, fun x => ?_⟩
    simp [lastSignatureOf]
  | cons v rest ih =>
    intro i m resp m' resp' h hnodup
    unfold loadSignatures at h
    split at h
    · cases h
    · rename_i sig hsig
      obtain ⟨hn, hget⟩ := ih (i + 1) _ _ m' resp' h (keys_nodup_mapSet m v sig hnodup)
      refine ⟨hn, fun x => ?_⟩
      rw [hget x, drop_of_getElem? sigs i sig hsig, mapGet_mapSet]
      simp only [lastSignatureOf]
      cases lastSignatureOf rest (List.drop (i + 1) sigs) x with
      | some r => simp
      | none =>
        by_cases hv : v = x
        · simp [hv]
        · simp [hv]

theorem addMissingSignatures_spec (sigs : List String) :
    ∀ (vals : List String) (i : Nat) (m m' : GoMap String),
      addMissingSignatures sigs vals i m = some m' →
      (m.map Prod.fst).Nodup →
      vals.length + i ≤ sigs.length →
      (m'.map Prod.fst).Nodup ∧
        ∀ x, mapGet m' x = (mapGet m x).or (firstSignatureOf vals (sigs.drop i) x) := by
  intro vals
  induction vals with
  | nil =>
    intro i m m' h hnodup _
    simp only [addMissingSignatures, Option.some.injEq] at h
    subst h
    refine ⟨hnodup, fun x => ?_⟩
    simp [firstSignatureOf]
  | cons v rest ih =>
    intro i m m' h hnodup hlen
    have hi : i < sigs.length := by simp at hlen; omega
    have hdrop : sigs.drop i = sigs[i] :: sigs.drop (i + 1) := List.drop_eq_getElem_cons hi
    unfold addMissingSignatures at h
    split at h
    · rename_i hhas
      obtain ⟨hn, hget⟩ := ih (i + 1) m m' h hnodup (by simp at hlen; omega)
      refine ⟨hn, fun x => ?_⟩
      rw [hget x, hdrop]
      simp only [firstSignatureOf]
      by_cases hv : v = x
      · subst hv
        unfold mapHas at hhas
        cases hm : mapGet m v with
        | none => rw [hm] at hhas; cases hhas
        | some r => simp
      · simp [hv]
    · rename_i hhas
      split at h
      · cases h
      · rename_i sig hsig
        have hsig' : sigs[i] = sig := by
          rw [List.getElem?_eq_getElem hi] at hsig
          exact Option.some.inj hsig
        obtain ⟨hn, hget⟩ := ih (i + 1) _ m' h (keys_nodup_mapSet m v sig hnodup)
          (by simp at hlen; omega)
        refine ⟨hn, fun x => ?_⟩
        rw [hget x, hdrop, mapGet_mapSet, hsig']
        simp only [firstSignatureOf]
        by_cases hv : v = x
        · subst hv
          have hm : mapGet m v = none := by
            unfold mapHas at hhas
            cases hm : mapGet m v with
            | none => rfl
            | some r => rw [hm] at hhas; simp at hhas
          simp [hm]
        · simp [hv]
theorem firstSignatureOf_map (l : GoMap String) (x : String) :
    firstSignatureOf (l.map Prod.fst) (l.map Prod.snd) x = mapGet l x := by
  induction l with
  | nil => simp [firstSignatureOf, mapGet]
  | cons e rest ih =>
    obtain ⟨k, v⟩ := e
    simp [firstSignatureOf, mapGet, ih]

theorem withSignatureMap_view (ord : MapOrder) (tx : Transaction) (m : GoMap String)
    (hnodup : (m.map Prod.fst).Nodup) :
    (withSignatureMap ord tx m).validators.Nodup ∧
    (withSignatureMap ord tx m).validators.length = (withSignatureMap ord tx m).signatures.length ∧
    ∀ x, firstSignatureOf (withSignatureMap ord tx m).validators
      (withSignatureMap ord tx m).signatures x = mapGet m x := by
  refine ⟨?_, ?_, ?_⟩
  · exact ((ord.perm m).map Prod.fst).nodup_iff.mpr hnodup
  · simp [withSignatureMap]
  · intro x
    simp only [withSignatureMap]
    rw [firstSignatureOf_map]
    exact mapGet_perm m (ord.iter m) (ord.perm m) hnodup x

theorem mergeSubmission_store_prior (ord : MapOrder) (n : Nat) (loc hashStr : String)
    (prior tx record : Transaction) (response : String)
    (hlen : tx.validators.length = tx.signatures.length)
    (h : mergeSubmission ord n loc hashStr (some prior) tx = MergeResult.store record response) :
    prior.status ≠ TransactionStatus.completed ∧ prior.hash = hashStr ∧
    record.validators.Nodup ∧
    record.validators.length = record.signatures.length ∧
    (∀ x, firstSignatureOf record.validators record.signatures x =
      (lastSignatureOf prior.validators prior.signatures x).or
        (firstSignatureOf tx.validators tx.signatures x)) ∧
    { record with validators := prior.validators, signatures := prior.signatures,
                  status := prior.status } = prior ∧
    (record.status = prior.status ∨ (record.status = TransactionStatus.signed ∧
      record.signatures.length ≥ thresholdA n)) := by
  unfold mergeSubmission at h
  simp only at h
  split at h
  · split at h <;> cases h
  · rename_i hstatus
    split at h
    · cases h
    · rename_i hhash
      split at h
      · cases h
      · rename_i signatures resp hload
        split at h
        · cases h
        · rename_i merged hadd
          obtain ⟨hn1, hget1⟩ := loadSignatures_spec loc prior.signatures prior.validators 0 []
            "" signatures resp hload (by simp)
          obtain ⟨hn2, hget2⟩ := addMissingSignatures_spec tx.signatures tx.validators 0
            signatures merged hadd hn1 (by omega)
          obtain ⟨hv1, hv2, hv3⟩ := withSignatureMap_view ord prior merged hn2
          have hview : ∀ x, mapGet merged x =
              (lastSignatureOf prior.validators prior.signatures x).or
                (firstSignatureOf tx.validators tx.signatures x) := by
            intro x
            rw [hget2 x, hget1 x]
            simp [mapGet]
          injection h with hrec hresp
          refine ⟨hstatus, by simpa using hhash, ?_⟩
          split at hrec
          · rename_i hthr
            subst hrec
            refine ⟨hv1, hv2, fun x => ?_, rfl, Or.inr ⟨rfl, hthr⟩⟩
            exact (hv3 x).trans (hview x)
          · subst hrec
            refine ⟨hv1, hv2, fun x => ?_, rfl, Or.inl rfl⟩
            exact (hv3 x).trans (hview x)
/-! ## Case analysis of `SubmitSignature` -/

theorem ethereumTransferDigest_error (L : Lib) (contract : Bytes) (tx : Transaction)
    (r : HttpResult) (h : ethereumTransferDigest L contract tx = Except.error r) :
    ∃ body, r = HttpResult.response 400 body := by
  unfold ethereumTransferDigest at h
  simp only at h
  repeat' split at h
  all_goals first
    | (injection h with h; exact ⟨_, h.symm⟩)
    | cases h

theorem koinosTransferDigest_error (L : Lib) (contract : Bytes) (tx : Transaction)
    (r : HttpResult) (h : koinosTransferDigest L contract tx = Except.error r) :
    (∃ body, r = HttpResult.response 400 body) ∨ r = HttpResult.panic := by
  unfold koinosTransferDigest at h
  simp only at h
  repeat' split at h
  all_goals first
    | (injection h with h; exact Or.inl ⟨_, h.symm⟩)
    | (injection h with h; exact Or.inr h.symm)
    | cases h

theorem checkKoinosSignatures_some (L : Lib) (api : Api) (hash : Bytes) :
    ∀ (signatures validators : List String) (r : HttpResult),
      checkKoinosSignatures L api hash signatures validators = some r →
      (∃ body, r = HttpResult.response 400 body) ∨ r = HttpResult.panic := by
  intro signatures
  induction signatures with
  | nil => intro validators r h; simp [checkKoinosSignatures] at h
  | cons s rest ih =>
    intro validators r h
    cases validators with
    | nil =>
      simp only [checkKoinosSignatures, Option.some.injEq] at h
      exact Or.inr h.symm
    | cons v vs =>
      unfold checkKoinosSignatures at h
      repeat' split at h
      all_goals first
        | exact ih vs r h
        | (injection h with h; exact Or.inl ⟨_, h.symm⟩)

theorem checkEthereumSignatures_some (L : Lib) (api : Api) (hash : Bytes) :
    ∀ (signatures validators : List String) (r : HttpResult),
      checkEthereumSignatures L api hash signatures validators = some r →
      (∃ body, r = HttpResult.response 400 body) ∨ r = HttpResult.panic := by
  intro signatures
  induction signatures with
  | nil => intro validators r h; simp [checkEthereumSignatures] at h
  | cons s rest ih =>
    intro validators r h
    cases validators with
    | nil =>
      simp only [checkEthereumSignatures, Option.some.injEq] at h
      exact Or.inr h.symm
    | cons v vs =>
      unfold checkEthereumSignatures at h
      repeat' split at h
      all_goals first
        | exact ih vs r h
        | (injection h with h; exact Or.inl ⟨_, h.symm⟩)
        | (injection h with h; exact Or.inr h.symm)

theorem submitEthereum_cases (L : Lib) (ord : MapOrder) (api : Api) (stores : Stores)
    (tx : Transaction) :
    (∃ r, submitEthereum L ord api stores tx = (r, stores) ∧
      ((∃ body, r = HttpResult.response 400 body) ∨ r = HttpResult.panic)) ∨
    (∃ hash hashB64, ethereumChecksPass L api tx hash hashB64 ∧
      ((∃ r, mergeSubmission ord api.validators.length api.koinosAddress hashB64
            (mapGet stores.ethTxStore tx.id) tx = MergeResult.reply r ∧
          submitEthereum L ord api stores tx = (r, stores)) ∨
       (∃ ethTx response, mergeSubmission ord api.validators.length api.koinosAddress hashB64
            (mapGet stores.ethTxStore tx.id) tx = MergeResult.store ethTx response ∧
          submitEthereum L ord api stores tx = (HttpResult.response 200 response,
            { stores with ethTxStore := mapSet stores.ethTxStore ethTx.id ethTx })))) := by
  unfold submitEthereum
  split
  · rename_i r hr
    exact Or.inl ⟨r, rfl, Or.inl (ethereumTransferDigest_error L _ tx r hr)⟩
  · rename_i hash hashB64 hd
    split
    · exact Or.inl ⟨_, rfl, Or.inl ⟨_, rfl⟩⟩
    · rename_i hh
      split
      · exact Or.inl ⟨_, rfl, Or.inl ⟨_, rfl⟩⟩
      · rename_i hl
        split
        · rename_i r hr
          exact Or.inl ⟨r, rfl, checkKoinosSignatures_some L api hash _ _ r hr⟩
        · rename_i hc
          refine Or.inr ⟨hash, hashB64, ⟨hd, by simpa using hh, by simpa using hl, hc⟩, ?_⟩
          split
          · rename_i r hm
            exact Or.inl ⟨r, hm, rfl⟩
          · rename_i ethTx response hm
            exact Or.inr ⟨ethTx, response, hm, rfl⟩

theorem submitKoinos_cases (L : Lib) (ord : MapOrder) (api : Api) (stores : Stores)
    (tx : Transaction) :
    (∃ r, submitKoinos L ord api stores tx = (r, stores) ∧
      ((∃ body, r = HttpResult.response 400 body) ∨ r = HttpResult.panic)) ∨
    (∃ prefixedHash, koinosChecksPass L api tx prefixedHash ∧
      ((∃ r, mergeSubmission ord api.validators.length api.ethAddress (L.hashHex prefixedHash)
            (mapGet stores.koinosTxStore (tx.id ++ "-" ++ tx.opId)) tx = MergeResult.reply r ∧
          submitKoinos L ord api stores tx = (r, stores)) ∨
       (∃ koinosTx response, mergeSubmission ord api.validators.length api.ethAddress
            (L.hashHex prefixedHash)
            (mapGet stores.koinosTxStore (tx.id ++ "-" ++ tx.opId)) tx
              = MergeResult.store koinosTx response ∧
          submitKoinos L ord api stores tx = (HttpResult.response 200 response,
            Stores.mk stores.ethTxStore
              (mapSet stores.koinosTxStore (tx.id ++ "-" ++ tx.opId) koinosTx))))) := by
  unfold submitKoinos
  split
  · rename_i r hr
    exact Or.inl ⟨r, rfl, koinosTransferDigest_error L _ tx r hr⟩
  · rename_i prefixedHash hd
    split
    · exact Or.inl ⟨_, rfl, Or.inl ⟨_, rfl⟩⟩
    · rename_i hh
      split
      · exact Or.inl ⟨_, rfl, Or.inl ⟨_, rfl⟩⟩
      · rename_i hl
        split
        · rename_i r hr
          exact Or.inl ⟨r, rfl, checkEthereumSignatures_some L api prefixedHash _ _ r hr⟩
        · rename_i hc
          refine Or.inr ⟨prefixedHash, ⟨hd, by simpa using hh, by simpa using hl, hc⟩, ?_⟩
          dsimp only
          split
          · rename_i r hm
            exact Or.inl ⟨r, hm, rfl⟩
          · rename_i koinosTx response hm
            exact Or.inr ⟨koinosTx, response, hm, rfl⟩
/-! ## The peer-submission endpoint -/

set_option maxRecDepth 200000

/-- C1 (code defect).  A Koinos transfer submitted by validator `B` in a correctly
signed envelope, with the right digest and one listed validator whose signature
`x` is a one-byte string: the signature does not recover to the validator, yet
`SubmitSignature` does not answer 400, it panics inside
`RecoverEthereumAddressFromSignature`.  The same submission with a well-formed
signature is answered 200. -/
theorem submitSignature_koinos_malformed_signature_panics :
    RecoverEthereumAddressFromSignature sampleLib "x" [55] = GoResult.panic ∧
    SubmitSignature sampleLib insertionOrder sampleApi 0 emptyStores
        (signEnvelope sampleLib [66] (sampleKoinosTransfer ["0xb"] ["x"]) 60000)
      = (HttpResult.panic, emptyStores) ∧
    (SubmitSignature sampleLib insertionOrder sampleApi 0 emptyStores
        (signEnvelope sampleLib [66]
          (sampleKoinosTransfer ["0xb"] [sampleEthereumSignature [98] [55]]) 60000)).1
      = HttpResult.response 200 "" := by
  decide

/-- C4 (code defect).  With three configured validators (six map entries, threshold
3) and no prior record, a submission that lists validator `B` three times, each
time with its valid signature, is stored with status `signed`, although the record
carries signatures of one validator only. -/
theorem submitSignature_signed_by_one_validator :
    SubmitSignature sampleLib insertionOrder sampleApi 0 emptyStores
        (signEnvelope sampleLib [66]
          (sampleEthereumTransfer ["B", "B", "B"] ["BN", "BN", "BN"]) 60000)
      = (HttpResult.response 200 "",
          { ethTxStore :=
              [("0x1", { sampleEthereumTransfer ["B", "B", "B"] ["BN", "BN", "BN"] with
                          status := TransactionStatus.signed })],
            koinosTxStore := [] }) ∧
    thresholdA sampleApi.validators.length = 3 ∧
    (["B", "B", "B"] : List String).dedup.length = 1 ∧
    RecoverKoinosAddressFromSignature sampleLib "BN" [78] = some "B" := by
  decide

/-- C10 (code defect).  Three validators `A`, `B`, `C`; validator `A` processes a
`TokensLocked` event with no prior record and the broadcast returns the valid
signatures of `B` and `C`.  The record finally stored holds three signatures, but
its status is `gathering_signatures`, not `signed`: the merge after the broadcast
compares the number of signatures with `((N/2)*10)/7`, which is 4 for the six map
entries.  This holds for the Ethereum streamer and for the Koinos streamer. -/
theorem lockedEvent_three_validators_not_signed :
    processEthereumTokensLockedEvent sampleLib insertionOrder
        (peersAnswering [("http://b/SubmitSignature", "BN"), ("http://c/SubmitSignature", "CN")])
        0 sampleConfig [] sampleEthereumLog
      = { store := [("0x1", { sampleEthereumTransfer ["B", "C", "A"] ["BN", "CN", "AN"] with
                              status := TransactionStatus.gathering_signatures })],
          panicked := false } ∧
    processKoinosTokensLockedEvent sampleLib insertionOrder
        (peersAnswering [("http://b/SubmitSignature", sampleEthereumSignature [98] [55]),
                         ("http://c/SubmitSignature", sampleEthereumSignature [99] [55])])
        0 sampleConfig [] sampleKoinosEvent
      = { store := [("0x1-1", { sampleKoinosTransfer ["0xb", "0xc", "0xa"]
                                  [sampleEthereumSignature [98] [55],
                                   sampleEthereumSignature [99] [55],
                                   sampleEthereumSignature [97] [55]] with
                                status := TransactionStatus.gathering_signatures })],
          panicked := false } ∧
    RecoverKoinosAddressFromSignature sampleLib "BN" [78] = some "B" ∧
    RecoverKoinosAddressFromSignature sampleLib "CN" [78] = some "C" ∧
    RecoverEthereumAddressFromSignature sampleLib (sampleEthereumSignature [98] [55]) [55]
      = GoResult.ok "0xb" ∧
    RecoverEthereumAddressFromSignature sampleLib (sampleEthereumSignature [99] [55]) [55]
      = GoResult.ok "0xc" ∧
    thresholdC sampleConfig.validators.length = 4 ∧
    thresholdA sampleConfig.validators.length = 3 := by
  decide
theorem checkEnvelope_some (L : Lib) (api : Api) (now : Int) (sub : SubmittedSignature)
    (r : HttpResult) (h : checkEnvelope L api now sub = some r) :
    ∃ body, r = HttpResult.response 400 body := by
  unfold checkEnvelope at h
  simp only at h
  repeat' split at h
  all_goals first
    | (injection h with h; exact ⟨_, h.symm⟩)
    | cases h

theorem submitSignature_writes_only_on_200 (L : Lib) (ord : MapOrder) (api : Api) (now : Int)
    (stores : Stores) (sub : SubmittedSignature) :
    (SubmitSignature L ord api now stores sub).2 = stores ∨
      ∃ body, (SubmitSignature L ord api now stores sub).1 = HttpResult.response 200 body := by
  unfold SubmitSignature
  split
  · exact Or.inl rfl
  · split
    · rcases submitEthereum_cases L ord api stores sub.transaction with
        ⟨r, h, _⟩ | ⟨_, _, _, ⟨r, _, h⟩ | ⟨_, _, _, h⟩⟩
      · exact Or.inl (by rw [h])
      · exact Or.inl (by rw [h])
      · exact Or.inr ⟨_, by rw [h]⟩
    · rcases submitKoinos_cases L ord api stores sub.transaction with
        ⟨r, h, _⟩ | ⟨_, _, ⟨r, _, h⟩ | ⟨_, _, _, h⟩⟩
      · exact Or.inl (by rw [h])
      · exact Or.inl (by rw [h])
      · exact Or.inr ⟨_, by rw [h]⟩

theorem checkKoinosSignatures_some_of_length (L : Lib) (api : Api) (hash : Bytes) :
    ∀ (signatures validators : List String) (r : HttpResult),
      validators.length = signatures.length →
      checkKoinosSignatures L api hash signatures validators = some r →
      ∃ body, r = HttpResult.response 400 body := by
  intro signatures
  induction signatures with
  | nil => intro validators r _ h; simp [checkKoinosSignatures] at h
  | cons s rest ih =>
    intro validators r hlen h
    cases validators with
    | nil => simp at hlen
    | cons v vs =>
      unfold checkKoinosSignatures at h
      repeat' split at h
      all_goals first
        | exact ih vs r (by simpa using hlen) h
        | (injection h with h; exact ⟨_, h.symm⟩)

theorem submitSignature_ethereum_rejects_with_400 (L : Lib) (ord : MapOrder) (api : Api)
    (now : Int) (stores : Stores) (sub : SubmittedSignature)
    (htype : sub.transaction.type = TransactionType.ethereum) :
    (∃ body, SubmitSignature L ord api now stores sub = (HttpResult.response 400 body, stores)) ∨
    (checkEnvelope L api now sub = none ∧
      ∃ hash hashB64, ethereumChecksPass L api sub.transaction hash hashB64) := by
  unfold SubmitSignature
  cases henv : checkEnvelope L api now sub with
  | some r =>
    obtain ⟨body, hb⟩ := checkEnvelope_some L api now sub r henv
    exact Or.inl ⟨body, by rw [hb]⟩
  | none =>
    simp only [htype]
    unfold submitEthereum
    split
    · rename_i r hr
      obtain ⟨body, hb⟩ := ethereumTransferDigest_error L _ _ r hr
      exact Or.inl ⟨body, by rw [hb]⟩
    · rename_i hash hashB64 hd
      split
      · exact Or.inl ⟨_, rfl⟩
      · rename_i hh
        split
        · exact Or.inl ⟨_, rfl⟩
        · rename_i hl
          split
          · rename_i r hr
            obtain ⟨body, hb⟩ := checkKoinosSignatures_some_of_length L api hash _ _ r
              (by simpa using hl) hr
            exact Or.inl ⟨body, by rw [hb]⟩
          · rename_i hc
            exact Or.inr ⟨trivial, hash, hashB64, hd, by simpa using hh, by simpa using hl, hc⟩

/-- C2.  Whenever `SubmitSignature` answers with a status code other than 200, both
transfer stores are exactly as they were before the request. -/
theorem submitSignature_rejection_atomic (L : Lib) (ord : MapOrder) (api : Api) (now : Int)
    (stores : Stores) (sub : SubmittedSignature) (code : Nat) (body : String)
    (hanswer : (SubmitSignature L ord api now stores sub).1 = HttpResult.response code body)
    (hcode : code ≠ 200) :
    (SubmitSignature L ord api now stores sub).2 = stores := by
  rcases submitSignature_writes_only_on_200 L ord api now stores sub with h | ⟨b, hb⟩
  · exact h
  · rw [hb] at hanswer
    injection hanswer with h1 h2
    exact absurd h1.symm hcode

/-- Witness of C2: a correctly signed envelope around the sample transfer with its
hash altered from `N` to `M` is answered 400 and the store, which holds the record
committed by validator `A`, is unchanged. -/
theorem submitSignature_rejection_atomic_witness :
    (SubmitSignature sampleLib insertionOrder sampleApi 0
        { ethTxStore := [("0x1", sampleEthereumTransfer ["A"] ["AN"])], koinosTxStore := [] }
        (signEnvelope sampleLib [66]
          { sampleEthereumTransfer ["B"] ["BN"] with hash := "M" } 60000)).2
      = { ethTxStore := [("0x1", sampleEthereumTransfer ["A"] ["AN"])], koinosTxStore := [] } :=
  submitSignature_rejection_atomic sampleLib insertionOrder sampleApi 0
    { ethTxStore := [("0x1", sampleEthereumTransfer ["A"] ["AN"])], koinosTxStore := [] }
    (signEnvelope sampleLib [66] { sampleEthereumTransfer ["B"] ["BN"] with hash := "M" } 60000)
    400 "the calulated hash for tx 0x1 is different than the one received M != calculated N"
    (by decide) (by decide)

/-- C8.  When `SubmitSignature` answers 200 to a submission for a key whose prior
record exists and is not completed, the prior record has the hash of the submission
and the record written is the prior record with new `validators`, `signatures` and
`status` only; the new arrays are parallel, list no validator twice, and give each
validator the signature the prior record held for it, or else, for a validator the
prior record did not list, the signature of the submission. -/
theorem submitSignature_merge_union (L : Lib) (ord : MapOrder) (api : Api) (now : Int)
    (stores stores' : Stores) (sub : SubmittedSignature) (prior : Transaction) (body : String)
    (hprior : mapGet (transferStore stores sub.transaction.type)
      (submissionKey sub.transaction) = some prior)
    (hstatus : prior.status ≠ TransactionStatus.completed)
    (haccept : SubmitSignature L ord api now stores sub = (HttpResult.response 200 body, stores')) :
    ∃ stored : Transaction,
      stores' = (match sub.transaction.type with
        | TransactionType.ethereum =>
          Stores.mk (mapSet stores.ethTxStore prior.id stored) stores.koinosTxStore
        | TransactionType.koinos =>
          Stores.mk stores.ethTxStore
            (mapSet stores.koinosTxStore (submissionKey sub.transaction) stored)) ∧
      prior.hash = sub.transaction.hash ∧
      stored.validators.Nodup ∧
      stored.validators.length = stored.signatures.length ∧
      (∀ x, firstSignatureOf stored.validators stored.signatures x =
        (lastSignatureOf prior.validators prior.signatures x).or
          (firstSignatureOf sub.transaction.validators sub.transaction.signatures x)) ∧
      { stored with validators := prior.validators, signatures := prior.signatures,
                    status := prior.status } = prior := by
  unfold SubmitSignature at haccept
  split at haccept
  · rename_i r hr
    obtain ⟨b, hb⟩ := checkEnvelope_some L api now sub r hr
    injection haccept with h1 _
    rw [hb] at h1
    injection h1 with h1 _
    cases h1
  · split at haccept
    · rename_i htype
      simp only [htype, transferStore, submissionKey] at hprior ⊢
      rcases submitEthereum_cases L ord api stores sub.transaction with
        ⟨r, h, hr⟩ | ⟨hash, hashB64, hpass, ⟨r, hm, h⟩ | ⟨ethTx, response, hm, h⟩⟩
      · rw [h] at haccept
        injection haccept with h1 _
        rcases hr with ⟨b, hb⟩ | hb
        · rw [hb] at h1; injection h1 with h1 _; cases h1
        · rw [hb] at h1; cases h1
      · rw [hprior] at hm
        unfold mergeSubmission at hm
        simp only [hstatus, if_false] at hm
        rw [h] at haccept
        injection haccept with h1 _
        repeat' split at hm
        all_goals first
          | (injection hm with hm; rw [← hm] at h1; first | (injection h1 with h1 _; cases h1) | cases h1)
          | cases hm
      · rw [hprior] at hm
        obtain ⟨_, hh, hnd, hl, hu, hf, _⟩ := mergeSubmission_store_prior ord _ _ _ prior
          sub.transaction ethTx response hpass.2.2.1 hm
        rw [h] at haccept
        injection haccept with _ h2
        have hid : ethTx.id = prior.id := by rw [← hf]
        refine ⟨ethTx, ?_, hh.trans hpass.2.1, hnd, hl, hu, hf⟩
        rw [← h2, hid]
    · rename_i htype
      simp only [htype, transferStore, submissionKey] at hprior ⊢
      rcases submitKoinos_cases L ord api stores sub.transaction with
        ⟨r, h, hr⟩ | ⟨prefixedHash, hpass, ⟨r, hm, h⟩ | ⟨koinosTx, response, hm, h⟩⟩
      · rw [h] at haccept
        injection haccept with h1 _
        rcases hr with ⟨b, hb⟩ | hb
        · rw [hb] at h1; injection h1 with h1 _; cases h1
        · rw [hb] at h1; cases h1
      · rw [hprior] at hm
        unfold mergeSubmission at hm
        simp only [hstatus, if_false] at hm
        rw [h] at haccept
        injection haccept with h1 _
        repeat' split at hm
        all_goals first
          | (injection hm with hm; rw [← hm] at h1; first | (injection h1 with h1 _; cases h1) | cases h1)
          | cases hm
      · rw [hprior] at hm
        obtain ⟨_, hh, hnd, hl, hu, hf, _⟩ := mergeSubmission_store_prior ord _ _ _ prior
          sub.transaction koinosTx response hpass.2.2.1 hm
        rw [h] at haccept
        injection haccept with _ h2
        refine ⟨koinosTx, ?_, hh.trans hpass.2.1, hnd, hl, hu, hf⟩
        rw [← h2]
/-- Witness of C8: the store holds the record committed by validator `A` and
validator `B` submits the same transfer with its own signature; the record written
lists `A` with the stored signature and `B` with the submitted one. -/
theorem submitSignature_merge_union_witness :
    ∃ stored : Transaction,
      stored.validators.Nodup ∧
      firstSignatureOf stored.validators stored.signatures "A" = some "AN" ∧
      firstSignatureOf stored.validators stored.signatures "B" = some "BN" ∧
      stored.hash = "N" := by
  obtain ⟨stored, _, _, hnodup, _, hunion, hframe⟩ :=
    submitSignature_merge_union sampleLib insertionOrder sampleApi 0
      { ethTxStore := [("0x1", sampleEthereumTransfer ["A"] ["AN"])], koinosTxStore := [] }
      { ethTxStore := [("0x1", sampleEthereumTransfer ["A", "B"] ["AN", "BN"])],
        koinosTxStore := [] }
      (signEnvelope sampleLib [66] (sampleEthereumTransfer ["B"] ["BN"]) 60000)
      (sampleEthereumTransfer ["A"] ["AN"]) "AN" (by decide) (by decide) (by decide)
  refine ⟨stored, hnodup, ?_, ?_, ?_⟩
  · rw [hunion]; decide
  · rw [hunion]; decide
  · have h := congrArg Transaction.hash hframe
    exact h

/-! ## The threshold -/

/-- C9.  The threshold `((((N/2)*10)/3)*2)/10 + 1` equals `⌊2·⌊N/2⌋/3⌋ + 1` for
every `N`; three times the threshold exceeds twice `⌊N/2⌋`; and the threshold is at
most `⌊N/2⌋` whenever `⌊N/2⌋ ≥ 1`. -/
theorem thresholdA_strict_supermajority (n : Nat) :
    thresholdA n = 2 * (n / 2) / 3 + 1 ∧ 3 * thresholdA n > 2 * (n / 2) ∧
      (1 ≤ n / 2 → thresholdA n ≤ n / 2) := by
  unfold thresholdA
  omega

/-- Witness of C9 at the six entries of the sample validators map: the threshold is
3, the number of validators. -/
theorem thresholdA_strict_supermajority_witness :
    1 ≤ sampleValidators.length / 2 ∧
      thresholdA sampleValidators.length ≤ sampleValidators.length / 2 :=
  ⟨by decide, (thresholdA_strict_supermajority sampleValidators.length).2.2 (by decide)⟩

theorem thresholdC_exceeds_validator_count (v : Nat) (hv : 3 ≤ v) : v < thresholdC (2 * v) := by
  unfold thresholdC
  omega
/-! ## Stability of `completed` -/

theorem completedAt_mapSet (store : GoMap Transaction) (k key : String) (r : Transaction)
    (hkeep : ∀ old, mapGet store k = some old → old.status = TransactionStatus.completed →
      r.status = TransactionStatus.completed)
    (h : completedAt store key) : completedAt (mapSet store k r) key := by
  obtain ⟨tx, hget, hst⟩ := h
  by_cases hk : k = key
  · subst hk
    exact ⟨r, mapGet_mapSet_self store k r, hkeep tx hget hst⟩
  · exact ⟨tx, by rw [mapGet_mapSet_ne store k key r hk]; exact hget, hst⟩

theorem keyedById_mapSet (store : GoMap Transaction) (k : String) (r : Transaction)
    (hstore : keyedById store)
    (hr : r.status = TransactionStatus.completed ∨ r.id = k) :
    keyedById (mapSet store k r) := by
  intro key tx hget
  rw [mapGet_mapSet] at hget
  split at hget
  · rename_i hk
    injection hget with hget
    subst hget
    subst hk
    exact hr
  · exact hstore key tx hget

theorem ethereumLockedRecord_eq (L : Lib) (cfg : StreamerConfig) (prior : Option Transaction)
    (ev : EthereumTokensLockedLog) (r : Transaction)
    (h : ethereumLockedRecord L cfg prior ev = some r) :
    ∃ koinosToken recipient relayer completeTransferHashBytes,
      L.base58Decode (tokenConfig cfg.tokenAddresses (L.addressHex ev.token)).koinosAddress
        = some koinosToken ∧
      L.base58Decode ev.recipient = some recipient ∧
      L.base58Decode ev.relayer = some relayer ∧
      L.marshalCompleteTransferHash
        { action := L.completeTransferAction, transactionId := ev.txHash,
          token := koinosToken, recipient := recipient, relayer := relayer,
          amount := ev.amount % 2 ^ 64, payment := ev.payment % 2 ^ 64,
          contractId := cfg.koinosContractAddr, metadata := ev.metadata,
          expiration := addU64 (ev.blocktime % 2 ^ 64) cfg.signaturesExpiration,
          chain := ev.chain } = some completeTransferHashBytes ∧
      (∀ p, prior = some p →
        p.hash = "" ∨ p.hash = L.base64Encode (L.sha256 completeTransferHashBytes)) ∧
      r = { lockedBase prior cfg.koinosAddress
              (L.base64Encode (SignKoinosHash L cfg.koinosPK
                (L.sha256 completeTransferHashBytes))) with
            type := TransactionType.ethereum
            id := L.hashHex ev.txHash
            sender := L.addressHex ev.sender
            ethToken := L.addressHex ev.token
            koinosToken := (tokenConfig cfg.tokenAddresses (L.addressHex ev.token)).koinosAddress
            amount := toString ev.amount
            payment := toString ev.payment
            recipient := ev.recipient
            relayer := ev.relayer
            hash := L.base64Encode (L.sha256 completeTransferHashBytes)
            metadata := ev.metadata
            blockNumber := ev.blockNumber
            blockTime := ev.blocktime % 2 ^ 64
            expiration := addU64 (ev.blocktime % 2 ^ 64) cfg.signaturesExpiration
            toChain := toString ev.chain
            status := lockedStatus prior } := by
  cases prior with
  | none =>
    unfold ethereumLockedRecord at h
    simp only at h
    split at h
    · cases h
    · rename_i koinosToken hk
      split at h
      · cases h
      · rename_i recipient hr
        split at h
        · cases h
        · rename_i relayer hl
          split at h
          · cases h
          · rename_i bytes hb
            refine ⟨koinosToken, recipient, relayer, bytes, hk, hr, hl, hb, ?_, ?_⟩
            · intro p hp
              cases hp
            · injection h with h
              subst h
              simp [lockedBase, lockedStatus]
  | some p =>
    unfold ethereumLockedRecord at h
    simp only at h
    split at h
    · cases h
    · rename_i koinosToken hk
      split at h
      · cases h
      · rename_i recipient hr
        split at h
        · cases h
        · rename_i relayer hl
          split at h
          · cases h
          · rename_i bytes hb
            split at h
            · cases h
            · rename_i hh
              refine ⟨koinosToken, recipient, relayer, bytes, hk, hr, hl, hb, ?_, ?_⟩
              · intro q hq
                injection hq with hq
                subst hq
                by_cases h1 : p.hash = ""
                · exact Or.inl h1
                · right
                  by_contra h2
                  exact hh ⟨h1, h2⟩
              · injection h with h
                subst h
                rfl
theorem koinosLockedRecord_eq (L : Lib) (cfg : StreamerConfig) (prior : Option Transaction)
    (ev : KoinosTokensLockedEvent) (r : Transaction)
    (h : koinosLockedRecord L cfg prior ev = some r) :
    ∃ hash prefixedHash sigBytes,
      GenerateEthereumCompleteTransferHash L ev.receiptId ev.sequence
        (L.hexToAddress
          (tokenConfig cfg.tokenAddresses (L.base58Encode ev.token)).ethereumAddress)
        (L.hexToAddress ev.recipient) (L.hexToAddress ev.relayer) ev.payment ev.amount
        cfg.ethereumContractAddr ev.metadata (addU64 ev.timestamp cfg.signaturesExpiration)
        ev.chainId = some (hash, prefixedHash) ∧
      SignEthereumHash L cfg.ethereumPK prefixedHash = some sigBytes ∧
      (∀ p, prior = some p → p.hash = "" ∨ p.hash = L.hashHex prefixedHash) ∧
      r = { lockedBase prior cfg.ethereumAddress ("0x" ++ L.bytes2Hex sigBytes) with
            type := TransactionType.koinos
            id := "0x" ++ L.bytes2Hex ev.receiptId
            opId := toString ev.sequence
            sender := L.base58Encode ev.sender
            ethToken := (tokenConfig cfg.tokenAddresses (L.base58Encode ev.token)).ethereumAddress
            koinosToken := L.base58Encode ev.token
            amount := ev.amount
            payment := ev.payment
            recipient := L.addressHex (L.hexToAddress ev.recipient)
            relayer := L.addressHex (L.hexToAddress ev.relayer)
            hash := L.hashHex prefixedHash
            blockNumber := ev.blockHeight
            metadata := ev.metadata
            blockTime := ev.timestamp
            expiration := addU64 ev.timestamp cfg.signaturesExpiration
            toChain := toString ev.chainId
            status := lockedStatus prior } := by
  cases prior with
  | none =>
    unfold koinosLockedRecord at h
    simp only at h
    split at h
    · cases h
    · rename_i hash prefixedHash hg
      split at h
      · cases h
      · rename_i sigBytes hs
        refine ⟨hash, prefixedHash, sigBytes, hg, hs, ?_, ?_⟩
        · intro p hp
          cases hp
        · injection h with h
          subst h
          simp [lockedBase, lockedStatus]
  | some p =>
    unfold koinosLockedRecord at h
    simp only at h
    split at h
    · cases h
    · rename_i hash prefixedHash hg
      split at h
      · cases h
      · rename_i sigBytes hs
        split at h
        · cases h
        · rename_i hh
          refine ⟨hash, prefixedHash, sigBytes, hg, hs, ?_, ?_⟩
          · intro q hq
            injection hq with hq
            subst hq
            by_cases h1 : p.hash = ""
            · exact Or.inl h1
            · right
              by_contra h2
              exact hh ⟨h1, h2⟩
          · injection h with h
            subst h
            rfl

theorem mergeBroadcast_eq (ord : MapOrder) (threshold : Nat) (store store' : GoMap Transaction)
    (key : String) (signatures : Option (GoMap String))
    (h : mergeBroadcast ord threshold store key signatures = some store') :
    ∃ tx m,
      mapGet store key = some tx ∧
      (match signatures with
        | some s => addMissingSignatures tx.signatures tx.validators 0 s
        | none => if tx.validators = [] then some [] else none) = some m ∧
      store' = mapSet store key
        (if (withSignatureMap ord tx m).status ≠ TransactionStatus.completed ∧
            (withSignatureMap ord tx m).signatures.length ≥ threshold then
          { withSignatureMap ord tx m with status := TransactionStatus.signed }
         else withSignatureMap ord tx m) := by
  unfold mergeBroadcast at h
  split at h
  · cases h
  · rename_i tx htx
    simp only at h
    split at h
    · cases h
    · rename_i m hm
      injection h with h
      exact ⟨tx, m, htx, hm, h.symm⟩

theorem mergeSubmission_none (ord : MapOrder) (n : Nat) (loc hashStr : String)
    (tx : Transaction) :
    mergeSubmission ord n loc hashStr none tx =
      MergeResult.store
        (if tx.signatures.length ≥ thresholdA n then
          { tx with status := TransactionStatus.signed } else tx) "" := by
  simp [mergeSubmission]

theorem mergeSubmission_completed (ord : MapOrder) (n : Nat) (loc hashStr : String)
    (prior tx : Transaction) (hst : prior.status = TransactionStatus.completed) :
    ∃ r, mergeSubmission ord n loc hashStr (some prior) tx = MergeResult.reply r := by
  unfold mergeSubmission
  simp only [hst, if_true]
  split
  · exact ⟨_, rfl⟩
  · exact ⟨_, rfl⟩

theorem ethereumResignRecord_stored (L : Lib) (ord : MapOrder) (cfg : StreamerConfig)
    (prior : Option Transaction) (blocktime : Nat) (r : Transaction)
    (h : ethereumResignRecord L ord cfg prior blocktime = ResignStep.stored r) :
    ∃ p koinosToken recipient relayer amount payment chain completeTransferHashBytes
        newSignatures,
      prior = some p ∧ p.status ≠ TransactionStatus.completed ∧
      blocktime ≥ addU64 p.expiration cfg.signaturesExpiration ∧
      L.base58Decode p.koinosToken = some koinosToken ∧
      L.base58Decode p.recipient = some recipient ∧
      L.base58Decode p.relayer = some relayer ∧
      L.parseUint p.amount 64 = some amount ∧
      L.parseUint p.payment 64 = some payment ∧
      L.parseUint p.toChain 32 = some chain ∧
      L.marshalCompleteTransferHash
        { action := L.completeTransferAction, transactionId := L.fromHex p.id,
          token := koinosToken, recipient := recipient, relayer := relayer,
          amount := amount, payment := payment,
          contractId := cfg.koinosContractAddr, metadata := p.metadata,
          expiration := addU64 blocktime cfg.signaturesExpiration,
          chain := chain % 2 ^ 32 } = some completeTransferHashBytes ∧
      keepMatchingKoinosSignatures L (L.sha256 completeTransferHashBytes) p.signatures
        p.validators 0
        [(cfg.koinosAddress, L.base64Encode (SignKoinosHash L cfg.koinosPK
          (L.sha256 completeTransferHashBytes)))] = some newSignatures ∧
      r = { withSignatureMap ord
              { p with expiration := addU64 blocktime cfg.signaturesExpiration,
                       hash := L.base64Encode (L.sha256 completeTransferHashBytes) }
              newSignatures with
            status :=
              if newSignatures.length ≥ thresholdA cfg.validators.length then
                TransactionStatus.signed
              else TransactionStatus.gathering_signatures } := by
  unfold ethereumResignRecord at h
  simp only at h
  split at h
  · cases h
  · rename_i p
    split at h
    · cases h
    · rename_i hst
      split at h
      · rename_i hgate
        split at h
        · cases h
        · rename_i koinosToken hk
          split at h
          · cases h
          · rename_i recipient hr
            split at h
            · cases h
            · rename_i relayer hl
              split at h
              · cases h
              · rename_i amount ha
                split at h
                · cases h
                · rename_i payment hp
                  split at h
                  · cases h
                  · rename_i chain hc
                    split at h
                    · cases h
                    · rename_i bytes hb
                      split at h
                      · cases h
                      · rename_i newSignatures hn
                        injection h with h
                        refine ⟨p, koinosToken, recipient, relayer, amount, payment, chain,
                          bytes, newSignatures, rfl, hst, hgate, hk, hr, hl, ha, hp, hc, hb,
                          hn, ?_⟩
                        subst h
                        have hlen : ((ord.iter newSignatures).map Prod.snd).length
                            = newSignatures.length := by
                          rw [List.length_map]
                          exact (ord.perm newSignatures).length_eq
                        simp [withSignatureMap, hlen]
      · cases h
theorem koinosResignRecord_stored (L : Lib) (ord : MapOrder) (cfg : StreamerConfig)
    (prior : Option Transaction) (blocktime : Nat) (r : Transaction)
    (h : koinosResignRecord L ord cfg prior blocktime = ResignStep.stored r) :
    ∃ p opId chain hash prefixedHash sigBytes newSignatures,
      prior = some p ∧ p.status ≠ TransactionStatus.completed ∧
      blocktime ≥ addU64 p.expiration cfg.signaturesExpiration ∧
      L.parseUint p.opId 64 = some opId ∧
      L.parseUint p.toChain 64 = some chain ∧
      GenerateEthereumCompleteTransferHash L (L.fromHex p.id) opId (L.hexToAddress p.ethToken)
        (L.hexToAddress p.recipient) (L.hexToAddress p.relayer) p.payment p.amount
        cfg.ethereumContractAddr p.metadata (addU64 blocktime cfg.signaturesExpiration) chain
        = some (hash, prefixedHash) ∧
      SignEthereumHash L cfg.ethereumPK prefixedHash = some sigBytes ∧
      keepMatchingEthereumSignatures L prefixedHash p.signatures p.validators 0
        [(cfg.ethereumAddress, "0x" ++ L.bytes2Hex sigBytes)] = some newSignatures ∧
      r = { withSignatureMap ord
              { p with expiration := addU64 blocktime cfg.signaturesExpiration,
                       hash := L.hashHex prefixedHash }
              newSignatures with
            status :=
              if newSignatures.length ≥ thresholdB cfg.validators.length then
                TransactionStatus.signed
              else TransactionStatus.gathering_signatures } := by
  unfold koinosResignRecord at h
  simp only at h
  split at h
  · cases h
  · rename_i p
    split at h
    · cases h
    · rename_i hst
      split at h
      · rename_i hgate
        split at h
        · cases h
        · rename_i opId ho
          split at h
          · cases h
          · rename_i chain hc
            split at h
            · cases h
            · rename_i hash prefixedHash hg
              split at h
              · cases h
              · rename_i sigBytes hs
                split at h
                · cases h
                · rename_i newSignatures hn
                  injection h with h
                  refine ⟨p, opId, chain, hash, prefixedHash, sigBytes, newSignatures, rfl,
                    hst, hgate, ho, hc, hg, hs, hn, ?_⟩
                  subst h
                  have hlen : ((ord.iter newSignatures).map Prod.snd).length
                      = newSignatures.length := by
                    rw [List.length_map]
                    exact (ord.perm newSignatures).length_eq
                  simp [withSignatureMap, hlen]
      · cases h

/-- A store step that keeps completed records completed and non-completed records
of the Ethereum store under their own id. -/
theorem mergeBroadcast_preserves (ord : MapOrder) (threshold : Nat)
    (store store' : GoMap Transaction) (key : String) (signatures : Option (GoMap String))
    (h : mergeBroadcast ord threshold store key signatures = some store') :
    (keyedById store → keyedById store') ∧
    (∀ k, completedAt store k → completedAt store' k) := by
  obtain ⟨tx, m, htx, _, hs⟩ := mergeBroadcast_eq ord threshold store store' key signatures h
  subst hs
  constructor
  · intro hk
    apply keyedById_mapSet store key _ hk
    rcases hk key tx htx with h1 | h1
    · left
      simp [withSignatureMap, h1]
    · right
      split <;> simpa [withSignatureMap] using h1
  · intro k hc
    apply completedAt_mapSet store key k _ _ hc
    intro old hold hst
    rw [htx] at hold
    injection hold with hold
    subst hold
    simp [withSignatureMap, hst]
theorem ethereumLockedRecord_status (L : Lib) (cfg : StreamerConfig)
    (prior : Option Transaction) (ev : EthereumTokensLockedLog) (r : Transaction)
    (h : ethereumLockedRecord L cfg prior ev = some r) :
    r.id = L.hashHex ev.txHash ∧
    ∀ p, prior = some p → p.status = TransactionStatus.completed →
      r.status = TransactionStatus.completed ∧
      r.completionTransactionId = p.completionTransactionId := by
  obtain ⟨_, _, _, _, _, _, _, _, _, hrec⟩ := ethereumLockedRecord_eq L cfg prior ev r h
  cases prior with
  | none =>
    subst hrec
    exact ⟨rfl, fun p hp => by cases hp⟩
  | some q =>
    subst hrec
    refine ⟨rfl, fun p hp hst => ?_⟩
    injection hp with hp
    subst hp
    simp [hst, lockedBase, lockedStatus]

theorem koinosLockedRecord_status (L : Lib) (cfg : StreamerConfig)
    (prior : Option Transaction) (ev : KoinosTokensLockedEvent) (r : Transaction)
    (h : koinosLockedRecord L cfg prior ev = some r) :
    ∀ p, prior = some p → p.status = TransactionStatus.completed →
      r.status = TransactionStatus.completed ∧
      r.completionTransactionId = p.completionTransactionId := by
  obtain ⟨_, _, _, _, _, _, hrec⟩ := koinosLockedRecord_eq L cfg prior ev r h
  cases prior with
  | none =>
    subst hrec
    exact fun p hp => by cases hp
  | some q =>
    subst hrec
    intro p hp hst
    injection hp with hp
    subst hp
    simp [hst, lockedBase, lockedStatus]

theorem commitEthereumLocked_preserves (L : Lib) (cfg : StreamerConfig)
    (store : GoMap Transaction) (ev : EthereumTokensLockedLog) :
    (keyedById store → keyedById (commitEthereumLocked L cfg store ev)) ∧
    (∀ k, completedAt store k → completedAt (commitEthereumLocked L cfg store ev) k) := by
  unfold commitEthereumLocked
  split
  · exact ⟨id, fun _ h => h⟩
  · rename_i r hr
    obtain ⟨hid, hkeep⟩ := ethereumLockedRecord_status L cfg _ ev r hr
    constructor
    · intro hk
      exact keyedById_mapSet store _ _ hk (Or.inr hid)
    · intro k hc
      apply completedAt_mapSet store _ k _ _ hc
      intro old hold hst
      exact (hkeep old hold hst).1

theorem commitKoinosLocked_preserves (L : Lib) (cfg : StreamerConfig)
    (store : GoMap Transaction) (ev : KoinosTokensLockedEvent) :
    ∀ k, completedAt store k → completedAt (commitKoinosLocked L cfg store ev) k := by
  unfold commitKoinosLocked
  split
  · exact fun _ h => h
  · rename_i r hr
    have hkeep := koinosLockedRecord_status L cfg _ ev r hr
    intro k hc
    apply completedAt_mapSet store _ k _ _ hc
    intro old hold hst
    exact (hkeep old hold hst).1

theorem commitEthereumResign_preserves (L : Lib) (ord : MapOrder) (cfg : StreamerConfig)
    (store : GoMap Transaction) (ev : EthereumRequestNewSignaturesLog) :
    (keyedById store → keyedById (commitEthereumResign L ord cfg store ev)) ∧
    (∀ k, completedAt store k → completedAt (commitEthereumResign L ord cfg store ev) k) := by
  unfold commitEthereumResign
  split
  · rename_i r hr
    obtain ⟨p, _, _, _, _, _, _, _, _, hp, hst, _, _, _, _, _, _, _, _, _, hrec⟩ :=
      ethereumResignRecord_stored L ord cfg _ _ r hr
    constructor
    · intro hk
      apply keyedById_mapSet store _ _ hk
      right
      rcases hk _ p hp with h1 | h1
      · exact absurd h1 hst
      · rw [hrec]
        simpa [withSignatureMap] using h1
    · intro k hc
      apply completedAt_mapSet store _ k _ _ hc
      intro old hold hold'
      rw [hp] at hold
      injection hold with hold
      subst hold
      exact absurd hold' hst
  · exact ⟨id, fun _ h => h⟩

theorem commitKoinosResign_preserves (L : Lib) (ord : MapOrder) (cfg : StreamerConfig)
    (store : GoMap Transaction) (ev : KoinosRequestNewSignaturesEvent) :
    ∀ k, completedAt store k → completedAt (commitKoinosResign L ord cfg store ev) k := by
  unfold commitKoinosResign
  split
  · rename_i r hr
    obtain ⟨p, _, _, _, _, _, _, hp, hst, _⟩ := koinosResignRecord_stored L ord cfg _ _ r hr
    intro k hc
    apply completedAt_mapSet store _ k _ _ hc
    intro old hold hold'
    rw [hp] at hold
    injection hold with hold
    subst hold
    exact absurd hold' hst
  · exact fun _ h => h

theorem completedRecord_preserves (store : GoMap Transaction) (kind : TransactionType)
    (key completionId : String) :
    keyedById store →
      keyedById (mapSet store key (completedRecord kind (mapGet store key) completionId)) := by
  intro hk
  exact keyedById_mapSet store key _ hk (Or.inl rfl)

theorem completedRecord_keeps (store : GoMap Transaction) (kind : TransactionType)
    (key completionId : String) :
    ∀ k, completedAt store k →
      completedAt (mapSet store key (completedRecord kind (mapGet store key) completionId)) k := by
  intro k hc
  exact completedAt_mapSet store key k _ (fun _ _ _ => rfl) hc

theorem processEthereumTokensLockedEvent_store (L : Lib) (ord : MapOrder) (net : Network)
    (now : Int) (cfg : StreamerConfig) (store : GoMap Transaction)
    (ev : EthereumTokensLockedLog) :
    (processEthereumTokensLockedEvent L ord net now cfg store ev).store
        = commitEthereumLocked L cfg store ev ∨
    ∃ signatures, mergeBroadcast ord (thresholdC cfg.validators.length)
        (commitEthereumLocked L cfg store ev) (L.hashHex ev.txHash) signatures
      = some (processEthereumTokensLockedEvent L ord net now cfg store ev).store := by
  unfold processEthereumTokensLockedEvent commitEthereumLocked
  simp only
  split
  · exact Or.inl rfl
  · split
    · exact Or.inl rfl
    · rename_i merged hm
      exact Or.inr ⟨_, hm⟩

theorem processKoinosTokensLockedEvent_store (L : Lib) (ord : MapOrder) (net : Network)
    (now : Int) (cfg : StreamerConfig) (store : GoMap Transaction)
    (ev : KoinosTokensLockedEvent) :
    (processKoinosTokensLockedEvent L ord net now cfg store ev).store
        = commitKoinosLocked L cfg store ev ∨
    ∃ signatures, mergeBroadcast ord (thresholdC cfg.validators.length)
        (commitKoinosLocked L cfg store ev)
        ("0x" ++ L.bytes2Hex ev.receiptId ++ "-" ++ toString ev.sequence) signatures
      = some (processKoinosTokensLockedEvent L ord net now cfg store ev).store := by
  unfold processKoinosTokensLockedEvent commitKoinosLocked
  simp only
  split
  · exact Or.inl rfl
  · split
    · exact Or.inl rfl
    · rename_i merged hm
      exact Or.inr ⟨_, hm⟩

theorem processEthereumRequestNewSignaturesEvent_store (L : Lib) (ord : MapOrder)
    (net : Network) (now : Int) (cfg : StreamerConfig) (store : GoMap Transaction)
    (ev : EthereumRequestNewSignaturesLog) :
    (processEthereumRequestNewSignaturesEvent L ord net now cfg store ev).store
        = commitEthereumResign L ord cfg store ev ∨
    ∃ signatures, mergeBroadcast ord (thresholdB cfg.validators.length)
        (commitEthereumResign L ord cfg store ev) ("0x" ++ L.bytes2Hex ev.txId) signatures
      = some (processEthereumRequestNewSignaturesEvent L ord net now cfg store ev).store := by
  unfold processEthereumRequestNewSignaturesEvent commitEthereumResign
  simp only
  cases hrec : ethereumResignRecord L ord cfg (mapGet store ("0x" ++ L.bytes2Hex ev.txId))
      (ev.blocktime % 2 ^ 64) with
  | skipped => exact Or.inl rfl
  | panicked => exact Or.inl rfl
  | stored r =>
    simp only
    split
    · exact Or.inl rfl
    · rename_i merged hm
      exact Or.inr ⟨_, hm⟩

theorem processRequestNewSignaturesEvent_store (L : Lib) (ord : MapOrder)
    (net : Network) (now : Int) (cfg : StreamerConfig) (store : GoMap Transaction)
    (ev : KoinosRequestNewSignaturesEvent) :
    (processRequestNewSignaturesEvent L ord net now cfg store ev).store
        = commitKoinosResign L ord cfg store ev ∨
    ∃ signatures, mergeBroadcast ord (thresholdA cfg.validators.length)
        (commitKoinosResign L ord cfg store ev) (koinosResignKey store ev) signatures
      = some (processRequestNewSignaturesEvent L ord net now cfg store ev).store := by
  unfold processRequestNewSignaturesEvent commitKoinosResign
  simp only
  cases hrec : koinosResignRecord L ord cfg (mapGet store (koinosResignKey store ev))
      ev.timestamp with
  | skipped => exact Or.inl rfl
  | panicked => exact Or.inl rfl
  | stored r =>
    simp only
    split
    · exact Or.inl rfl
    · rename_i merged hm
      exact Or.inr ⟨_, hm⟩
theorem submitSignature_preserves (L : Lib) (ord : MapOrder) (api : Api) (now : Int)
    (stores : Stores) (sub : SubmittedSignature) :
    (keyedById stores.ethTxStore →
      keyedById (SubmitSignature L ord api now stores sub).2.ethTxStore) ∧
    (keyedById stores.ethTxStore → ∀ k, completedAt stores.ethTxStore k →
      completedAt (SubmitSignature L ord api now stores sub).2.ethTxStore k) ∧
    (∀ k, completedAt stores.koinosTxStore k →
      completedAt (SubmitSignature L ord api now stores sub).2.koinosTxStore k) := by
  unfold SubmitSignature
  split
  · exact ⟨id, fun _ _ h => h, fun _ h => h⟩
  · split
    · rcases submitEthereum_cases L ord api stores sub.transaction with
        ⟨r, h, _⟩ | ⟨hash, hashB64, hpass, ⟨r, _, h⟩ | ⟨ethTx, response, hm, h⟩⟩
      · rw [h]; exact ⟨id, fun _ _ h => h, fun _ h => h⟩
      · rw [h]; exact ⟨id, fun _ _ h => h, fun _ h => h⟩
      · rw [h]
        refine ⟨fun hk => keyedById_mapSet _ _ _ hk (Or.inr rfl), fun hk k hc => ?_,
          fun _ h => h⟩
        apply completedAt_mapSet _ _ k _ _ hc
        intro old hold hst
        cases hprior : mapGet stores.ethTxStore sub.transaction.id with
        | none =>
          rw [hprior, mergeSubmission_none] at hm
          injection hm with hm _
          have hid : ethTx.id = sub.transaction.id := by
            rw [← hm]
            split <;> rfl
          rw [hid, hprior] at hold
          cases hold
        | some p =>
          rw [hprior] at hm
          obtain ⟨hp, _, _, _, _, hf, _⟩ := mergeSubmission_store_prior ord _ _ _ p
            sub.transaction ethTx response hpass.2.2.1 hm
          have hid : ethTx.id = p.id := by rw [← hf]
          have hkey : p.id = sub.transaction.id := by
            rcases hk _ p hprior with h1 | h1
            · exact absurd h1 hp
            · exact h1
          rw [hid, hkey, hprior] at hold
          injection hold with hold
          subst hold
          exact absurd hst hp
    · rcases submitKoinos_cases L ord api stores sub.transaction with
        ⟨r, h, _⟩ | ⟨prefixedHash, hpass, ⟨r, _, h⟩ | ⟨koinosTx, response, hm, h⟩⟩
      · rw [h]; exact ⟨id, fun _ _ h => h, fun _ h => h⟩
      · rw [h]; exact ⟨id, fun _ _ h => h, fun _ h => h⟩
      · rw [h]
        refine ⟨id, fun _ _ h => h, fun k hc => ?_⟩
        apply completedAt_mapSet _ _ k _ _ hc
        intro old hold hst
        rw [hold] at hm
        obtain ⟨r, hr⟩ := mergeSubmission_completed ord api.validators.length api.ethAddress
          (L.hashHex prefixedHash) old sub.transaction hst
        rw [hr] at hm
        cases hm

theorem applyOperation_preserves (L : Lib) (api : Api) (cfg : StreamerConfig)
    (stores : Stores) (op : Operation) :
    (keyedById stores.ethTxStore →
      keyedById (applyOperation L api cfg stores op).ethTxStore) ∧
    (keyedById stores.ethTxStore → ∀ k, completedAt stores.ethTxStore k →
      completedAt (applyOperation L api cfg stores op).ethTxStore k) ∧
    (∀ k, completedAt stores.koinosTxStore k →
      completedAt (applyOperation L api cfg stores op).koinosTxStore k) := by
  cases op with
  | ethereumTokensLocked ord net now ev =>
    simp only [applyOperation]
    obtain ⟨h1, h2⟩ := commitEthereumLocked_preserves L cfg stores.ethTxStore ev
    rcases processEthereumTokensLockedEvent_store L ord net now cfg stores.ethTxStore ev with
      h | ⟨s, h⟩
    · rw [h]; exact ⟨h1, fun _ => h2, fun _ h => h⟩
    · obtain ⟨h3, h4⟩ := mergeBroadcast_preserves _ _ _ _ _ _ h
      exact ⟨fun hk => h3 (h1 hk), fun _ k hc => h4 k (h2 k hc), fun _ h => h⟩
  | ethereumRequestNewSignatures ord net now ev =>
    simp only [applyOperation]
    obtain ⟨h1, h2⟩ := commitEthereumResign_preserves L ord cfg stores.ethTxStore ev
    rcases processEthereumRequestNewSignaturesEvent_store L ord net now cfg stores.ethTxStore ev
      with h | ⟨s, h⟩
    · rw [h]; exact ⟨h1, fun _ => h2, fun _ h => h⟩
    · obtain ⟨h3, h4⟩ := mergeBroadcast_preserves _ _ _ _ _ _ h
      exact ⟨fun hk => h3 (h1 hk), fun _ k hc => h4 k (h2 k hc), fun _ h => h⟩
  | ethereumTransferCompleted ev =>
    simp only [applyOperation, processEthereumTransferCompletedEvent]
    exact ⟨id, fun _ _ h => h, completedRecord_keeps _ _ _ _⟩
  | koinosTokensLocked ord net now ev =>
    simp only [applyOperation]
    have h2 := commitKoinosLocked_preserves L cfg stores.koinosTxStore ev
    rcases processKoinosTokensLockedEvent_store L ord net now cfg stores.koinosTxStore ev with
      h | ⟨s, h⟩
    · rw [h]; exact ⟨id, fun _ _ h => h, h2⟩
    · obtain ⟨_, h4⟩ := mergeBroadcast_preserves _ _ _ _ _ _ h
      exact ⟨id, fun _ _ h => h, fun k hc => h4 k (h2 k hc)⟩
  | koinosRequestNewSignatures ord net now ev =>
    simp only [applyOperation]
    have h2 := commitKoinosResign_preserves L ord cfg stores.koinosTxStore ev
    rcases processRequestNewSignaturesEvent_store L ord net now cfg stores.koinosTxStore ev with
      h | ⟨s, h⟩
    · rw [h]; exact ⟨id, fun _ _ h => h, h2⟩
    · obtain ⟨_, h4⟩ := mergeBroadcast_preserves _ _ _ _ _ _ h
      exact ⟨id, fun _ _ h => h, fun k hc => h4 k (h2 k hc)⟩
  | koinosTransferCompleted ev =>
    simp only [applyOperation, processKoinosTransferCompletedEvent]
    exact ⟨completedRecord_preserves _ _ _ _, fun _ => completedRecord_keeps _ _ _ _,
      fun _ h => h⟩
  | submitSignature ord now sub =>
    simp only [applyOperation]
    exact submitSignature_preserves L ord api now stores sub
  | ethereumLockedCommit ev =>
    simp only [applyOperation]
    obtain ⟨h1, h2⟩ := commitEthereumLocked_preserves L cfg stores.ethTxStore ev
    exact ⟨h1, fun _ => h2, fun _ h => h⟩
  | ethereumResignCommit ord ev =>
    simp only [applyOperation]
    obtain ⟨h1, h2⟩ := commitEthereumResign_preserves L ord cfg stores.ethTxStore ev
    exact ⟨h1, fun _ => h2, fun _ h => h⟩
  | koinosLockedCommit ev =>
    simp only [applyOperation]
    exact ⟨id, fun _ _ h => h, commitKoinosLocked_preserves L cfg stores.koinosTxStore ev⟩
  | koinosResignCommit ord ev =>
    simp only [applyOperation]
    exact ⟨id, fun _ _ h => h, commitKoinosResign_preserves L ord cfg stores.koinosTxStore ev⟩
  | ethereumStoreMerge ord threshold key signatures =>
    simp only [applyOperation]
    cases hm : mergeBroadcast ord threshold stores.ethTxStore key signatures with
    | none => exact ⟨id, fun _ _ h => h, fun _ h => h⟩
    | some s =>
      obtain ⟨h3, h4⟩ := mergeBroadcast_preserves _ _ _ _ _ _ hm
      exact ⟨h3, fun _ => h4, fun _ h => h⟩
  | koinosStoreMerge ord threshold key signatures =>
    simp only [applyOperation]
    cases hm : mergeBroadcast ord threshold stores.koinosTxStore key (some signatures) with
    | none => exact ⟨id, fun _ _ h => h, fun _ h => h⟩
    | some s =>
      obtain ⟨_, h4⟩ := mergeBroadcast_preserves _ _ _ _ _ _ hm
      exact ⟨id, fun _ _ h => h, fun _ => h4 _⟩

theorem runOperations_preserves (L : Lib) (api : Api) (cfg : StreamerConfig)
    (ops : List Operation) :
    ∀ stores : Stores, keyedById stores.ethTxStore →
      keyedById (runOperations L api cfg stores ops).ethTxStore ∧
      (∀ k, completedAt stores.ethTxStore k →
        completedAt (runOperations L api cfg stores ops).ethTxStore k) ∧
      (∀ k, completedAt stores.koinosTxStore k →
        completedAt (runOperations L api cfg stores ops).koinosTxStore k) := by
  induction ops with
  | nil => intro stores hk; exact ⟨hk, fun _ h => h, fun _ h => h⟩
  | cons op rest ih =>
    intro stores hk
    obtain ⟨h1, h2, h3⟩ := applyOperation_preserves L api cfg stores op
    obtain ⟨h4, h5, h6⟩ := ih (applyOperation L api cfg stores op) (h1 hk)
    exact ⟨h4, fun k hc => h5 k (h2 hk k hc), fun k hc => h6 k (h3 k hc)⟩

/-- C6.  Starting from empty stores, run any sequence of operations (the event
processors with their merges after the broadcast, peer submissions, and the locked
sections of the processors interleaved in any way) and then any further sequence:
a record that has status `completed` after the first sequence still exists and has
status `completed` after the second, in the store of Ethereum transfers and in the
store of Koinos transfers. -/
theorem completed_is_stable (L : Lib) (api : Api) (cfg : StreamerConfig)
    (before later : List Operation) (key : String) :
    (completedAt (runOperations L api cfg emptyStores before).ethTxStore key →
      completedAt (runOperations L api cfg emptyStores (before ++ later)).ethTxStore key) ∧
    (completedAt (runOperations L api cfg emptyStores before).koinosTxStore key →
      completedAt (runOperations L api cfg emptyStores (before ++ later)).koinosTxStore key) := by
  have hsplit : runOperations L api cfg emptyStores (before ++ later)
      = runOperations L api cfg (runOperations L api cfg emptyStores before) later := by
    simp [runOperations, List.foldl_append]
  have hempty : keyedById emptyStores.ethTxStore := by
    intro k tx h
    simp [emptyStores, mapGet] at h
  obtain ⟨hk, _, _⟩ := runOperations_preserves L api cfg before emptyStores hempty
  obtain ⟨_, h1, h2⟩ := runOperations_preserves L api cfg later _ hk
  rw [hsplit]
  exact ⟨h1 key, h2 key⟩
/-- Witness of C6: a completion arrives first and creates the record `0x1`; the
`TokensLocked` event of the same transfer and a peer submission follow; the record
is still completed. -/
theorem completed_is_stable_witness :
    completedAt (runOperations sampleLib sampleApi sampleConfig emptyStores
      ([Operation.koinosTransferCompleted { receiptId := [50], sequence := 1, txId := [49] }]
        ++ [Operation.ethereumTokensLocked insertionOrder (peersAnswering []) 0 sampleEthereumLog,
            Operation.submitSignature insertionOrder 0
              (signEnvelope sampleLib [66] (sampleEthereumTransfer ["B"] ["BN"]) 60000)])).ethTxStore
      "0x1" :=
  (completed_is_stable sampleLib sampleApi sampleConfig
    [Operation.koinosTransferCompleted { receiptId := [50], sequence := 1, txId := [49] }]
    [Operation.ethereumTokensLocked insertionOrder (peersAnswering []) 0 sampleEthereumLog,
     Operation.submitSignature insertionOrder 0
       (signEnvelope sampleLib [66] (sampleEthereumTransfer ["B"] ["BN"]) 60000)]
    "0x1").1
    ⟨{ type := TransactionType.ethereum, status := TransactionStatus.completed,
       completionTransactionId := "0x2-1" }, by decide, by decide⟩

/-! ## What happens to a completed record -/

theorem submitSignature_completed_unchanged (L : Lib) (ord : MapOrder) (api : Api) (now : Int)
    (stores : Stores) (sub : SubmittedSignature)
    (h : completedAt (transferStore stores sub.transaction.type)
      (submissionKey sub.transaction)) :
    (SubmitSignature L ord api now stores sub).2 = stores := by
  obtain ⟨p, hp, hst⟩ := h
  unfold SubmitSignature
  split
  · rfl
  · split
    · rename_i htype
      simp only [htype, transferStore, submissionKey] at hp
      rcases submitEthereum_cases L ord api stores sub.transaction with
        ⟨r, h, _⟩ | ⟨hash, hashB64, hpass, ⟨r, _, h⟩ | ⟨ethTx, response, hm, h⟩⟩
      · rw [h]
      · rw [h]
      · rw [hp] at hm
        obtain ⟨r, hr⟩ := mergeSubmission_completed ord api.validators.length api.koinosAddress
          hashB64 p sub.transaction hst
        rw [hr] at hm
        cases hm
    · rename_i htype
      simp only [htype, transferStore, submissionKey] at hp
      rcases submitKoinos_cases L ord api stores sub.transaction with
        ⟨r, h, _⟩ | ⟨prefixedHash, hpass, ⟨r, _, h⟩ | ⟨koinosTx, response, hm, h⟩⟩
      · rw [h]
      · rw [h]
      · rw [hp] at hm
        obtain ⟨r, hr⟩ := mergeSubmission_completed ord api.validators.length api.ethAddress
          (L.hashHex prefixedHash) p sub.transaction hst
        rw [hr] at hm
        cases hm

theorem ethereumResign_completed_unchanged (L : Lib) (ord : MapOrder) (net : Network)
    (now : Int) (cfg : StreamerConfig) (store : GoMap Transaction)
    (ev : EthereumRequestNewSignaturesLog)
    (h : completedAt store ("0x" ++ L.bytes2Hex ev.txId)) :
    processEthereumRequestNewSignaturesEvent L ord net now cfg store ev
      = { store := store, panicked := false } := by
  obtain ⟨p, hp, hst⟩ := h
  unfold processEthereumRequestNewSignaturesEvent
  simp only [hp, ethereumResignRecord, hst, if_true]

theorem koinosResign_completed_unchanged (L : Lib) (ord : MapOrder) (net : Network)
    (now : Int) (cfg : StreamerConfig) (store : GoMap Transaction)
    (ev : KoinosRequestNewSignaturesEvent)
    (h : completedAt store (koinosResignKey store ev)) :
    processRequestNewSignaturesEvent L ord net now cfg store ev
      = { store := store, panicked := false } := by
  obtain ⟨p, hp, hst⟩ := h
  unfold processRequestNewSignaturesEvent
  simp only [hp, koinosResignRecord, hst, if_true]

theorem mergeBroadcast_completed (ord : MapOrder) (threshold : Nat)
    (store store' : GoMap Transaction) (key : String) (signatures : Option (GoMap String))
    (p : Transaction) (hp : mapGet store key = some p)
    (hst : p.status = TransactionStatus.completed)
    (h : mergeBroadcast ord threshold store key signatures = some store') :
    ∃ r, mapGet store' key = some r ∧
      { r with validators := p.validators, signatures := p.signatures } = p := by
  obtain ⟨tx, m, htx, _, hs⟩ := mergeBroadcast_eq ord threshold store store' key signatures h
  rw [hp] at htx
  injection htx with htx
  subst htx
  subst hs
  refine ⟨_, mapGet_mapSet_self _ _ _, ?_⟩
  simp only [withSignatureMap, hst, ne_eq, not_true_eq_false, false_and, if_false]
  rw [← hst]
theorem ethereumLocked_completed (L : Lib) (ord : MapOrder) (net : Network) (now : Int)
    (cfg : StreamerConfig) (store : GoMap Transaction) (ev : EthereumTokensLockedLog)
    (p : Transaction) (hp : mapGet store (L.hashHex ev.txHash) = some p)
    (hst : p.status = TransactionStatus.completed) :
    ∃ r, mapGet (processEthereumTokensLockedEvent L ord net now cfg store ev).store
        (L.hashHex ev.txHash) = some r ∧
      r.status = TransactionStatus.completed ∧
      r.completionTransactionId = p.completionTransactionId := by
  have hcommit : ∃ r, mapGet (commitEthereumLocked L cfg store ev) (L.hashHex ev.txHash)
      = some r ∧ r.status = TransactionStatus.completed ∧
      r.completionTransactionId = p.completionTransactionId := by
    unfold commitEthereumLocked
    split
    · exact ⟨p, hp, hst, rfl⟩
    · rename_i r hr
      obtain ⟨_, hkeep⟩ := ethereumLockedRecord_status L cfg _ ev r hr
      exact ⟨r, mapGet_mapSet_self _ _ _, hkeep p hp hst⟩
  rcases processEthereumTokensLockedEvent_store L ord net now cfg store ev with h | ⟨s, h⟩
  · rw [h]; exact hcommit
  · obtain ⟨r, hr, hrs, hrc⟩ := hcommit
    obtain ⟨r', hr', hf⟩ := mergeBroadcast_completed _ _ _ _ _ _ r hr hrs h
    refine ⟨r', hr', ?_, ?_⟩
    · have := congrArg Transaction.status hf
      simpa [hrs] using this
    · have := congrArg Transaction.completionTransactionId hf
      simpa [hrc] using this

theorem koinosLocked_completed (L : Lib) (ord : MapOrder) (net : Network) (now : Int)
    (cfg : StreamerConfig) (store : GoMap Transaction) (ev : KoinosTokensLockedEvent)
    (p : Transaction)
    (hp : mapGet store ("0x" ++ L.bytes2Hex ev.receiptId ++ "-" ++ toString ev.sequence)
      = some p)
    (hst : p.status = TransactionStatus.completed) :
    ∃ r, mapGet (processKoinosTokensLockedEvent L ord net now cfg store ev).store
        ("0x" ++ L.bytes2Hex ev.receiptId ++ "-" ++ toString ev.sequence) = some r ∧
      r.status = TransactionStatus.completed ∧
      r.completionTransactionId = p.completionTransactionId := by
  have hcommit : ∃ r, mapGet (commitKoinosLocked L cfg store ev)
      ("0x" ++ L.bytes2Hex ev.receiptId ++ "-" ++ toString ev.sequence)
      = some r ∧ r.status = TransactionStatus.completed ∧
      r.completionTransactionId = p.completionTransactionId := by
    unfold commitKoinosLocked
    split
    · exact ⟨p, hp, hst, rfl⟩
    · rename_i r hr
      have hkeep := koinosLockedRecord_status L cfg _ ev r hr
      exact ⟨r, mapGet_mapSet_self _ _ _, hkeep p hp hst⟩
  rcases processKoinosTokensLockedEvent_store L ord net now cfg store ev with h | ⟨s, h⟩
  · rw [h]; exact hcommit
  · obtain ⟨r, hr, hrs, hrc⟩ := hcommit
    obtain ⟨r', hr', hf⟩ := mergeBroadcast_completed _ _ _ _ _ _ r hr hrs h
    refine ⟨r', hr', ?_, ?_⟩
    · have := congrArg Transaction.status hf
      simpa [hrs] using this
    · have := congrArg Transaction.completionTransactionId hf
      simpa [hrc] using this

theorem ethereumLockedRecord_of_fresh (L : Lib) (cfg : StreamerConfig) (p : Transaction)
    (ev : EthereumTokensLockedLog) :
    (ethereumLockedRecord L cfg none ev = none →
      ethereumLockedRecord L cfg (some p) ev = none) ∧
    (∀ c0, ethereumLockedRecord L cfg none ev = some c0 →
      ethereumLockedRecord L cfg (some p) ev =
        if p.hash ≠ "" ∧ p.hash ≠ c0.hash then none
        else some { c0 with
          opId := p.opId
          completionTransactionId := p.completionTransactionId
          validators := p.validators ++ c0.validators
          signatures := p.signatures ++ c0.signatures
          status := if p.status ≠ TransactionStatus.completed then
            TransactionStatus.gathering_signatures else p.status }) := by
  unfold ethereumLockedRecord
  simp only
  cases L.base58Decode (tokenConfig cfg.tokenAddresses (L.addressHex ev.token)).koinosAddress with
  | none => exact ⟨fun _ => rfl, fun c0 h => by cases h⟩
  | some koinosToken =>
    cases L.base58Decode ev.recipient with
    | none => exact ⟨fun _ => rfl, fun c0 h => by cases h⟩
    | some recipient =>
      cases L.base58Decode ev.relayer with
      | none => exact ⟨fun _ => rfl, fun c0 h => by cases h⟩
      | some relayer =>
        simp only
        generalize L.marshalCompleteTransferHash _ = marshalled
        cases marshalled with
        | none => exact ⟨fun _ => rfl, fun c0 h => by cases h⟩
        | some bytes =>
          refine ⟨fun h => (by cases h), fun c0 h => ?_⟩
          simp only [Option.some.injEq] at h
          subst h
          simp only

theorem koinosLockedRecord_of_fresh (L : Lib) (cfg : StreamerConfig) (p : Transaction)
    (ev : KoinosTokensLockedEvent) :
    (koinosLockedRecord L cfg none ev = none →
      koinosLockedRecord L cfg (some p) ev = none) ∧
    (∀ c0, koinosLockedRecord L cfg none ev = some c0 →
      koinosLockedRecord L cfg (some p) ev =
        if p.hash ≠ "" ∧ p.hash ≠ c0.hash then none
        else some { c0 with
          completionTransactionId := p.completionTransactionId
          validators := p.validators ++ c0.validators
          signatures := p.signatures ++ c0.signatures
          status := if p.status ≠ TransactionStatus.completed then
            TransactionStatus.gathering_signatures else p.status }) := by
  unfold koinosLockedRecord
  simp only
  cases GenerateEthereumCompleteTransferHash L ev.receiptId ev.sequence
      (L.hexToAddress (tokenConfig cfg.tokenAddresses (L.base58Encode ev.token)).ethereumAddress)
      (L.hexToAddress ev.recipient) (L.hexToAddress ev.relayer) ev.payment ev.amount
      cfg.ethereumContractAddr ev.metadata (addU64 ev.timestamp cfg.signaturesExpiration)
      ev.chainId with
  | none => exact ⟨fun _ => rfl, fun c0 h => by cases h⟩
  | some hashes =>
    obtain ⟨hash, prefixedHash⟩ := hashes
    simp only
    cases SignEthereumHash L cfg.ethereumPK prefixedHash with
    | none => exact ⟨fun _ => rfl, fun c0 h => by cases h⟩
    | some sigBytes =>
      refine ⟨fun h => (by cases h), fun c0 h => ?_⟩
      simp only [Option.some.injEq] at h
      subst h
      simp only
theorem addMissingSignatures_keys (sigs : List String) :
    ∀ (vals : List String) (i : Nat) (m m' : GoMap String),
      addMissingSignatures sigs vals i m = some m' →
      (∀ x, mapHas m x = true → mapHas m' x = true) ∧ ∀ v ∈ vals, mapHas m' v = true := by
  intro vals
  induction vals with
  | nil =>
    intro i m m' h
    simp only [addMissingSignatures, Option.some.injEq] at h
    subst h
    exact ⟨fun x hx => hx, fun v hv => by cases hv⟩
  | cons v rest ih =>
    intro i m m' h
    unfold addMissingSignatures at h
    by_cases hhas : mapHas m v = true
    · rw [if_pos hhas] at h
      obtain ⟨h1, h2⟩ := ih (i + 1) m m' h
      refine ⟨h1, fun w hw => ?_⟩
      rcases List.mem_cons.mp hw with hw | hw
      · rw [hw]
        exact h1 v hhas
      · exact h2 w hw
    · rw [if_neg hhas] at h
      cases hsig : sigs[i]? with
      | none =>
        rw [hsig] at h
        cases h
      | some sig =>
        rw [hsig] at h
        obtain ⟨h1, h2⟩ := ih (i + 1) (mapSet m v sig) m' h
        have hself : mapHas (mapSet m v sig) v = true := by
          simp [mapHas, mapGet_mapSet_self]
        refine ⟨fun x hx => ?_, fun w hw => ?_⟩
        · by_cases hvx : v = x
          · rw [← hvx]
            exact h1 v hself
          · apply h1 x
            have hx' : (mapGet m x).isSome = true := hx
            show (mapGet (mapSet m v sig) x).isSome = true
            rw [mapGet_mapSet_ne m v x sig hvx]
            exact hx'
        · rcases List.mem_cons.mp hw with hw | hw
          · rw [hw]
            exact h1 v hself
          · exact h2 w hw

/-- The record the merge after a broadcast writes lists every validator of the
record it read. -/
theorem mergeBroadcast_lists (ord : MapOrder) (threshold : Nat)
    (store store' : GoMap Transaction) (key : String) (signatures : Option (GoMap String))
    (tx : Transaction) (htx : mapGet store key = some tx)
    (h : mergeBroadcast ord threshold store key signatures = some store') :
    ∃ r, mapGet store' key = some r ∧ ∀ v ∈ tx.validators, v ∈ r.validators := by
  obtain ⟨tx', m, htx', hm, hs⟩ := mergeBroadcast_eq ord threshold store store' key signatures h
  rw [htx] at htx'
  injection htx' with htx'
  subst htx'
  have hkeys : ∀ v ∈ tx.validators, v ∈ (withSignatureMap ord tx m).validators := by
    intro v hv
    have hmem : v ∈ m.map Prod.fst := by
      cases signatures with
      | none =>
        simp only at hm
        by_cases hnil : tx.validators = []
        · rw [hnil] at hv
          cases hv
        · rw [if_neg hnil] at hm
          cases hm
      | some s =>
        simp only at hm
        exact (mapHas_iff_mem_keys m v).mp
          ((addMissingSignatures_keys tx.signatures tx.validators 0 s m hm).2 v hv)
    exact ((ord.perm m).map Prod.fst).mem_iff.mpr hmem
  subst hs
  refine ⟨_, mapGet_mapSet_self _ _ _, ?_⟩
  split
  · exact hkeys
  · exact hkeys

theorem ethereumLocked_on_completed (L : Lib) (ord : MapOrder) (net : Network) (now : Int)
    (cfg : StreamerConfig) (store : GoMap Transaction) (ev : EthereumTokensLockedLog)
    (p : Transaction) (hp : mapGet store (L.hashHex ev.txHash) = some p)
    (hst : p.status = TransactionStatus.completed) :
    ((ethereumLockedRecord L cfg none ev = none ∨
        ∃ c0, ethereumLockedRecord L cfg none ev = some c0 ∧ p.hash ≠ "" ∧ p.hash ≠ c0.hash) →
      processEthereumTokensLockedEvent L ord net now cfg store ev
        = { store := store, panicked := true }) ∧
    (∀ c0, ethereumLockedRecord L cfg none ev = some c0 → (p.hash = "" ∨ p.hash = c0.hash) →
      c0.validators = [cfg.koinosAddress] ∧
      ∃ r, mapGet (processEthereumTokensLockedEvent L ord net now cfg store ev).store
          (L.hashHex ev.txHash) = some r ∧
        { r with opId := c0.opId, status := c0.status,
                 completionTransactionId := c0.completionTransactionId,
                 validators := c0.validators, signatures := c0.signatures } = c0 ∧
        r.opId = p.opId ∧ r.status = TransactionStatus.completed ∧
        r.completionTransactionId = p.completionTransactionId ∧
        cfg.koinosAddress ∈ r.validators) := by
  obtain ⟨hnone, hsome⟩ := ethereumLockedRecord_of_fresh L cfg p ev
  constructor
  · intro habort
    have hrec : ethereumLockedRecord L cfg (some p) ev = none := by
      rcases habort with h | ⟨c0, h, h1, h2⟩
      · exact hnone h
      · rw [hsome c0 h, if_pos ⟨h1, h2⟩]
    simp only [processEthereumTokensLockedEvent, hp, hrec]
  · intro c0 hc0 hhash
    have hvals : c0.validators = [cfg.koinosAddress] := by
      obtain ⟨_, _, _, _, _, _, _, _, _, hr⟩ := ethereumLockedRecord_eq L cfg none ev c0 hc0
      rw [hr]
      rfl
    refine ⟨hvals, ?_⟩
    have hneg : ¬ (p.hash ≠ "" ∧ p.hash ≠ c0.hash) := by
      intro h
      rcases hhash with h1 | h1
      · exact h.1 h1
      · exact h.2 h1
    have hrec := hsome c0 hc0
    rw [if_neg hneg, if_neg (by rw [hst]; simp), hst] at hrec
    have hlocal : cfg.koinosAddress ∈ p.validators ++ c0.validators := by
      rw [hvals]
      simp
    simp only [processEthereumTokensLockedEvent, hp, hrec]
    split
    · exact ⟨_, mapGet_mapSet_self _ _ _, rfl, rfl, rfl, rfl, hlocal⟩
    · rename_i merged hm
      obtain ⟨r, hr, hlist⟩ := mergeBroadcast_lists ord _ _ merged _ _ _
        (mapGet_mapSet_self _ _ _) hm
      obtain ⟨r', hr', hframe⟩ := mergeBroadcast_completed ord _ _ merged _ _ _
        (mapGet_mapSet_self _ _ _) rfl hm
      rw [hr] at hr'
      injection hr' with hr'
      subst hr'
      refine ⟨r, hr, ?_, ?_, ?_, ?_, hlist _ hlocal⟩
      · have := congrArg (fun (t : Transaction) =>
          { t with opId := c0.opId, status := c0.status,
                   completionTransactionId := c0.completionTransactionId,
                   validators := c0.validators, signatures := c0.signatures }) hframe
        exact this
      · have := congrArg Transaction.opId hframe
        simpa using this
      · have := congrArg Transaction.status hframe
        simpa using this
      · have := congrArg Transaction.completionTransactionId hframe
        simpa using this

theorem koinosLocked_on_completed (L : Lib) (ord : MapOrder) (net : Network) (now : Int)
    (cfg : StreamerConfig) (store : GoMap Transaction) (ev : KoinosTokensLockedEvent)
    (p : Transaction)
    (hp : mapGet store ("0x" ++ L.bytes2Hex ev.receiptId ++ "-" ++ toString ev.sequence)
      = some p)
    (hst : p.status = TransactionStatus.completed) :
    ((koinosLockedRecord L cfg none ev = none ∨
        ∃ c0, koinosLockedRecord L cfg none ev = some c0 ∧ p.hash ≠ "" ∧ p.hash ≠ c0.hash) →
      processKoinosTokensLockedEvent L ord net now cfg store ev
        = { store := store, panicked := true }) ∧
    (∀ c0, koinosLockedRecord L cfg none ev = some c0 → (p.hash = "" ∨ p.hash = c0.hash) →
      c0.validators = [cfg.ethereumAddress] ∧
      ∃ r, mapGet (processKoinosTokensLockedEvent L ord net now cfg store ev).store
          ("0x" ++ L.bytes2Hex ev.receiptId ++ "-" ++ toString ev.sequence) = some r ∧
        { r with status := c0.status,
                 completionTransactionId := c0.completionTransactionId,
                 validators := c0.validators, signatures := c0.signatures } = c0 ∧
        r.status = TransactionStatus.completed ∧
        r.completionTransactionId = p.completionTransactionId ∧
        cfg.ethereumAddress ∈ r.validators) := by
  obtain ⟨hnone, hsome⟩ := koinosLockedRecord_of_fresh L cfg p ev
  constructor
  · intro habort
    have hrec : koinosLockedRecord L cfg (some p) ev = none := by
      rcases habort with h | ⟨c0, h, h1, h2⟩
      · exact hnone h
      · rw [hsome c0 h, if_pos ⟨h1, h2⟩]
    simp only [processKoinosTokensLockedEvent, hp, hrec]
  · intro c0 hc0 hhash
    have hvals : c0.validators = [cfg.ethereumAddress] := by
      obtain ⟨_, _, _, _, _, _, hr⟩ := koinosLockedRecord_eq L cfg none ev c0 hc0
      rw [hr]
      rfl
    refine ⟨hvals, ?_⟩
    have hneg : ¬ (p.hash ≠ "" ∧ p.hash ≠ c0.hash) := by
      intro h
      rcases hhash with h1 | h1
      · exact h.1 h1
      · exact h.2 h1
    have hrec := hsome c0 hc0
    rw [if_neg hneg, if_neg (by rw [hst]; simp), hst] at hrec
    have hlocal : cfg.ethereumAddress ∈ p.validators ++ c0.validators := by
      rw [hvals]
      simp
    simp only [processKoinosTokensLockedEvent, hp, hrec]
    split
    · exact ⟨_, mapGet_mapSet_self _ _ _, rfl, rfl, rfl, hlocal⟩
    · rename_i merged hm
      obtain ⟨r, hr, hlist⟩ := mergeBroadcast_lists ord _ _ merged _ _ _
        (mapGet_mapSet_self _ _ _) hm
      obtain ⟨r', hr', hframe⟩ := mergeBroadcast_completed ord _ _ merged _ _ _
        (mapGet_mapSet_self _ _ _) rfl hm
      rw [hr] at hr'
      injection hr' with hr'
      subst hr'
      refine ⟨r, hr, ?_, ?_, ?_, hlist _ hlocal⟩
      · have := congrArg (fun (t : Transaction) =>
          { t with status := c0.status,
                   completionTransactionId := c0.completionTransactionId,
                   validators := c0.validators, signatures := c0.signatures }) hframe
        exact this
      · have := congrArg Transaction.status hframe
        simpa using this
      · have := congrArg Transaction.completionTransactionId hframe
        simpa using this

/-- C7 (counterexample).  The store holds a completed record under `0x1` (created
by a completion that arrived first).  Processing the `TokensLocked` event of that
transfer changes its hash from the empty string to `N`, its amount from the empty
string to `5`, and its validators and signatures from empty lists to `A` and its
signature.  A completed record under `0x1` that carries the hash `N`, the pair of
`B`, another sender and another block number is rewritten as well: the sender and
the block number become those of the event and the pair of `A` is added. -/
theorem locked_event_rewrites_completed_record :
    mapGet (processKoinosTransferCompletedEvent sampleLib []
        { receiptId := [50], sequence := 1, txId := [49] }) "0x1"
      = some { type := TransactionType.ethereum, status := TransactionStatus.completed,
               completionTransactionId := "0x2-1" } ∧
    mapGet (processEthereumTokensLockedEvent sampleLib insertionOrder (peersAnswering []) 0
        sampleConfig
        (processKoinosTransferCompletedEvent sampleLib []
          { receiptId := [50], sequence := 1, txId := [49] })
        sampleEthereumLog).store "0x1"
      = some { sampleEthereumTransfer ["A"] ["AN"] with
                status := TransactionStatus.completed, completionTransactionId := "0x2-1" } ∧
    mapGet (processEthereumTokensLockedEvent sampleLib insertionOrder (peersAnswering []) 0
        sampleConfig
        [("0x1", { sampleEthereumTransfer ["B"] ["BN"] with
                    status := TransactionStatus.completed, completionTransactionId := "0x2-1",
                    sender := "0xe", blockNumber := 3 })]
        sampleEthereumLog).store "0x1"
      = some { sampleEthereumTransfer ["B", "A"] ["BN", "AN"] with
                status := TransactionStatus.completed, completionTransactionId := "0x2-1" } := by
  refine ⟨by decide, by decide, by decide⟩

/-- C7 (amended).  For a record that has status `completed`: a peer submission for
its key leaves both stores as they are; a `RequestNewSignatures` event for its key
leaves the store as it is; a completion event for its key changes nothing but
`completion_tx_id`; and after the processing of a `TokensLocked` event for its key
(merge after the broadcast included) the record under the key still has status
`completed` and the same `completion_tx_id`.  That processing aborts without a
write when the event does not decode (no fresh record could be built from it) or
when the hash of the record is neither empty nor the hash of the fresh record;
otherwise the record it leaves agrees with the fresh record for the event in every
field other than status, `completion_tx_id`, validators and signatures (and, for
an Ethereum transfer, the operation id, which is kept), and lists the local
validator. -/
theorem completed_record_frame (L : Lib) (api : Api) (cfg : StreamerConfig) :
    (∀ (ord : MapOrder) (now : Int) (stores : Stores) (sub : SubmittedSignature),
      completedAt (transferStore stores sub.transaction.type) (submissionKey sub.transaction) →
      (SubmitSignature L ord api now stores sub).2 = stores) ∧
    (∀ (ord : MapOrder) (net : Network) (now : Int) (store : GoMap Transaction)
        (ev : EthereumRequestNewSignaturesLog),
      completedAt store ("0x" ++ L.bytes2Hex ev.txId) →
      (processEthereumRequestNewSignaturesEvent L ord net now cfg store ev).store = store) ∧
    (∀ (ord : MapOrder) (net : Network) (now : Int) (store : GoMap Transaction)
        (ev : KoinosRequestNewSignaturesEvent),
      completedAt store (koinosResignKey store ev) →
      (processRequestNewSignaturesEvent L ord net now cfg store ev).store = store) ∧
    (∀ (store : GoMap Transaction) (ev : KoinosTransferCompletedEvent) (p : Transaction),
      mapGet store ("0x" ++ L.bytes2Hex ev.txId) = some p →
      p.status = TransactionStatus.completed →
      ∃ r, mapGet (processKoinosTransferCompletedEvent L store ev)
          ("0x" ++ L.bytes2Hex ev.txId) = some r ∧
        { r with completionTransactionId := p.completionTransactionId } = p) ∧
    (∀ (store : GoMap Transaction) (ev : EthereumTransferCompletedLog) (p : Transaction),
      mapGet store ("0x" ++ L.bytes2Hex ev.txId ++ "-" ++ toString ev.operationId) = some p →
      p.status = TransactionStatus.completed →
      ∃ r, mapGet (processEthereumTransferCompletedEvent L store ev)
          ("0x" ++ L.bytes2Hex ev.txId ++ "-" ++ toString ev.operationId) = some r ∧
        { r with completionTransactionId := p.completionTransactionId } = p) ∧
    (∀ (ord : MapOrder) (net : Network) (now : Int) (store : GoMap Transaction)
        (ev : EthereumTokensLockedLog) (p : Transaction),
      mapGet store (L.hashHex ev.txHash) = some p →
      p.status = TransactionStatus.completed →
      ∃ r, mapGet (processEthereumTokensLockedEvent L ord net now cfg store ev).store
          (L.hashHex ev.txHash) = some r ∧
        r.status = TransactionStatus.completed ∧
        r.completionTransactionId = p.completionTransactionId) ∧
    (∀ (ord : MapOrder) (net : Network) (now : Int) (store : GoMap Transaction)
        (ev : KoinosTokensLockedEvent) (p : Transaction),
      mapGet store ("0x" ++ L.bytes2Hex ev.receiptId ++ "-" ++ toString ev.sequence) = some p →
      p.status = TransactionStatus.completed →
      ∃ r, mapGet (processKoinosTokensLockedEvent L ord net now cfg store ev).store
          ("0x" ++ L.bytes2Hex ev.receiptId ++ "-" ++ toString ev.sequence) = some r ∧
        r.status = TransactionStatus.completed ∧
        r.completionTransactionId = p.completionTransactionId) ∧
    (∀ (ord : MapOrder) (net : Network) (now : Int) (store : GoMap Transaction)
        (ev : EthereumTokensLockedLog) (p : Transaction),
      mapGet store (L.hashHex ev.txHash) = some p →
      p.status = TransactionStatus.completed →
      (ethereumLockedRecord L cfg none ev = none ∨
        ∃ c0, ethereumLockedRecord L cfg none ev = some c0 ∧ p.hash ≠ "" ∧ p.hash ≠ c0.hash) →
      processEthereumTokensLockedEvent L ord net now cfg store ev
        = { store := store, panicked := true }) ∧
    (∀ (ord : MapOrder) (net : Network) (now : Int) (store : GoMap Transaction)
        (ev : EthereumTokensLockedLog) (p c0 : Transaction),
      mapGet store (L.hashHex ev.txHash) = some p →
      p.status = TransactionStatus.completed →
      ethereumLockedRecord L cfg none ev = some c0 →
      (p.hash = "" ∨ p.hash = c0.hash) →
      c0.validators = [cfg.koinosAddress] ∧
      ∃ r, mapGet (processEthereumTokensLockedEvent L ord net now cfg store ev).store
          (L.hashHex ev.txHash) = some r ∧
        { r with opId := c0.opId, status := c0.status,
                 completionTransactionId := c0.completionTransactionId,
                 validators := c0.validators, signatures := c0.signatures } = c0 ∧
        r.opId = p.opId ∧ r.status = TransactionStatus.completed ∧
        r.completionTransactionId = p.completionTransactionId ∧
        cfg.koinosAddress ∈ r.validators) ∧
    (∀ (ord : MapOrder) (net : Network) (now : Int) (store : GoMap Transaction)
        (ev : KoinosTokensLockedEvent) (p : Transaction),
      mapGet store ("0x" ++ L.bytes2Hex ev.receiptId ++ "-" ++ toString ev.sequence) = some p →
      p.status = TransactionStatus.completed →
      (koinosLockedRecord L cfg none ev = none ∨
        ∃ c0, koinosLockedRecord L cfg none ev = some c0 ∧ p.hash ≠ "" ∧ p.hash ≠ c0.hash) →
      processKoinosTokensLockedEvent L ord net now cfg store ev
        = { store := store, panicked := true }) ∧
    (∀ (ord : MapOrder) (net : Network) (now : Int) (store : GoMap Transaction)
        (ev : KoinosTokensLockedEvent) (p c0 : Transaction),
      mapGet store ("0x" ++ L.bytes2Hex ev.receiptId ++ "-" ++ toString ev.sequence) = some p →
      p.status = TransactionStatus.completed →
      koinosLockedRecord L cfg none ev = some c0 →
      (p.hash = "" ∨ p.hash = c0.hash) →
      c0.validators = [cfg.ethereumAddress] ∧
      ∃ r, mapGet (processKoinosTokensLockedEvent L ord net now cfg store ev).store
          ("0x" ++ L.bytes2Hex ev.receiptId ++ "-" ++ toString ev.sequence) = some r ∧
        { r with status := c0.status,
                 completionTransactionId := c0.completionTransactionId,
                 validators := c0.validators, signatures := c0.signatures } = c0 ∧
        r.status = TransactionStatus.completed ∧
        r.completionTransactionId = p.completionTransactionId ∧
        cfg.ethereumAddress ∈ r.validators) := by
  refine ⟨?_, ?_, ?_, ?_, ?_, ?_, ?_, ?_, ?_, ?_, ?_⟩
  · intro ord now stores sub h
    exact submitSignature_completed_unchanged L ord api now stores sub h
  · intro ord net now store ev h
    rw [ethereumResign_completed_unchanged L ord net now cfg store ev h]
  · intro ord net now store ev h
    rw [koinosResign_completed_unchanged L ord net now cfg store ev h]
  · intro store ev p hp hst
    refine ⟨_, mapGet_mapSet_self _ _ _, ?_⟩
    simp only [completedRecord, hp, Option.getD_some]
    rw [← hst]
  · intro store ev p hp hst
    refine ⟨_, mapGet_mapSet_self _ _ _, ?_⟩
    simp only [completedRecord, hp, Option.getD_some]
    rw [← hst]
  · intro ord net now store ev p hp hst
    exact ethereumLocked_completed L ord net now cfg store ev p hp hst
  · intro ord net now store ev p hp hst
    exact koinosLocked_completed L ord net now cfg store ev p hp hst
  · intro ord net now store ev p hp hst habort
    exact (ethereumLocked_on_completed L ord net now cfg store ev p hp hst).1 habort
  · intro ord net now store ev p c0 hp hst hc0 hhash
    exact (ethereumLocked_on_completed L ord net now cfg store ev p hp hst).2 c0 hc0 hhash
  · intro ord net now store ev p hp hst habort
    exact (koinosLocked_on_completed L ord net now cfg store ev p hp hst).1 habort
  · intro ord net now store ev p c0 hp hst hc0 hhash
    exact (koinosLocked_on_completed L ord net now cfg store ev p hp hst).2 c0 hc0 hhash

/-- Witness of C7: a peer submission for the key `0x1`, which holds a completed
record, leaves both stores as they are; and the `TokensLocked` event processed on
the completed record that a completion created under `0x1` leaves a record that
agrees with the fresh record of the event and lists `A`. -/
theorem completed_record_frame_witness :
    (SubmitSignature sampleLib insertionOrder sampleApi 0
        { ethTxStore := [("0x1", { sampleEthereumTransfer ["A"] ["AN"] with
                                    status := TransactionStatus.completed })],
          koinosTxStore := [] }
        (signEnvelope sampleLib [66] (sampleEthereumTransfer ["B"] ["BN"]) 60000)).2
      = { ethTxStore := [("0x1", { sampleEthereumTransfer ["A"] ["AN"] with
                                    status := TransactionStatus.completed })],
          koinosTxStore := [] } ∧
    ((sampleEthereumTransfer ["A"] ["AN"]).validators = [sampleConfig.koinosAddress] ∧
      ∃ r, mapGet (processEthereumTokensLockedEvent sampleLib insertionOrder
          (peersAnswering []) 0 sampleConfig
          [("0x1", { type := TransactionType.ethereum, status := TransactionStatus.completed,
                     completionTransactionId := "0x2-1" })]
          sampleEthereumLog).store (sampleLib.hashHex sampleEthereumLog.txHash) = some r ∧
        { r with opId := (sampleEthereumTransfer ["A"] ["AN"]).opId,
                 status := (sampleEthereumTransfer ["A"] ["AN"]).status,
                 completionTransactionId :=
                   (sampleEthereumTransfer ["A"] ["AN"]).completionTransactionId,
                 validators := (sampleEthereumTransfer ["A"] ["AN"]).validators,
                 signatures := (sampleEthereumTransfer ["A"] ["AN"]).signatures }
          = sampleEthereumTransfer ["A"] ["AN"] ∧
        r.opId = "" ∧ r.status = TransactionStatus.completed ∧
        r.completionTransactionId = "0x2-1" ∧
        sampleConfig.koinosAddress ∈ r.validators) :=
  ⟨(completed_record_frame sampleLib sampleApi sampleConfig).1 insertionOrder 0
    { ethTxStore := [("0x1", { sampleEthereumTransfer ["A"] ["AN"] with
                                status := TransactionStatus.completed })],
      koinosTxStore := [] }
    (signEnvelope sampleLib [66] (sampleEthereumTransfer ["B"] ["BN"]) 60000)
    ⟨{ sampleEthereumTransfer ["A"] ["AN"] with status := TransactionStatus.completed },
      by decide, by decide⟩,
   (completed_record_frame sampleLib sampleApi sampleConfig).2.2.2.2.2.2.2.2.1 insertionOrder
    (peersAnswering []) 0
    [("0x1", { type := TransactionType.ethereum, status := TransactionStatus.completed,
               completionTransactionId := "0x2-1" })]
    sampleEthereumLog
    { type := TransactionType.ethereum, status := TransactionStatus.completed,
      completionTransactionId := "0x2-1" }
    (sampleEthereumTransfer ["A"] ["AN"]) (by decide) (by decide) (by decide)
    (Or.inl (by decide))⟩

/-! ## Invariant I1: the stored hash is the recomputed digest -/

theorem hashMatchesFields_frame (L : Lib) (kc ec : Bytes) (p : Transaction)
    (validators signatures : List String) (status : TransactionStatus) (completion : String) :
    hashMatchesFields L kc ec
      { p with validators := validators, signatures := signatures, status := status,
               completionTransactionId := completion } = hashMatchesFields L kc ec p := rfl

theorem hashMatchesFields_of_ethereumChecks (L : Lib) (api : Api) (ec : Bytes)
    (tx : Transaction) (hash : Bytes) (hashB64 : String) (htype : tx.type = TransactionType.ethereum)
    (h : ethereumChecksPass L api tx hash hashB64) :
    hashMatchesFields L api.koinosContractAddress ec tx = true := by
  unfold hashMatchesFields
  rw [htype]
  simp only [h.1, h.2.1, decide_True]

theorem hashMatchesFields_of_koinosChecks (L : Lib) (api : Api) (kc : Bytes)
    (tx : Transaction) (prefixedHash : Bytes) (htype : tx.type = TransactionType.koinos)
    (h : koinosChecksPass L api tx prefixedHash) :
    hashMatchesFields L kc api.ethContractAddress tx = true := by
  unfold hashMatchesFields
  rw [htype]
  simp only [h.1, h.2.1, decide_True]

theorem ethereumLockedRecord_hashMatches (L : Lib) (cfg : StreamerConfig)
    (prior : Option Transaction) (ev : EthereumTokensLockedLog) (r : Transaction)
    (hamount : ev.amount < 2 ^ 64) (hpayment : ev.payment < 2 ^ 64) (hchain : ev.chain < 2 ^ 32)
    (hid : L.fromHex (L.hashHex ev.txHash) = ev.txHash)
    (hpa : L.parseUint (toString ev.amount) 64 = some ev.amount)
    (hpp : L.parseUint (toString ev.payment) 64 = some ev.payment)
    (hpc : L.parseUint (toString ev.chain) 32 = some ev.chain)
    (h : ethereumLockedRecord L cfg prior ev = some r) :
    hashMatchesFields L cfg.koinosContractAddr cfg.ethereumContractAddr r = true := by
  obtain ⟨koinosToken, recipient, relayer, bytes, hk, hr, hl, hb, _, hrec⟩ :=
    ethereumLockedRecord_eq L cfg prior ev r h
  subst hrec
  have h1 : ev.amount % 2 ^ 64 = ev.amount := Nat.mod_eq_of_lt hamount
  have h2 : ev.payment % 2 ^ 64 = ev.payment := Nat.mod_eq_of_lt hpayment
  have h3 : ev.chain % 2 ^ 32 = ev.chain := Nat.mod_eq_of_lt hchain
  have h4 : ¬ ev.chain > 2 ^ 32 - 1 := by omega
  rw [h1, h2] at hb
  simp only [hashMatchesFields, ethereumTransferDigest, hid, hpa, hpp, hpc, hk, hr, hl, h3, h4,
    if_false, hb, decide_True]
theorem koinosLockedRecord_hashMatches (L : Lib) (cfg : StreamerConfig)
    (prior : Option Transaction) (ev : KoinosTokensLockedEvent) (r : Transaction)
    (hid : L.fromHex ("0x" ++ L.bytes2Hex ev.receiptId) = ev.receiptId)
    (htoken : L.fromHex (tokenConfig cfg.tokenAddresses (L.base58Encode ev.token)).ethereumAddress
      = L.hexToAddress (tokenConfig cfg.tokenAddresses (L.base58Encode ev.token)).ethereumAddress)
    (hrecipient : L.fromHex (L.addressHex (L.hexToAddress ev.recipient))
      = L.hexToAddress ev.recipient)
    (hrelayer : L.fromHex (L.addressHex (L.hexToAddress ev.relayer)) = L.hexToAddress ev.relayer)
    (hps : L.parseUint (toString ev.sequence) 64 = some ev.sequence)
    (hpc : L.parseUint (toString ev.chainId) 64 = some ev.chainId)
    (h : koinosLockedRecord L cfg prior ev = some r) :
    hashMatchesFields L cfg.koinosContractAddr cfg.ethereumContractAddr r = true := by
  obtain ⟨hash, prefixedHash, sigBytes, hg, _, _, hrec⟩ := koinosLockedRecord_eq L cfg prior ev r h
  subst hrec
  simp only [hashMatchesFields, koinosTransferDigest, hid, htoken, hrecipient, hrelayer, hps,
    hpc, hg, decide_True]

theorem ethereumResignRecord_hashMatches (L : Lib) (ord : MapOrder) (cfg : StreamerConfig)
    (prior : Option Transaction) (blocktime : Nat) (r : Transaction)
    (hbits : ∀ s c, L.parseUint s 32 = some c → c < 2 ^ 32)
    (htype : ∀ p, prior = some p → p.type = TransactionType.ethereum)
    (h : ethereumResignRecord L ord cfg prior blocktime = ResignStep.stored r) :
    hashMatchesFields L cfg.koinosContractAddr cfg.ethereumContractAddr r = true := by
  obtain ⟨p, koinosToken, recipient, relayer, amount, payment, chain, bytes, newSignatures, hp,
    _, _, hk, hr, hl, ha, hpay, hc, hb, _, hrec⟩ := ethereumResignRecord_stored L ord cfg prior
      blocktime r h
  subst hrec
  have h4 : ¬ chain > 2 ^ 32 - 1 := by
    have := hbits _ _ hc
    omega
  simp only [hashMatchesFields, withSignatureMap, htype p hp, ethereumTransferDigest, ha, hpay,
    hc, hk, hr, hl, h4, if_false, hb, decide_True]

theorem koinosResignRecord_hashMatches (L : Lib) (ord : MapOrder) (cfg : StreamerConfig)
    (prior : Option Transaction) (blocktime : Nat) (r : Transaction)
    (htype : ∀ p, prior = some p → p.type = TransactionType.koinos)
    (htoken : ∀ p, prior = some p → L.fromHex p.ethToken = L.hexToAddress p.ethToken)
    (hrecipient : ∀ p, prior = some p → L.fromHex p.recipient = L.hexToAddress p.recipient)
    (hrelayer : ∀ p, prior = some p → L.fromHex p.relayer = L.hexToAddress p.relayer)
    (h : koinosResignRecord L ord cfg prior blocktime = ResignStep.stored r) :
    hashMatchesFields L cfg.koinosContractAddr cfg.ethereumContractAddr r = true := by
  obtain ⟨p, opId, chain, hash, prefixedHash, sigBytes, newSignatures, hp, _, _, ho, hc, hg, _,
    _, hrec⟩ := koinosResignRecord_stored L ord cfg prior blocktime r h
  subst hrec
  simp only [hashMatchesFields, withSignatureMap, htype p hp, koinosTransferDigest, htoken p hp,
    hrecipient p hp, hrelayer p hp, ho, hc, hg, decide_True]

theorem mergeBroadcast_hashMatches (L : Lib) (kc ec : Bytes) (ord : MapOrder) (threshold : Nat)
    (store store' : GoMap Transaction) (key : String) (signatures : Option (GoMap String))
    (h : mergeBroadcast ord threshold store key signatures = some store') :
    ∃ tx r, mapGet store key = some tx ∧ store' = mapSet store key r ∧
      hashMatchesFields L kc ec r = hashMatchesFields L kc ec tx := by
  obtain ⟨tx, m, htx, _, hs⟩ := mergeBroadcast_eq ord threshold store store' key signatures h
  refine ⟨tx, _, htx, hs, ?_⟩
  split <;> rfl
theorem newRecordsSatisfy_refl (P : Transaction → Prop) (store : GoMap Transaction) :
    newRecordsSatisfy P store store :=
  fun _ _ h => Or.inl h

theorem newRecordsSatisfy_mapSet (P : Transaction → Prop) (store : GoMap Transaction)
    (k : String) (r : Transaction) (hr : P r) : newRecordsSatisfy P store (mapSet store k r) := by
  intro key r' h
  rw [mapGet_mapSet] at h
  split at h
  · injection h with h
    subst h
    exact Or.inr hr
  · exact Or.inl h

theorem newRecordsSatisfy_trans (P : Transaction → Prop) (a b c : GoMap Transaction)
    (hab : newRecordsSatisfy P a b) (hbc : newRecordsSatisfy P b c) :
    newRecordsSatisfy P a c := by
  intro key r h
  rcases hbc key r h with h1 | h1
  · exact hab key r h1
  · exact Or.inr h1

theorem newRecordsSatisfy_merge (L : Lib) (kc ec : Bytes) (ord : MapOrder) (threshold : Nat)
    (store store' : GoMap Transaction) (key : String) (signatures : Option (GoMap String))
    (hkey : ∀ tx, mapGet store key = some tx → hashMatchesFields L kc ec tx = true)
    (h : mergeBroadcast ord threshold store key signatures = some store') :
    newRecordsSatisfy (fun r => hashMatchesFields L kc ec r = true) store store' := by
  obtain ⟨tx, r, htx, hs, hm⟩ := mergeBroadcast_hashMatches L kc ec ord threshold store store'
    key signatures h
  subst hs
  apply newRecordsSatisfy_mapSet
  show hashMatchesFields L kc ec r = true
  rw [hm]
  exact hkey tx htx

theorem submitSignature_hashMatches (L : Lib) (api : Api) (ord : MapOrder) (now : Int)
    (stores : Stores) (sub : SubmittedSignature)
    (hprior : ∀ p, mapGet (transferStore stores sub.transaction.type)
        (submissionKey sub.transaction) = some p →
      hashMatchesFields L api.koinosContractAddress api.ethContractAddress p = true) :
    newRecordsSatisfy
        (fun r => hashMatchesFields L api.koinosContractAddress api.ethContractAddress r = true)
        stores.ethTxStore (SubmitSignature L ord api now stores sub).2.ethTxStore ∧
    newRecordsSatisfy
        (fun r => hashMatchesFields L api.koinosContractAddress api.ethContractAddress r = true)
        stores.koinosTxStore (SubmitSignature L ord api now stores sub).2.koinosTxStore := by
  have hmerge : ∀ (loc hashStr : String) (prior : Option Transaction) (r : Transaction)
      (response : String),
      sub.transaction.validators.length = sub.transaction.signatures.length →
      hashMatchesFields L api.koinosContractAddress api.ethContractAddress sub.transaction = true →
      (∀ p, prior = some p →
        hashMatchesFields L api.koinosContractAddress api.ethContractAddress p = true) →
      mergeSubmission ord api.validators.length loc hashStr prior sub.transaction
        = MergeResult.store r response →
      hashMatchesFields L api.koinosContractAddress api.ethContractAddress r = true := by
    intro loc hashStr prior r response hlen htx hp hm
    cases prior with
    | none =>
      rw [mergeSubmission_none] at hm
      injection hm with hm _
      rw [← hm]
      split
      · exact htx
      · exact htx
    | some p =>
      obtain ⟨_, _, _, _, _, hf, _⟩ := mergeSubmission_store_prior ord _ loc hashStr p
        sub.transaction r response hlen hm
      have := hp p rfl
      rw [← hf] at this
      exact this
  unfold SubmitSignature
  split
  · exact ⟨newRecordsSatisfy_refl _ _, newRecordsSatisfy_refl _ _⟩
  · split
    · rename_i htype
      simp only [htype, transferStore, submissionKey] at hprior
      rcases submitEthereum_cases L ord api stores sub.transaction with
        ⟨r, h, _⟩ | ⟨hash, hashB64, hpass, ⟨r, _, h⟩ | ⟨ethTx, response, hm, h⟩⟩
      · rw [h]; exact ⟨newRecordsSatisfy_refl _ _, newRecordsSatisfy_refl _ _⟩
      · rw [h]; exact ⟨newRecordsSatisfy_refl _ _, newRecordsSatisfy_refl _ _⟩
      · rw [h]
        refine ⟨newRecordsSatisfy_mapSet _ _ _ _ ?_, newRecordsSatisfy_refl _ _⟩
        exact hmerge _ _ _ ethTx response hpass.2.2.1
          (hashMatchesFields_of_ethereumChecks L api _ _ hash hashB64 htype hpass)
          (fun p hp => hprior p hp) hm
    · rename_i htype
      simp only [htype, transferStore, submissionKey] at hprior
      rcases submitKoinos_cases L ord api stores sub.transaction with
        ⟨r, h, _⟩ | ⟨prefixedHash, hpass, ⟨r, _, h⟩ | ⟨koinosTx, response, hm, h⟩⟩
      · rw [h]; exact ⟨newRecordsSatisfy_refl _ _, newRecordsSatisfy_refl _ _⟩
      · rw [h]; exact ⟨newRecordsSatisfy_refl _ _, newRecordsSatisfy_refl _ _⟩
      · rw [h]
        refine ⟨newRecordsSatisfy_refl _ _, newRecordsSatisfy_mapSet _ _ _ _ ?_⟩
        exact hmerge _ _ _ koinosTx response hpass.2.2.1
          (hashMatchesFields_of_koinosChecks L api _ _ prefixedHash htype hpass)
          (fun p hp => hprior p hp) hm
theorem ethereumLocked_hashMatches (L : Lib) (ord : MapOrder) (net : Network) (now : Int)
    (cfg : StreamerConfig) (store : GoMap Transaction) (ev : EthereumTokensLockedLog)
    (hamount : ev.amount < 2 ^ 64) (hpayment : ev.payment < 2 ^ 64) (hchain : ev.chain < 2 ^ 32)
    (hid : L.fromHex (L.hashHex ev.txHash) = ev.txHash)
    (hpa : L.parseUint (toString ev.amount) 64 = some ev.amount)
    (hpp : L.parseUint (toString ev.payment) 64 = some ev.payment)
    (hpc : L.parseUint (toString ev.chain) 32 = some ev.chain) :
    newRecordsSatisfy
      (fun r => hashMatchesFields L cfg.koinosContractAddr cfg.ethereumContractAddr r = true)
      store (processEthereumTokensLockedEvent L ord net now cfg store ev).store := by
  unfold processEthereumTokensLockedEvent
  simp only
  cases hrec : ethereumLockedRecord L cfg (mapGet store (L.hashHex ev.txHash)) ev with
  | none => exact newRecordsSatisfy_refl _ _
  | some r =>
    have hr := ethereumLockedRecord_hashMatches L cfg _ ev r hamount hpayment hchain hid hpa hpp
      hpc hrec
    have hcommit := newRecordsSatisfy_mapSet
      (fun r => hashMatchesFields L cfg.koinosContractAddr cfg.ethereumContractAddr r = true)
      store (L.hashHex ev.txHash) r hr
    simp only
    split
    · exact hcommit
    · rename_i merged hm
      refine newRecordsSatisfy_trans _ _ _ _ hcommit
        (newRecordsSatisfy_merge L _ _ ord _ _ _ _ _ ?_ hm)
      intro tx htx
      rw [mapGet_mapSet_self] at htx
      injection htx with htx
      rw [← htx]
      exact hr

theorem koinosLocked_hashMatches (L : Lib) (ord : MapOrder) (net : Network) (now : Int)
    (cfg : StreamerConfig) (store : GoMap Transaction) (ev : KoinosTokensLockedEvent)
    (hid : L.fromHex ("0x" ++ L.bytes2Hex ev.receiptId) = ev.receiptId)
    (htoken : L.fromHex (tokenConfig cfg.tokenAddresses (L.base58Encode ev.token)).ethereumAddress
      = L.hexToAddress (tokenConfig cfg.tokenAddresses (L.base58Encode ev.token)).ethereumAddress)
    (hrecipient : L.fromHex (L.addressHex (L.hexToAddress ev.recipient))
      = L.hexToAddress ev.recipient)
    (hrelayer : L.fromHex (L.addressHex (L.hexToAddress ev.relayer)) = L.hexToAddress ev.relayer)
    (hps : L.parseUint (toString ev.sequence) 64 = some ev.sequence)
    (hpc : L.parseUint (toString ev.chainId) 64 = some ev.chainId) :
    newRecordsSatisfy
      (fun r => hashMatchesFields L cfg.koinosContractAddr cfg.ethereumContractAddr r = true)
      store (processKoinosTokensLockedEvent L ord net now cfg store ev).store := by
  unfold processKoinosTokensLockedEvent
  simp only
  cases hrec : koinosLockedRecord L cfg
      (mapGet store ("0x" ++ L.bytes2Hex ev.receiptId ++ "-" ++ toString ev.sequence)) ev with
  | none => exact newRecordsSatisfy_refl _ _
  | some r =>
    have hr := koinosLockedRecord_hashMatches L cfg _ ev r hid htoken hrecipient hrelayer hps
      hpc hrec
    have hcommit := newRecordsSatisfy_mapSet
      (fun r => hashMatchesFields L cfg.koinosContractAddr cfg.ethereumContractAddr r = true)
      store ("0x" ++ L.bytes2Hex ev.receiptId ++ "-" ++ toString ev.sequence) r hr
    simp only
    split
    · exact hcommit
    · rename_i merged hm
      refine newRecordsSatisfy_trans _ _ _ _ hcommit
        (newRecordsSatisfy_merge L _ _ ord _ _ _ _ _ ?_ hm)
      intro tx htx
      rw [mapGet_mapSet_self] at htx
      injection htx with htx
      rw [← htx]
      exact hr

theorem ethereumResign_hashMatches (L : Lib) (ord : MapOrder) (net : Network) (now : Int)
    (cfg : StreamerConfig) (store : GoMap Transaction) (ev : EthereumRequestNewSignaturesLog)
    (hbits : ∀ s c, L.parseUint s 32 = some c → c < 2 ^ 32)
    (htype : ∀ p, mapGet store ("0x" ++ L.bytes2Hex ev.txId) = some p →
      p.type = TransactionType.ethereum) :
    newRecordsSatisfy
      (fun r => hashMatchesFields L cfg.koinosContractAddr cfg.ethereumContractAddr r = true)
      store (processEthereumRequestNewSignaturesEvent L ord net now cfg store ev).store := by
  unfold processEthereumRequestNewSignaturesEvent
  simp only
  cases hrec : ethereumResignRecord L ord cfg (mapGet store ("0x" ++ L.bytes2Hex ev.txId))
      (ev.blocktime % 2 ^ 64) with
  | skipped => exact newRecordsSatisfy_refl _ _
  | panicked => exact newRecordsSatisfy_refl _ _
  | stored r =>
    have hr := ethereumResignRecord_hashMatches L ord cfg _ _ r hbits htype hrec
    have hcommit := newRecordsSatisfy_mapSet
      (fun r => hashMatchesFields L cfg.koinosContractAddr cfg.ethereumContractAddr r = true)
      store ("0x" ++ L.bytes2Hex ev.txId) r hr
    simp only
    split
    · exact hcommit
    · rename_i merged hm
      refine newRecordsSatisfy_trans _ _ _ _ hcommit
        (newRecordsSatisfy_merge L _ _ ord _ _ _ _ _ ?_ hm)
      intro tx htx
      rw [mapGet_mapSet_self] at htx
      injection htx with htx
      rw [← htx]
      exact hr

theorem koinosResign_hashMatches (L : Lib) (ord : MapOrder) (net : Network) (now : Int)
    (cfg : StreamerConfig) (store : GoMap Transaction) (ev : KoinosRequestNewSignaturesEvent)
    (hprior : ∀ p, mapGet store (koinosResignKey store ev) = some p →
      p.type = TransactionType.koinos ∧
      L.fromHex p.ethToken = L.hexToAddress p.ethToken ∧
      L.fromHex p.recipient = L.hexToAddress p.recipient ∧
      L.fromHex p.relayer = L.hexToAddress p.relayer) :
    newRecordsSatisfy
      (fun r => hashMatchesFields L cfg.koinosContractAddr cfg.ethereumContractAddr r = true)
      store (processRequestNewSignaturesEvent L ord net now cfg store ev).store := by
  unfold processRequestNewSignaturesEvent
  simp only
  cases hrec : koinosResignRecord L ord cfg (mapGet store (koinosResignKey store ev))
      ev.timestamp with
  | skipped => exact newRecordsSatisfy_refl _ _
  | panicked => exact newRecordsSatisfy_refl _ _
  | stored r =>
    have hr := koinosResignRecord_hashMatches L ord cfg _ _ r
      (fun p hp => (hprior p hp).1) (fun p hp => (hprior p hp).2.1)
      (fun p hp => (hprior p hp).2.2.1) (fun p hp => (hprior p hp).2.2.2) hrec
    have hcommit := newRecordsSatisfy_mapSet
      (fun r => hashMatchesFields L cfg.koinosContractAddr cfg.ethereumContractAddr r = true)
      store (koinosResignKey store ev) r hr
    simp only
    split
    · exact hcommit
    · rename_i merged hm
      refine newRecordsSatisfy_trans _ _ _ _ hcommit
        (newRecordsSatisfy_merge L _ _ ord _ _ _ _ _ ?_ hm)
      intro tx htx
      rw [mapGet_mapSet_self] at htx
      injection htx with htx
      rw [← htx]
      exact hr
/-- C5 (counterexample).  A completion event for a transfer that is not in the
store writes a record whose only set fields are the kind, the status and the
completion id; its hash is the empty string and no digest can be recomputed from
its fields, so the stored hash is not the recomputed digest. -/
theorem completion_skeleton_hash_differs :
    processKoinosTransferCompletedEvent sampleLib []
        { receiptId := [50], sequence := 1, txId := [49] }
      = [("0x1", { type := TransactionType.ethereum, status := TransactionStatus.completed,
                   completionTransactionId := "0x2-1" })] ∧
    sampleLib.parseUint "" 64 = none ∧
    hashMatchesFields sampleLib sampleConfig.koinosContractAddr sampleConfig.ethereumContractAddr
        { type := TransactionType.ethereum, status := TransactionStatus.completed,
          completionTransactionId := "0x2-1" } = false := by
  decide

/-- C5 (amended).  The records written by the following operations have a hash
equal to the digest recomputed from their own fields: an accepted peer submission
(when the prior record under its key, if any, has that property); the processing of
an Ethereum `TokensLocked` event whose amount and payment fit 64 bits (and whose
transaction hash, amount, payment and chain survive the round trip through their
text); the processing of a Koinos `TokensLocked` event (when the text stored for
the token, recipient and relayer decodes to the address bytes that were hashed); a
re-sign of an Ethereum transfer; a re-sign of a Koinos transfer (when the stored
address texts decode to the address bytes that are hashed); a completion of a
record that exists and has the property.  Nothing is said about the record a
completion creates for a transfer it does not find. -/
theorem written_hash_matches_fields (L : Lib) (api : Api) (cfg : StreamerConfig) :
    (∀ (ord : MapOrder) (now : Int) (stores : Stores) (sub : SubmittedSignature),
      (∀ p, mapGet (transferStore stores sub.transaction.type)
          (submissionKey sub.transaction) = some p →
        hashMatchesFields L api.koinosContractAddress api.ethContractAddress p = true) →
      newRecordsSatisfy
          (fun r => hashMatchesFields L api.koinosContractAddress api.ethContractAddress r = true)
          stores.ethTxStore (SubmitSignature L ord api now stores sub).2.ethTxStore ∧
      newRecordsSatisfy
          (fun r => hashMatchesFields L api.koinosContractAddress api.ethContractAddress r = true)
          stores.koinosTxStore (SubmitSignature L ord api now stores sub).2.koinosTxStore) ∧
    (∀ (ord : MapOrder) (net : Network) (now : Int) (store : GoMap Transaction)
        (ev : EthereumTokensLockedLog),
      ev.amount < 2 ^ 64 → ev.payment < 2 ^ 64 → ev.chain < 2 ^ 32 →
      L.fromHex (L.hashHex ev.txHash) = ev.txHash →
      L.parseUint (toString ev.amount) 64 = some ev.amount →
      L.parseUint (toString ev.payment) 64 = some ev.payment →
      L.parseUint (toString ev.chain) 32 = some ev.chain →
      newRecordsSatisfy
        (fun r => hashMatchesFields L cfg.koinosContractAddr cfg.ethereumContractAddr r = true)
        store (processEthereumTokensLockedEvent L ord net now cfg store ev).store) ∧
    (∀ (ord : MapOrder) (net : Network) (now : Int) (store : GoMap Transaction)
        (ev : KoinosTokensLockedEvent),
      L.fromHex ("0x" ++ L.bytes2Hex ev.receiptId) = ev.receiptId →
      L.fromHex (tokenConfig cfg.tokenAddresses (L.base58Encode ev.token)).ethereumAddress
        = L.hexToAddress
            (tokenConfig cfg.tokenAddresses (L.base58Encode ev.token)).ethereumAddress →
      L.fromHex (L.addressHex (L.hexToAddress ev.recipient)) = L.hexToAddress ev.recipient →
      L.fromHex (L.addressHex (L.hexToAddress ev.relayer)) = L.hexToAddress ev.relayer →
      L.parseUint (toString ev.sequence) 64 = some ev.sequence →
      L.parseUint (toString ev.chainId) 64 = some ev.chainId →
      newRecordsSatisfy
        (fun r => hashMatchesFields L cfg.koinosContractAddr cfg.ethereumContractAddr r = true)
        store (processKoinosTokensLockedEvent L ord net now cfg store ev).store) ∧
    (∀ (ord : MapOrder) (net : Network) (now : Int) (store : GoMap Transaction)
        (ev : EthereumRequestNewSignaturesLog),
      (∀ s c, L.parseUint s 32 = some c → c < 2 ^ 32) →
      (∀ p, mapGet store ("0x" ++ L.bytes2Hex ev.txId) = some p →
        p.type = TransactionType.ethereum) →
      newRecordsSatisfy
        (fun r => hashMatchesFields L cfg.koinosContractAddr cfg.ethereumContractAddr r = true)
        store (processEthereumRequestNewSignaturesEvent L ord net now cfg store ev).store) ∧
    (∀ (ord : MapOrder) (net : Network) (now : Int) (store : GoMap Transaction)
        (ev : KoinosRequestNewSignaturesEvent),
      (∀ p, mapGet store (koinosResignKey store ev) = some p →
        p.type = TransactionType.koinos ∧
        L.fromHex p.ethToken = L.hexToAddress p.ethToken ∧
        L.fromHex p.recipient = L.hexToAddress p.recipient ∧
        L.fromHex p.relayer = L.hexToAddress p.relayer) →
      newRecordsSatisfy
        (fun r => hashMatchesFields L cfg.koinosContractAddr cfg.ethereumContractAddr r = true)
        store (processRequestNewSignaturesEvent L ord net now cfg store ev).store) ∧
    (∀ (store : GoMap Transaction) (ev : KoinosTransferCompletedEvent) (p : Transaction),
      mapGet store ("0x" ++ L.bytes2Hex ev.txId) = some p →
      hashMatchesFields L cfg.koinosContractAddr cfg.ethereumContractAddr p = true →
      newRecordsSatisfy
        (fun r => hashMatchesFields L cfg.koinosContractAddr cfg.ethereumContractAddr r = true)
        store (processKoinosTransferCompletedEvent L store ev)) ∧
    (∀ (store : GoMap Transaction) (ev : EthereumTransferCompletedLog) (p : Transaction),
      mapGet store ("0x" ++ L.bytes2Hex ev.txId ++ "-" ++ toString ev.operationId) = some p →
      hashMatchesFields L cfg.koinosContractAddr cfg.ethereumContractAddr p = true →
      newRecordsSatisfy
        (fun r => hashMatchesFields L cfg.koinosContractAddr cfg.ethereumContractAddr r = true)
        store (processEthereumTransferCompletedEvent L store ev)) := by
  refine ⟨?_, ?_, ?_, ?_, ?_, ?_, ?_⟩
  · intro ord now stores sub hprior
    exact submitSignature_hashMatches L api ord now stores sub hprior
  · intro ord net now store ev h1 h2 h3 h4 h5 h6 h7
    exact ethereumLocked_hashMatches L ord net now cfg store ev h1 h2 h3 h4 h5 h6 h7
  · intro ord net now store ev h1 h2 h3 h4 h5 h6
    exact koinosLocked_hashMatches L ord net now cfg store ev h1 h2 h3 h4 h5 h6
  · intro ord net now store ev h1 h2
    exact ethereumResign_hashMatches L ord net now cfg store ev h1 h2
  · intro ord net now store ev h1
    exact koinosResign_hashMatches L ord net now cfg store ev h1
  · intro store ev p hp hI
    apply newRecordsSatisfy_mapSet
    show hashMatchesFields L _ _ (completedRecord _ _ _) = true
    simp only [completedRecord, hp, Option.getD_some]
    exact hI
  · intro store ev p hp hI
    apply newRecordsSatisfy_mapSet
    show hashMatchesFields L _ _ (completedRecord _ _ _) = true
    simp only [completedRecord, hp, Option.getD_some]
    exact hI

/-- Witness of C5: the sample Ethereum `TokensLocked` event, processed on an empty
store with the broadcast answered by `B` and `C`. -/
theorem written_hash_matches_fields_witness :
    newRecordsSatisfy
      (fun r => hashMatchesFields sampleLib sampleConfig.koinosContractAddr
        sampleConfig.ethereumContractAddr r = true)
      []
      (processEthereumTokensLockedEvent sampleLib insertionOrder
        (peersAnswering [("http://b/SubmitSignature", "BN"), ("http://c/SubmitSignature", "CN")])
        0 sampleConfig [] sampleEthereumLog).store :=
  (written_hash_matches_fields sampleLib sampleApi sampleConfig).2.1 insertionOrder
    (peersAnswering [("http://b/SubmitSignature", "BN"), ("http://c/SubmitSignature", "CN")])
    0 [] sampleEthereumLog (by decide) (by decide) (by decide) (by decide) (by decide)
    (by decide) (by decide)
/-! ## Invariant I2: the stored signatures verify -/

theorem signaturesValid_iff (L : Lib) (validators : GoMap ValidatorConfig) (tx : Transaction) :
    signaturesValid L validators tx = true ↔
      tx.validators.length = tx.signatures.length ∧
      ∀ v s, (v, s) ∈ tx.validators.zip tx.signatures →
        mapHas validators v = true ∧ recoversUnderHash L tx.type tx.hash s v = true := by
  unfold signaturesValid
  simp only [Bool.and_eq_true, decide_eq_true_eq, List.all_eq_true]
  constructor
  · rintro ⟨h1, h2⟩
    exact ⟨h1, fun v s hmem => h2 (v, s) hmem⟩
  · rintro ⟨h1, h2⟩
    exact ⟨h1, fun p hmem => h2 p.1 p.2 hmem⟩

theorem zip_map_fst_snd (l : GoMap String) : (l.map Prod.fst).zip (l.map Prod.snd) = l := by
  induction l with
  | nil => rfl
  | cons e rest ih =>
    obtain ⟨k, v⟩ := e
    simp [ih]

theorem mem_zip_of_lastSignatureOf :
    ∀ (vals sigs : List String) (v s : String),
      lastSignatureOf vals sigs v = some s → (v, s) ∈ vals.zip sigs := by
  intro vals
  induction vals with
  | nil => intro sigs v s h; simp [lastSignatureOf] at h
  | cons v0 rest ih =>
    intro sigs v s h
    cases sigs with
    | nil => simp [lastSignatureOf] at h
    | cons s0 srest =>
      simp only [lastSignatureOf] at h
      cases hl : lastSignatureOf rest srest v with
      | some r =>
        rw [hl] at h
        simp only [Option.some.injEq] at h
        subst h
        exact List.mem_cons_of_mem _ (ih srest v r hl)
      | none =>
        rw [hl] at h
        simp only at h
        split at h
        · rename_i hv
          injection h with h
          subst h
          subst hv
          exact List.mem_cons_self _ _
        · cases h

theorem mem_zip_of_firstSignatureOf :
    ∀ (vals sigs : List String) (v s : String),
      firstSignatureOf vals sigs v = some s → (v, s) ∈ vals.zip sigs := by
  intro vals
  induction vals with
  | nil => intro sigs v s h; simp [firstSignatureOf] at h
  | cons v0 rest ih =>
    intro sigs v s h
    cases sigs with
    | nil => simp [firstSignatureOf] at h
    | cons s0 srest =>
      simp only [firstSignatureOf] at h
      split at h
      · rename_i hv
        injection h with h
        subst h
        subst hv
        exact List.mem_cons_self _ _
      · exact List.mem_cons_of_mem _ (ih srest v s h)

theorem withSignatureMap_pairs (ord : MapOrder) (tx : Transaction) (m : GoMap String)
    (hnodup : (m.map Prod.fst).Nodup) (v s : String) :
    (v, s) ∈ (withSignatureMap ord tx m).validators.zip (withSignatureMap ord tx m).signatures ↔
      mapGet m v = some s := by
  simp only [withSignatureMap]
  rw [zip_map_fst_snd, (ord.perm m).mem_iff, mapGet_eq_some_iff_mem m hnodup]

theorem checkKoinosSignatures_none (L : Lib) (api : Api) (hash : Bytes) :
    ∀ (signatures validators : List String),
      checkKoinosSignatures L api hash signatures validators = none →
      ∀ v s, (v, s) ∈ validators.zip signatures →
        mapHas api.validators v = true ∧
        RecoverKoinosAddressFromSignature L s hash = some v := by
  intro signatures
  induction signatures with
  | nil => intro validators _ v s hmem; simp at hmem
  | cons s0 rest ih =>
    intro validators h v s hmem
    cases validators with
    | nil => simp at hmem
    | cons v0 vs =>
      unfold checkKoinosSignatures at h
      split at h
      · rename_i hhas
        split at h
        · cases h
        · rename_i recovered hrec
          split at h
          · cases h
          · rename_i heq
            have heq' : v0 = recovered := by simpa using heq
            simp only [List.zip_cons_cons, List.mem_cons, Prod.mk.injEq] at hmem
            rcases hmem with ⟨hv, hs⟩ | hmem
            · subst hv; subst hs
              exact ⟨hhas, by rw [hrec, heq']⟩
            · exact ih vs h v s hmem
      · cases h

theorem checkEthereumSignatures_none (L : Lib) (api : Api) (hash : Bytes) :
    ∀ (signatures validators : List String),
      checkEthereumSignatures L api hash signatures validators = none →
      ∀ v s, (v, s) ∈ validators.zip signatures →
        mapHas api.validators v = true ∧
        RecoverEthereumAddressFromSignature L s hash = GoResult.ok v := by
  intro signatures
  induction signatures with
  | nil => intro validators _ v s hmem; simp at hmem
  | cons s0 rest ih =>
    intro validators h v s hmem
    cases validators with
    | nil => simp at hmem
    | cons v0 vs =>
      unfold checkEthereumSignatures at h
      split at h
      · rename_i hhas
        split at h
        · cases h
        · cases h
        · rename_i recovered hrec
          split at h
          · cases h
          · rename_i heq
            have heq' : v0 = recovered := by simpa using heq
            simp only [List.zip_cons_cons, List.mem_cons, Prod.mk.injEq] at hmem
            rcases hmem with ⟨hv, hs⟩ | hmem
            · subst hv; subst hs
              exact ⟨hhas, by rw [hrec, heq']⟩
            · exact ih vs h v s hmem
      · cases h
/-! ## Laws of the sample library -/

theorem byte_char_roundtrip (x : UInt8) : UInt8.ofNat (Char.ofNat x.toNat).toNat = x := by
  have h : ∀ n : Fin 256, UInt8.ofNat (Char.ofNat n.val).toNat = UInt8.ofNat n.val := by decide
  have hx : UInt8.ofNat x.toNat = x := by
    cases x
    simp [UInt8.ofNat, UInt8.toNat]
  have h1 := h x.val
  rw [show (x.val : Nat) = x.toNat from rfl, hx] at h1
  exact h1

theorem decodeString_encodeBytes (b : Bytes) : decodeString (encodeBytes b) = b := by
  unfold decodeString encodeBytes
  simp only [List.map_map]
  conv_rhs => rw [← List.map_id b]
  apply List.map_congr_left
  intro x _
  exact byte_char_roundtrip x

theorem sampleLib_base64_roundtrip (b : Bytes) :
    sampleLib.base64Decode (sampleLib.base64Encode b) = some b := by
  simp [sampleLib, decodeString_encodeBytes]

theorem sampleLib_sign_recover (key : UInt8) (hash : Bytes) :
    RecoverKoinosAddressFromSignature sampleLib
      (sampleLib.base64Encode (SignKoinosHash sampleLib [key] hash)) hash
      = some (encodeBytes [key]) := by
  simp [RecoverKoinosAddressFromSignature, SignKoinosHash, KoinosPublicKeyToAddress, sampleLib,
    decodeString_encodeBytes, sampleRecoverCompact]
theorem firstSignatureOf_of_mem_nodup :
    ∀ (vals sigs : List String) (v s : String), vals.Nodup →
      (v, s) ∈ vals.zip sigs → firstSignatureOf vals sigs v = some s := by
  intro vals
  induction vals with
  | nil => intro sigs v s _ h; simp at h
  | cons v0 rest ih =>
    intro sigs v s hnodup h
    cases sigs with
    | nil => simp at h
    | cons s0 srest =>
      simp only [List.nodup_cons] at hnodup
      simp only [List.zip_cons_cons, List.mem_cons, Prod.mk.injEq] at h
      simp only [firstSignatureOf]
      rcases h with ⟨hv, hs⟩ | h
      · subst hv; subst hs
        simp
      · have hne : ¬ v0 = v := by
          intro hv
          subst hv
          exact hnodup.1 (List.of_mem_zip h).1
        simp only [hne, if_false]
        exact ih srest v s hnodup.2 h

theorem ethereumTransferDigest_ok (L : Lib) (contract : Bytes) (tx : Transaction)
    (hash : Bytes) (hashB64 : String)
    (h : ethereumTransferDigest L contract tx = Except.ok (hash, hashB64)) :
    hashB64 = L.base64Encode hash := by
  unfold ethereumTransferDigest at h
  simp only at h
  repeat' split at h
  all_goals first
    | (injection h with h
       injection h with h1 h2
       rw [← h1, ← h2])
    | cases h

theorem signaturesValid_of_ethereumChecks (L : Lib) (api : Api) (tx : Transaction)
    (hash : Bytes) (hashB64 : String)
    (hb64 : ∀ b, L.base64Decode (L.base64Encode b) = some b)
    (htype : tx.type = TransactionType.ethereum)
    (h : ethereumChecksPass L api tx hash hashB64) :
    signaturesValid L api.validators tx = true := by
  rw [signaturesValid_iff]
  refine ⟨h.2.2.1, fun v s hmem => ?_⟩
  obtain ⟨h1, h2⟩ := checkKoinosSignatures_none L api hash _ _ h.2.2.2 v s hmem
  refine ⟨h1, ?_⟩
  have hh : tx.hash = L.base64Encode hash := by
    rw [← h.2.1]
    exact ethereumTransferDigest_ok L _ tx hash hashB64 h.1
  simp only [recoversUnderHash, htype, hh, hb64, h2, decide_True]

theorem signaturesValid_of_koinosChecks (L : Lib) (api : Api) (tx : Transaction)
    (prefixedHash : Bytes)
    (hhex : ∀ b, L.fromHex (L.hashHex b) = b)
    (htype : tx.type = TransactionType.koinos)
    (h : koinosChecksPass L api tx prefixedHash) :
    signaturesValid L api.validators tx = true := by
  rw [signaturesValid_iff]
  refine ⟨h.2.2.1, fun v s hmem => ?_⟩
  obtain ⟨h1, h2⟩ := checkEthereumSignatures_none L api prefixedHash _ _ h.2.2.2 v s hmem
  refine ⟨h1, ?_⟩
  simp only [recoversUnderHash, htype, ← h.2.1, hhex, h2, decide_True]

theorem signaturesValid_status (L : Lib) (V : GoMap ValidatorConfig) (tx : Transaction)
    (status : TransactionStatus) (completion : String) :
    signaturesValid L V { tx with status := status, completionTransactionId := completion }
      = signaturesValid L V tx := rfl

theorem mergeSubmission_valid (L : Lib) (V : GoMap ValidatorConfig) (ord : MapOrder) (n : Nat)
    (loc : String) (prior : Option Transaction) (tx r : Transaction) (response : String)
    (hlen : tx.validators.length = tx.signatures.length)
    (htx : signaturesValid L V tx = true)
    (hprior : ∀ p, prior = some p → signaturesValid L V p = true ∧ p.type = tx.type)
    (hm : mergeSubmission ord n loc tx.hash prior tx = MergeResult.store r response) :
    signaturesValid L V r = true := by
  cases prior with
  | none =>
    rw [mergeSubmission_none] at hm
    injection hm with hm _
    rw [← hm]
    split
    · exact htx
    · exact htx
  | some p =>
    obtain ⟨_, hh, hnd, hl, hu, hf, _⟩ := mergeSubmission_store_prior ord n loc tx.hash p tx r
      response hlen hm
    obtain ⟨hp, hpt⟩ := hprior p rfl
    rw [signaturesValid_iff] at hp htx ⊢
    have hrt : r.type = p.type := by rw [← hf]
    have hrh : r.hash = p.hash := by rw [← hf]
    refine ⟨hl, fun v s hmem => ?_⟩
    have hfirst := firstSignatureOf_of_mem_nodup _ _ v s hnd hmem
    rw [hu v] at hfirst
    cases hlast : lastSignatureOf p.validators p.signatures v with
    | some s' =>
      rw [hlast] at hfirst
      simp only [Option.or_some, Option.some.injEq] at hfirst
      subst hfirst
      have := hp.2 v s' (mem_zip_of_lastSignatureOf _ _ v s' hlast)
      rw [hrt, hrh]
      exact this
    | none =>
      rw [hlast] at hfirst
      simp only [Option.none_or] at hfirst
      have := htx.2 v s (mem_zip_of_firstSignatureOf _ _ v s hfirst)
      rw [hrt, hrh, hpt, hh]
      exact this

theorem submitSignature_valid (L : Lib) (api : Api) (ord : MapOrder) (now : Int)
    (stores : Stores) (sub : SubmittedSignature)
    (hb64 : ∀ b, L.base64Decode (L.base64Encode b) = some b)
    (hhex : ∀ b, L.fromHex (L.hashHex b) = b)
    (hprior : ∀ p, mapGet (transferStore stores sub.transaction.type)
        (submissionKey sub.transaction) = some p →
      signaturesValid L api.validators p = true ∧ p.type = sub.transaction.type) :
    newRecordsSatisfy (fun r => signaturesValid L api.validators r = true)
        stores.ethTxStore (SubmitSignature L ord api now stores sub).2.ethTxStore ∧
    newRecordsSatisfy (fun r => signaturesValid L api.validators r = true)
        stores.koinosTxStore (SubmitSignature L ord api now stores sub).2.koinosTxStore := by
  unfold SubmitSignature
  split
  · exact ⟨newRecordsSatisfy_refl _ _, newRecordsSatisfy_refl _ _⟩
  · split
    · rename_i htype
      simp only [htype, transferStore, submissionKey] at hprior
      rcases submitEthereum_cases L ord api stores sub.transaction with
        ⟨r, h, _⟩ | ⟨hash, hashB64, hpass, ⟨r, _, h⟩ | ⟨ethTx, response, hm, h⟩⟩
      · rw [h]; exact ⟨newRecordsSatisfy_refl _ _, newRecordsSatisfy_refl _ _⟩
      · rw [h]; exact ⟨newRecordsSatisfy_refl _ _, newRecordsSatisfy_refl _ _⟩
      · rw [h]
        refine ⟨newRecordsSatisfy_mapSet _ _ _ _ ?_, newRecordsSatisfy_refl _ _⟩
        rw [hpass.2.1] at hm
        exact mergeSubmission_valid L api.validators ord _ _ _ sub.transaction ethTx response
          hpass.2.2.1
          (signaturesValid_of_ethereumChecks L api _ hash hashB64 hb64 htype hpass)
          (fun p hp => by rw [htype]; exact hprior p hp) hm
    · rename_i htype
      simp only [htype, transferStore, submissionKey] at hprior
      rcases submitKoinos_cases L ord api stores sub.transaction with
        ⟨r, h, _⟩ | ⟨prefixedHash, hpass, ⟨r, _, h⟩ | ⟨koinosTx, response, hm, h⟩⟩
      · rw [h]; exact ⟨newRecordsSatisfy_refl _ _, newRecordsSatisfy_refl _ _⟩
      · rw [h]; exact ⟨newRecordsSatisfy_refl _ _, newRecordsSatisfy_refl _ _⟩
      · rw [h]
        refine ⟨newRecordsSatisfy_refl _ _, newRecordsSatisfy_mapSet _ _ _ _ ?_⟩
        rw [hpass.2.1] at hm
        exact mergeSubmission_valid L api.validators ord _ _ _ sub.transaction koinosTx response
          hpass.2.2.1
          (signaturesValid_of_koinosChecks L api _ prefixedHash hhex htype hpass)
          (fun p hp => by rw [htype]; exact hprior p hp) hm
theorem signaturesValid_lockedBase (L : Lib) (V : GoMap ValidatorConfig)
    (prior : Option Transaction) (r : Transaction) (kind : TransactionType)
    (validator signature : String)
    (hrv : r.validators = (lockedBase prior validator signature).validators)
    (hrs : r.signatures = (lockedBase prior validator signature).signatures)
    (hrt : r.type = kind)
    (hlocal : mapHas V validator = true)
    (hsign : recoversUnderHash L kind r.hash signature validator = true)
    (hprior : ∀ p, prior = some p → signaturesValid L V p = true ∧ p.type = kind ∧
      (p.hash = r.hash ∨ p.validators = [])) :
    signaturesValid L V r = true := by
  rw [signaturesValid_iff, hrv, hrs, hrt]
  cases prior with
  | none =>
    simp only [lockedBase, List.length_singleton, List.zip_cons_cons, List.zip_nil_right,
      List.mem_singleton, Prod.mk.injEq, true_and]
    rintro v s ⟨hv, hs⟩
    subst hv; subst hs
    exact ⟨hlocal, hsign⟩
  | some p =>
    obtain ⟨hp, hpt, hph⟩ := hprior p rfl
    rw [signaturesValid_iff] at hp
    simp only [lockedBase, List.length_append, List.length_singleton, hp.1, true_and]
    intro v s hmem
    rw [List.zip_append hp.1] at hmem
    simp only [List.zip_cons_cons, List.zip_nil_right, List.mem_append, List.mem_singleton,
      Prod.mk.injEq] at hmem
    rcases hmem with hmem | ⟨hv, hs⟩
    · rcases hph with hph | hph
      · have := hp.2 v s hmem
        rw [hpt, hph] at this
        exact this
      · rw [hph] at hmem
        simp at hmem
    · subst hv; subst hs
      exact ⟨hlocal, hsign⟩

theorem commitEthereumLocked_valid (L : Lib) (cfg : StreamerConfig)
    (store : GoMap Transaction) (ev : EthereumTokensLockedLog)
    (hb64 : ∀ b, L.base64Decode (L.base64Encode b) = some b)
    (hlocal : mapHas cfg.validators cfg.koinosAddress = true)
    (hsign : ∀ h, RecoverKoinosAddressFromSignature L
      (L.base64Encode (SignKoinosHash L cfg.koinosPK h)) h = some cfg.koinosAddress)
    (hprior : ∀ p, mapGet store (L.hashHex ev.txHash) = some p →
      signaturesValid L cfg.validators p = true ∧ p.type = TransactionType.ethereum ∧
      (p.hash = "" → p.validators = [])) :
    newRecordsSatisfy (fun r => signaturesValid L cfg.validators r = true) store
      (commitEthereumLocked L cfg store ev) := by
  unfold commitEthereumLocked
  cases hrec : ethereumLockedRecord L cfg (mapGet store (L.hashHex ev.txHash)) ev with
  | none => exact newRecordsSatisfy_refl _ _
  | some r =>
    apply newRecordsSatisfy_mapSet
    obtain ⟨_, _, _, bytes, _, _, _, _, hh, hr⟩ := ethereumLockedRecord_eq L cfg _ ev r hrec
    apply signaturesValid_lockedBase L cfg.validators (mapGet store (L.hashHex ev.txHash)) r
      TransactionType.ethereum cfg.koinosAddress
      (L.base64Encode (SignKoinosHash L cfg.koinosPK (L.sha256 bytes)))
    · rw [hr]
    · rw [hr]
    · rw [hr]
    · exact hlocal
    · rw [hr]
      simp only [recoversUnderHash, hb64, hsign, decide_True]
    · intro p hp
      obtain ⟨h1, h2, h3⟩ := hprior p hp
      refine ⟨h1, h2, ?_⟩
      rcases hh p hp with h4 | h4
      · exact Or.inr (h3 h4)
      · left
        rw [hr]
        exact h4

theorem commitKoinosLocked_valid (L : Lib) (cfg : StreamerConfig)
    (store : GoMap Transaction) (ev : KoinosTokensLockedEvent)
    (hhex : ∀ b, L.fromHex (L.hashHex b) = b)
    (hlocal : mapHas cfg.validators cfg.ethereumAddress = true)
    (hsign : ∀ h sigBytes, SignEthereumHash L cfg.ethereumPK h = some sigBytes →
      RecoverEthereumAddressFromSignature L ("0x" ++ L.bytes2Hex sigBytes) h
        = GoResult.ok cfg.ethereumAddress)
    (hprior : ∀ p,
      mapGet store ("0x" ++ L.bytes2Hex ev.receiptId ++ "-" ++ toString ev.sequence) = some p →
      signaturesValid L cfg.validators p = true ∧ p.type = TransactionType.koinos ∧
      (p.hash = "" → p.validators = [])) :
    newRecordsSatisfy (fun r => signaturesValid L cfg.validators r = true) store
      (commitKoinosLocked L cfg store ev) := by
  unfold commitKoinosLocked
  cases hrec : koinosLockedRecord L cfg
      (mapGet store ("0x" ++ L.bytes2Hex ev.receiptId ++ "-" ++ toString ev.sequence)) ev with
  | none => exact newRecordsSatisfy_refl _ _
  | some r =>
    apply newRecordsSatisfy_mapSet
    obtain ⟨hash, prefixedHash, sigBytes, _, hs, hh, hr⟩ := koinosLockedRecord_eq L cfg _ ev r hrec
    apply signaturesValid_lockedBase L cfg.validators _ r
      TransactionType.koinos cfg.ethereumAddress ("0x" ++ L.bytes2Hex sigBytes)
    · rw [hr]
    · rw [hr]
    · rw [hr]
    · exact hlocal
    · rw [hr]
      simp only [recoversUnderHash, hhex, hsign prefixedHash sigBytes hs, decide_True]
    · intro p hp
      obtain ⟨h1, h2, h3⟩ := hprior p hp
      refine ⟨h1, h2, ?_⟩
      rcases hh p hp with h4 | h4
      · exact Or.inr (h3 h4)
      · left
        rw [hr]
        exact h4

theorem completedRecord_valid (L : Lib) (V : GoMap ValidatorConfig) (store : GoMap Transaction)
    (kind : TransactionType) (key completionId : String)
    (hprior : ∀ p, mapGet store key = some p → signaturesValid L V p = true) :
    newRecordsSatisfy (fun r => signaturesValid L V r = true) store
      (mapSet store key (completedRecord kind (mapGet store key) completionId)) := by
  apply newRecordsSatisfy_mapSet
  cases hp : mapGet store key with
  | none => simp [completedRecord, signaturesValid]
  | some p =>
    simp only [completedRecord, Option.getD_some]
    exact hprior p hp
theorem keepMatchingKoinosSignatures_spec (L : Lib) (hash : Bytes) (sigs : List String) :
    ∀ (vals : List String) (i : Nat) (m m' : GoMap String),
      keepMatchingKoinosSignatures L hash sigs vals i m = some m' →
      (m.map Prod.fst).Nodup →
      (m'.map Prod.fst).Nodup ∧
        ∀ v s, mapGet m' v = some s →
          mapGet m v = some s ∨
          ((v, s) ∈ vals.zip (sigs.drop i) ∧
            (RecoverKoinosAddressFromSignature L s hash).getD "" = v) := by
  intro vals
  induction vals with
  | nil =>
    intro i m m' h hnodup
    simp only [keepMatchingKoinosSignatures, Option.some.injEq] at h
    subst h
    exact ⟨hnodup, fun v s hs => Or.inl hs⟩
  | cons v0 rest ih =>
    intro i m m' h hnodup
    unfold keepMatchingKoinosSignatures at h
    split at h
    · obtain ⟨hn, hget⟩ := ih (i + 1) m m' h hnodup
      refine ⟨hn, fun v s hs => ?_⟩
      rcases hget v s hs with h1 | ⟨h1, h2⟩
      · exact Or.inl h1
      · right
        refine ⟨?_, h2⟩
        cases hd : sigs.drop i with
        | nil =>
          have : sigs.drop (i + 1) = [] := by
            rw [← List.drop_drop, hd]
            rfl
          rw [this] at h1
          simp at h1
        | cons s0 srest =>
          have : sigs.drop (i + 1) = srest := by
            rw [← List.drop_drop, hd]
            rfl
          rw [this] at h1
          exact List.mem_cons_of_mem _ h1
    · split at h
      · cases h
      · rename_i sig hsig
        have hdrop := drop_of_getElem? sigs i sig hsig
        simp only at h
        split at h
        · rename_i hrec
          obtain ⟨hn, hget⟩ := ih (i + 1) _ m' h (keys_nodup_mapSet m v0 sig hnodup)
          refine ⟨hn, fun v s hs => ?_⟩
          rw [hdrop]
          rcases hget v s hs with h1 | ⟨h1, h2⟩
          · rw [mapGet_mapSet] at h1
            split at h1
            · rename_i hv
              injection h1 with h1
              subst hv; subst h1
              exact Or.inr ⟨List.mem_cons_self _ _, hrec⟩
            · exact Or.inl h1
          · exact Or.inr ⟨List.mem_cons_of_mem _ h1, h2⟩
        · obtain ⟨hn, hget⟩ := ih (i + 1) m m' h hnodup
          refine ⟨hn, fun v s hs => ?_⟩
          rw [hdrop]
          rcases hget v s hs with h1 | ⟨h1, h2⟩
          · exact Or.inl h1
          · exact Or.inr ⟨List.mem_cons_of_mem _ h1, h2⟩

theorem keepMatchingEthereumSignatures_spec (L : Lib) (hash : Bytes) (sigs : List String) :
    ∀ (vals : List String) (i : Nat) (m m' : GoMap String),
      keepMatchingEthereumSignatures L hash sigs vals i m = some m' →
      (m.map Prod.fst).Nodup →
      (m'.map Prod.fst).Nodup ∧
        ∀ v s, mapGet m' v = some s →
          mapGet m v = some s ∨
          ((v, s) ∈ vals.zip (sigs.drop i) ∧
            (RecoverEthereumAddressFromSignature L s hash = GoResult.ok v ∨ v = "")) := by
  intro vals
  induction vals with
  | nil =>
    intro i m m' h hnodup
    simp only [keepMatchingEthereumSignatures, Option.some.injEq] at h
    subst h
    exact ⟨hnodup, fun v s hs => Or.inl hs⟩
  | cons v0 rest ih =>
    intro i m m' h hnodup
    have hstep : ∀ (m1 : GoMap String),
        keepMatchingEthereumSignatures L hash sigs rest (i + 1) m1 = some m' →
        (m1.map Prod.fst).Nodup →
        (∀ v s, mapGet m1 v = some s → mapGet m v = some s ∨
          ((v, s) ∈ (v0 :: rest).zip (sigs.drop i) ∧
            (RecoverEthereumAddressFromSignature L s hash = GoResult.ok v ∨ v = ""))) →
        (sigs.drop (i + 1) = (sigs.drop i).tail) →
        (m'.map Prod.fst).Nodup ∧
        ∀ v s, mapGet m' v = some s →
          mapGet m v = some s ∨
          ((v, s) ∈ (v0 :: rest).zip (sigs.drop i) ∧
            (RecoverEthereumAddressFromSignature L s hash = GoResult.ok v ∨ v = "")) := by
      intro m1 h1 hn1 hm1 htail
      obtain ⟨hn, hget⟩ := ih (i + 1) m1 m' h1 hn1
      refine ⟨hn, fun v s hs => ?_⟩
      rcases hget v s hs with h2 | ⟨h2, h3⟩
      · exact hm1 v s h2
      · right
        refine ⟨?_, h3⟩
        rw [htail] at h2
        cases hd : sigs.drop i with
        | nil => rw [hd] at h2; simp at h2
        | cons s0 srest =>
          rw [hd] at h2
          exact List.mem_cons_of_mem _ h2
    have htail : sigs.drop (i + 1) = (sigs.drop i).tail := by
      rw [← List.drop_drop]
      cases sigs.drop i <;> rfl
    unfold keepMatchingEthereumSignatures at h
    split at h
    · exact hstep m h hnodup (fun v s hs => Or.inl hs) htail
    · split at h
      · cases h
      · rename_i sig hsig
        have hdrop := drop_of_getElem? sigs i sig hsig
        split at h
        · cases h
        · split at h
          · rename_i hv
            refine hstep _ h (keys_nodup_mapSet m v0 sig hnodup) (fun v s hs => ?_) htail
            rw [mapGet_mapSet] at hs
            split at hs
            · rename_i hv'
              injection hs with hs
              subst hv'; subst hs
              right
              rw [hdrop]
              exact ⟨List.mem_cons_self _ _, Or.inr hv.symm⟩
            · exact Or.inl hs
          · exact hstep m h hnodup (fun v s hs => Or.inl hs) htail
        · rename_i recoveredAddr hrec
          split at h
          · rename_i hv
            refine hstep _ h (keys_nodup_mapSet m v0 sig hnodup) (fun v s hs => ?_) htail
            rw [mapGet_mapSet] at hs
            split at hs
            · rename_i hv'
              injection hs with hs
              subst hv'; subst hs
              right
              rw [hdrop]
              exact ⟨List.mem_cons_self _ _, Or.inl (by rw [hrec, hv])⟩
            · exact Or.inl hs
          · exact hstep m h hnodup (fun v s hs => Or.inl hs) htail
theorem commitEthereumResign_valid (L : Lib) (ord : MapOrder) (cfg : StreamerConfig)
    (store : GoMap Transaction) (ev : EthereumRequestNewSignaturesLog)
    (hb64 : ∀ b, L.base64Decode (L.base64Encode b) = some b)
    (hlocal : mapHas cfg.validators cfg.koinosAddress = true)
    (hsign : ∀ h, RecoverKoinosAddressFromSignature L
      (L.base64Encode (SignKoinosHash L cfg.koinosPK h)) h = some cfg.koinosAddress)
    (hempty : mapHas cfg.validators "" = false)
    (hprior : ∀ p, mapGet store ("0x" ++ L.bytes2Hex ev.txId) = some p →
      signaturesValid L cfg.validators p = true ∧ p.type = TransactionType.ethereum) :
    newRecordsSatisfy (fun r => signaturesValid L cfg.validators r = true) store
      (commitEthereumResign L ord cfg store ev) := by
  unfold commitEthereumResign
  cases hrec : ethereumResignRecord L ord cfg (mapGet store ("0x" ++ L.bytes2Hex ev.txId))
      (ev.blocktime % 2 ^ 64) with
  | skipped => exact newRecordsSatisfy_refl _ _
  | panicked => exact newRecordsSatisfy_refl _ _
  | stored r =>
    apply newRecordsSatisfy_mapSet
    obtain ⟨p, _, _, _, _, _, _, bytes, newSignatures, hp, _, _, _, _, _, _, _, _, _, hkeep,
      hr⟩ := ethereumResignRecord_stored L ord cfg _ _ r hrec
    obtain ⟨hpv, hpt⟩ := hprior p hp
    rw [signaturesValid_iff] at hpv
    obtain ⟨hn, hspec⟩ := keepMatchingKoinosSignatures_spec L (L.sha256 bytes) p.signatures
      p.validators 0 _ newSignatures hkeep (by simp)
    show signaturesValid L cfg.validators r = true
    rw [signaturesValid_iff, hr]
    refine ⟨by simp [withSignatureMap], fun v s hmem => ?_⟩
    have hmem' := (withSignatureMap_pairs ord
      { p with expiration := addU64 (ev.blocktime % 2 ^ 64) cfg.signaturesExpiration,
               hash := L.base64Encode (L.sha256 bytes) } newSignatures hn v s).mp hmem
    simp only [withSignatureMap, hpt, recoversUnderHash, hb64, decide_eq_true_eq]
    rcases hspec v s hmem' with h1 | ⟨h1, h2⟩
    · simp only [mapGet] at h1
      split at h1
      · rename_i hv
        injection h1 with h1
        subst hv; subst h1
        exact ⟨hlocal, hsign _⟩
      · cases h1
    · simp only [List.drop_zero] at h1
      have hv := (hpv.2 v s h1).1
      refine ⟨hv, ?_⟩
      cases hrecover : RecoverKoinosAddressFromSignature L s (L.sha256 bytes) with
      | none =>
        rw [hrecover] at h2
        simp only [Option.getD_none] at h2
        rw [← h2, hempty] at hv
        cases hv
      | some a =>
        rw [hrecover] at h2
        simp only [Option.getD_some] at h2
        rw [h2]

theorem commitKoinosResign_valid (L : Lib) (ord : MapOrder) (cfg : StreamerConfig)
    (store : GoMap Transaction) (ev : KoinosRequestNewSignaturesEvent)
    (hhex : ∀ b, L.fromHex (L.hashHex b) = b)
    (hlocal : mapHas cfg.validators cfg.ethereumAddress = true)
    (hsign : ∀ h sigBytes, SignEthereumHash L cfg.ethereumPK h = some sigBytes →
      RecoverEthereumAddressFromSignature L ("0x" ++ L.bytes2Hex sigBytes) h
        = GoResult.ok cfg.ethereumAddress)
    (hempty : mapHas cfg.validators "" = false)
    (hprior : ∀ p, mapGet store (koinosResignKey store ev) = some p →
      signaturesValid L cfg.validators p = true ∧ p.type = TransactionType.koinos) :
    newRecordsSatisfy (fun r => signaturesValid L cfg.validators r = true) store
      (commitKoinosResign L ord cfg store ev) := by
  unfold commitKoinosResign
  cases hrec : koinosResignRecord L ord cfg (mapGet store (koinosResignKey store ev))
      ev.timestamp with
  | skipped => exact newRecordsSatisfy_refl _ _
  | panicked => exact newRecordsSatisfy_refl _ _
  | stored r =>
    apply newRecordsSatisfy_mapSet
    obtain ⟨p, _, _, hash, prefixedHash, sigBytes, newSignatures, hp, _, _, _, _, _, hs, hkeep,
      hr⟩ := koinosResignRecord_stored L ord cfg _ _ r hrec
    obtain ⟨hpv, hpt⟩ := hprior p hp
    rw [signaturesValid_iff] at hpv
    obtain ⟨hn, hspec⟩ := keepMatchingEthereumSignatures_spec L prefixedHash p.signatures
      p.validators 0 _ newSignatures hkeep (by simp)
    show signaturesValid L cfg.validators r = true
    rw [signaturesValid_iff, hr]
    refine ⟨by simp [withSignatureMap], fun v s hmem => ?_⟩
    have hmem' := (withSignatureMap_pairs ord
      { p with expiration := addU64 ev.timestamp cfg.signaturesExpiration,
               hash := L.hashHex prefixedHash } newSignatures hn v s).mp hmem
    simp only [withSignatureMap, hpt, recoversUnderHash, hhex, decide_eq_true_eq]
    rcases hspec v s hmem' with h1 | ⟨h1, h2⟩
    · simp only [mapGet] at h1
      split at h1
      · rename_i hv
        injection h1 with h1
        subst hv; subst h1
        exact ⟨hlocal, hsign _ _ hs⟩
      · cases h1
    · simp only [List.drop_zero] at h1
      have hv := (hpv.2 v s h1).1
      refine ⟨hv, ?_⟩
      rcases h2 with h2 | h2
      · exact h2
      · rw [h2, hempty] at hv
        cases hv
theorem mergeBroadcast_valid (L : Lib) (V : GoMap ValidatorConfig) (ord : MapOrder)
    (threshold : Nat) (store : GoMap Transaction) (key : String) (returned : GoMap String)
    (hnodup : (returned.map Prod.fst).Nodup)
    (hkey : ∀ tx, mapGet store key = some tx →
      signaturesValid L V tx = true ∧
      ∀ v body, mapGet returned v = some body →
        mapHas V v = true ∧ recoversUnderHash L tx.type tx.hash body v = true) :
    newRecordsSatisfy (fun r => signaturesValid L V r = true) store
      ((mergeBroadcast ord threshold store key (some returned)).getD store) := by
  cases hm : mergeBroadcast ord threshold store key (some returned) with
  | none => exact newRecordsSatisfy_refl _ _
  | some store' =>
    obtain ⟨tx, m, htx, hadd, hs⟩ := mergeBroadcast_eq ord threshold store store' key _ hm
    simp only [Option.getD_some]
    subst hs
    apply newRecordsSatisfy_mapSet
    obtain ⟨hv, hret⟩ := hkey tx htx
    rw [signaturesValid_iff] at hv
    simp only at hadd
    obtain ⟨hn, hget⟩ := addMissingSignatures_spec tx.signatures tx.validators 0 returned m hadd
      hnodup (by omega)
    have hvalid : signaturesValid L V (withSignatureMap ord tx m) = true := by
      rw [signaturesValid_iff]
      refine ⟨by simp [withSignatureMap], fun v s hmem => ?_⟩
      have hmem' := (withSignatureMap_pairs ord tx m hn v s).mp hmem
      rw [hget v] at hmem'
      simp only [withSignatureMap]
      cases hr : mapGet returned v with
      | some body =>
        rw [hr] at hmem'
        simp only [Option.or_some, Option.some.injEq] at hmem'
        subst hmem'
        exact hret v body hr
      | none =>
        rw [hr] at hmem'
        simp only [Option.none_or, List.drop_zero] at hmem'
        exact hv.2 v s (mem_zip_of_firstSignatureOf _ _ v s hmem')
    show signaturesValid L V _ = true
    split
    · exact hvalid
    · exact hvalid
/-- C3 (counterexample).  Validator `A` processes a `TokensLocked` event and peer
`B` answers the broadcast with status 200 and the body `garbage`.  The record
finally stored lists `B` with the signature `garbage`, which does not recover to
`B` under the stored hash: the merge after the broadcast stores the bodies of the
answers without verifying them. -/
theorem broadcast_answer_stored_unverified :
    processEthereumTokensLockedEvent sampleLib insertionOrder
        (peersAnswering [("http://b/SubmitSignature", "garbage")]) 0 sampleConfig []
        sampleEthereumLog
      = { store := [("0x1", sampleEthereumTransfer ["B", "A"] ["garbage", "AN"])],
          panicked := false } ∧
    RecoverKoinosAddressFromSignature sampleLib "garbage" [78] = none ∧
    sampleLib.base64Decode "N" = some [78] ∧
    signaturesValid sampleLib sampleConfig.validators
        (sampleEthereumTransfer ["B", "A"] ["garbage", "AN"]) = false ∧
    signaturesValid sampleLib sampleConfig.validators
        (sampleEthereumTransfer ["A"] ["AN"]) = true := by
  decide

/-- C3 (amended).  Invariant I2 (parallel arrays, every listed validator configured,
every signature recovering to its validator under the stored hash with the scheme
of the destination chain) holds for every record written by an accepted peer
submission, by the commit that precedes the broadcast in the processing of a
`TokensLocked` event and of a `RequestNewSignatures` event, and by a completion,
on both chains, provided the record previously stored under the key had the
property, was of the kind of its store and, if its hash was empty, listed no
validator; provided the local address is configured and the local signature
recovers to it; and provided decoding the stored hash text gives back the digest.
The merge that follows a broadcast keeps the property when every returned pair
verifies under the stored hash; it does not check this itself. -/
theorem written_signatures_valid (L : Lib) (api : Api) (cfg : StreamerConfig) :
    (∀ (ord : MapOrder) (now : Int) (stores : Stores) (sub : SubmittedSignature),
      (∀ b, L.base64Decode (L.base64Encode b) = some b) →
      (∀ b, L.fromHex (L.hashHex b) = b) →
      (∀ p, mapGet (transferStore stores sub.transaction.type)
          (submissionKey sub.transaction) = some p →
        signaturesValid L api.validators p = true ∧ p.type = sub.transaction.type) →
      newRecordsSatisfy (fun r => signaturesValid L api.validators r = true)
          stores.ethTxStore (SubmitSignature L ord api now stores sub).2.ethTxStore ∧
      newRecordsSatisfy (fun r => signaturesValid L api.validators r = true)
          stores.koinosTxStore (SubmitSignature L ord api now stores sub).2.koinosTxStore) ∧
    (∀ (store : GoMap Transaction) (ev : EthereumTokensLockedLog),
      (∀ b, L.base64Decode (L.base64Encode b) = some b) →
      mapHas cfg.validators cfg.koinosAddress = true →
      (∀ h, RecoverKoinosAddressFromSignature L
        (L.base64Encode (SignKoinosHash L cfg.koinosPK h)) h = some cfg.koinosAddress) →
      (∀ p, mapGet store (L.hashHex ev.txHash) = some p →
        signaturesValid L cfg.validators p = true ∧ p.type = TransactionType.ethereum ∧
        (p.hash = "" → p.validators = [])) →
      newRecordsSatisfy (fun r => signaturesValid L cfg.validators r = true) store
        (commitEthereumLocked L cfg store ev)) ∧
    (∀ (store : GoMap Transaction) (ev : KoinosTokensLockedEvent),
      (∀ b, L.fromHex (L.hashHex b) = b) →
      mapHas cfg.validators cfg.ethereumAddress = true →
      (∀ h sigBytes, SignEthereumHash L cfg.ethereumPK h = some sigBytes →
        RecoverEthereumAddressFromSignature L ("0x" ++ L.bytes2Hex sigBytes) h
          = GoResult.ok cfg.ethereumAddress) →
      (∀ p,
        mapGet store ("0x" ++ L.bytes2Hex ev.receiptId ++ "-" ++ toString ev.sequence) = some p →
        signaturesValid L cfg.validators p = true ∧ p.type = TransactionType.koinos ∧
        (p.hash = "" → p.validators = [])) →
      newRecordsSatisfy (fun r => signaturesValid L cfg.validators r = true) store
        (commitKoinosLocked L cfg store ev)) ∧
    (∀ (ord : MapOrder) (store : GoMap Transaction) (ev : EthereumRequestNewSignaturesLog),
      (∀ b, L.base64Decode (L.base64Encode b) = some b) →
      mapHas cfg.validators cfg.koinosAddress = true →
      (∀ h, RecoverKoinosAddressFromSignature L
        (L.base64Encode (SignKoinosHash L cfg.koinosPK h)) h = some cfg.koinosAddress) →
      mapHas cfg.validators "" = false →
      (∀ p, mapGet store ("0x" ++ L.bytes2Hex ev.txId) = some p →
        signaturesValid L cfg.validators p = true ∧ p.type = TransactionType.ethereum) →
      newRecordsSatisfy (fun r => signaturesValid L cfg.validators r = true) store
        (commitEthereumResign L ord cfg store ev)) ∧
    (∀ (ord : MapOrder) (store : GoMap Transaction) (ev : KoinosRequestNewSignaturesEvent),
      (∀ b, L.fromHex (L.hashHex b) = b) →
      mapHas cfg.validators cfg.ethereumAddress = true →
      (∀ h sigBytes, SignEthereumHash L cfg.ethereumPK h = some sigBytes →
        RecoverEthereumAddressFromSignature L ("0x" ++ L.bytes2Hex sigBytes) h
          = GoResult.ok cfg.ethereumAddress) →
      mapHas cfg.validators "" = false →
      (∀ p, mapGet store (koinosResignKey store ev) = some p →
        signaturesValid L cfg.validators p = true ∧ p.type = TransactionType.koinos) →
      newRecordsSatisfy (fun r => signaturesValid L cfg.validators r = true) store
        (commitKoinosResign L ord cfg store ev)) ∧
    (∀ (store : GoMap Transaction) (ev : KoinosTransferCompletedEvent),
      (∀ p, mapGet store ("0x" ++ L.bytes2Hex ev.txId) = some p →
        signaturesValid L cfg.validators p = true) →
      newRecordsSatisfy (fun r => signaturesValid L cfg.validators r = true) store
        (processKoinosTransferCompletedEvent L store ev)) ∧
    (∀ (store : GoMap Transaction) (ev : EthereumTransferCompletedLog),
      (∀ p, mapGet store ("0x" ++ L.bytes2Hex ev.txId ++ "-" ++ toString ev.operationId)
          = some p →
        signaturesValid L cfg.validators p = true) →
      newRecordsSatisfy (fun r => signaturesValid L cfg.validators r = true) store
        (processEthereumTransferCompletedEvent L store ev)) ∧
    (∀ (ord : MapOrder) (threshold : Nat) (store : GoMap Transaction) (key : String)
        (returned : GoMap String),
      (returned.map Prod.fst).Nodup →
      (∀ tx, mapGet store key = some tx →
        signaturesValid L cfg.validators tx = true ∧
        ∀ v body, mapGet returned v = some body →
          mapHas cfg.validators v = true ∧
          recoversUnderHash L tx.type tx.hash body v = true) →
      newRecordsSatisfy (fun r => signaturesValid L cfg.validators r = true) store
        ((mergeBroadcast ord threshold store key (some returned)).getD store)) := by
  refine ⟨?_, ?_, ?_, ?_, ?_, ?_, ?_, ?_⟩
  · intro ord now stores sub h1 h2 h3
    exact submitSignature_valid L api ord now stores sub h1 h2 h3
  · intro store ev h1 h2 h3 h4
    exact commitEthereumLocked_valid L cfg store ev h1 h2 h3 h4
  · intro store ev h1 h2 h3 h4
    exact commitKoinosLocked_valid L cfg store ev h1 h2 h3 h4
  · intro ord store ev h1 h2 h3 h4 h5
    exact commitEthereumResign_valid L ord cfg store ev h1 h2 h3 h4 h5
  · intro ord store ev h1 h2 h3 h4 h5
    exact commitKoinosResign_valid L ord cfg store ev h1 h2 h3 h4 h5
  · intro store ev h1
    exact completedRecord_valid L cfg.validators store TransactionType.ethereum _ _ h1
  · intro store ev h1
    exact completedRecord_valid L cfg.validators store TransactionType.koinos _ _ h1
  · intro ord threshold store key returned h1 h2
    exact mergeBroadcast_valid L cfg.validators ord threshold store key returned h1 h2

/-- Witness of C3: the commit of the sample `TokensLocked` event by validator `A`
on an empty store. -/
theorem written_signatures_valid_witness :
    newRecordsSatisfy (fun r => signaturesValid sampleLib sampleConfig.validators r = true) []
      (commitEthereumLocked sampleLib sampleConfig [] sampleEthereumLog) :=
  (written_signatures_valid sampleLib sampleApi sampleConfig).2.1 [] sampleEthereumLog
    sampleLib_base64_roundtrip (by decide) (sampleLib_sign_recover 65)
    (fun p hp => by simp [mapGet] at hp)

/-! ## Malformed amounts and signatures -/

/-- C11 (code defect).  A Koinos transfer submitted by validator `B` in a correctly
signed envelope whose amount is `abc`, or whose payment is 2^64: neither string is
an unsigned 64-bit integer, and `SubmitSignature` does not answer 400, it panics
inside `GenerateEthereumCompleteTransferHash`.  The Ethereum branch answers the
same amount with 400 and leaves the stores unchanged. -/
theorem submitSignature_koinos_unparsable_amount_panics :
    sampleLib.parseUint "abc" 64 = none ∧
    sampleLib.parseUint "18446744073709551616" 64 = none ∧
    SubmitSignature sampleLib insertionOrder sampleApi 0 emptyStores
        (signEnvelope sampleLib [66]
          { sampleKoinosTransfer ["0xb"] [sampleEthereumSignature [98] [55]] with
            amount := "abc" } 60000)
      = (HttpResult.panic, emptyStores) ∧
    SubmitSignature sampleLib insertionOrder sampleApi 0 emptyStores
        (signEnvelope sampleLib [66]
          { sampleKoinosTransfer ["0xb"] [sampleEthereumSignature [98] [55]] with
            payment := "18446744073709551616" } 60000)
      = (HttpResult.panic, emptyStores) ∧
    SubmitSignature sampleLib insertionOrder sampleApi 0 emptyStores
        (signEnvelope sampleLib [66]
          { sampleEthereumTransfer ["B"] ["BN"] with amount := "abc" } 60000)
      = (HttpResult.response 400 "Invalid amount", emptyStores) := by
  decide

/-- C12 (code defect).  The sample `TokensLocked` event with its amount replaced by
2^64 + 5: `processEthereumTokensLockedEvent` does not abort; it signs the digest of
the amount 5 (the digest `N` of the unchanged sample event) and stores a record
whose amount field reads 18446744073709551621. -/
theorem lockedEvent_oversized_amount_truncated_and_signed :
    (processEthereumTokensLockedEvent sampleLib insertionOrder (peersAnswering []) 0
        sampleConfig [] { sampleEthereumLog with amount := 2 ^ 64 + 5 }).panicked = false ∧
    (mapGet (processEthereumTokensLockedEvent sampleLib insertionOrder (peersAnswering []) 0
        sampleConfig [] { sampleEthereumLog with amount := 2 ^ 64 + 5 }).store "0x1").map
        (fun (r : Transaction) => (r.amount, r.hash, r.validators, r.signatures, r.status))
      = some ("18446744073709551621", "N", ["A"], ["AN"],
          TransactionStatus.gathering_signatures) ∧
    (mapGet (processEthereumTokensLockedEvent sampleLib insertionOrder (peersAnswering []) 0
        sampleConfig [] sampleEthereumLog).store "0x1").map
        (fun (r : Transaction) => (r.amount, r.hash, r.validators, r.signatures, r.status))
      = some ("5", "N", ["A"], ["AN"], TransactionStatus.gathering_signatures) := by
  refine ⟨by decide, by decide, by decide⟩

/-- C13 (code defect).  `RecoverEthereumAddressFromSignature` panics on the empty
signature and on a one-byte signature, whatever the libraries and the hash, and on
a signature that decodes to two bytes; `SubmitSignature` then panics on a Koinos
transfer that lists such a signature instead of answering 400. -/
theorem recoverEthereumAddress_panics_on_short_signature :
    (∀ (L : Lib) (prefixedHash : Bytes),
      RecoverEthereumAddressFromSignature L "" prefixedHash = GoResult.panic ∧
      RecoverEthereumAddressFromSignature L "x" prefixedHash = GoResult.panic) ∧
    RecoverEthereumAddressFromSignature sampleLib "0xab" [55] = GoResult.panic ∧
    SubmitSignature sampleLib insertionOrder sampleApi 0 emptyStores
        (signEnvelope sampleLib [66] (sampleKoinosTransfer ["0xb"] ["0xab"]) 60000)
      = (HttpResult.panic, emptyStores) := by
  refine ⟨fun L prefixedHash => ⟨?_, ?_⟩, by decide, by decide⟩
  · have h : (stringBytes "").length < 2 := by decide
    simp only [RecoverEthereumAddressFromSignature, if_pos h]
  · have h : (stringBytes "x").length < 2 := by decide
    simp only [RecoverEthereumAddressFromSignature, if_pos h]

/-! ## Completion events -/

theorem mapSet_mapSet {α : Type} (m : GoMap α) (k : String) (a b : α) :
    mapSet (mapSet m k a) k b = mapSet m k b := by
  induction m with
  | nil => simp [mapSet]
  | cons e rest ih =>
    obtain ⟨k', v'⟩ := e
    by_cases h : k' = k
    · simp [mapSet, h]
    · simp [mapSet, h, ih]

theorem completedRecord_idem (kind : TransactionType) (prior : Option Transaction)
    (completionTransactionId : String) :
    completedRecord kind (some (completedRecord kind prior completionTransactionId))
        completionTransactionId
      = completedRecord kind prior completionTransactionId := by
  simp [completedRecord]

/-- C20.  After `processEthereumTransferCompletedEvent` the record under the key of
the Koinos transfer (`0x` followed by the hex of the event's transaction id, `-`
and the operation id) is the prior record with status `completed` and the hash of
the completing Ethereum transaction as completion id, every other field
unchanged, or, without a prior record, a record of type `koinos` in which only
those two fields are set; the records under the other keys are unchanged and
processing the event a second time leaves the store as it is.
`processKoinosTransferCompletedEvent` does the same under the id of the Ethereum
transfer with the completion id `0x`, the hex of the receipt id, `-` and the event
sequence number, and the type `ethereum`. -/
theorem completedEvent_marks_record_completed (L : Lib) :
    (∀ (koinosTxStore : GoMap Transaction) (ev : EthereumTransferCompletedLog),
      mapGet (processEthereumTransferCompletedEvent L koinosTxStore ev)
          ("0x" ++ L.bytes2Hex ev.txId ++ "-" ++ toString ev.operationId)
        = some
          (match mapGet koinosTxStore
              ("0x" ++ L.bytes2Hex ev.txId ++ "-" ++ toString ev.operationId) with
           | some prior =>
             { prior with
               status := TransactionStatus.completed
               completionTransactionId := L.hashHex ev.txHash }
           | none =>
             { type := TransactionType.koinos
               status := TransactionStatus.completed
               completionTransactionId := L.hashHex ev.txHash }) ∧
      (∀ other : String,
        other ≠ "0x" ++ L.bytes2Hex ev.txId ++ "-" ++ toString ev.operationId →
        mapGet (processEthereumTransferCompletedEvent L koinosTxStore ev) other
          = mapGet koinosTxStore other) ∧
      processEthereumTransferCompletedEvent L
          (processEthereumTransferCompletedEvent L koinosTxStore ev) ev
        = processEthereumTransferCompletedEvent L koinosTxStore ev) ∧
    (∀ (ethTxStore : GoMap Transaction) (ev : KoinosTransferCompletedEvent),
      mapGet (processKoinosTransferCompletedEvent L ethTxStore ev)
          ("0x" ++ L.bytes2Hex ev.txId)
        = some
          (match mapGet ethTxStore ("0x" ++ L.bytes2Hex ev.txId) with
           | some prior =>
             { prior with
               status := TransactionStatus.completed
               completionTransactionId :=
                 "0x" ++ L.bytes2Hex ev.receiptId ++ "-" ++ toString ev.sequence }
           | none =>
             { type := TransactionType.ethereum
               status := TransactionStatus.completed
               completionTransactionId :=
                 "0x" ++ L.bytes2Hex ev.receiptId ++ "-" ++ toString ev.sequence }) ∧
      (∀ other : String, other ≠ "0x" ++ L.bytes2Hex ev.txId →
        mapGet (processKoinosTransferCompletedEvent L ethTxStore ev) other
          = mapGet ethTxStore other) ∧
      processKoinosTransferCompletedEvent L
          (processKoinosTransferCompletedEvent L ethTxStore ev) ev
        = processKoinosTransferCompletedEvent L ethTxStore ev) := by
  constructor
  · intro koinosTxStore ev
    refine ⟨?_, ?_, ?_⟩
    · simp only [processEthereumTransferCompletedEvent, mapGet_mapSet_self]
      cases mapGet koinosTxStore
          ("0x" ++ L.bytes2Hex ev.txId ++ "-" ++ toString ev.operationId) <;>
        simp [completedRecord]
    · intro other hne
      simp only [processEthereumTransferCompletedEvent]
      exact mapGet_mapSet_ne _ _ _ _ (Ne.symm hne)
    · simp only [processEthereumTransferCompletedEvent, mapGet_mapSet_self, mapSet_mapSet,
        completedRecord_idem]
  · intro ethTxStore ev
    refine ⟨?_, ?_, ?_⟩
    · simp only [processKoinosTransferCompletedEvent, mapGet_mapSet_self]
      cases mapGet ethTxStore ("0x" ++ L.bytes2Hex ev.txId) <;>
        simp [completedRecord]
    · intro other hne
      simp only [processKoinosTransferCompletedEvent]
      exact mapGet_mapSet_ne _ _ _ _ (Ne.symm hne)
    · simp only [processKoinosTransferCompletedEvent, mapGet_mapSet_self, mapSet_mapSet,
        completedRecord_idem]

/-- Witness of C20: a completion event of the Ethereum side for the Koinos
transfer `0x1-1`, processed on an empty store, leaves the key `0x2-1` without a
record. -/
theorem completedEvent_marks_record_completed_witness :
    "0x2-1" ≠ "0x" ++ sampleLib.bytes2Hex [49] ++ "-" ++ toString 1 ∧
    mapGet (processEthereumTransferCompletedEvent sampleLib []
        { txHash := [57], txId := [49], operationId := 1 }) "0x2-1" = mapGet [] "0x2-1" :=
  ⟨by decide,
    ((completedEvent_marks_record_completed sampleLib).1 []
      { txHash := [57], txId := [49], operationId := 1 }).2.1 "0x2-1" (by decide)⟩

/-! ## Requests for new signatures -/

theorem addU64_eq (a b : Nat) (h : a + b < 2 ^ 64) : addU64 a b = a + b := by
  unfold addU64
  exact Nat.mod_eq_of_lt h

theorem ethereumResignRecord_skipped (L : Lib) (ord : MapOrder) (cfg : StreamerConfig)
    (prior : Option Transaction) (blocktime : Nat)
    (h : ∀ p, prior = some p → p.status = TransactionStatus.completed ∨
      blocktime < addU64 p.expiration cfg.signaturesExpiration) :
    ethereumResignRecord L ord cfg prior blocktime = ResignStep.skipped := by
  cases prior with
  | none => rfl
  | some p =>
    rcases h p rfl with hc | hlt
    · simp only [ethereumResignRecord, hc, if_true]
    · by_cases hc : p.status = TransactionStatus.completed
      · simp only [ethereumResignRecord, hc, if_true]
      · have hgate : ¬ blocktime ≥ addU64 p.expiration cfg.signaturesExpiration := by omega
        simp only [ethereumResignRecord, if_neg hc, if_neg hgate]

theorem koinosResignRecord_skipped (L : Lib) (ord : MapOrder) (cfg : StreamerConfig)
    (prior : Option Transaction) (blocktime : Nat)
    (h : ∀ p, prior = some p → p.status = TransactionStatus.completed ∨
      blocktime < addU64 p.expiration cfg.signaturesExpiration) :
    koinosResignRecord L ord cfg prior blocktime = ResignStep.skipped := by
  cases prior with
  | none => rfl
  | some p =>
    rcases h p rfl with hc | hlt
    · simp only [koinosResignRecord, hc, if_true]
    · by_cases hc : p.status = TransactionStatus.completed
      · simp only [koinosResignRecord, hc, if_true]
      · have hgate : ¬ blocktime ≥ addU64 p.expiration cfg.signaturesExpiration := by omega
        simp only [koinosResignRecord, if_neg hc, if_neg hgate]

/-- C19 (amended).  When the record under the event's key is absent, or completed,
or the event's block time is below the record's expiration plus the configured
window and that sum fits in 64 bits, `processEthereumRequestNewSignaturesEvent`
skips its first section, so it reaches neither a store write nor the
re-broadcast, and returns the store as it was, for every network; the same holds
for `processRequestNewSignaturesEvent` of the Koinos streamer with the record
under the key it looks up. -/
theorem resign_not_accepted_writes_nothing (L : Lib) (ord : MapOrder) (cfg : StreamerConfig) :
    (∀ (ethTxStore : GoMap Transaction) (ev : EthereumRequestNewSignaturesLog),
      (∀ p, mapGet ethTxStore ("0x" ++ L.bytes2Hex ev.txId) = some p →
        p.status = TransactionStatus.completed ∨
        (ev.blocktime < p.expiration + cfg.signaturesExpiration ∧
          p.expiration + cfg.signaturesExpiration < 2 ^ 64)) →
      ethereumResignRecord L ord cfg (mapGet ethTxStore ("0x" ++ L.bytes2Hex ev.txId))
          (ev.blocktime % 2 ^ 64) = ResignStep.skipped ∧
      ∀ (net : Network) (now : Int),
        processEthereumRequestNewSignaturesEvent L ord net now cfg ethTxStore ev
          = { store := ethTxStore, panicked := false }) ∧
    (∀ (koinosTxStore : GoMap Transaction) (ev : KoinosRequestNewSignaturesEvent),
      (∀ p, mapGet koinosTxStore (koinosResignKey koinosTxStore ev) = some p →
        p.status = TransactionStatus.completed ∨
        (ev.timestamp < p.expiration + cfg.signaturesExpiration ∧
          p.expiration + cfg.signaturesExpiration < 2 ^ 64)) →
      koinosResignRecord L ord cfg (mapGet koinosTxStore (koinosResignKey koinosTxStore ev))
          ev.timestamp = ResignStep.skipped ∧
      ∀ (net : Network) (now : Int),
        processRequestNewSignaturesEvent L ord net now cfg koinosTxStore ev
          = { store := koinosTxStore, panicked := false }) := by
  constructor
  · intro ethTxStore ev h
    have hskip : ethereumResignRecord L ord cfg
        (mapGet ethTxStore ("0x" ++ L.bytes2Hex ev.txId)) (ev.blocktime % 2 ^ 64)
          = ResignStep.skipped := by
      apply ethereumResignRecord_skipped
      intro p hp
      rcases h p hp with hc | ⟨hlt, hfit⟩
      · exact Or.inl hc
      · right
        rw [addU64_eq _ _ hfit]
        exact lt_of_le_of_lt (Nat.mod_le _ _) hlt
    refine ⟨hskip, fun net now => ?_⟩
    simp only [processEthereumRequestNewSignaturesEvent, hskip]
  · intro koinosTxStore ev h
    have hskip : koinosResignRecord L ord cfg
        (mapGet koinosTxStore (koinosResignKey koinosTxStore ev)) ev.timestamp
          = ResignStep.skipped := by
      apply koinosResignRecord_skipped
      intro p hp
      rcases h p hp with hc | ⟨hlt, hfit⟩
      · exact Or.inl hc
      · right
        rw [addU64_eq _ _ hfit]
        exact hlt
    refine ⟨hskip, fun net now => ?_⟩
    simp only [processRequestNewSignaturesEvent, hskip]

/-- Witness of C19: the sample Ethereum transfer expires at 1100 and the window is
100; an event at block time 1000 is not accepted. -/
theorem resign_not_accepted_writes_nothing_witness :
    processEthereumRequestNewSignaturesEvent sampleLib insertionOrder (peersAnswering []) 0
        sampleConfig [("0x1", sampleEthereumTransfer ["A"] ["AN"])]
        { txId := [49], blocktime := 1000 }
      = { store := [("0x1", sampleEthereumTransfer ["A"] ["AN"])], panicked := false } :=
  ((resign_not_accepted_writes_nothing sampleLib insertionOrder sampleConfig).1
    [("0x1", sampleEthereumTransfer ["A"] ["AN"])] { txId := [49], blocktime := 1000 }
    (by
      intro p hp
      have hp' : p = sampleEthereumTransfer ["A"] ["AN"] := by
        have h1 : mapGet [("0x1", sampleEthereumTransfer ["A"] ["AN"])]
            ("0x" ++ sampleLib.bytes2Hex [49]) = some (sampleEthereumTransfer ["A"] ["AN"]) := by
          decide
        rw [h1] at hp
        injection hp with hp
        exact hp.symm
      subst hp'
      right
      decide)).2 (peersAnswering []) 0

/-- Counterexample to C19 as stated.  The stored Ethereum transfer expires at
2^64 - 50 and the window is 100, so an event at block time 1000 lies below the
expiration plus the window; the 64-bit sum wraps to 50, the event is accepted and
the record is rewritten with expiration 1100.  The Koinos streamer does the
same. -/
theorem resign_gate_wraps_around :
    (1000 < 2 ^ 64 - 50 + sampleConfig.signaturesExpiration) ∧
    (mapGet (processEthereumRequestNewSignaturesEvent sampleLib insertionOrder
        (peersAnswering []) 0 sampleConfig
        [("0x1", { sampleEthereumTransfer ["A"] ["AN"] with expiration := 2 ^ 64 - 50 })]
        { txId := [49], blocktime := 1000 }).store "0x1").map
        (fun (r : Transaction) => r.expiration) = some 1100 ∧
    (mapGet (processRequestNewSignaturesEvent sampleLib insertionOrder
        (peersAnswering []) 0 sampleConfig
        [("0x1-1", { sampleKoinosTransfer ["0xa"] [sampleEthereumSignature [97] [55]] with
            expiration := 2 ^ 64 - 50 })]
        { timestamp := 1000, transactionId := "0x1", operationId := "1" }).store "0x1-1").map
        (fun (r : Transaction) => r.expiration) = some 1100 := by
  refine ⟨by decide, by decide, by decide⟩

theorem ethereumResignRecord_not_skipped (L : Lib) (ord : MapOrder) (cfg : StreamerConfig)
    (p : Transaction) (blocktime : Nat) (hc : p.status ≠ TransactionStatus.completed)
    (hgate : blocktime ≥ addU64 p.expiration cfg.signaturesExpiration) :
    ethereumResignRecord L ord cfg (some p) blocktime ≠ ResignStep.skipped := by
  simp only [ethereumResignRecord, if_neg hc, if_pos hgate]
  repeat' split
  all_goals simp

theorem koinosResignRecord_not_skipped (L : Lib) (ord : MapOrder) (cfg : StreamerConfig)
    (p : Transaction) (blocktime : Nat) (hc : p.status ≠ TransactionStatus.completed)
    (hgate : blocktime ≥ addU64 p.expiration cfg.signaturesExpiration) :
    koinosResignRecord L ord cfg (some p) blocktime ≠ ResignStep.skipped := by
  simp only [koinosResignRecord, if_neg hc, if_pos hgate]
  repeat' split
  all_goals simp

/-- The merge after a broadcast leaves the expiration and the hash of the record
it rewrites as they were. -/
theorem mergeBroadcast_expiration (ord : MapOrder) (threshold : Nat)
    (store store' : GoMap Transaction) (key : String) (signatures : Option (GoMap String))
    (r : Transaction) (hr : mapGet store key = some r)
    (h : mergeBroadcast ord threshold store key signatures = some store') :
    ∃ r', mapGet store' key = some r' ∧ r'.expiration = r.expiration ∧ r'.hash = r.hash := by
  obtain ⟨tx, m, htx, _, hs⟩ := mergeBroadcast_eq ord threshold store store' key signatures h
  rw [hr] at htx
  injection htx with htx
  subst htx
  subst hs
  refine ⟨_, mapGet_mapSet_self _ _ _, ?_⟩
  split <;> simp [withSignatureMap]

theorem ethereumResignRecord_of_digest (L : Lib) (ord : MapOrder) (cfg : StreamerConfig)
    (p : Transaction) (blocktime : Nat) (hc : p.status ≠ TransactionStatus.completed)
    (hgate : blocktime ≥ addU64 p.expiration cfg.signaturesExpiration) :
    (ethereumResignDigest L cfg p (addU64 blocktime cfg.signaturesExpiration) = none →
      ethereumResignRecord L ord cfg (some p) blocktime = ResignStep.panicked) ∧
    (∀ hash, ethereumResignDigest L cfg p (addU64 blocktime cfg.signaturesExpiration)
        = some hash →
      (keepMatchingKoinosSignatures L hash p.signatures p.validators 0
          [(cfg.koinosAddress, L.base64Encode (SignKoinosHash L cfg.koinosPK hash))] = none →
        ethereumResignRecord L ord cfg (some p) blocktime = ResignStep.panicked) ∧
      (∀ newSignatures,
        keepMatchingKoinosSignatures L hash p.signatures p.validators 0
          [(cfg.koinosAddress, L.base64Encode (SignKoinosHash L cfg.koinosPK hash))]
          = some newSignatures →
        ethereumResignRecord L ord cfg (some p) blocktime = ResignStep.stored
          { withSignatureMap ord
              { p with expiration := addU64 blocktime cfg.signaturesExpiration,
                       hash := L.base64Encode hash }
              newSignatures with
            status :=
              if (withSignatureMap ord
                    { p with expiration := addU64 blocktime cfg.signaturesExpiration,
                             hash := L.base64Encode hash }
                    newSignatures).signatures.length ≥ thresholdA cfg.validators.length then
                TransactionStatus.signed
              else TransactionStatus.gathering_signatures })) := by
  unfold ethereumResignRecord ethereumResignDigest
  simp only [if_neg hc, if_pos hgate]
  cases L.base58Decode p.koinosToken with
  | none => exact ⟨fun _ => rfl, fun hash h => by cases h⟩
  | some koinosToken =>
    cases L.base58Decode p.recipient with
    | none => exact ⟨fun _ => rfl, fun hash h => by cases h⟩
    | some recipient =>
      cases L.base58Decode p.relayer with
      | none => exact ⟨fun _ => rfl, fun hash h => by cases h⟩
      | some relayer =>
        cases L.parseUint p.amount 64 with
        | none => exact ⟨fun _ => rfl, fun hash h => by cases h⟩
        | some amount =>
          cases L.parseUint p.payment 64 with
          | none => exact ⟨fun _ => rfl, fun hash h => by cases h⟩
          | some payment =>
            cases L.parseUint p.toChain 32 with
            | none => exact ⟨fun _ => rfl, fun hash h => by cases h⟩
            | some chain =>
              simp only
              generalize L.marshalCompleteTransferHash _ = marshalled
              cases marshalled with
              | none => exact ⟨fun _ => rfl, fun hash h => by cases h⟩
              | some bytes =>
                refine ⟨fun h => (by cases h), fun hash h => ?_⟩
                simp only [Option.some.injEq] at h
                subst h
                constructor
                · intro hk
                  simp only [hk]
                · intro newSignatures hk
                  simp only [hk]

theorem koinosResignRecord_of_digest (L : Lib) (ord : MapOrder) (cfg : StreamerConfig)
    (p : Transaction) (blocktime : Nat) (hc : p.status ≠ TransactionStatus.completed)
    (hgate : blocktime ≥ addU64 p.expiration cfg.signaturesExpiration) :
    (koinosResignDigest L cfg p (addU64 blocktime cfg.signaturesExpiration) = none →
      koinosResignRecord L ord cfg (some p) blocktime = ResignStep.panicked) ∧
    (∀ prefixedHash, koinosResignDigest L cfg p (addU64 blocktime cfg.signaturesExpiration)
        = some prefixedHash →
      (SignEthereumHash L cfg.ethereumPK prefixedHash = none →
        koinosResignRecord L ord cfg (some p) blocktime = ResignStep.panicked) ∧
      (∀ sigBytes, SignEthereumHash L cfg.ethereumPK prefixedHash = some sigBytes →
        (keepMatchingEthereumSignatures L prefixedHash p.signatures p.validators 0
            [(cfg.ethereumAddress, "0x" ++ L.bytes2Hex sigBytes)] = none →
          koinosResignRecord L ord cfg (some p) blocktime = ResignStep.panicked) ∧
        (∀ newSignatures,
          keepMatchingEthereumSignatures L prefixedHash p.signatures p.validators 0
            [(cfg.ethereumAddress, "0x" ++ L.bytes2Hex sigBytes)] = some newSignatures →
          koinosResignRecord L ord cfg (some p) blocktime = ResignStep.stored
            { withSignatureMap ord
                { p with expiration := addU64 blocktime cfg.signaturesExpiration,
                         hash := L.hashHex prefixedHash }
                newSignatures with
              status :=
                if (withSignatureMap ord
                      { p with expiration := addU64 blocktime cfg.signaturesExpiration,
                               hash := L.hashHex prefixedHash }
                      newSignatures).signatures.length ≥ thresholdB cfg.validators.length then
                  TransactionStatus.signed
                else TransactionStatus.gathering_signatures }))) := by
  unfold koinosResignRecord koinosResignDigest
  simp only [if_neg hc, if_pos hgate]
  cases L.parseUint p.opId 64 with
  | none => exact ⟨fun _ => rfl, fun hash h => by cases h⟩
  | some opId =>
    cases L.parseUint p.toChain 64 with
    | none => exact ⟨fun _ => rfl, fun hash h => by cases h⟩
    | some chain =>
      simp only
      generalize GenerateEthereumCompleteTransferHash L _ _ _ _ _ _ _ _ _ _ _ = generated
      cases generated with
      | none => exact ⟨fun _ => rfl, fun hash h => by cases h⟩
      | some hashes =>
        obtain ⟨hash, prefixedHash⟩ := hashes
        refine ⟨fun h => (by cases h), fun ph h => ?_⟩
        simp only [Option.some.injEq] at h
        subst h
        constructor
        · intro hs
          simp only [hs]
        · intro sigBytes hs
          constructor
          · intro hk
            simp only [hs, hk]
          · intro newSignatures hk
            simp only [hs, hk]

theorem keepMatchingKoinosSignatures_some (L : Lib) (hash : Bytes) (sigs : List String) :
    ∀ (vals : List String) (i : Nat) (m : GoMap String),
      vals.length + i ≤ sigs.length →
      ∃ m', keepMatchingKoinosSignatures L hash sigs vals i m = some m' := by
  intro vals
  induction vals with
  | nil => intro i m _; exact ⟨m, rfl⟩
  | cons v rest ih =>
    intro i m hlen
    simp only [List.length_cons] at hlen
    unfold keepMatchingKoinosSignatures
    split
    · exact ih (i + 1) m (by omega)
    · have hi : i < sigs.length := by omega
      rw [List.getElem?_eq_getElem hi]
      exact ih (i + 1) _ (by omega)

theorem keepMatchingEthereumSignatures_some (L : Lib) (hash : Bytes) (sigs : List String)
    (hwell : ∀ s ∈ sigs, RecoverEthereumAddressFromSignature L s hash ≠ GoResult.panic) :
    ∀ (vals : List String) (i : Nat) (m : GoMap String),
      vals.length + i ≤ sigs.length →
      ∃ m', keepMatchingEthereumSignatures L hash sigs vals i m = some m' := by
  intro vals
  induction vals with
  | nil => intro i m _; exact ⟨m, rfl⟩
  | cons v rest ih =>
    intro i m hlen
    simp only [List.length_cons] at hlen
    unfold keepMatchingEthereumSignatures
    split
    · exact ih (i + 1) m (by omega)
    · have hi : i < sigs.length := by omega
      rw [List.getElem?_eq_getElem hi]
      simp only
      have hw := hwell sigs[i] (List.getElem_mem hi)
      cases hrec : RecoverEthereumAddressFromSignature L sigs[i] hash with
      | panic => exact absurd hrec hw
      | error => exact ih (i + 1) _ (by omega)
      | ok a => exact ih (i + 1) _ (by omega)

/-- C17 (amended).  An Ethereum-side request for new signatures whose record
exists, is not completed and whose block time is at least the record's expiration
plus the window, with a window of at least 1 and a block time plus window that
fits in 64 bits.  When the digest under the new expiration cannot be computed
from the stored fields (a stored field does not decode), the processing aborts
and leaves the store as it is.  When it can be computed and the stored arrays are
parallel, the first section commits a record, and both the committed record and
the record in the store after the merge of the re-broadcast have the expiration
block time plus window, which exceeds the prior expiration.  The Koinos streamer
behaves the same with the block timestamp, given that the local key signs and
that the recovery panics on no stored signature. -/
theorem resign_accepted_expiration_advances (L : Lib) (ord : MapOrder) (net : Network)
    (now : Int) (cfg : StreamerConfig) :
    (∀ (ethTxStore : GoMap Transaction) (ev : EthereumRequestNewSignaturesLog)
        (p : Transaction),
      mapGet ethTxStore ("0x" ++ L.bytes2Hex ev.txId) = some p →
      p.status ≠ TransactionStatus.completed →
      p.expiration + cfg.signaturesExpiration ≤ ev.blocktime →
      ev.blocktime + cfg.signaturesExpiration < 2 ^ 64 →
      1 ≤ cfg.signaturesExpiration →
      (ethereumResignDigest L cfg p (ev.blocktime + cfg.signaturesExpiration) = none →
        processEthereumRequestNewSignaturesEvent L ord net now cfg ethTxStore ev
          = { store := ethTxStore, panicked := true }) ∧
      (∀ hash, ethereumResignDigest L cfg p (ev.blocktime + cfg.signaturesExpiration)
          = some hash →
        p.validators.length ≤ p.signatures.length →
        ∃ r r',
          ethereumResignRecord L ord cfg (some p) (ev.blocktime % 2 ^ 64)
            = ResignStep.stored r ∧
          r.expiration = ev.blocktime + cfg.signaturesExpiration ∧
          mapGet (processEthereumRequestNewSignaturesEvent L ord net now cfg ethTxStore
            ev).store ("0x" ++ L.bytes2Hex ev.txId) = some r' ∧
          r'.expiration = ev.blocktime + cfg.signaturesExpiration ∧
          p.expiration < r'.expiration)) ∧
    (∀ (koinosTxStore : GoMap Transaction) (ev : KoinosRequestNewSignaturesEvent)
        (p : Transaction),
      mapGet koinosTxStore (koinosResignKey koinosTxStore ev) = some p →
      p.status ≠ TransactionStatus.completed →
      p.expiration + cfg.signaturesExpiration ≤ ev.timestamp →
      ev.timestamp + cfg.signaturesExpiration < 2 ^ 64 →
      1 ≤ cfg.signaturesExpiration →
      (koinosResignDigest L cfg p (ev.timestamp + cfg.signaturesExpiration) = none →
        processRequestNewSignaturesEvent L ord net now cfg koinosTxStore ev
          = { store := koinosTxStore, panicked := true }) ∧
      (∀ prefixedHash sigBytes,
        koinosResignDigest L cfg p (ev.timestamp + cfg.signaturesExpiration)
          = some prefixedHash →
        SignEthereumHash L cfg.ethereumPK prefixedHash = some sigBytes →
        p.validators.length ≤ p.signatures.length →
        (∀ s ∈ p.signatures,
          RecoverEthereumAddressFromSignature L s prefixedHash ≠ GoResult.panic) →
        ∃ r r',
          koinosResignRecord L ord cfg (some p) ev.timestamp = ResignStep.stored r ∧
          r.expiration = ev.timestamp + cfg.signaturesExpiration ∧
          mapGet (processRequestNewSignaturesEvent L ord net now cfg koinosTxStore ev).store
            (koinosResignKey koinosTxStore ev) = some r' ∧
          r'.expiration = ev.timestamp + cfg.signaturesExpiration ∧
          p.expiration < r'.expiration)) := by
  constructor
  · intro ethTxStore ev p hp hc hgate hfit hw
    have hbt : ev.blocktime % 2 ^ 64 = ev.blocktime := Nat.mod_eq_of_lt (by omega)
    have hnew : addU64 ev.blocktime cfg.signaturesExpiration
        = ev.blocktime + cfg.signaturesExpiration := addU64_eq _ _ hfit
    have hold : addU64 p.expiration cfg.signaturesExpiration
        = p.expiration + cfg.signaturesExpiration := addU64_eq _ _ (by omega)
    obtain ⟨hnone, hsome⟩ := ethereumResignRecord_of_digest L ord cfg p ev.blocktime hc
      (by rw [hold]; exact hgate)
    rw [hnew] at hnone hsome
    constructor
    · intro hd
      simp only [processEthereumRequestNewSignaturesEvent, hp, hbt, hnone hd]
    · intro hash hd hlen
      obtain ⟨m, hk⟩ := keepMatchingKoinosSignatures_some L hash p.signatures p.validators 0
        [(cfg.koinosAddress, L.base64Encode (SignKoinosHash L cfg.koinosPK hash))] (by omega)
      have hrec := (hsome hash hd).2 m hk
      have hfinal : ∃ r', mapGet
          (processEthereumRequestNewSignaturesEvent L ord net now cfg ethTxStore ev).store
          ("0x" ++ L.bytes2Hex ev.txId) = some r' ∧
          r'.expiration = ev.blocktime + cfg.signaturesExpiration := by
        simp only [processEthereumRequestNewSignaturesEvent, hp, hbt, hrec]
        split
        · exact ⟨_, mapGet_mapSet_self _ _ _, rfl⟩
        · rename_i merged hm
          obtain ⟨r', h1, h2, _⟩ := mergeBroadcast_expiration ord _ _ merged _ _ _
            (mapGet_mapSet_self _ _ _) hm
          exact ⟨r', h1, h2⟩
      obtain ⟨r', h1, h2⟩ := hfinal
      rw [hbt]
      exact ⟨_, r', hrec, rfl, h1, h2, by rw [h2]; omega⟩
  · intro koinosTxStore ev p hp hc hgate hfit hw
    have hnew : addU64 ev.timestamp cfg.signaturesExpiration
        = ev.timestamp + cfg.signaturesExpiration := addU64_eq _ _ hfit
    have hold : addU64 p.expiration cfg.signaturesExpiration
        = p.expiration + cfg.signaturesExpiration := addU64_eq _ _ (by omega)
    obtain ⟨hnone, hsome⟩ := koinosResignRecord_of_digest L ord cfg p ev.timestamp hc
      (by rw [hold]; exact hgate)
    rw [hnew] at hnone hsome
    constructor
    · intro hd
      simp only [processRequestNewSignaturesEvent, hp, hnone hd]
    · intro prefixedHash sigBytes hd hsign hlen hwell
      obtain ⟨m, hk⟩ := keepMatchingEthereumSignatures_some L prefixedHash p.signatures hwell
        p.validators 0 [(cfg.ethereumAddress, "0x" ++ L.bytes2Hex sigBytes)] (by omega)
      have hrec := ((hsome prefixedHash hd).2 sigBytes hsign).2 m hk
      have hfinal : ∃ r', mapGet
          (processRequestNewSignaturesEvent L ord net now cfg koinosTxStore ev).store
          (koinosResignKey koinosTxStore ev) = some r' ∧
          r'.expiration = ev.timestamp + cfg.signaturesExpiration := by
        simp only [processRequestNewSignaturesEvent, hp, hrec]
        split
        · exact ⟨_, mapGet_mapSet_self _ _ _, rfl⟩
        · rename_i merged hm
          obtain ⟨r', h1, h2, _⟩ := mergeBroadcast_expiration ord _ _ merged _ _ _
            (mapGet_mapSet_self _ _ _) hm
          exact ⟨r', h1, h2⟩
      obtain ⟨r', h1, h2⟩ := hfinal
      exact ⟨_, r', hrec, rfl, h1, h2, by rw [h2]; omega⟩

/-- Witness of C17: the sample Ethereum transfer expires at 1100, the window is 100
and the event comes at block time 1200; the digest under the expiration 1300 is
the byte 12 and the stored expiration becomes 1300. -/
theorem resign_accepted_expiration_advances_witness :
    ∃ r r',
      ethereumResignRecord sampleLib insertionOrder sampleConfig
        (some (sampleEthereumTransfer ["A"] ["AN"])) (1200 % 2 ^ 64) = ResignStep.stored r ∧
      r.expiration = 1200 + sampleConfig.signaturesExpiration ∧
      mapGet (processEthereumRequestNewSignaturesEvent sampleLib insertionOrder
          (peersAnswering []) 0 sampleConfig [("0x1", sampleEthereumTransfer ["A"] ["AN"])]
          { txId := [49], blocktime := 1200 }).store ("0x" ++ sampleLib.bytes2Hex [49])
        = some r' ∧
      r'.expiration = 1200 + sampleConfig.signaturesExpiration ∧
      (sampleEthereumTransfer ["A"] ["AN"]).expiration < r'.expiration :=
  ((resign_accepted_expiration_advances sampleLib insertionOrder (peersAnswering []) 0
    sampleConfig).1 [("0x1", sampleEthereumTransfer ["A"] ["AN"])]
    { txId := [49], blocktime := 1200 } (sampleEthereumTransfer ["A"] ["AN"])
    (by decide) (by decide) (by decide) (by decide) (by decide)).2 [12]
    (by decide) (by decide)

/-- Counterexample to C17 as stated.  The sample Ethereum transfer expires at 1100
and is not completed.  With the window 100 an event at block time 2^64 - 50 is
accepted and the stored expiration is 50, neither the block time plus the window
nor greater than 1100.  With the window 0 an event at block time 1100 is accepted
and the stored expiration is 1100, not greater than the prior one.  The Koinos
streamer stores 50 in the same way.  An event at block time 1200 for a record
whose stored amount does not parse, or whose validators outnumber its signatures,
passes the test on the block time, and the processing aborts and stores nothing. -/
theorem resign_expiration_wraps_around :
    (2 ^ 64 - 50 ≥ (sampleEthereumTransfer ["A"] ["AN"]).expiration
        + sampleConfig.signaturesExpiration) ∧
    (mapGet (processEthereumRequestNewSignaturesEvent sampleLib insertionOrder
        (peersAnswering []) 0 sampleConfig [("0x1", sampleEthereumTransfer ["A"] ["AN"])]
        { txId := [49], blocktime := 2 ^ 64 - 50 }).store "0x1").map
        (fun (r : Transaction) => r.expiration) = some 50 ∧
    (mapGet (processEthereumRequestNewSignaturesEvent sampleLib insertionOrder
        (peersAnswering []) 0 { sampleConfig with signaturesExpiration := 0 }
        [("0x1", sampleEthereumTransfer ["A"] ["AN"])]
        { txId := [49], blocktime := 1100 }).store "0x1").map
        (fun (r : Transaction) => r.expiration) = some 1100 ∧
    ethereumResignRecord sampleLib insertionOrder { sampleConfig with signaturesExpiration := 0 }
        (some (sampleEthereumTransfer ["A"] ["AN"])) 1100 ≠ ResignStep.skipped ∧
    (mapGet (processRequestNewSignaturesEvent sampleLib insertionOrder
        (peersAnswering []) 0 sampleConfig
        [("0x1-1", sampleKoinosTransfer ["0xa"] [sampleEthereumSignature [97] [55]])]
        { timestamp := 2 ^ 64 - 50, transactionId := "0x1", operationId := "1" }).store
        "0x1-1").map
        (fun (r : Transaction) => r.expiration) = some 50 ∧
    processEthereumRequestNewSignaturesEvent sampleLib insertionOrder (peersAnswering []) 0
        sampleConfig [("0x1", { sampleEthereumTransfer ["A"] ["AN"] with amount := "x" })]
        { txId := [49], blocktime := 1200 }
      = { store := [("0x1", { sampleEthereumTransfer ["A"] ["AN"] with amount := "x" })],
          panicked := true } ∧
    processEthereumRequestNewSignaturesEvent sampleLib insertionOrder (peersAnswering []) 0
        sampleConfig [("0x1", sampleEthereumTransfer ["A", "B"] ["AN"])]
        { txId := [49], blocktime := 1200 }
      = { store := [("0x1", sampleEthereumTransfer ["A", "B"] ["AN"])],
          panicked := true } := by
  refine ⟨by decide, by decide, by decide, by decide, by decide, by decide, by decide⟩

/-! ## The record of an accepted re-sign -/

/-- C16 (code defect).  Validator `A` of three processed the sample `TokensLocked`
events and received the submissions of `B` and `C`, which raised both records to
`signed` with three signatures.  Processing the same events again, with no answer
from the peers, leaves the validators and signatures as they were but stores the
status `gathering_signatures`: the first section resets the status and the merge
after the broadcast asks for `((6/2)*10)/7 = 4` signatures. -/
theorem lockedEvent_replay_resets_signed_status :
    (mapGet sampleSignedStores.ethTxStore "0x1").map
        (fun (r : Transaction) => (r.validators, r.signatures, r.status))
      = some (["A", "B", "C"], ["AN", "BN", "CN"], TransactionStatus.signed) ∧
    (mapGet (processEthereumTokensLockedEvent sampleLib insertionOrder (peersAnswering []) 0
        sampleConfig sampleSignedStores.ethTxStore sampleEthereumLog).store "0x1").map
        (fun (r : Transaction) => (r.validators, r.signatures, r.status))
      = some (["A", "B", "C"], ["AN", "BN", "CN"], TransactionStatus.gathering_signatures) ∧
    (mapGet sampleSignedStores.koinosTxStore "0x1-1").map
        (fun (r : Transaction) => (r.validators, r.status))
      = some (["0xa", "0xb", "0xc"], TransactionStatus.signed) ∧
    (mapGet (processKoinosTokensLockedEvent sampleLib insertionOrder (peersAnswering []) 0
        sampleConfig sampleSignedStores.koinosTxStore sampleKoinosEvent).store "0x1-1").map
        (fun (r : Transaction) => (r.validators, r.status))
      = some (["0xa", "0xb", "0xc"], TransactionStatus.gathering_signatures) ∧
    thresholdA sampleConfig.validators.length = 3 ∧
    thresholdC sampleConfig.validators.length = 4 := by
  refine ⟨by decide, by decide, by decide, by decide, by decide, by decide⟩

/-! ## Repeated and reordered submissions -/

theorem lastSignatureOf_none_of_not_mem (x : String) :
    ∀ (vals sigs : List String), x ∉ vals → lastSignatureOf vals sigs x = none := by
  intro vals
  induction vals with
  | nil => intro sigs _; cases sigs <;> rfl
  | cons v rest ih =>
    intro sigs hx
    cases sigs with
    | nil => rfl
    | cons s ss =>
      simp only [List.mem_cons, not_or] at hx
      simp only [lastSignatureOf, ih ss hx.2]
      simp [Ne.symm hx.1]

theorem lastSignatureOf_eq_first (x : String) :
    ∀ (vals sigs : List String), vals.Nodup →
      lastSignatureOf vals sigs x = firstSignatureOf vals sigs x := by
  intro vals
  induction vals with
  | nil => intro sigs _; cases sigs <;> rfl
  | cons v rest ih =>
    intro sigs hnodup
    cases sigs with
    | nil => rfl
    | cons s ss =>
      obtain ⟨hv, hrest⟩ := List.nodup_cons.mp hnodup
      simp only [lastSignatureOf, firstSignatureOf]
      by_cases hx : v = x
      · subst hx
        rw [lastSignatureOf_none_of_not_mem v rest ss hv]
        simp
      · rw [ih ss hrest]
        simp only [hx, if_false]
        cases firstSignatureOf rest ss x <;> rfl

theorem mapGet_zip (x : String) :
    ∀ (vals sigs : List String), mapGet (vals.zip sigs) x = firstSignatureOf vals sigs x := by
  intro vals
  induction vals with
  | nil => intro sigs; cases sigs <;> rfl
  | cons v rest ih =>
    intro sigs
    cases sigs with
    | nil => rfl
    | cons s ss =>
      have h := ih ss
      simp only [List.zip, List.zipWith, mapGet, firstSignatureOf] at h ⊢
      rw [h]

theorem keys_zip (vals sigs : List String) (hlen : vals.length = sigs.length) :
    (vals.zip sigs).map Prod.fst = vals := by
  rw [← List.unzip_fst, List.unzip_zip hlen]

/-- Two maps with distinct keys and the same value under every key hold the same
entries. -/
theorem perm_of_mapGet_eq (l1 l2 : GoMap String) (h1 : (l1.map Prod.fst).Nodup)
    (h2 : (l2.map Prod.fst).Nodup) (h : ∀ x, mapGet l1 x = mapGet l2 x) : l1.Perm l2 := by
  rw [List.perm_ext_iff_of_nodup (List.Nodup.of_map _ h1) (List.Nodup.of_map _ h2)]
  intro e
  obtain ⟨k, v⟩ := e
  rw [← mapGet_eq_some_iff_mem l1 h1, ← mapGet_eq_some_iff_mem l2 h2, h k]

theorem findLocalSignature_some (loc : String) (sigs : List String) :
    ∀ (vals : List String) (i : Nat) (resp : String), vals.length + i ≤ sigs.length →
      ∃ r, findLocalSignature loc sigs vals i resp = some r := by
  intro vals
  induction vals with
  | nil => intro i resp _; exact ⟨resp, rfl⟩
  | cons v rest ih =>
    intro i resp hlen
    have hi : i < sigs.length := by simp at hlen; omega
    unfold findLocalSignature
    split
    · rw [List.getElem?_eq_getElem hi]
      exact ih (i + 1) _ (by simp at hlen; omega)
    · exact ih (i + 1) _ (by simp at hlen; omega)

theorem loadSignatures_some (loc : String) (sigs : List String) :
    ∀ (vals : List String) (i : Nat) (m : GoMap String) (resp : String),
      vals.length + i ≤ sigs.length →
      ∃ r, loadSignatures loc sigs vals i m resp = some r := by
  intro vals
  induction vals with
  | nil => intro i m resp _; exact ⟨(m, resp), rfl⟩
  | cons v rest ih =>
    intro i m resp hlen
    have hi : i < sigs.length := by simp at hlen; omega
    unfold loadSignatures
    rw [List.getElem?_eq_getElem hi]
    exact ih (i + 1) _ _ (by simp at hlen; omega)

theorem addMissingSignatures_some (sigs : List String) :
    ∀ (vals : List String) (i : Nat) (m : GoMap String),
      vals.length + i ≤ sigs.length →
      ∃ r, addMissingSignatures sigs vals i m = some r := by
  intro vals
  induction vals with
  | nil => intro i m _; exact ⟨m, rfl⟩
  | cons v rest ih =>
    intro i m hlen
    have hi : i < sigs.length := by simp at hlen; omega
    unfold addMissingSignatures
    split
    · exact ih (i + 1) _ (by simp at hlen; omega)
    · rw [List.getElem?_eq_getElem hi]
      exact ih (i + 1) _ (by simp at hlen; omega)

theorem raiseWhenSigned_arrays (n : Nat) (r : Transaction) :
    (raiseWhenSigned n r).validators = r.validators ∧
    (raiseWhenSigned n r).signatures = r.signatures ∧
    (raiseWhenSigned n r).hash = r.hash ∧
    (raiseWhenSigned n r).id = r.id ∧
    (raiseWhenSigned n r).status =
      (if r.signatures.length ≥ thresholdA n then TransactionStatus.signed else r.status) ∧
    { raiseWhenSigned n r with status := r.status } = r := by
  unfold raiseWhenSigned
  split <;> simp [*]

theorem mergeSubmission_prior_eq (ord : MapOrder) (n : Nat) (loc hashStr : String)
    (prior tx : Transaction) (sigs merged : GoMap String) (resp : String)
    (hst : prior.status ≠ TransactionStatus.completed) (hh : prior.hash = hashStr)
    (hload : loadSignatures loc prior.signatures prior.validators 0 [] "" = some (sigs, resp))
    (hadd : addMissingSignatures tx.signatures tx.validators 0 sigs = some merged) :
    mergeSubmission ord n loc hashStr (some prior) tx
      = MergeResult.store (raiseWhenSigned n (withSignatureMap ord prior merged)) resp := by
  simp only [mergeSubmission, if_neg hst, hh, ne_eq, not_true_eq_false, if_false, hload, hadd,
    raiseWhenSigned]

theorem mergeSubmission_store_inv (ord : MapOrder) (n : Nat) (loc hashStr : String)
    (prior tx record : Transaction) (response : String)
    (h : mergeSubmission ord n loc hashStr (some prior) tx = MergeResult.store record response) :
    ∃ sigs merged,
      prior.status ≠ TransactionStatus.completed ∧ prior.hash = hashStr ∧
      loadSignatures loc prior.signatures prior.validators 0 [] "" = some (sigs, response) ∧
      addMissingSignatures tx.signatures tx.validators 0 sigs = some merged ∧
      record = raiseWhenSigned n (withSignatureMap ord prior merged) := by
  unfold mergeSubmission at h
  simp only at h
  split at h
  · split at h <;> cases h
  · rename_i hstatus
    split at h
    · cases h
    · rename_i hhash
      split at h
      · cases h
      · rename_i signatures resp hload
        split at h
        · cases h
        · rename_i merged hadd
          injection h with hrec hresp
          subst hresp
          exact ⟨signatures, merged, hstatus, by simpa using hhash, hload, hadd,
            by rw [← hrec]; rfl⟩

/-- A record rebuilt from a map that holds exactly its pairs differs from it at
most in the order of the pairs, when the threshold step leaves its status. -/
theorem sameUpToPairOrder_rebuilt (ord : MapOrder) (n : Nat) (a b : Transaction)
    (m : GoMap String)
    (hframe : { b with validators := a.validators, signatures := a.signatures,
                       status := a.status } = a)
    (hnodup : a.validators.Nodup) (hlen : a.validators.length = a.signatures.length)
    (hm : (m.map Prod.fst).Nodup)
    (hget : ∀ x, mapGet m x = firstSignatureOf a.validators a.signatures x)
    (hstatus : a.status =
      if a.signatures.length ≥ thresholdA n then TransactionStatus.signed else b.status) :
    sameUpToPairOrder a (raiseWhenSigned n (withSignatureMap ord b m)) := by
  have hperm : (a.validators.zip a.signatures).Perm m := by
    apply perm_of_mapGet_eq _ _ (by rw [keys_zip _ _ hlen]; exact hnodup) hm
    intro x
    rw [mapGet_zip, hget x]
  have hiter : (a.validators.zip a.signatures).Perm (ord.iter m) :=
    hperm.trans (ord.perm m).symm
  have hcount : (ord.iter m).length = a.signatures.length := by
    rw [← hiter.length_eq, List.length_zip, hlen, Nat.min_self]
  obtain ⟨h1, h2, _, _, h5, _⟩ := raiseWhenSigned_arrays n (withSignatureMap ord b m)
  have hst : (raiseWhenSigned n (withSignatureMap ord b m)).status = a.status := by
    rw [h5, hstatus]
    simp [withSignatureMap, hcount]
  have hraise : raiseWhenSigned n (withSignatureMap ord b m)
      = { withSignatureMap ord b m with status := a.status } := by
    rw [← hst]
    unfold raiseWhenSigned
    split <;> rfl
  refine ⟨?_, hlen, ?_, ?_⟩
  · rw [hraise]
    exact hframe
  · rw [h1, h2]
    simp [withSignatureMap]
  · rw [h1, h2]
    simp only [withSignatureMap]
    rw [zip_map_fst_snd]
    exact hiter

theorem merged_view (loc : String) (prior tx : Transaction) (sigs merged : GoMap String)
    (resp : String) (hlen : tx.validators.length = tx.signatures.length)
    (hload : loadSignatures loc prior.signatures prior.validators 0 [] "" = some (sigs, resp))
    (hadd : addMissingSignatures tx.signatures tx.validators 0 sigs = some merged) :
    (merged.map Prod.fst).Nodup ∧
    ∀ x, mapGet merged x =
      (lastSignatureOf prior.validators prior.signatures x).or
        (firstSignatureOf tx.validators tx.signatures x) := by
  obtain ⟨hn1, hget1⟩ := loadSignatures_spec loc prior.signatures prior.validators 0 []
    "" sigs resp hload (by simp)
  obtain ⟨hn2, hget2⟩ := addMissingSignatures_spec tx.signatures tx.validators 0
    sigs merged hadd hn1 (by omega)
  refine ⟨hn2, fun x => ?_⟩
  rw [hget2 x, hget1 x]
  simp [mapGet]

theorem rebuilt_view (ord : MapOrder) (n : Nat) (b : Transaction) (m : GoMap String)
    (hm : (m.map Prod.fst).Nodup) :
    (raiseWhenSigned n (withSignatureMap ord b m)).validators.Nodup ∧
    (raiseWhenSigned n (withSignatureMap ord b m)).validators.length
      = (raiseWhenSigned n (withSignatureMap ord b m)).signatures.length ∧
    ∀ x, firstSignatureOf (raiseWhenSigned n (withSignatureMap ord b m)).validators
      (raiseWhenSigned n (withSignatureMap ord b m)).signatures x = mapGet m x := by
  obtain ⟨h1, h2, _⟩ := raiseWhenSigned_arrays n (withSignatureMap ord b m)
  rw [h1, h2]
  exact withSignatureMap_view ord b m hm

theorem or_or_self (a b : Option String) : (a.or b).or b = a.or b := by
  cases a <;> cases b <;> rfl

/-- Merging the same transfer a second time, into the record the first merge
stored or into the record the first merge started from, gives a record that
differs from the first one at most in the order of its pairs. -/
theorem mergeSubmission_again (ord1 ord2 : MapOrder) (n : Nat) (loc hashStr : String)
    (prior : Option Transaction) (tx r1 : Transaction) (resp1 : String)
    (hlen : tx.validators.length = tx.signatures.length) (hhash : tx.hash = hashStr)
    (hnodup : prior = none → tx.validators.Nodup)
    (h : mergeSubmission ord1 n loc hashStr prior tx = MergeResult.store r1 resp1) :
    ((∃ body, mergeSubmission ord2 n loc hashStr (some r1) tx
        = MergeResult.reply (HttpResult.response 200 body)) ∨
      ∃ r2 resp2, mergeSubmission ord2 n loc hashStr (some r1) tx = MergeResult.store r2 resp2 ∧
        sameUpToPairOrder r1 r2) ∧
    (∀ p, prior = some p →
      ∃ r2, mergeSubmission ord2 n loc hashStr (some p) tx = MergeResult.store r2 resp1 ∧
        sameUpToPairOrder r1 r2) := by
  have hagain : ∀ (hst : r1.status ≠ TransactionStatus.completed) (hh : r1.hash = hashStr)
      (hn : r1.validators.Nodup) (hl : r1.validators.length = r1.signatures.length)
      (hsub : ∀ x, (firstSignatureOf r1.validators r1.signatures x).or
        (firstSignatureOf tx.validators tx.signatures x)
          = firstSignatureOf r1.validators r1.signatures x)
      (hraised : r1.status =
        if r1.signatures.length ≥ thresholdA n then TransactionStatus.signed else r1.status),
      ∃ r2 resp2, mergeSubmission ord2 n loc hashStr (some r1) tx = MergeResult.store r2 resp2 ∧
        sameUpToPairOrder r1 r2 := by
    intro hst hh hn hl hsub hraised
    obtain ⟨⟨sigs, resp⟩, hload⟩ := loadSignatures_some loc r1.signatures r1.validators 0 [] ""
      (by omega)
    obtain ⟨merged, hadd⟩ := addMissingSignatures_some tx.signatures tx.validators 0 sigs
      (by omega)
    obtain ⟨hm, hget⟩ := merged_view loc r1 tx sigs merged resp hlen hload hadd
    refine ⟨_, resp, mergeSubmission_prior_eq ord2 n loc hashStr r1 tx sigs merged resp hst hh
      hload hadd, ?_⟩
    apply sameUpToPairOrder_rebuilt ord2 n r1 r1 merged rfl hn hl hm _ hraised
    intro x
    rw [hget x, lastSignatureOf_eq_first x _ _ hn, hsub x]
  cases prior with
  | none =>
    rw [mergeSubmission_none] at h
    injection h with hrec _
    have hr1 : r1 = raiseWhenSigned n tx := by rw [← hrec]; rfl
    obtain ⟨h1, h2, h3, _, h5, _⟩ := raiseWhenSigned_arrays n tx
    refine ⟨?_, fun p hp => by cases hp⟩
    by_cases hst : r1.status = TransactionStatus.completed
    · left
      obtain ⟨body, hbody⟩ := findLocalSignature_some loc r1.signatures r1.validators 0 ""
        (by rw [hr1, h1, h2]; omega)
      refine ⟨body, ?_⟩
      simp only [mergeSubmission, hst, if_true, hbody]
    · right
      apply hagain hst (by rw [hr1, h3]; exact hhash) (by rw [hr1, h1]; exact hnodup rfl)
        (by rw [hr1, h1, h2]; exact hlen)
      · intro x
        rw [hr1, h1, h2]
        cases firstSignatureOf tx.validators tx.signatures x <;> rfl
      · rw [hr1, h5, h2]
        split <;> rfl
  | some p =>
    obtain ⟨sigs, merged, hst, hh, hload, hadd, hrec⟩ :=
      mergeSubmission_store_inv ord1 n loc hashStr p tx r1 resp1 h
    obtain ⟨hm, hget⟩ := merged_view loc p tx sigs merged resp1 hlen hload hadd
    obtain ⟨hv1, hv2, hv3⟩ := rebuilt_view ord1 n p merged hm
    obtain ⟨h1, h2, h3, _, h5, h6⟩ := raiseWhenSigned_arrays n (withSignatureMap ord1 p merged)
    rw [← hrec] at hv1 hv2 hv3 h1 h2 h3 h5 h6
    have hstatus : r1.status =
        if r1.signatures.length ≥ thresholdA n then TransactionStatus.signed else p.status := by
      rw [h5, h2]
      rfl
    constructor
    · right
      apply hagain _ (by rw [h3]; exact hh) hv1 hv2
      · intro x
        rw [hv3 x, hget x, or_or_self]
      · rw [hstatus]
        split <;> simp [*]
      · rw [hstatus]
        split
        · simp
        · exact hst
    · intro p' hp'
      injection hp' with hp'
      subst hp'
      refine ⟨_, mergeSubmission_prior_eq ord2 n loc hashStr p tx sigs merged resp1 hst hh
        hload hadd, ?_⟩
      apply sameUpToPairOrder_rebuilt ord2 n r1 p merged _ hv1 hv2 hm (fun x => (hv3 x).symm)
        hstatus
      rw [hrec]
      unfold raiseWhenSigned
      split <;> rfl

theorem submitSignature_of_checks (L : Lib) (ord : MapOrder) (api : Api) (now : Int)
    (stores : Stores) (sub : SubmittedSignature) (h : submissionChecksPass L api now sub) :
    SubmitSignature L ord api now stores sub
      = answerOfMerge stores sub.transaction
          (mergeSubmission ord api.validators.length (localAddressOf api sub.transaction.type)
            sub.transaction.hash
            (mapGet (transferStore stores sub.transaction.type) (submissionKey sub.transaction))
            sub.transaction) := by
  obtain ⟨henv, hchecks⟩ := h
  unfold SubmitSignature
  rw [henv]
  simp only
  cases htype : sub.transaction.type with
  | ethereum =>
    rw [htype] at hchecks
    obtain ⟨hash, hashB64, hd, hh, hl, hc⟩ := hchecks
    subst hh
    simp only [submitEthereum, hd, ne_eq, not_true_eq_false, if_false, hl, hc, localAddressOf,
      transferStore, submissionKey, htype]
    split <;> rename_i hm <;> rw [hm] <;> simp only [answerOfMerge, putSubmission, htype]
  | koinos =>
    rw [htype] at hchecks
    obtain ⟨prefixedHash, hd, hh, hl, hc⟩ := hchecks
    simp only [submitKoinos, hd, hh, ne_eq, not_true_eq_false, if_false, hl, hc, localAddressOf,
      transferStore, submissionKey, htype]
    split <;> rename_i hm <;> rw [hm] <;>
      simp only [answerOfMerge, putSubmission, htype, submissionKey]

theorem submissionChecksPass_of_200 (L : Lib) (ord : MapOrder) (api : Api) (now : Int)
    (stores : Stores) (sub : SubmittedSignature) (body : String)
    (h : (SubmitSignature L ord api now stores sub).1 = HttpResult.response 200 body) :
    submissionChecksPass L api now sub ∧
    sub.transaction.validators.length = sub.transaction.signatures.length := by
  unfold SubmitSignature at h
  split at h
  · rename_i r hr
    obtain ⟨b, hb⟩ := checkEnvelope_some L api now sub r hr
    rw [hb] at h
    injection h with h1 _
    cases h1
  · rename_i henv
    split at h
    · rename_i htype
      rcases submitEthereum_cases L ord api stores sub.transaction with
        ⟨r, hr, ⟨b, hb⟩ | hp⟩ | ⟨hash, hashB64, hpass, _⟩
      · rw [hr, hb] at h
        injection h with h1 _
        cases h1
      · rw [hr, hp] at h
        cases h
      · exact ⟨⟨henv, by rw [htype]; exact ⟨hash, hashB64, hpass⟩⟩, hpass.2.2.1⟩
    · rename_i htype
      rcases submitKoinos_cases L ord api stores sub.transaction with
        ⟨r, hr, ⟨b, hb⟩ | hp⟩ | ⟨prefixedHash, hpass, _⟩
      · rw [hr, hb] at h
        injection h with h1 _
        cases h1
      · rw [hr, hp] at h
        cases h
      · exact ⟨⟨henv, by rw [htype]; exact ⟨prefixedHash, hpass⟩⟩, hpass.2.2.1⟩

theorem submissionChecksPass_later (L : Lib) (api : Api) (now now' : Int)
    (sub : SubmittedSignature) (h : submissionChecksPass L api now sub)
    (hlater : ¬ now' > sub.expiration) : submissionChecksPass L api now' sub := by
  refine ⟨?_, h.2⟩
  have henv := h.1
  unfold checkEnvelope at henv ⊢
  split at henv
  · cases henv
  · rw [if_neg hlater]
    exact henv

theorem mergeSubmission_reply_order (ord1 ord2 : MapOrder) (n : Nat) (loc hashStr : String)
    (prior : Option Transaction) (tx : Transaction) (r : HttpResult)
    (h : mergeSubmission ord1 n loc hashStr prior tx = MergeResult.reply r) :
    mergeSubmission ord2 n loc hashStr prior tx = MergeResult.reply r := by
  unfold mergeSubmission at h ⊢
  simp only at h ⊢
  split at h
  · rename_i stored
    split at h
    · rename_i hst
      rw [if_pos hst]
      exact h
    · rename_i hst
      rw [if_neg hst]
      split at h
      · rename_i hh
        rw [if_pos hh]
        exact h
      · rename_i hh
        rw [if_neg hh]
        split at h
        · exact h
        · split at h
          · exact h
          · cases h
  · cases h

theorem sameUpToPairOrder_id (a b : Transaction) (h : sameUpToPairOrder a b) : b.id = a.id := by
  have h1 := congrArg Transaction.id h.1
  exact h1

theorem storeSameUpToPairOrder_put (s : GoMap Transaction) (key : String) (a b : Transaction)
    (h : sameUpToPairOrder a b) :
    storeSameUpToPairOrder (mapSet s key a) (mapSet (mapSet s key a) key b) :=
  Or.inr ⟨key, a, b, mapGet_mapSet_self s key a, rfl, h⟩

/-- A submission that `SubmitSignature` answers with 200 and that is submitted
again while its envelope is not expired: the second request is answered 200 and
each store after it is the store after the first request, up to the order of the
pairs of the record of the transfer. -/
theorem submitSignature_accepted_twice (L : Lib) (api : Api) (ord1 ord2 : MapOrder)
    (now1 now2 : Int) (stores : Stores) (sub : SubmittedSignature) (body : String)
    (haccept : (SubmitSignature L ord1 api now1 stores sub).1 = HttpResult.response 200 body)
    (hlater : ¬ now2 > sub.expiration)
    (hnodup : mapGet (transferStore stores sub.transaction.type)
        (submissionKey sub.transaction) = none → sub.transaction.validators.Nodup) :
    (∃ body', (SubmitSignature L ord2 api now2
        (SubmitSignature L ord1 api now1 stores sub).2 sub).1 = HttpResult.response 200 body') ∧
    storeSameUpToPairOrder (SubmitSignature L ord1 api now1 stores sub).2.ethTxStore
      (SubmitSignature L ord2 api now2
        (SubmitSignature L ord1 api now1 stores sub).2 sub).2.ethTxStore ∧
    storeSameUpToPairOrder (SubmitSignature L ord1 api now1 stores sub).2.koinosTxStore
      (SubmitSignature L ord2 api now2
        (SubmitSignature L ord1 api now1 stores sub).2 sub).2.koinosTxStore := by
  obtain ⟨hpass, hlen⟩ := submissionChecksPass_of_200 L ord1 api now1 stores sub body haccept
  have hpass2 := submissionChecksPass_later L api now1 now2 sub hpass hlater
  rw [submitSignature_of_checks L ord1 api now1 stores sub hpass] at haccept ⊢
  rw [submitSignature_of_checks L ord2 api now2 _ sub hpass2]
  cases hm1 : mergeSubmission ord1 api.validators.length
      (localAddressOf api sub.transaction.type) sub.transaction.hash
      (mapGet (transferStore stores sub.transaction.type) (submissionKey sub.transaction))
      sub.transaction with
  | reply r =>
    rw [hm1] at haccept
    simp only [answerOfMerge] at haccept ⊢
    rw [mergeSubmission_reply_order ord1 ord2 _ _ _ _ _ r hm1]
    exact ⟨⟨body, haccept⟩, Or.inl rfl, Or.inl rfl⟩
  | store r1 resp1 =>
    obtain ⟨hrepeat, hprior⟩ := mergeSubmission_again ord1 ord2 api.validators.length
      (localAddressOf api sub.transaction.type) sub.transaction.hash _ sub.transaction r1 resp1
      hlen rfl hnodup hm1
    simp only [answerOfMerge]
    cases htype : sub.transaction.type with
    | ethereum =>
      rw [htype] at hrepeat hprior hm1
      simp only [transferStore, submissionKey, htype] at hprior hm1 ⊢
      simp only [putSubmission, htype]
      by_cases hid : r1.id = sub.transaction.id
      · rw [hid, mapGet_mapSet_self]
        rcases hrepeat with ⟨body', hb⟩ | ⟨r2, resp2, hb, hsame⟩
        · rw [hb]
          exact ⟨⟨body', rfl⟩, Or.inl rfl, Or.inl rfl⟩
        · rw [hb]
          simp only [answerOfMerge, putSubmission, htype]
          refine ⟨⟨resp2, rfl⟩, ?_, Or.inl rfl⟩
          rw [sameUpToPairOrder_id r1 r2 hsame, hid]
          exact storeSameUpToPairOrder_put _ _ r1 r2 hsame
      · rw [mapGet_mapSet_ne _ _ _ _ hid]
        cases hp : mapGet stores.ethTxStore sub.transaction.id with
        | none =>
          rw [hp, mergeSubmission_none] at hm1
          injection hm1 with hrec _
          exfalso
          apply hid
          rw [← hrec]
          split <;> rfl
        | some p =>
          obtain ⟨r2, hb, hsame⟩ := hprior p hp
          rw [hb]
          simp only [answerOfMerge, putSubmission, htype]
          refine ⟨⟨resp1, rfl⟩, ?_, Or.inl rfl⟩
          rw [sameUpToPairOrder_id r1 r2 hsame]
          exact storeSameUpToPairOrder_put _ _ r1 r2 hsame
    | koinos =>
      rw [htype] at hrepeat hprior hm1
      simp only [transferStore, submissionKey, htype] at hprior hm1 ⊢
      simp only [putSubmission, htype, submissionKey]
      rw [mapGet_mapSet_self]
      rcases hrepeat with ⟨body', hb⟩ | ⟨r2, resp2, hb, hsame⟩
      · rw [hb]
        exact ⟨⟨body', rfl⟩, Or.inl rfl, Or.inl rfl⟩
      · rw [hb]
        simp only [answerOfMerge, putSubmission, htype, submissionKey]
        exact ⟨⟨resp2, rfl⟩, Or.inl rfl, storeSameUpToPairOrder_put _ _ r1 r2 hsame⟩

/-- C14 (amended).  A submission is handed to `SubmitSignature` twice, at times at
which its envelope is not expired, whatever the order in which the two requests
range over their signature maps.  When the store held a record of the transfer
before the first request, or the submission lists no validator twice, each store
after the second request is the store after the first request, or that store with
the record of the transfer replaced by a record with the same fields, the same
status and the same (validator, signature) pairs in a possibly different order;
and when the first request is answered 200, so is the second. -/
theorem submitSignature_twice_same_pairs (L : Lib) (api : Api) (ord1 ord2 : MapOrder)
    (now1 now2 : Int) (stores : Stores) (sub : SubmittedSignature)
    (hnow1 : ¬ now1 > sub.expiration) (hnow2 : ¬ now2 > sub.expiration)
    (hnodup : mapGet (transferStore stores sub.transaction.type)
        (submissionKey sub.transaction) = none → sub.transaction.validators.Nodup) :
    storeSameUpToPairOrder (SubmitSignature L ord1 api now1 stores sub).2.ethTxStore
      (SubmitSignature L ord2 api now2
        (SubmitSignature L ord1 api now1 stores sub).2 sub).2.ethTxStore ∧
    storeSameUpToPairOrder (SubmitSignature L ord1 api now1 stores sub).2.koinosTxStore
      (SubmitSignature L ord2 api now2
        (SubmitSignature L ord1 api now1 stores sub).2 sub).2.koinosTxStore ∧
    ((∃ body, (SubmitSignature L ord1 api now1 stores sub).1 = HttpResult.response 200 body) →
      ∃ body, (SubmitSignature L ord2 api now2
        (SubmitSignature L ord1 api now1 stores sub).2 sub).1 = HttpResult.response 200 body) := by
  by_cases hacc : ∃ body, (SubmitSignature L ord1 api now1 stores sub).1
      = HttpResult.response 200 body
  · obtain ⟨body, hbody⟩ := hacc
    obtain ⟨h1, h2, h3⟩ := submitSignature_accepted_twice L api ord1 ord2 now1 now2 stores sub
      body hbody hnow2 hnodup
    exact ⟨h2, h3, fun _ => h1⟩
  · have hsame : (SubmitSignature L ord1 api now1 stores sub).2 = stores := by
      rcases submitSignature_writes_only_on_200 L ord1 api now1 stores sub with h | h
      · exact h
      · exact absurd h hacc
    rw [hsame]
    have hsecond : (SubmitSignature L ord2 api now2 stores sub).2 = stores := by
      rcases submitSignature_writes_only_on_200 L ord2 api now2 stores sub with h | ⟨body, h⟩
      · exact h
      · exfalso
        apply hacc
        obtain ⟨hpass2, _⟩ := submissionChecksPass_of_200 L ord2 api now2 stores sub body h
        have hpass1 := submissionChecksPass_later L api now2 now1 sub hpass2 hnow1
        rw [submitSignature_of_checks L ord2 api now2 stores sub hpass2] at h
        rw [submitSignature_of_checks L ord1 api now1 stores sub hpass1]
        cases hm1 : mergeSubmission ord1 api.validators.length
            (localAddressOf api sub.transaction.type) sub.transaction.hash
            (mapGet (transferStore stores sub.transaction.type) (submissionKey sub.transaction))
            sub.transaction with
        | reply r =>
          rw [mergeSubmission_reply_order ord1 ord2 _ _ _ _ _ r hm1] at h
          exact ⟨body, h⟩
        | store r1 resp1 => exact ⟨resp1, rfl⟩
    rw [hsecond]
    exact ⟨Or.inl rfl, Or.inl rfl, fun h => absurd h hacc⟩

/-- Witness of C14: validator `A` holds its own record of the sample Ethereum
transfer and receives the submission of `B` twice, the first request ranging over
its map in insertion order and the second in reverse order. -/
theorem submitSignature_twice_same_pairs_witness :
    storeSameUpToPairOrder
      (SubmitSignature sampleLib insertionOrder sampleApi 0
        { ethTxStore := [("0x1", sampleEthereumTransfer ["A"] ["AN"])], koinosTxStore := [] }
        (signEnvelope sampleLib [66] (sampleEthereumTransfer ["B"] ["BN"]) 60000)).2.ethTxStore
      (SubmitSignature sampleLib reverseOrder sampleApi 0
        (SubmitSignature sampleLib insertionOrder sampleApi 0
          { ethTxStore := [("0x1", sampleEthereumTransfer ["A"] ["AN"])], koinosTxStore := [] }
          (signEnvelope sampleLib [66] (sampleEthereumTransfer ["B"] ["BN"]) 60000)).2
        (signEnvelope sampleLib [66] (sampleEthereumTransfer ["B"] ["BN"]) 60000)).2.ethTxStore :=
  (submitSignature_twice_same_pairs sampleLib sampleApi insertionOrder reverseOrder 0 0
    { ethTxStore := [("0x1", sampleEthereumTransfer ["A"] ["AN"])], koinosTxStore := [] }
    (signEnvelope sampleLib [66] (sampleEthereumTransfer ["B"] ["BN"]) 60000)
    (by decide) (by decide) (fun _ => by decide)).1

/-- Counterexample to C14 as stated.  Validator `A` holds its own record of the
sample Ethereum transfer and receives the submission of `B` twice.  The first
request ranges over its signature map in insertion order and stores the
validators `A`, `B`; the second ranges over its map in reverse order and stores
`B`, `A`: the arrays of the stored record are not the ones stored after one
application. -/
theorem submitSignature_twice_reorders_arrays :
    (mapGet (SubmitSignature sampleLib insertionOrder sampleApi 0
        { ethTxStore := [("0x1", sampleEthereumTransfer ["A"] ["AN"])], koinosTxStore := [] }
        (signEnvelope sampleLib [66] (sampleEthereumTransfer ["B"] ["BN"]) 60000)).2.ethTxStore
      "0x1").map (fun (r : Transaction) => (r.validators, r.signatures))
      = some (["A", "B"], ["AN", "BN"]) ∧
    (mapGet (SubmitSignature sampleLib reverseOrder sampleApi 0
        (SubmitSignature sampleLib insertionOrder sampleApi 0
          { ethTxStore := [("0x1", sampleEthereumTransfer ["A"] ["AN"])], koinosTxStore := [] }
          (signEnvelope sampleLib [66] (sampleEthereumTransfer ["B"] ["BN"]) 60000)).2
        (signEnvelope sampleLib [66] (sampleEthereumTransfer ["B"] ["BN"]) 60000)).2.ethTxStore
      "0x1").map (fun (r : Transaction) => (r.validators, r.signatures))
      = some (["B", "A"], ["BN", "AN"]) := by
  refine ⟨by decide, by decide⟩

theorem length_le_of_lookup (m1 m2 : GoMap String) (h1 : (m1.map Prod.fst).Nodup)
    (h : ∀ x, mapHas m1 x = true → mapHas m2 x = true) : m1.length ≤ m2.length := by
  have hsub : m1.map Prod.fst ⊆ m2.map Prod.fst := by
    intro x hx
    rw [← mapHas_iff_mem_keys] at hx ⊢
    exact h x hx
  have hle := (List.subperm_of_subset h1 hsub).length_le
  simpa using hle

theorem rebuilt_base (ord : MapOrder) (n : Nat) (q : Transaction) (m : GoMap String)
    (v s : List String) (st : TransactionStatus) :
    ({ raiseWhenSigned n (withSignatureMap ord q m) with
        validators := v, signatures := s, status := st } : Transaction)
      = { q with validators := v, signatures := s, status := st } := by
  unfold raiseWhenSigned
  split <;> rfl

theorem rebuilt_length (ord : MapOrder) (n : Nat) (q : Transaction) (m : GoMap String) :
    (raiseWhenSigned n (withSignatureMap ord q m)).signatures.length = m.length := by
  rw [(raiseWhenSigned_arrays n (withSignatureMap ord q m)).2.1]
  simp only [withSignatureMap, List.length_map]
  exact (ord.perm m).length_eq

theorem or_or_comm (p a b : Option String)
    (h : ∀ s1 s2, a = some s1 → b = some s2 → p.isSome = true ∨ s1 = s2) :
    (p.or a).or b = (p.or b).or a := by
  cases p with
  | some x => rfl
  | none =>
    cases a with
    | none => cases b <;> rfl
    | some s1 =>
      cases b with
      | none => rfl
      | some s2 =>
        rcases h s1 s2 rfl rfl with h' | h'
        · cases h'
        · subst h'; rfl

/-- Two transfers merged one after the other into a record give, in either order,
records that differ at most in the order of their pairs, when the transfers carry
the same signature for every validator both list and the record does not. -/
theorem mergeSubmission_commute (o1 o2 o3 o4 : MapOrder) (n : Nat) (loc : String)
    (p tx1 tx2 r1 r2 : Transaction) (resp1 resp2 : String)
    (hlen1 : tx1.validators.length = tx1.signatures.length)
    (hlen2 : tx2.validators.length = tx2.signatures.length)
    (hagree : ∀ x s1 s2, firstSignatureOf tx1.validators tx1.signatures x = some s1 →
      firstSignatureOf tx2.validators tx2.signatures x = some s2 →
      (lastSignatureOf p.validators p.signatures x).isSome = true ∨ s1 = s2)
    (h1 : mergeSubmission o1 n loc tx1.hash (some p) tx1 = MergeResult.store r1 resp1)
    (h2 : mergeSubmission o2 n loc tx2.hash (some p) tx2 = MergeResult.store r2 resp2) :
    ∃ r12 r21 resp12 resp21,
      mergeSubmission o3 n loc tx2.hash (some r1) tx2 = MergeResult.store r12 resp12 ∧
      mergeSubmission o4 n loc tx1.hash (some r2) tx1 = MergeResult.store r21 resp21 ∧
      sameUpToPairOrder r12 r21 := by
  obtain ⟨sigs1, m1, hst, hh1, hload1, hadd1, hr1⟩ :=
    mergeSubmission_store_inv o1 n loc tx1.hash p tx1 r1 resp1 h1
  obtain ⟨sigs2, m2, _, hh2, hload2, hadd2, hr2⟩ :=
    mergeSubmission_store_inv o2 n loc tx2.hash p tx2 r2 resp2 h2
  obtain ⟨hm1, hget1⟩ := merged_view loc p tx1 sigs1 m1 resp1 hlen1 hload1 hadd1
  obtain ⟨hm2, hget2⟩ := merged_view loc p tx2 sigs2 m2 resp2 hlen2 hload2 hadd2
  -- the two records after one merge
  have hfirst : ∀ (o : MapOrder) (m : GoMap String) (r : Transaction),
      (m.map Prod.fst).Nodup → r = raiseWhenSigned n (withSignatureMap o p m) →
      r.status ≠ TransactionStatus.completed ∧ r.hash = p.hash ∧ r.validators.Nodup ∧
      r.validators.length = r.signatures.length ∧
      (∀ x, firstSignatureOf r.validators r.signatures x = mapGet m x) ∧
      r.signatures.length = m.length ∧
      r.status = (if m.length ≥ thresholdA n then TransactionStatus.signed else p.status) := by
    intro o m r hm hr
    obtain ⟨hv1, hv2, hv3⟩ := rebuilt_view o n p m hm
    obtain ⟨_, _, a3, _, a5, _⟩ := raiseWhenSigned_arrays n (withSignatureMap o p m)
    have hl := rebuilt_length o n p m
    rw [← hr] at hv1 hv2 hv3 a3 a5 hl
    have hstatus : r.status =
        (if m.length ≥ thresholdA n then TransactionStatus.signed else p.status) := by
      rw [a5]
      have : (withSignatureMap o p m).signatures.length = m.length := by
        simp only [withSignatureMap, List.length_map]
        exact (o.perm m).length_eq
      rw [this]
      rfl
    refine ⟨?_, a3, hv1, hv2, hv3, hl, hstatus⟩
    rw [hstatus]
    split
    · simp
    · exact hst
  obtain ⟨f1, f2, f3, f4, f5, f6, f7⟩ := hfirst o1 m1 r1 hm1 hr1
  obtain ⟨g1, g2, g3, g4, g5, g6, g7⟩ := hfirst o2 m2 r2 hm2 hr2
  -- the second merges
  obtain ⟨⟨sigs12, resp12⟩, hload12⟩ := loadSignatures_some loc r1.signatures r1.validators 0
    [] "" (by omega)
  obtain ⟨m12, hadd12⟩ := addMissingSignatures_some tx2.signatures tx2.validators 0 sigs12
    (by omega)
  obtain ⟨⟨sigs21, resp21⟩, hload21⟩ := loadSignatures_some loc r2.signatures r2.validators 0
    [] "" (by omega)
  obtain ⟨m21, hadd21⟩ := addMissingSignatures_some tx1.signatures tx1.validators 0 sigs21
    (by omega)
  obtain ⟨hm12, hget12⟩ := merged_view loc r1 tx2 sigs12 m12 resp12 hlen2 hload12 hadd12
  obtain ⟨hm21, hget21⟩ := merged_view loc r2 tx1 sigs21 m21 resp21 hlen1 hload21 hadd21
  have hl12 : ∀ x, mapGet m12 x =
      ((lastSignatureOf p.validators p.signatures x).or
        (firstSignatureOf tx1.validators tx1.signatures x)).or
        (firstSignatureOf tx2.validators tx2.signatures x) := by
    intro x
    rw [hget12 x, lastSignatureOf_eq_first x _ _ f3, f5 x, hget1 x]
  have hl21 : ∀ x, mapGet m21 x =
      ((lastSignatureOf p.validators p.signatures x).or
        (firstSignatureOf tx2.validators tx2.signatures x)).or
        (firstSignatureOf tx1.validators tx1.signatures x) := by
    intro x
    rw [hget21 x, lastSignatureOf_eq_first x _ _ g3, g5 x, hget2 x]
  have hsame : ∀ x, mapGet m21 x = mapGet m12 x := by
    intro x
    rw [hl12 x, hl21 x]
    exact (or_or_comm _ _ _ (hagree x)).symm
  have hlen_eq : m21.length = m12.length :=
    (perm_of_mapGet_eq m21 m12 hm21 hm12 hsame).length_eq
  have hmono1 : m1.length ≤ m12.length := by
    apply length_le_of_lookup m1 m12 hm1
    intro x hx
    unfold mapHas at hx ⊢
    rw [hget12 x, lastSignatureOf_eq_first x _ _ f3, f5 x]
    cases hv : mapGet m1 x with
    | none => rw [hv] at hx; cases hx
    | some s => rfl
  have hmono2 : m2.length ≤ m21.length := by
    apply length_le_of_lookup m2 m21 hm2
    intro x hx
    unfold mapHas at hx ⊢
    rw [hget21 x, lastSignatureOf_eq_first x _ _ g3, g5 x]
    cases hv : mapGet m2 x with
    | none => rw [hv] at hx; cases hx
    | some s => rfl
  refine ⟨raiseWhenSigned n (withSignatureMap o3 r1 m12),
    raiseWhenSigned n (withSignatureMap o4 r2 m21), resp12, resp21,
    mergeSubmission_prior_eq o3 n loc tx2.hash r1 tx2 sigs12 m12 resp12 f1
      (by rw [f2, ← hh2]) hload12 hadd12,
    mergeSubmission_prior_eq o4 n loc tx1.hash r2 tx1 sigs21 m21 resp21 g1
      (by rw [g2, ← hh1]) hload21 hadd21, ?_⟩
  obtain ⟨hv1, hv2, hv3⟩ := rebuilt_view o3 n r1 m12 hm12
  have hl := rebuilt_length o3 n r1 m12
  obtain ⟨_, _, _, _, a5, _⟩ := raiseWhenSigned_arrays n (withSignatureMap o3 r1 m12)
  apply sameUpToPairOrder_rebuilt o4 n _ r2 m21 _ hv1 hv2 hm21
    (fun x => (hsame x).trans (hv3 x).symm)
  · -- status
    rw [hl, a5]
    have : (withSignatureMap o3 r1 m12).signatures.length = m12.length := by
      simp only [withSignatureMap, List.length_map]
      exact (o3.perm m12).length_eq
    rw [this]
    by_cases hthr : m12.length ≥ thresholdA n
    · simp only [hthr, if_true]
    · simp only [hthr, if_false]
      have e1 : (withSignatureMap o3 r1 m12).status = r1.status := rfl
      rw [e1, f7, g7]
      have t1 : ¬ m1.length ≥ thresholdA n := by omega
      have t2 : ¬ m2.length ≥ thresholdA n := by omega
      simp only [t1, t2, if_false]
  · -- frame
    have b12 := rebuilt_base o3 n r1 m12
      (raiseWhenSigned n (withSignatureMap o3 r1 m12)).validators
      (raiseWhenSigned n (withSignatureMap o3 r1 m12)).signatures
      (raiseWhenSigned n (withSignatureMap o3 r1 m12)).status
    have b1 := rebuilt_base o1 n p m1
      (raiseWhenSigned n (withSignatureMap o3 r1 m12)).validators
      (raiseWhenSigned n (withSignatureMap o3 r1 m12)).signatures
      (raiseWhenSigned n (withSignatureMap o3 r1 m12)).status
    have b2 := rebuilt_base o2 n p m2
      (raiseWhenSigned n (withSignatureMap o3 r1 m12)).validators
      (raiseWhenSigned n (withSignatureMap o3 r1 m12)).signatures
      (raiseWhenSigned n (withSignatureMap o3 r1 m12)).status
    rw [← hr1] at b1
    rw [← hr2] at b2
    rw [b2, ← b1, ← b12]

theorem mergeSubmission_store_id (ord : MapOrder) (n : Nat) (loc hashStr : String)
    (p tx r : Transaction) (resp : String)
    (h : mergeSubmission ord n loc hashStr (some p) tx = MergeResult.store r resp) :
    r.id = p.id := by
  obtain ⟨_, m, _, _, _, _, hr⟩ := mergeSubmission_store_inv ord n loc hashStr p tx r resp h
  rw [hr, (raiseWhenSigned_arrays n (withSignatureMap ord p m)).2.2.2.1]
  rfl

theorem mergeSubmission_reply_200 (ord : MapOrder) (n : Nat) (loc hashStr : String)
    (p tx : Transaction) (body : String)
    (h : mergeSubmission ord n loc hashStr (some p) tx
      = MergeResult.reply (HttpResult.response 200 body)) :
    p.status = TransactionStatus.completed := by
  by_contra hst
  unfold mergeSubmission at h
  simp only [if_neg hst] at h
  split at h
  · injection h with h
    injection h with h _
    cases h
  · split at h
    · cases h
    · split at h
      · cases h
      · split at h <;> cases h

/-- C15 (amended).  The store holds the record `r0` of a transfer under the key of
two submissions, an Ethereum record under its own id, and `SubmitSignature`
answers each of the two with 200 on that store.  When the two submissions carry
the same signature for every validator that both list and `r0` does not, applying
them one after the other is answered 200 in either order, and each store after
the order 2, 1 is the store after the order 1, 2, or that store with the record of
the transfer replaced by a record with the same fields, the same status and the
same (validator, signature) pairs in a possibly different order. -/
theorem submitSignature_commute (L : Lib) (api : Api) (now : Int) (o1 o2 o3 o4 : MapOrder)
    (stores : Stores) (sub1 sub2 : SubmittedSignature) (r0 : Transaction)
    (body1 body2 : String)
    (htype : sub2.transaction.type = sub1.transaction.type)
    (hkey : submissionKey sub2.transaction = submissionKey sub1.transaction)
    (hprior : mapGet (transferStore stores sub1.transaction.type)
      (submissionKey sub1.transaction) = some r0)
    (hid : sub1.transaction.type = TransactionType.ethereum → r0.id = sub1.transaction.id)
    (h1 : (SubmitSignature L o1 api now stores sub1).1 = HttpResult.response 200 body1)
    (h2 : (SubmitSignature L o2 api now stores sub2).1 = HttpResult.response 200 body2)
    (hagree : ∀ x s1 s2,
      firstSignatureOf sub1.transaction.validators sub1.transaction.signatures x = some s1 →
      firstSignatureOf sub2.transaction.validators sub2.transaction.signatures x = some s2 →
      (lastSignatureOf r0.validators r0.signatures x).isSome = true ∨ s1 = s2) :
    (∃ body, (SubmitSignature L o3 api now (SubmitSignature L o1 api now stores sub1).2 sub2).1
      = HttpResult.response 200 body) ∧
    (∃ body, (SubmitSignature L o4 api now (SubmitSignature L o2 api now stores sub2).2 sub1).1
      = HttpResult.response 200 body) ∧
    storeSameUpToPairOrder
      (SubmitSignature L o3 api now (SubmitSignature L o1 api now stores sub1).2 sub2).2.ethTxStore
      (SubmitSignature L o4 api now (SubmitSignature L o2 api now stores sub2).2 sub1).2.ethTxStore ∧
    storeSameUpToPairOrder
      (SubmitSignature L o3 api now
        (SubmitSignature L o1 api now stores sub1).2 sub2).2.koinosTxStore
      (SubmitSignature L o4 api now
        (SubmitSignature L o2 api now stores sub2).2 sub1).2.koinosTxStore := by
  obtain ⟨hpass1, hlen1⟩ := submissionChecksPass_of_200 L o1 api now stores sub1 body1 h1
  obtain ⟨hpass2, hlen2⟩ := submissionChecksPass_of_200 L o2 api now stores sub2 body2 h2
  rw [submitSignature_of_checks L o1 api now stores sub1 hpass1] at h1 ⊢
  rw [submitSignature_of_checks L o2 api now stores sub2 hpass2] at h2 ⊢
  rw [submitSignature_of_checks L o3 api now _ sub2 hpass2,
    submitSignature_of_checks L o4 api now _ sub1 hpass1]
  rw [htype, hkey] at h2 ⊢
  rw [hprior] at h1 h2 ⊢
  cases hm1 : mergeSubmission o1 api.validators.length
      (localAddressOf api sub1.transaction.type) sub1.transaction.hash (some r0)
      sub1.transaction with
  | reply ra =>
    rw [hm1] at h1
    simp only [answerOfMerge] at h1
    subst h1
    have hst := mergeSubmission_reply_200 o1 _ _ _ r0 _ body1 hm1
    obtain ⟨rb, hm2⟩ := mergeSubmission_completed o2 api.validators.length
      (localAddressOf api sub1.transaction.type) sub2.transaction.hash r0 sub2.transaction hst
    rw [hm2] at h2 ⊢
    simp only [answerOfMerge] at h2 ⊢
    subst h2
    rw [hprior, mergeSubmission_reply_order o1 o4 _ _ _ _ _ _ hm1,
      mergeSubmission_reply_order o2 o3 _ _ _ _ _ _ hm2]
    exact ⟨⟨body2, rfl⟩, ⟨body1, rfl⟩, Or.inl rfl, Or.inl rfl⟩
  | store r1 resp1 =>
    cases hm2 : mergeSubmission o2 api.validators.length
        (localAddressOf api sub1.transaction.type) sub2.transaction.hash (some r0)
        sub2.transaction with
    | reply rb =>
      rw [hm2] at h2
      simp only [answerOfMerge] at h2
      subst h2
      have hst := mergeSubmission_reply_200 o2 _ _ _ r0 _ body2 hm2
      obtain ⟨rc, hc⟩ := mergeSubmission_completed o1 api.validators.length
        (localAddressOf api sub1.transaction.type) sub1.transaction.hash r0 sub1.transaction hst
      rw [hc] at hm1
      cases hm1
    | store r2 resp2 =>
      obtain ⟨r12, r21, resp12, resp21, hm12, hm21, hsame⟩ :=
        mergeSubmission_commute o1 o2 o3 o4 api.validators.length
          (localAddressOf api sub1.transaction.type) r0 sub1.transaction sub2.transaction
          r1 r2 resp1 resp2 hlen1 hlen2 hagree hm1 hm2
      have i1 := mergeSubmission_store_id _ _ _ _ _ _ _ _ hm1
      have i2 := mergeSubmission_store_id _ _ _ _ _ _ _ _ hm2
      have i12 := mergeSubmission_store_id _ _ _ _ _ _ _ _ hm12
      have i21 := mergeSubmission_store_id _ _ _ _ _ _ _ _ hm21
      have hid12 : r12.id = r0.id := i12.trans i1
      have hid21 : r21.id = r0.id := i21.trans i2
      cases ht : sub1.transaction.type with
      | ethereum =>
        have hid' := hid ht
        have ht2 : sub2.transaction.type = TransactionType.ethereum := htype.trans ht
        rw [ht] at hm12 hm21
        simp only [answerOfMerge, putSubmission, ht, ht2, transferStore, submissionKey,
          i1, i2, hid', mapGet_mapSet_self, hm12, hm21, hid12, hid21, mapSet_mapSet]
        exact ⟨⟨resp12, rfl⟩, ⟨resp21, rfl⟩,
          Or.inr ⟨_, r12, r21, mapGet_mapSet_self _ _ _, (mapSet_mapSet _ _ _ _).symm, hsame⟩,
          Or.inl rfl⟩
      | koinos =>
        have ht2 : sub2.transaction.type = TransactionType.koinos := htype.trans ht
        rw [ht] at hm12 hm21
        simp only [answerOfMerge, putSubmission, ht, ht2, transferStore, hkey,
          mapGet_mapSet_self, hm12, hm21, mapSet_mapSet]
        exact ⟨⟨resp12, rfl⟩, ⟨resp21, rfl⟩, Or.inl rfl,
          Or.inr ⟨_, r12, r21, mapGet_mapSet_self _ _ _, (mapSet_mapSet _ _ _ _).symm, hsame⟩⟩

/-- Witness of C15: validator `A` holds its own record of the sample Ethereum
transfer and receives the submissions of `B` and of `C`. -/
theorem submitSignature_commute_witness :
    storeSameUpToPairOrder
      (SubmitSignature sampleLib insertionOrder sampleApi 0
        (SubmitSignature sampleLib insertionOrder sampleApi 0
          { ethTxStore := [("0x1", sampleEthereumTransfer ["A"] ["AN"])], koinosTxStore := [] }
          (signEnvelope sampleLib [66] (sampleEthereumTransfer ["B"] ["BN"]) 60000)).2
        (signEnvelope sampleLib [67] (sampleEthereumTransfer ["C"] ["CN"]) 60000)).2.ethTxStore
      (SubmitSignature sampleLib reverseOrder sampleApi 0
        (SubmitSignature sampleLib reverseOrder sampleApi 0
          { ethTxStore := [("0x1", sampleEthereumTransfer ["A"] ["AN"])], koinosTxStore := [] }
          (signEnvelope sampleLib [67] (sampleEthereumTransfer ["C"] ["CN"]) 60000)).2
        (signEnvelope sampleLib [66] (sampleEthereumTransfer ["B"] ["BN"]) 60000)).2.ethTxStore :=
  (submitSignature_commute sampleLib sampleApi 0 insertionOrder reverseOrder insertionOrder
    reverseOrder
    { ethTxStore := [("0x1", sampleEthereumTransfer ["A"] ["AN"])], koinosTxStore := [] }
    (signEnvelope sampleLib [66] (sampleEthereumTransfer ["B"] ["BN"]) 60000)
    (signEnvelope sampleLib [67] (sampleEthereumTransfer ["C"] ["CN"]) 60000)
    (sampleEthereumTransfer ["A"] ["AN"]) "AN" "AN"
    (by decide) (by decide) (by decide) (fun _ => by decide) (by decide) (by decide)
    (by
      intro x s1 s2 hb hc
      simp only [signEnvelope, sampleEthereumTransfer, firstSignatureOf] at hb hc
      split at hb
      · rename_i hx
        subst hx
        simp at hc
      · cases hb)).2.2.1

/-- Counterexample to C15 as stated.  Validator `A` holds the record of the sample
Koinos transfer that its `TokensLocked` processing stored.  Two signature strings
recover to validator `0xc` under the digest of the transfer.  The submission of
`B` lists `0xb` and `0xc` with one of them, the submission of `C` lists `0xc` with
the other, and each is answered 200 on that store.  Applied in the order `B`, `C`
the stored signature of `0xc` is the one `B` sent; in the order `C`, `B` it is the
one `C` sent. -/
theorem submitSignature_order_decides_signature :
    RecoverEthereumAddressFromSignature sampleLib (sampleEthereumSignature [99] [55]) [55]
      = GoResult.ok "0xc" ∧
    RecoverEthereumAddressFromSignature sampleLib (sampleEthereumSignatureAlt [99] [55]) [55]
      = GoResult.ok "0xc" ∧
    sampleEthereumSignatureAlt [99] [55] ≠ sampleEthereumSignature [99] [55] ∧
    (SubmitSignature sampleLib insertionOrder sampleApi 0 sampleLockedStores
        (signEnvelope sampleLib [66] (sampleKoinosTransfer ["0xb", "0xc"]
          [sampleEthereumSignature [98] [55], sampleEthereumSignatureAlt [99] [55]]) 60000)).1
      = HttpResult.response 200 (sampleEthereumSignature [97] [55]) ∧
    (SubmitSignature sampleLib insertionOrder sampleApi 0 sampleLockedStores
        (signEnvelope sampleLib [67] (sampleKoinosTransfer ["0xc"]
          [sampleEthereumSignature [99] [55]]) 60000)).1
      = HttpResult.response 200 (sampleEthereumSignature [97] [55]) ∧
    (mapGet (SubmitSignature sampleLib insertionOrder sampleApi 0
        (SubmitSignature sampleLib insertionOrder sampleApi 0 sampleLockedStores
          (signEnvelope sampleLib [66] (sampleKoinosTransfer ["0xb", "0xc"]
            [sampleEthereumSignature [98] [55], sampleEthereumSignatureAlt [99] [55]])
            60000)).2
        (signEnvelope sampleLib [67] (sampleKoinosTransfer ["0xc"]
          [sampleEthereumSignature [99] [55]]) 60000)).2.koinosTxStore "0x1-1").map
        (fun (r : Transaction) => firstSignatureOf r.validators r.signatures "0xc")
      = some (some (sampleEthereumSignatureAlt [99] [55])) ∧
    (mapGet (SubmitSignature sampleLib insertionOrder sampleApi 0
        (SubmitSignature sampleLib insertionOrder sampleApi 0 sampleLockedStores
          (signEnvelope sampleLib [67] (sampleKoinosTransfer ["0xc"]
            [sampleEthereumSignature [99] [55]]) 60000)).2
        (signEnvelope sampleLib [66] (sampleKoinosTransfer ["0xb", "0xc"]
          [sampleEthereumSignature [98] [55], sampleEthereumSignatureAlt [99] [55]])
          60000)).2.koinosTxStore "0x1-1").map
        (fun (r : Transaction) => firstSignatureOf r.validators r.signatures "0xc")
      = some (some (sampleEthereumSignature [99] [55])) := by
  refine ⟨by decide, by decide, by decide, by decide, by decide, by decide, by decide⟩

/-- C21 (code defect).  `big.NewInt(int64(x)).Bytes()` gives the bytes of 1 for
the amount 2^64 - 1, so for every library and every other argument the packed
preimage for the amount 2^64 - 1 is the preimage for the amount 1, and the
function returns the same digests for the amount strings `18446744073709551615`
and `1`; a chain id of 2^32 contributes five bytes.  `SubmitSignature` accepts the
sample Koinos transfer, whose amount is 5, with the amount replaced by 2^64 - 5
under the same hash and signature. -/
theorem generateHash_amount_sign_flip :
    bigInt64Bytes (2 ^ 64 - 1) = [1] ∧
    (∀ (L : Lib) (txIdBytes : Bytes) (operationId : Nat) (ethToken recipient relayer : Bytes)
        (payment : Nat) (ethContractAddress : Bytes) (metadataStr : String)
        (expiration chainId : Nat),
      ethereumPreimage L txIdBytes operationId ethToken recipient relayer payment (2 ^ 64 - 1)
          ethContractAddress metadataStr expiration chainId
        = ethereumPreimage L txIdBytes operationId ethToken recipient relayer payment 1
          ethContractAddress metadataStr expiration chainId) ∧
    GenerateEthereumCompleteTransferHash sampleLib [49] 1 [116] [112] [114] "1"
        "18446744073709551615" [69] "" 1100 1
      = GenerateEthereumCompleteTransferHash sampleLib [49] 1 [116] [112] [114] "1" "1" [69] ""
        1100 1 ∧
    leftPadBytes (bigInt64Bytes (2 ^ 32)) 4 = [1, 0, 0, 0, 0] ∧
    (SubmitSignature sampleLib insertionOrder sampleApi 0 emptyStores
        (signEnvelope sampleLib [66]
          { sampleKoinosTransfer ["0xb"] [sampleEthereumSignature [98] [55]] with
            amount := "18446744073709551611" } 60000)).1
      = HttpResult.response 200 "" := by
  refine ⟨by decide, ?_, by decide, by decide, by decide⟩
  intro L txIdBytes operationId ethToken recipient relayer payment ethContractAddress
    metadataStr expiration chainId
  have h : bigInt64Bytes (2 ^ 64 - 1) = bigInt64Bytes 1 := by decide
  simp only [ethereumPreimage, h]

/-! ## The transactions store -/

theorem sampleBackend_get_put (s : List (Bytes × Bytes)) (k v : Bytes)
    (s' : List (Bytes × Bytes)) (h : sampleBackend.put s k v = some s') :
    sampleBackend.get s' k = some v := by
  simp only [sampleBackend, Option.some.injEq] at h
  subst h
  simp [sampleBackend, List.lookup]

theorem sampleCodec_roundtrip (m : SampleMessage) (b : Bytes)
    (h : sampleCodec.marshal m = some b) : sampleCodec.unmarshal b = some m := by
  obtain ⟨n⟩ := m
  simp only [sampleCodec] at h ⊢
  split at h
  · rename_i h0
    injection h with h
    subst h
    have h0' : n = 0 := h0
    rw [h0']
  · rename_i h0
    split at h
    · rename_i hlt
      injection h with h
      subst h
      have h0' : ¬ n = 0 := h0
      have hlt' : n < 128 := hlt
      have hval : (UInt8.ofNat n).toNat = n := by
        simp [UInt8.ofNat, UInt8.toNat]
        omega
      simp [hval, h0', hlt']
    · cases h

/-- C22 (amended).  `Get` returns `nil, nil` exactly when the backend returns no
bytes for the key without an error, `ErrBackend` exactly when the backend fails,
and `ErrDeserialization` exactly when the backend returns bytes that do not
decode.  With a backend that returns under a key the bytes last put under it and
a codec whose decoding undoes its encoding, `Get` after a successful
`Put(key, record)` returns that record when its encoding is not empty, and
`nil, nil` when its encoding is empty. -/
theorem transactionsStore_get_after_put {σ α : Type} (backend : Backend σ)
    (codec : MessageCodec α) :
    (∀ (state : σ) (key : String),
      (KoinosTransactionsStore.Get backend codec state key = StoreResult.ok none ↔
        backend.get state (stringBytes key) = some []) ∧
      (KoinosTransactionsStore.Get backend codec state key = StoreResult.errBackend ↔
        backend.get state (stringBytes key) = none) ∧
      (KoinosTransactionsStore.Get backend codec state key = StoreResult.errDeserialization ↔
        ∃ itemBytes, backend.get state (stringBytes key) = some itemBytes ∧ itemBytes ≠ [] ∧
          codec.unmarshal itemBytes = none)) ∧
    ((∀ s k v s', backend.put s k v = some s' → backend.get s' k = some v) →
      (∀ m b, codec.marshal m = some b → codec.unmarshal b = some m) →
      ∀ (state state' : σ) (key : String) (transaction : α),
        KoinosTransactionsStore.Put backend codec state key transaction
          = StoreResult.ok state' →
        ∃ itemBytes, codec.marshal transaction = some itemBytes ∧
          KoinosTransactionsStore.Get backend codec state' key =
            if itemBytes = [] then StoreResult.ok none
            else StoreResult.ok (some transaction)) := by
  constructor
  · intro state key
    unfold KoinosTransactionsStore.Get
    cases hget : backend.get state (stringBytes key) with
    | none => simp
    | some itemBytes =>
      cases itemBytes with
      | nil => simp
      | cons b rest =>
        cases hdec : codec.unmarshal (b :: rest) with
        | none => simp [hdec]
        | some item => simp [hdec]
  · intro hback hround state state' key transaction hput
    unfold KoinosTransactionsStore.Put at hput
    cases hm : codec.marshal transaction with
    | none => rw [hm] at hput; cases hput
    | some itemBytes =>
      rw [hm] at hput
      simp only at hput
      cases hp : backend.put state (stringBytes key) itemBytes with
      | none => rw [hp] at hput; cases hput
      | some s1 =>
        rw [hp] at hput
        injection hput with hput
        subst hput
        refine ⟨itemBytes, rfl, ?_⟩
        unfold KoinosTransactionsStore.Get
        rw [hback _ _ _ _ hp]
        cases itemBytes with
        | nil => simp
        | cons b rest => simp [hround _ _ hm]

/-- Witness of C22: the sample message with status 5 is put under `k` into the
empty sample backend and read back. -/
theorem transactionsStore_get_after_put_witness :
    ∃ itemBytes, sampleCodec.marshal { status := 5 } = some itemBytes ∧
      KoinosTransactionsStore.Get sampleBackend sampleCodec [(stringBytes "k", [8, 5])] "k" =
        if itemBytes = [] then StoreResult.ok none
        else StoreResult.ok (some { status := 5 }) :=
  (transactionsStore_get_after_put sampleBackend sampleCodec).2 sampleBackend_get_put
    sampleCodec_roundtrip [] [(stringBytes "k", [8, 5])] "k" { status := 5 } (by decide)

/-- Counterexample to C22 as stated.  The default sample message has an empty
encoding, as a protobuf message with every field at its default value has.  `Put`
of it under `k` succeeds and the `Get` that follows returns `nil, nil`, not the
message. -/
theorem transactionsStore_default_message_reads_absent :
    sampleCodec.marshal { status := 0 } = some [] ∧
    sampleCodec.unmarshal [] = some { status := 0 } ∧
    KoinosTransactionsStore.Put sampleBackend sampleCodec [] "k" { status := 0 }
      = StoreResult.ok [(stringBytes "k", [])] ∧
    KoinosTransactionsStore.Get sampleBackend sampleCodec [(stringBytes "k", [])] "k"
      = StoreResult.ok none := by
  refine ⟨by decide, by decide, by decide, by decide⟩

/-! ## The read endpoint for Koinos transfers -/

/-- C23 (amended).  On a `GET` request with a `TransactionId`: when `OpId` is
supplied and is not `1`, `GetKoinosTransaction` answers with the record stored
under `TransactionId-OpId` and with 404 when there is none; when `OpId` is not
supplied, or is supplied as `1`, it answers with the record under
`TransactionId-1`, else with the record under `TransactionId-3`, and with 404 when
both are absent. -/
theorem getKoinosTransaction_lookup (jsonMarshal : Transaction → Option String)
    (koinosTxStore : GoMap Transaction) (transactionId : String) (others : List String) :
    (∀ (opId : String) (more : List String), opId ≠ "1" →
      GetKoinosTransaction jsonMarshal koinosTxStore "GET" (transactionId :: others)
          (opId :: more)
        = answerRecord jsonMarshal (mapGet koinosTxStore (transactionId ++ "-" ++ opId))) ∧
    (∀ (opIdParams : List String), (opIdParams = [] ∨ opIdParams.head? = some "1") →
      GetKoinosTransaction jsonMarshal koinosTxStore "GET" (transactionId :: others) opIdParams
        = answerRecord jsonMarshal
            (match mapGet koinosTxStore (transactionId ++ "-" ++ "1") with
             | some transaction => some transaction
             | none => mapGet koinosTxStore (transactionId ++ "-" ++ "3"))) := by
  constructor
  · intro opId more hne
    simp only [GetKoinosTransaction, ne_eq, not_true_eq_false, if_false, if_neg hne, answerRecord]
    cases mapGet koinosTxStore (transactionId ++ "-" ++ opId) <;> rfl
  · intro opIdParams h
    have hcases : opIdParams = [] ∨ ∃ rest, opIdParams = "1" :: rest := by
      rcases h with h | h
      · exact Or.inl h
      · cases opIdParams with
        | nil => exact Or.inl rfl
        | cons a rest =>
          simp only [List.head?_cons, Option.some.injEq] at h
          subst h
          exact Or.inr ⟨rest, rfl⟩
    rcases hcases with h' | ⟨rest, h'⟩
    · subst h'
      simp only [GetKoinosTransaction, ne_eq, not_true_eq_false, if_false, if_true,
        answerRecord]
    · subst h'
      simp only [GetKoinosTransaction, ne_eq, not_true_eq_false, if_false, if_true,
        answerRecord]

/-- Witness of C23: the store holds the sample Koinos transfer under `0x1-1` and
the request asks for the operation id 2. -/
theorem getKoinosTransaction_lookup_witness :
    GetKoinosTransaction sampleJson [("0x1-1", sampleKoinosTransfer [] [])] "GET" ["0x1"] ["2"]
      = answerRecord sampleJson (mapGet [("0x1-1", sampleKoinosTransfer [] [])]
          ("0x1" ++ "-" ++ "2")) :=
  (getKoinosTransaction_lookup sampleJson [("0x1-1", sampleKoinosTransfer [] [])] "0x1" []).1
    "2" [] (by decide)

/-- Counterexample to C23 as stated.  The store holds a record under `0x1-3` only.
A request that supplies `OpId=1` is not answered 404: it is answered 200 with the
record stored under `0x1-3`. -/
theorem getKoinosTransaction_supplied_one_falls_back :
    mapGet [("0x1-3", { sampleKoinosTransfer [] [] with opId := "3" })] "0x1-1" = none ∧
    GetKoinosTransaction sampleJson
        [("0x1-3", { sampleKoinosTransfer [] [] with opId := "3" })] "GET" ["0x1"] ["1"]
      = HttpResult.response 200 "0x1/3" ∧
    GetKoinosTransaction sampleJson
        [("0x1-3", { sampleKoinosTransfer [] [] with opId := "3" })] "GET" ["0x1"] ["2"]
      = HttpResult.response 404 "transaction does not exist" := by
  refine ⟨by decide, by decide, by decide⟩

/-! ## The merge that follows a broadcast -/

/-- C25 (code defect).  Validator `A` processed the sample `TokensLocked` event and
holds a record that lists `A`.  Processing the event again commits, before the
broadcast, a record that lists `A` twice; the same happens on the Koinos side.  A
submission of `B` that lists `B` twice, received for a key without a record, is
answered 200 and stored with `B` listed twice. -/
theorem committed_record_lists_validator_twice :
    (mapGet (commitEthereumLocked sampleLib sampleConfig
        [("0x1", sampleEthereumTransfer ["A"] ["AN"])] sampleEthereumLog) "0x1").map
        (fun (r : Transaction) => (r.validators, r.signatures))
      = some (["A", "A"], ["AN", "AN"]) ∧
    (mapGet (commitKoinosLocked sampleLib sampleConfig sampleLockedStores.koinosTxStore
        sampleKoinosEvent) "0x1-1").map (fun (r : Transaction) => r.validators)
      = some ["0xa", "0xa"] ∧
    (SubmitSignature sampleLib insertionOrder sampleApi 0 emptyStores
        (signEnvelope sampleLib [66] (sampleEthereumTransfer ["B", "B"] ["BN", "BN"]) 60000)).1
      = HttpResult.response 200 "" ∧
    (mapGet (SubmitSignature sampleLib insertionOrder sampleApi 0 emptyStores
        (signEnvelope sampleLib [66] (sampleEthereumTransfer ["B", "B"] ["BN", "BN"])
          60000)).2.ethTxStore "0x1").map (fun (r : Transaction) => r.validators)
      = some ["B", "B"] := by
  refine ⟨by decide, by decide, by decide, by decide⟩

/-- C26 (code defect).  A submission of `B` for a key without a record, whose
transaction carries the status `completed` and a completion id, is answered 200
and stored with the status `completed` and that completion id; one that carries
the status `signed` with a single signature, below the threshold 3, is stored as
`signed`. -/
theorem submitSignature_stores_submitted_status :
    (SubmitSignature sampleLib insertionOrder sampleApi 0 emptyStores
        (signEnvelope sampleLib [66]
          { sampleEthereumTransfer ["B"] ["BN"] with
            status := TransactionStatus.completed, completionTransactionId := "0x9-1" }
          60000)).1
      = HttpResult.response 200 "" ∧
    (mapGet (SubmitSignature sampleLib insertionOrder sampleApi 0 emptyStores
        (signEnvelope sampleLib [66]
          { sampleEthereumTransfer ["B"] ["BN"] with
            status := TransactionStatus.completed, completionTransactionId := "0x9-1" }
          60000)).2.ethTxStore "0x1").map
        (fun (r : Transaction) => (r.validators, r.status, r.completionTransactionId))
      = some (["B"], TransactionStatus.completed, "0x9-1") ∧
    (mapGet (SubmitSignature sampleLib insertionOrder sampleApi 0 emptyStores
        (signEnvelope sampleLib [66]
          { sampleEthereumTransfer ["B"] ["BN"] with status := TransactionStatus.signed }
          60000)).2.ethTxStore "0x1").map
        (fun (r : Transaction) => (r.validators, r.status))
      = some (["B"], TransactionStatus.signed) ∧
    (mapGet (SubmitSignature sampleLib insertionOrder sampleApi 0 emptyStores
        (signEnvelope sampleLib [66]
          { sampleKoinosTransfer ["0xb"] [sampleEthereumSignature [98] [55]] with
            status := TransactionStatus.completed }
          60000)).2.koinosTxStore "0x1-1").map
        (fun (r : Transaction) => (r.validators, r.status))
      = some (["0xb"], TransactionStatus.completed) ∧
    thresholdA sampleApi.validators.length = 3 := by
  refine ⟨by decide, by decide, by decide, by decide, by decide⟩

/-! ## The polling loops of the streamers -/

theorem toInt64_of_lt (x : Nat) (h : x < 2 ^ 63) : toInt64 x = (x : Int) := by
  have h1 : x % 2 ^ 64 = x := Nat.mod_eq_of_lt (by omega)
  unfold toInt64
  rw [h1, if_pos h]

theorem ethereumToBlock_eq (h c fromBlock maxW : Nat) (hsum : fromBlock + maxW < 2 ^ 64) :
    ethereumToBlock h c fromBlock maxW
      = if fromBlock ≤ h - c then some (min (fromBlock + maxW) (h - c)) else none := by
  unfold ethereumToBlock
  simp only [addU64]
  by_cases hc : h < c
  · have h0 : h - c = 0 := by omega
    simp only [hc, if_true, h0, gt_iff_lt, Nat.not_lt_zero, if_false, Nat.zero_lt_succ,
      Nat.le_zero_eq, Nat.add_zero, not_lt_zero']
    by_cases hf : fromBlock = 0
    · subst hf
      simp
    · have h1 : fromBlock % 18446744073709551616 = fromBlock := Nat.mod_eq_of_lt (by omega)
      simp [h1, hf]
  · simp only [hc, if_false]
    by_cases hgt : h - c > fromBlock
    · simp only [hgt, if_true]
      by_cases hd : h - c - fromBlock > maxW
      · have h1 : (fromBlock + maxW) % 2 ^ 64 = fromBlock + maxW := Nat.mod_eq_of_lt hsum
        have hle : fromBlock + maxW ≤ h - c := by omega
        have hle2 : fromBlock ≤ h - c := by omega
        simp only [hd, if_true, h1, hle, hle2, min_eq_left]
      · have h2 : fromBlock + (h - c - fromBlock) = h - c := by omega
        have h1 : (h - c) % 2 ^ 64 = h - c := Nat.mod_eq_of_lt (by omega)
        have hle2 : fromBlock ≤ h - c := by omega
        have hmin : min (fromBlock + maxW) (h - c) = h - c := by
          apply min_eq_right
          omega
        simp only [hd, if_false, h2, h1, le_refl, if_true, hle2, hmin]
    · have h1 : fromBlock % 2 ^ 64 = fromBlock := Nat.mod_eq_of_lt (by omega)
      simp only [hgt, if_false, Nat.add_zero, Nat.not_lt_zero, h1]
      by_cases hle : fromBlock ≤ h - c
      · have heq : h - c = fromBlock := by omega
        have hmin : min (fromBlock + maxW) (h - c) = fromBlock := by
          rw [heq]
          apply min_eq_right
          omega
        simp only [hle, if_true, hmin]
      · simp only [hle, if_false]

/-- C27: in a poll of the Ethereum streamer with head `h`, confirmations `c`, start
block `st.fromBlock` and limit `maxW`, where `st.fromBlock + maxW` stays below 2^63
(so that neither the unsigned sum nor the conversion of the bounds to `int64`
wraps), logs are queried if and only if
`st.fromBlock ≤ h - c` (the truncated difference, which is `max(0, h - c)`): when
the inequality fails no query is built and the poll changes nothing whatever the
node would answer, and when it holds the query covers exactly
`[st.fromBlock, min (st.fromBlock + maxW) (h - c)]` and the poll continues with the
answer of the node to that query. -/
theorem ethereumPoll_query_window (L : Lib) (ord : MapOrder) (net : Network) (now : Int)
    (cfg : StreamerConfig) (h c maxW : Nat)
    (filterLogs : FilterQuery → Option (List EthereumLog)) (st : EthereumStream)
    (hsum : st.fromBlock + maxW < 2 ^ 63) :
    ((ethereumFilterQuery h c st.fromBlock maxW).isSome = true ↔ st.fromBlock ≤ h - c) ∧
    (¬ st.fromBlock ≤ h - c →
      ethereumFilterQuery h c st.fromBlock maxW = none ∧
      ethereumPoll L ord net now cfg c maxW (some h) filterLogs st = st) ∧
    (st.fromBlock ≤ h - c →
      ethereumFilterQuery h c st.fromBlock maxW
        = some { fromBlock := (st.fromBlock : Int),
                 toBlock := ((min (st.fromBlock + maxW) (h - c) : Nat) : Int) } ∧
      ethereumPoll L ord net now cfg c maxW (some h) filterLogs st
        = ethereumOnAnswer L ord net now cfg (min (st.fromBlock + maxW) (h - c))
            (filterLogs { fromBlock := (st.fromBlock : Int),
                          toBlock := ((min (st.fromBlock + maxW) (h - c) : Nat) : Int) })
            st) := by
  have hto := ethereumToBlock_eq h c st.fromBlock maxW (by omega)
  have hfrom : toInt64 st.fromBlock = (st.fromBlock : Int) := toInt64_of_lt _ (by omega)
  have hmin : toInt64 (min (st.fromBlock + maxW) (h - c))
      = ((min (st.fromBlock + maxW) (h - c) : Nat) : Int) :=
    toInt64_of_lt _ (lt_of_le_of_lt (min_le_left _ _) hsum)
  by_cases hle : st.fromBlock ≤ h - c
  · rw [if_pos hle] at hto
    have hq : ethereumFilterQuery h c st.fromBlock maxW
        = some { fromBlock := (st.fromBlock : Int),
                 toBlock := ((min (st.fromBlock + maxW) (h - c) : Nat) : Int) } := by
      unfold ethereumFilterQuery
      rw [hto, Option.map_some', hfrom, hmin]
    refine ⟨?_, fun hn => absurd hle hn, fun _ => ⟨hq, ?_⟩⟩
    · rw [hq]
      exact ⟨fun _ => hle, fun _ => rfl⟩
    · unfold ethereumPoll
      simp only [hto, hfrom, hmin]
  · rw [if_neg hle] at hto
    have hq : ethereumFilterQuery h c st.fromBlock maxW = none := by
      unfold ethereumFilterQuery
      rw [hto, Option.map_none']
    refine ⟨?_, fun _ => ⟨hq, ?_⟩, fun hp => absurd hp hle⟩
    · rw [hq]
      exact ⟨fun hf => (by cases hf), fun hp => absurd hp hle⟩
    · unfold ethereumPoll
      simp only [hto]

/-- Witness of C27: head 30, 5 confirmations, start block 11 and a limit of 10
blocks; the query covers the blocks 11 to 21. -/
theorem ethereumPoll_query_window_witness :
    ethereumFilterQuery 30 5 11 10 = some { fromBlock := 11, toBlock := 21 } ∧
    ethereumPoll sampleLib insertionOrder (fun _ _ => none) 0 sampleConfig 5 10 (some 30)
        (fun _ => none) (ethereumStreamStart 10 emptyStores)
      = ethereumOnAnswer sampleLib insertionOrder (fun _ _ => none) 0 sampleConfig 21
          none (ethereumStreamStart 10 emptyStores) :=
  (ethereumPoll_query_window sampleLib insertionOrder (fun _ _ => none) 0 sampleConfig
    30 5 10 (fun _ => none) (ethereumStreamStart 10 emptyStores) (by decide)).2.2
    (by decide)

theorem dispatchEthereumLog_cursor (L : Lib) (ord : MapOrder) (net : Network) (now : Int)
    (cfg : StreamerConfig) (vLog : EthereumLog) (st : EthereumStream) :
    (dispatchEthereumLog L ord net now cfg vLog st).fromBlock = st.fromBlock ∧
    (dispatchEthereumLog L ord net now cfg vLog st).lastEthereumBlockParsed
      = st.lastEthereumBlockParsed := by
  unfold dispatchEthereumLog
  cases vLog.event <;> exact ⟨rfl, rfl⟩

theorem processEthereumLogs_removed (L : Lib) (ord : MapOrder) (net : Network) (now : Int)
    (cfg : StreamerConfig) (vLog : EthereumLog) (rest : List EthereumLog) (st : EthereumStream)
    (hrem : vLog.removed = true) :
    processEthereumLogs L ord net now cfg (vLog :: rest) st
      = processEthereumLogs L ord net now cfg rest st := by
  simp only [processEthereumLogs, hrem, if_true]

theorem processEthereumLogs_panicked (L : Lib) (ord : MapOrder) (net : Network) (now : Int)
    (cfg : StreamerConfig) (vLog : EthereumLog) (rest : List EthereumLog) (st : EthereumStream)
    (hrem : vLog.removed = false)
    (hp : (dispatchEthereumLog L ord net now cfg vLog st).panicked = true) :
    processEthereumLogs L ord net now cfg (vLog :: rest) st
      = dispatchEthereumLog L ord net now cfg vLog st := by
  simp only [processEthereumLogs, hrem, hp, if_true, Bool.false_eq_true, if_false]

theorem processEthereumLogs_dispatched (L : Lib) (ord : MapOrder) (net : Network) (now : Int)
    (cfg : StreamerConfig) (vLog : EthereumLog) (rest : List EthereumLog) (st : EthereumStream)
    (hrem : vLog.removed = false)
    (hp : (dispatchEthereumLog L ord net now cfg vLog st).panicked = false) :
    processEthereumLogs L ord net now cfg (vLog :: rest) st
      = processEthereumLogs L ord net now cfg rest
          { dispatchEthereumLog L ord net now cfg vLog st with
            lastEthereumBlockParsed := vLog.blockNumber } := by
  simp only [processEthereumLogs, hrem, hp, Bool.false_eq_true, if_false]

theorem processEthereumLogs_cursor (L : Lib) (ord : MapOrder) (net : Network) (now : Int)
    (cfg : StreamerConfig) :
    ∀ (logs : List EthereumLog) (st : EthereumStream),
      (processEthereumLogs L ord net now cfg logs st).panicked = false →
      (processEthereumLogs L ord net now cfg logs st).fromBlock = st.fromBlock ∧
      (processEthereumLogs L ord net now cfg logs st).lastEthereumBlockParsed
        = (lastProcessedBlock logs).getD st.lastEthereumBlockParsed := by
  intro logs
  induction logs with
  | nil =>
    intro st _
    exact ⟨rfl, rfl⟩
  | cons vLog rest ih =>
    intro st hok
    cases hrem : vLog.removed with
    | true =>
      rw [processEthereumLogs_removed L ord net now cfg vLog rest st hrem] at hok ⊢
      obtain ⟨h1, h2⟩ := ih st hok
      refine ⟨h1, ?_⟩
      rw [h2]
      simp only [lastProcessedBlock, hrem, if_true]
      cases lastProcessedBlock rest <;> rfl
    | false =>
      cases hp : (dispatchEthereumLog L ord net now cfg vLog st).panicked with
      | true =>
        rw [processEthereumLogs_panicked L ord net now cfg vLog rest st hrem hp, hp] at hok
        cases hok
      | false =>
        rw [processEthereumLogs_dispatched L ord net now cfg vLog rest st hrem hp] at hok ⊢
        obtain ⟨h1, h2⟩ := ih _ hok
        obtain ⟨d1, _⟩ := dispatchEthereumLog_cursor L ord net now cfg vLog st
        refine ⟨h1.trans d1, ?_⟩
        rw [h2]
        simp only [lastProcessedBlock, hrem, Bool.false_eq_true, if_false]
        cases lastProcessedBlock rest <;> rfl

/-- C28, amended: a poll of the Ethereum streamer whose query over
`[st.fromBlock, toBlock]` succeeds with the result `logs` and whose processing
does not panic (no 64-bit overflow of the sums involved) moves the loop variables
as follows.  For an empty result the cursor becomes `toBlock` and the next query
starts at `toBlock + 1`.  For a result with a log that is not flagged as removed,
`b` being the block of the last such log, the cursor becomes `b` and the next
query starts at `b + 1`.  The start block strictly increases in the first case,
and in the second when `b` is not below the start block. -/
theorem ethereumPoll_cursor (L : Lib) (ord : MapOrder) (net : Network) (now : Int)
    (cfg : StreamerConfig) (h c maxW : Nat)
    (filterLogs : FilterQuery → Option (List EthereumLog)) (st : EthereumStream)
    (toBlock : Nat) (logs : List EthereumLog)
    (hto : ethereumToBlock h c st.fromBlock maxW = some toBlock)
    (hlogs : filterLogs { fromBlock := toInt64 st.fromBlock, toBlock := toInt64 toBlock }
      = some logs)
    (hok : (ethereumPoll L ord net now cfg c maxW (some h) filterLogs st).panicked = false)
    (hsum : st.fromBlock + maxW < 2 ^ 64) (hbound : toBlock + 1 < 2 ^ 64) :
    (logs = [] →
      (ethereumPoll L ord net now cfg c maxW (some h) filterLogs st).lastEthereumBlockParsed
        = toBlock ∧
      (ethereumPoll L ord net now cfg c maxW (some h) filterLogs st).fromBlock = toBlock + 1 ∧
      st.fromBlock < (ethereumPoll L ord net now cfg c maxW (some h) filterLogs st).fromBlock) ∧
    (∀ b : Nat, lastProcessedBlock logs = some b → b + 1 < 2 ^ 64 →
      (ethereumPoll L ord net now cfg c maxW (some h) filterLogs st).lastEthereumBlockParsed
        = b ∧
      (ethereumPoll L ord net now cfg c maxW (some h) filterLogs st).fromBlock = b + 1 ∧
      (st.fromBlock ≤ b →
        st.fromBlock
          < (ethereumPoll L ord net now cfg c maxW (some h) filterLogs st).fromBlock)) := by
  have hpoll : ethereumPoll L ord net now cfg c maxW (some h) filterLogs st
      = ethereumAfterLogs L ord net now cfg toBlock logs st := by
    unfold ethereumPoll
    simp only [hto, hlogs, ethereumOnAnswer]
  rw [hpoll] at hok ⊢
  have hge : st.fromBlock ≤ toBlock := by
    rw [ethereumToBlock_eq h c st.fromBlock maxW hsum] at hto
    by_cases hle : st.fromBlock ≤ h - c
    · rw [if_pos hle] at hto
      injection hto with hto
      rw [← hto]
      exact le_min (Nat.le_add_right _ _) hle
    · rw [if_neg hle] at hto
      cases hto
  have hpan : (processEthereumLogs L ord net now cfg logs st).panicked = false := by
    cases hp : (processEthereumLogs L ord net now cfg logs st).panicked with
    | false => rfl
    | true =>
      unfold ethereumAfterLogs at hok
      simp only [hp, if_true] at hok
      cases hok
  obtain ⟨_, hlast⟩ := processEthereumLogs_cursor L ord net now cfg logs st hpan
  constructor
  · intro hnil
    subst hnil
    have h1 : addU64 toBlock 1 = toBlock + 1 := Nat.mod_eq_of_lt hbound
    unfold ethereumAfterLogs
    simp only [hpan, Bool.false_eq_true, if_false, List.length_nil, if_true, h1]
    exact ⟨trivial, trivial, Nat.lt_succ_of_le hge⟩
  · intro b hb hbb
    have hne : ¬ logs.length = 0 := by
      intro h0
      have : logs = [] := List.length_eq_zero.mp h0
      subst this
      cases hb
    have hlast2 : (processEthereumLogs L ord net now cfg logs st).lastEthereumBlockParsed = b := by
      rw [hlast, hb]
      rfl
    have h1 : addU64 b 1 = b + 1 := Nat.mod_eq_of_lt hbb
    unfold ethereumAfterLogs
    simp only [hpan, Bool.false_eq_true, if_false, hne, hlast2, h1]
    exact ⟨trivial, trivial, fun hle => Nat.lt_succ_of_le hle⟩

/-- Witness of C28: started with the cursor 10, the streamer queries the blocks 11
to 21 under a head of 30 with 5 confirmations and a limit of 10 blocks, and the
node returns one lock at block 12. -/
theorem ethereumPoll_cursor_witness :
    (ethereumPoll sampleLib insertionOrder (fun _ _ => none) 0 sampleConfig 5 10 (some 30)
      (fun _ => some [sampleLog 12 false])
      (ethereumStreamStart 10 emptyStores)).lastEthereumBlockParsed = 12 ∧
    (ethereumPoll sampleLib insertionOrder (fun _ _ => none) 0 sampleConfig 5 10 (some 30)
      (fun _ => some [sampleLog 12 false])
      (ethereumStreamStart 10 emptyStores)).fromBlock = 12 + 1 ∧
    ((ethereumStreamStart 10 emptyStores).fromBlock ≤ 12 →
      (ethereumStreamStart 10 emptyStores).fromBlock
        < (ethereumPoll sampleLib insertionOrder (fun _ _ => none) 0 sampleConfig 5 10 (some 30)
            (fun _ => some [sampleLog 12 false])
            (ethereumStreamStart 10 emptyStores)).fromBlock) :=
  (ethereumPoll_cursor sampleLib insertionOrder (fun _ _ => none) 0 sampleConfig 30 5 10
    (fun _ => some [sampleLog 12 false]) (ethereumStreamStart 10 emptyStores) 21
    [sampleLog 12 false] (by decide) rfl (by decide) (by decide) (by decide)).2 12
    (by decide) (by decide)

/-- Counterexample to C28 as stated.  The streamer queries the blocks 11 to 21.
With one lock at block 12 in the result the cursor becomes 12, not the greater of
12 and 21, and the next query starts at 13.  With a result that holds only a log
flagged as removed the cursor keeps its value: at the first query it stays 0 and
the start block moves from 11 back to 1, and after a query that left the cursor at
21 the start block stays 22. -/
theorem ethereumPoll_cursor_behind_range :
    ethereumToBlock 30 5 11 10 = some 21 ∧
    (ethereumStreamStart 10 emptyStores).fromBlock = 11 ∧
    (ethereumPoll sampleLib insertionOrder (fun _ _ => none) 0 sampleConfig 5 10 (some 30)
      (fun _ => some [sampleLog 12 false])
      (ethereumStreamStart 10 emptyStores)).panicked = false ∧
    (ethereumPoll sampleLib insertionOrder (fun _ _ => none) 0 sampleConfig 5 10 (some 30)
      (fun _ => some [sampleLog 12 false])
      (ethereumStreamStart 10 emptyStores)).lastEthereumBlockParsed = 12 ∧
    max 12 21 = 21 ∧
    (ethereumPoll sampleLib insertionOrder (fun _ _ => none) 0 sampleConfig 5 10 (some 30)
      (fun _ => some [sampleLog 12 false])
      (ethereumStreamStart 10 emptyStores)).fromBlock = 13 ∧
    ethereumPoll sampleLib insertionOrder (fun _ _ => none) 0 sampleConfig 5 10 (some 30)
        (fun _ => some [sampleLog 12 true]) (ethereumStreamStart 10 emptyStores)
      = { fromBlock := 1, lastEthereumBlockParsed := 0, stores := emptyStores,
          panicked := false } ∧
    ethereumPoll sampleLib insertionOrder (fun _ _ => none) 0 sampleConfig 5 10 (some 40)
        (fun _ => some [sampleLog 25 true])
        { fromBlock := 22, lastEthereumBlockParsed := 21, stores := emptyStores,
          panicked := false }
      = { fromBlock := 22, lastEthereumBlockParsed := 21, stores := emptyStores,
          panicked := false } := by
  refine ⟨by decide, by decide, by decide, by decide, by decide, by decide, by decide,
    by decide⟩

/-- C29 (code defect): the cursor a streamer writes on cancellation starts at zero,
not at the cursor the streamer was started with.  Started with the cursor 100 and
cancelled before any poll, after a poll whose call of the node failed, or after a
poll that waits for a block, the Ethereum streamer writes 0 as the last Ethereum
block parsed and leaves the Koinos cursor 50 as it is; the Koinos streamer,
started with the cursor 50, writes 0 as the last Koinos block parsed when
cancelled before any poll or after a poll that fetched no block.  After a poll
that parsed a lock at block 105 the Ethereum streamer writes 105, and after a poll
that fetched the block 55 the Koinos streamer writes 55. -/
theorem streamer_cancelled_early_writes_zero :
    StreamEthereumBlocks sampleLib insertionOrder (fun _ _ => none) 0 sampleConfig 5 10
        sampleMetadata.lastEthereumBlockParsed emptyStores [] (some sampleMetadata)
      = some { lastEthereumBlockParsed := 0, lastKoinosBlockParsed := 50 } ∧
    StreamEthereumBlocks sampleLib insertionOrder (fun _ _ => none) 0 sampleConfig 5 10
        sampleMetadata.lastEthereumBlockParsed emptyStores [(none, fun _ => none)]
        (some sampleMetadata)
      = some { lastEthereumBlockParsed := 0, lastKoinosBlockParsed := 50 } ∧
    StreamEthereumBlocks sampleLib insertionOrder (fun _ _ => none) 0 sampleConfig 5 10
        sampleMetadata.lastEthereumBlockParsed emptyStores [(some 200, fun _ => none)]
        (some sampleMetadata)
      = some { lastEthereumBlockParsed := 0, lastKoinosBlockParsed := 50 } ∧
    StreamEthereumBlocks sampleLib insertionOrder (fun _ _ => none) 0 sampleConfig 5 10
        sampleMetadata.lastEthereumBlockParsed emptyStores [(some 104, fun _ => some [])]
        (some sampleMetadata)
      = some { lastEthereumBlockParsed := 0, lastKoinosBlockParsed := 50 } ∧
    StreamKoinosBlocks sampleLib insertionOrder (fun _ _ => none) 0 sampleConfig 10
        sampleMetadata.lastKoinosBlockParsed emptyStores [] (some sampleMetadata)
      = some { lastEthereumBlockParsed := 100, lastKoinosBlockParsed := 0 } ∧
    StreamKoinosBlocks sampleLib insertionOrder (fun _ _ => none) 0 sampleConfig 10
        sampleMetadata.lastKoinosBlockParsed emptyStores [(some 60, fun _ _ => some [])]
        (some sampleMetadata)
      = some { lastEthereumBlockParsed := 100, lastKoinosBlockParsed := 0 } ∧
    StreamEthereumBlocks sampleLib insertionOrder (fun _ _ => none) 0 sampleConfig 5 10
        sampleMetadata.lastEthereumBlockParsed emptyStores
        [(some 200, fun _ => some [sampleLog 105 false])] (some sampleMetadata)
      = some { lastEthereumBlockParsed := 105, lastKoinosBlockParsed := 50 } ∧
    StreamKoinosBlocks sampleLib insertionOrder (fun _ _ => none) 0 sampleConfig 10
        sampleMetadata.lastKoinosBlockParsed emptyStores
        [(some 60, fun _ _ => some [{ blockHeight := 55, receipts := [] }])]
        (some sampleMetadata)
      = some { lastEthereumBlockParsed := 100, lastKoinosBlockParsed := 55 } := by
  refine ⟨by decide, by decide, by decide, by decide, by decide, by decide, by decide,
    by decide⟩

/-! ## The store key of a submission -/

theorem ethereumTransferDigest_message (L : Lib) (contract : Bytes) (tx : Transaction)
    (hash : Bytes) (hashB64 : String)
    (h : ethereumTransferDigest L contract tx = Except.ok (hash, hashB64)) :
    ∃ m bytes, ethereumDigestMessage L contract tx = some m ∧
      m.transactionId = L.fromHex tx.id ∧
      L.marshalCompleteTransferHash m = some bytes ∧ hash = L.sha256 bytes := by
  unfold ethereumTransferDigest at h
  unfold ethereumDigestMessage
  simp only at h ⊢
  cases h1 : L.parseUint tx.amount 64 with
  | none => rw [h1] at h; cases h
  | some amount =>
    cases h2 : L.parseUint tx.payment 64 with
    | none => rw [h1, h2] at h; cases h
    | some payment =>
      cases h3 : L.parseUint tx.toChain 32 with
      | none => rw [h1, h2, h3] at h; cases h
      | some chain64 =>
        by_cases h4 : chain64 > 2 ^ 32 - 1
        · rw [h1, h2, h3] at h
          simp only [if_pos h4] at h
          cases h
        · cases h5 : L.base58Decode tx.koinosToken with
          | none => rw [h1, h2, h3, h5] at h; simp only [if_neg h4] at h; cases h
          | some koinosToken =>
            cases h6 : L.base58Decode tx.recipient with
            | none => rw [h1, h2, h3, h5, h6] at h; simp only [if_neg h4] at h; cases h
            | some recipient =>
              cases h7 : L.base58Decode tx.relayer with
              | none =>
                rw [h1, h2, h3, h5, h6, h7] at h
                simp only [if_neg h4] at h
                cases h
              | some relayer =>
                rw [h1, h2, h3, h5, h6, h7] at h
                simp only [if_neg h4] at h ⊢
                split at h
                · cases h
                · rename_i bytes hb
                  injection h with h
                  injection h with h8 _
                  exact ⟨_, bytes, rfl, rfl, hb, h8.symm⟩

theorem koinosTransferDigest_preimage (L : Lib) (contract : Bytes) (tx : Transaction)
    (prefixedHash : Bytes)
    (h : koinosTransferDigest L contract tx = Except.ok prefixedHash) :
    ∃ chainId operationId amount payment,
      L.parseUint tx.opId 64 = some operationId ∧
      koinosDigestPreimage L contract tx
        = some (ethereumPreimage L (L.fromHex tx.id) operationId (L.fromHex tx.ethToken)
            (L.fromHex tx.recipient) (L.fromHex tx.relayer) payment amount contract tx.metadata
            tx.expiration chainId) ∧
      prefixedHash = L.keccak256 (stringBytes "\x19Ethereum Signed Message:\n32" ++
        L.keccak256 (ethereumPreimage L (L.fromHex tx.id) operationId (L.fromHex tx.ethToken)
            (L.fromHex tx.recipient) (L.fromHex tx.relayer) payment amount contract tx.metadata
            tx.expiration chainId)) := by
  unfold koinosTransferDigest GenerateEthereumCompleteTransferHash at h
  unfold koinosDigestPreimage
  simp only at h ⊢
  cases h1 : L.parseUint tx.toChain 64 with
  | none => rw [h1] at h; cases h
  | some chainId =>
    cases h2 : L.parseUint tx.opId 64 with
    | none => rw [h1, h2] at h; cases h
    | some operationId =>
      cases h3 : L.parseUint tx.amount 64 with
      | none => rw [h1, h2, h3] at h; cases h
      | some amount =>
        cases h4 : L.parseUint tx.payment 64 with
        | none => rw [h1, h2, h3, h4] at h; cases h
        | some payment =>
          rw [h1, h2, h3, h4] at h
          simp only at h
          injection h with h
          exact ⟨chainId, operationId, amount, payment, rfl, rfl, h.symm⟩

theorem bytesValue_append (a : Bytes) (x : UInt8) :
    bytesValue (a ++ [x]) = bytesValue a * 256 + x.toNat := by
  simp [bytesValue, List.foldl_append]

theorem bytesValue_zeros (k : Nat) (b : Bytes) :
    bytesValue (List.replicate k 0 ++ b) = bytesValue b := by
  unfold bytesValue
  rw [List.foldl_append]
  have h0 : List.foldl (fun acc (x : UInt8) => acc * 256 + x.toNat) 0 (List.replicate k 0) = 0 := by
    induction k with
    | zero => rfl
    | succ n ih =>
      rw [List.replicate_succ, List.foldl_cons]
      exact ih
  rw [h0]

theorem natBytes_value : ∀ (fuel n : Nat), n < 256 ^ fuel → bytesValue (natBytes fuel n) = n := by
  intro fuel
  induction fuel with
  | zero =>
    intro n hn
    simp only [pow_zero, Nat.lt_one_iff] at hn
    subst hn
    rfl
  | succ f ih =>
    intro n hn
    unfold natBytes
    by_cases h0 : n = 0
    · rw [if_pos h0, h0]
      rfl
    · rw [if_neg h0, bytesValue_append, ih (n / 256)]
      · have hx : (UInt8.ofNat (n % 256)).toNat = n % 256 := by
          simp [UInt8.toNat, UInt8.ofNat, Fin.ofNat, Nat.mod_mod]
        rw [hx]
        omega
      · rw [pow_succ] at hn
        exact Nat.div_lt_of_lt_mul (by omega)

theorem natBytes_length : ∀ (fuel n : Nat), (natBytes fuel n).length ≤ fuel := by
  intro fuel
  induction fuel with
  | zero => intro n; simp [natBytes]
  | succ f ih =>
    intro n
    unfold natBytes
    split
    · simp
    · have := ih (n / 256)
      simp only [List.length_append, List.length_singleton]
      omega

theorem leftPad_bigInt64_length (n : Nat) : (leftPadBytes (bigInt64Bytes n) 32).length = 32 := by
  have h := natBytes_length 8 (if n % 2 ^ 64 < 2 ^ 63 then n % 2 ^ 64 else 2 ^ 64 - n % 2 ^ 64)
  unfold leftPadBytes bigInt64Bytes
  simp only
  rw [if_neg (by omega)]
  simp only [List.length_append, List.length_replicate]
  omega

theorem leftPad_bigInt64_value (n : Nat) (hn : n < 2 ^ 63) :
    bytesValue (leftPadBytes (bigInt64Bytes n) 32) = n := by
  have hmod : n % 2 ^ 64 = n := Nat.mod_eq_of_lt (by omega)
  have h := natBytes_length 8 n
  unfold leftPadBytes bigInt64Bytes
  simp only [hmod, if_pos hn]
  rw [if_neg (by omega), bytesValue_zeros]
  exact natBytes_value 8 n (by omega)

/-- Two packed preimages that agree, for transaction ids of one length and
operation ids below 2^63, have the same transaction id and operation id. -/
theorem ethereumPreimage_inj (L : Lib) (tx1 tx2 : Bytes) (op1 op2 : Nat)
    (t1 r1 l1 t2 r2 l2 : Bytes) (p1 a1 p2 a2 : Nat) (c1 c2 : Bytes) (m1 m2 : String)
    (e1 ch1 e2 ch2 : Nat)
    (hlen : tx1.length = tx2.length) (h1 : op1 < 2 ^ 63) (h2 : op2 < 2 ^ 63)
    (h : ethereumPreimage L tx1 op1 t1 r1 l1 p1 a1 c1 m1 e1 ch1
      = ethereumPreimage L tx2 op2 t2 r2 l2 p2 a2 c2 m2 e2 ch2) :
    tx1 = tx2 ∧ op1 = op2 := by
  unfold ethereumPreimage at h
  simp only [List.append_assoc] at h
  have h3 := List.append_cancel_left h
  obtain ⟨h4, h5⟩ := List.append_inj h3 hlen
  obtain ⟨h6, _⟩ := List.append_inj h5
    (by rw [leftPad_bigInt64_length, leftPad_bigInt64_length])
  refine ⟨h4, ?_⟩
  have := congrArg bytesValue h6
  rw [leftPad_bigInt64_value op1 h1, leftPad_bigInt64_value op2 h2] at this
  exact this

/-- An accepted submission either finds a completed record under its key and
writes nothing, or writes a record that carries the submitted hash under its key;
for an Ethereum transfer this uses that a record that is not completed is stored
under its id. -/
theorem submitSignature_stored_under_key (L : Lib) (ord : MapOrder) (api : Api) (now : Int)
    (stores : Stores) (sub : SubmittedSignature) (body : String)
    (haccept : (SubmitSignature L ord api now stores sub).1 = HttpResult.response 200 body)
    (hkeyed : keyedById stores.ethTxStore) :
    (completedAt (transferStore stores sub.transaction.type) (submissionKey sub.transaction) ∧
      (SubmitSignature L ord api now stores sub).2 = stores) ∨
    (¬ completedAt (transferStore stores sub.transaction.type)
        (submissionKey sub.transaction) ∧
      ∃ record, record.hash = sub.transaction.hash ∧
        (SubmitSignature L ord api now stores sub).2
          = putUnderKey stores sub.transaction.type (submissionKey sub.transaction) record) := by
  obtain ⟨hpass, _⟩ := submissionChecksPass_of_200 L ord api now stores sub body haccept
  rw [submitSignature_of_checks L ord api now stores sub hpass] at haccept ⊢
  cases hprior : mapGet (transferStore stores sub.transaction.type)
      (submissionKey sub.transaction) with
  | none =>
    right
    have hm : mergeSubmission ord api.validators.length
        (localAddressOf api sub.transaction.type) sub.transaction.hash none sub.transaction
        = MergeResult.store (raiseWhenSigned api.validators.length sub.transaction) "" :=
      mergeSubmission_none ord _ _ _ _
    rw [hm]
    refine ⟨fun ⟨tx, htx, _⟩ => (by rw [hprior] at htx; cases htx),
      raiseWhenSigned api.validators.length sub.transaction,
      (raiseWhenSigned_arrays api.validators.length sub.transaction).2.2.1, ?_⟩
    cases ht : sub.transaction.type with
    | ethereum =>
      simp only [answerOfMerge, putSubmission, putUnderKey, ht, submissionKey,
        (raiseWhenSigned_arrays api.validators.length sub.transaction).2.2.2.1]
    | koinos =>
      simp only [answerOfMerge, putSubmission, putUnderKey, ht]
  | some p =>
    rw [hprior] at haccept
    cases hm : mergeSubmission ord api.validators.length
        (localAddressOf api sub.transaction.type) sub.transaction.hash (some p)
        sub.transaction with
    | reply r =>
      left
      rw [hm] at haccept
      simp only [answerOfMerge] at haccept ⊢
      subst haccept
      exact ⟨⟨p, hprior, mergeSubmission_reply_200 ord _ _ _ p _ body hm⟩, trivial⟩
    | store record response =>
      right
      obtain ⟨sigs, merged, hnc, hhash, _, _, hrec⟩ :=
        mergeSubmission_store_inv ord _ _ _ p _ record response hm
      refine ⟨fun ⟨tx, htx, hst⟩ => ?_, record, ?_, ?_⟩
      · rw [hprior] at htx
        injection htx with htx
        subst htx
        exact hnc hst
      · rw [hrec, (raiseWhenSigned_arrays _ _).2.2.1]
        exact hhash
      · cases ht : sub.transaction.type with
        | koinos =>
          simp only [answerOfMerge, putSubmission, putUnderKey, ht]
        | ethereum =>
          have hkey : submissionKey sub.transaction = sub.transaction.id := by
            simp only [submissionKey, ht]
          have hpid : p.id = submissionKey sub.transaction := by
            rw [ht] at hprior
            simp only [transferStore] at hprior
            rcases hkeyed _ p hprior with h1 | h1
            · exact absurd h1 hnc
            · exact h1
          have hrid : record.id = submissionKey sub.transaction := by
            rw [mergeSubmission_store_id ord _ _ _ p sub.transaction record response hm]
            exact hpid
          simp only [answerOfMerge, putSubmission, putUnderKey, ht, hrid]

/-- C30 (amended).  Take two submissions of the same type that `SubmitSignature`
accepts and whose recomputed digest preimages are equal (the message whose
encoding is hashed for an Ethereum transfer, the packed byte string for a Koinos
transfer).  When both ids are written as `0x` followed by the hexadecimal text of
their decoded bytes and, for a Koinos transfer, the decoded ids have the same
length, the parsed operation ids are below 2^63 and both operation ids are
written as the decimal text of the parsed number, the two submissions have the
same store key.  On stores that a run of operations produces from the empty
stores, each of the two either finds a completed record under that key and writes
nothing, or writes a record that carries the submitted hash under that key. -/
theorem submitSignature_key_of_preimage (L : Lib) (api : Api) (cfg : StreamerConfig)
    (ord1 ord2 : MapOrder) (now1 now2 : Int) (stores1 stores2 : Stores)
    (ops1 ops2 : List Operation) (sub1 sub2 : SubmittedSignature) (body1 body2 : String)
    (hrun1 : stores1 = runOperations L api cfg emptyStores ops1)
    (hrun2 : stores2 = runOperations L api cfg emptyStores ops2)
    (haccept1 : (SubmitSignature L ord1 api now1 stores1 sub1).1
      = HttpResult.response 200 body1)
    (haccept2 : (SubmitSignature L ord2 api now2 stores2 sub2).1
      = HttpResult.response 200 body2)
    (htype : sub2.transaction.type = sub1.transaction.type)
    (hpre : submissionPreimage L api sub2.transaction
      = submissionPreimage L api sub1.transaction)
    (hcanon1 : sub1.transaction.id = "0x" ++ L.bytes2Hex (L.fromHex sub1.transaction.id))
    (hcanon2 : sub2.transaction.id = "0x" ++ L.bytes2Hex (L.fromHex sub2.transaction.id))
    (hkoinos : sub1.transaction.type = TransactionType.koinos →
      (L.fromHex sub2.transaction.id).length = (L.fromHex sub1.transaction.id).length ∧
      ∃ n1 n2, L.parseUint sub1.transaction.opId 64 = some n1 ∧
        L.parseUint sub2.transaction.opId 64 = some n2 ∧ n1 < 2 ^ 63 ∧ n2 < 2 ^ 63 ∧
        sub1.transaction.opId = toString n1 ∧ sub2.transaction.opId = toString n2) :
    (∃ pre, submissionPreimage L api sub1.transaction = some pre) ∧
    submissionKey sub2.transaction = submissionKey sub1.transaction ∧
    ((completedAt (transferStore stores1 sub1.transaction.type)
          (submissionKey sub1.transaction) ∧
        (SubmitSignature L ord1 api now1 stores1 sub1).2 = stores1) ∨
      (¬ completedAt (transferStore stores1 sub1.transaction.type)
          (submissionKey sub1.transaction) ∧
        ∃ record, record.hash = sub1.transaction.hash ∧
          (SubmitSignature L ord1 api now1 stores1 sub1).2
            = putUnderKey stores1 sub1.transaction.type (submissionKey sub1.transaction)
                record)) ∧
    ((completedAt (transferStore stores2 sub1.transaction.type)
          (submissionKey sub1.transaction) ∧
        (SubmitSignature L ord2 api now2 stores2 sub2).2 = stores2) ∨
      (¬ completedAt (transferStore stores2 sub1.transaction.type)
          (submissionKey sub1.transaction) ∧
        ∃ record, record.hash = sub2.transaction.hash ∧
          (SubmitSignature L ord2 api now2 stores2 sub2).2
            = putUnderKey stores2 sub1.transaction.type (submissionKey sub1.transaction)
                record)) := by
  have hempty : keyedById emptyStores.ethTxStore := by
    intro k tx h
    simp [emptyStores, mapGet] at h
  have hkeyed1 : keyedById stores1.ethTxStore := by
    rw [hrun1]
    exact (runOperations_preserves L api cfg ops1 emptyStores hempty).1
  have hkeyed2 : keyedById stores2.ethTxStore := by
    rw [hrun2]
    exact (runOperations_preserves L api cfg ops2 emptyStores hempty).1
  obtain ⟨⟨_, hchecks1⟩, _⟩ :=
    submissionChecksPass_of_200 L ord1 api now1 stores1 sub1 body1 haccept1
  obtain ⟨⟨_, hchecks2⟩, _⟩ :=
    submissionChecksPass_of_200 L ord2 api now2 stores2 sub2 body2 haccept2
  have hmain : (∃ pre, submissionPreimage L api sub1.transaction = some pre) ∧
      submissionKey sub2.transaction = submissionKey sub1.transaction := by
    cases ht : sub1.transaction.type with
    | ethereum =>
      have ht2 : sub2.transaction.type = TransactionType.ethereum := by rw [htype, ht]
      rw [ht] at hchecks1
      rw [ht2] at hchecks2
      obtain ⟨hash1, b1, hd1, _⟩ := hchecks1
      obtain ⟨hash2, b2, hd2, _⟩ := hchecks2
      obtain ⟨m1, _, hm1, hid1, _, _⟩ := ethereumTransferDigest_message L _ _ hash1 b1 hd1
      obtain ⟨m2, _, hm2, hid2, _, _⟩ := ethereumTransferDigest_message L _ _ hash2 b2 hd2
      simp only [submissionPreimage, ht, ht2, hm1, hm2, Option.map_some', Option.some.injEq,
        DigestPreimage.message.injEq] at hpre ⊢
      have hbytes : L.fromHex sub2.transaction.id = L.fromHex sub1.transaction.id := by
        rw [← hid1, ← hid2, hpre]
      have hids : sub2.transaction.id = sub1.transaction.id := by
        rw [hcanon2, hbytes, ← hcanon1]
      refine ⟨⟨_, rfl⟩, ?_⟩
      simp only [submissionKey, ht, ht2, hids]
    | koinos =>
      have ht2 : sub2.transaction.type = TransactionType.koinos := by rw [htype, ht]
      rw [ht] at hchecks1
      rw [ht2] at hchecks2
      obtain ⟨ph1, hd1, _⟩ := hchecks1
      obtain ⟨ph2, hd2, _⟩ := hchecks2
      obtain ⟨c1, op1, a1, p1, hop1, hpre1, _⟩ := koinosTransferDigest_preimage L _ _ ph1 hd1
      obtain ⟨c2, op2, a2, p2, hop2, hpre2, _⟩ := koinosTransferDigest_preimage L _ _ ph2 hd2
      obtain ⟨hlen, n1, n2, hn1, hn2, hb1, hb2, hs1, hs2⟩ := hkoinos ht
      rw [hop1] at hn1
      rw [hop2] at hn2
      injection hn1 with hn1
      injection hn2 with hn2
      subst hn1
      subst hn2
      simp only [submissionPreimage, ht, ht2, hpre1, hpre2, Option.map_some', Option.some.injEq,
        DigestPreimage.packed.injEq] at hpre ⊢
      obtain ⟨hbytes, hop⟩ := ethereumPreimage_inj L _ _ op2 op1 _ _ _ _ _ _ _ _ _ _ _ _ _ _
        _ _ _ _ hlen hb2 hb1 hpre
      have hids : sub2.transaction.id = sub1.transaction.id := by
        rw [hcanon2, hbytes, ← hcanon1]
      refine ⟨⟨_, rfl⟩, ?_⟩
      simp only [submissionKey, ht, ht2, hids, hs1, hs2, hop]
  obtain ⟨hexists, hkey⟩ := hmain
  refine ⟨hexists, hkey, ?_, ?_⟩
  · exact submitSignature_stored_under_key L ord1 api now1 stores1 sub1 body1 haccept1 hkeyed1
  · have := submitSignature_stored_under_key L ord2 api now2 stores2 sub2 body2 haccept2 hkeyed2
    rw [htype, hkey] at this
    exact this

/-- Witness of C30: `B` and then `C` submit their signatures of the sample Koinos
transfer, whose id is `0x1` and whose operation id is `1`; the submission of `C`
is written under the key of the submission of `B`. -/
theorem submitSignature_key_of_preimage_witness :
    submissionKey (signEnvelope sampleLib [67]
        (sampleKoinosTransfer ["0xc"] [sampleEthereumSignature [99] [55]]) 60000).transaction
      = submissionKey (signEnvelope sampleLib [66]
        (sampleKoinosTransfer ["0xb"] [sampleEthereumSignature [98] [55]]) 60000).transaction ∧
    ((completedAt (transferStore
          (SubmitSignature sampleLib insertionOrder sampleApi 0 emptyStores
            (signEnvelope sampleLib [66]
              (sampleKoinosTransfer ["0xb"] [sampleEthereumSignature [98] [55]]) 60000)).2
          (signEnvelope sampleLib [66]
            (sampleKoinosTransfer ["0xb"] [sampleEthereumSignature [98] [55]])
            60000).transaction.type)
          (submissionKey (signEnvelope sampleLib [66]
            (sampleKoinosTransfer ["0xb"] [sampleEthereumSignature [98] [55]])
            60000).transaction) ∧
        (SubmitSignature sampleLib insertionOrder sampleApi 0
          (SubmitSignature sampleLib insertionOrder sampleApi 0 emptyStores
            (signEnvelope sampleLib [66]
              (sampleKoinosTransfer ["0xb"] [sampleEthereumSignature [98] [55]]) 60000)).2
          (signEnvelope sampleLib [67]
            (sampleKoinosTransfer ["0xc"] [sampleEthereumSignature [99] [55]]) 60000)).2
          = (SubmitSignature sampleLib insertionOrder sampleApi 0 emptyStores
            (signEnvelope sampleLib [66]
              (sampleKoinosTransfer ["0xb"] [sampleEthereumSignature [98] [55]]) 60000)).2) ∨
      (¬ completedAt (transferStore
          (SubmitSignature sampleLib insertionOrder sampleApi 0 emptyStores
            (signEnvelope sampleLib [66]
              (sampleKoinosTransfer ["0xb"] [sampleEthereumSignature [98] [55]]) 60000)).2
          (signEnvelope sampleLib [66]
            (sampleKoinosTransfer ["0xb"] [sampleEthereumSignature [98] [55]])
            60000).transaction.type)
          (submissionKey (signEnvelope sampleLib [66]
            (sampleKoinosTransfer ["0xb"] [sampleEthereumSignature [98] [55]])
            60000).transaction) ∧
        ∃ record,
          record.hash = (signEnvelope sampleLib [67]
            (sampleKoinosTransfer ["0xc"] [sampleEthereumSignature [99] [55]])
            60000).transaction.hash ∧
          (SubmitSignature sampleLib insertionOrder sampleApi 0
            (SubmitSignature sampleLib insertionOrder sampleApi 0 emptyStores
              (signEnvelope sampleLib [66]
                (sampleKoinosTransfer ["0xb"] [sampleEthereumSignature [98] [55]]) 60000)).2
            (signEnvelope sampleLib [67]
              (sampleKoinosTransfer ["0xc"] [sampleEthereumSignature [99] [55]]) 60000)).2
            = putUnderKey
                (SubmitSignature sampleLib insertionOrder sampleApi 0 emptyStores
                  (signEnvelope sampleLib [66]
                    (sampleKoinosTransfer ["0xb"] [sampleEthereumSignature [98] [55]])
                    60000)).2
                (signEnvelope sampleLib [66]
                  (sampleKoinosTransfer ["0xb"] [sampleEthereumSignature [98] [55]])
                  60000).transaction.type
                (submissionKey (signEnvelope sampleLib [66]
                  (sampleKoinosTransfer ["0xb"] [sampleEthereumSignature [98] [55]])
                  60000).transaction)
                record)) := by
  have hboth := (submitSignature_key_of_preimage sampleLib sampleApi sampleConfig
    insertionOrder insertionOrder 0 0 emptyStores
    (SubmitSignature sampleLib insertionOrder sampleApi 0 emptyStores
      (signEnvelope sampleLib [66]
        (sampleKoinosTransfer ["0xb"] [sampleEthereumSignature [98] [55]]) 60000)).2
    []
    [Operation.submitSignature insertionOrder 0
      (signEnvelope sampleLib [66]
        (sampleKoinosTransfer ["0xb"] [sampleEthereumSignature [98] [55]]) 60000)]
    (signEnvelope sampleLib [66]
      (sampleKoinosTransfer ["0xb"] [sampleEthereumSignature [98] [55]]) 60000)
    (signEnvelope sampleLib [67]
      (sampleKoinosTransfer ["0xc"] [sampleEthereumSignature [99] [55]]) 60000)
    "" "" rfl rfl (by decide) (by decide) rfl (by decide) (by decide) (by decide)
    (fun _ => ⟨by decide, 1, 1, by decide, by decide, by decide, by decide, by decide,
      by decide⟩)).2
  exact ⟨hboth.1, hboth.2.2⟩

/-- Counterexample to C30 as stated.  Two submissions of `B` for the sample
Ethereum transfer differ in the text of the id only, `0x1` and `1`, which decode
to the same bytes; both are accepted with the same hash and the transfer is stored
under the two keys `0x1` and `1`.  Two submissions of `B` for the sample Koinos
transfer differ in the text of the operation id only, `1` and `01`, which parse to
the same number; both are accepted and the transfer is stored under the two keys
`0x1-1` and `0x1-01`.  In both pairs the two submissions have the same digest
preimage.  A third pair has canonical ids and operation ids and still one packed
preimage: the id of `sampleShiftedTransfer` goes on with the bytes that follow the
one-byte id of `samplePackedTransfer` in the packing, which has no field
boundaries; both are accepted under the hash `0xV` and stored under two keys. -/
theorem submitSignature_one_transfer_two_keys :
    sampleLib.fromHex "1" = sampleLib.fromHex "0x1" ∧
    { sampleEthereumTransfer ["B"] ["BN"] with id := "1" }.hash
      = (sampleEthereumTransfer ["B"] ["BN"]).hash ∧
    (SubmitSignature sampleLib insertionOrder sampleApi 0 emptyStores
        (signEnvelope sampleLib [66] (sampleEthereumTransfer ["B"] ["BN"]) 60000)).1
      = HttpResult.response 200 "" ∧
    (SubmitSignature sampleLib insertionOrder sampleApi 0
        (SubmitSignature sampleLib insertionOrder sampleApi 0 emptyStores
          (signEnvelope sampleLib [66] (sampleEthereumTransfer ["B"] ["BN"]) 60000)).2
        (signEnvelope sampleLib [66]
          { sampleEthereumTransfer ["B"] ["BN"] with id := "1" } 60000)).1
      = HttpResult.response 200 "" ∧
    (SubmitSignature sampleLib insertionOrder sampleApi 0
        (SubmitSignature sampleLib insertionOrder sampleApi 0 emptyStores
          (signEnvelope sampleLib [66] (sampleEthereumTransfer ["B"] ["BN"]) 60000)).2
        (signEnvelope sampleLib [66]
          { sampleEthereumTransfer ["B"] ["BN"] with id := "1" } 60000)).2.ethTxStore.map
        (fun (e : String × Transaction) => (e.1, e.2.hash, e.2.validators))
      = [("0x1", "N", ["B"]), ("1", "N", ["B"])] ∧
    sampleLib.parseUint "01" 64 = sampleLib.parseUint "1" 64 ∧
    (SubmitSignature sampleLib insertionOrder sampleApi 0 emptyStores
        (signEnvelope sampleLib [66]
          (sampleKoinosTransfer ["0xb"] [sampleEthereumSignature [98] [55]]) 60000)).1
      = HttpResult.response 200 "" ∧
    (SubmitSignature sampleLib insertionOrder sampleApi 0
        (SubmitSignature sampleLib insertionOrder sampleApi 0 emptyStores
          (signEnvelope sampleLib [66]
            (sampleKoinosTransfer ["0xb"] [sampleEthereumSignature [98] [55]]) 60000)).2
        (signEnvelope sampleLib [66]
          { sampleKoinosTransfer ["0xb"] [sampleEthereumSignature [98] [55]] with opId := "01" }
          60000)).1
      = HttpResult.response 200 "" ∧
    (SubmitSignature sampleLib insertionOrder sampleApi 0
        (SubmitSignature sampleLib insertionOrder sampleApi 0 emptyStores
          (signEnvelope sampleLib [66]
            (sampleKoinosTransfer ["0xb"] [sampleEthereumSignature [98] [55]]) 60000)).2
        (signEnvelope sampleLib [66]
          { sampleKoinosTransfer ["0xb"] [sampleEthereumSignature [98] [55]] with opId := "01" }
          60000)).2.koinosTxStore.map
        (fun (e : String × Transaction) => (e.1, e.2.hash, e.2.validators))
      = [("0x1-1", "0x7", ["0xb"]), ("0x1-01", "0x7", ["0xb"])] ∧
    submissionPreimage sampleLib sampleApi { sampleEthereumTransfer ["B"] ["BN"] with id := "1" }
      = submissionPreimage sampleLib sampleApi (sampleEthereumTransfer ["B"] ["BN"]) ∧
    (submissionPreimage sampleLib sampleApi (sampleEthereumTransfer ["B"] ["BN"])).isSome
      = true ∧
    submissionPreimage sampleLib sampleApi
        { sampleKoinosTransfer ["0xb"] [sampleEthereumSignature [98] [55]] with opId := "01" }
      = submissionPreimage sampleLib sampleApi
          (sampleKoinosTransfer ["0xb"] [sampleEthereumSignature [98] [55]]) ∧
    (submissionPreimage sampleLib sampleApi
        (sampleKoinosTransfer ["0xb"] [sampleEthereumSignature [98] [55]])).isSome = true ∧
    submissionPreimage sampleLib sampleApi sampleShiftedTransfer
      = submissionPreimage sampleLib sampleApi samplePackedTransfer ∧
    (submissionPreimage sampleLib sampleApi samplePackedTransfer).isSome = true ∧
    samplePackedTransfer.id
      = "0x" ++ sampleLib.bytes2Hex (sampleLib.fromHex samplePackedTransfer.id) ∧
    sampleShiftedTransfer.id
      = "0x" ++ sampleLib.bytes2Hex (sampleLib.fromHex sampleShiftedTransfer.id) ∧
    sampleLib.parseUint samplePackedTransfer.opId 64 = some 1 ∧
    samplePackedTransfer.opId = toString 1 ∧
    sampleLib.parseUint sampleShiftedTransfer.opId 64 = some 5 ∧
    sampleShiftedTransfer.opId = toString 5 ∧
    (sampleLib.fromHex samplePackedTransfer.id).length = 1 ∧
    (sampleLib.fromHex sampleShiftedTransfer.id).length = 36 ∧
    (SubmitSignature sampleLib insertionOrder sampleApi 0 emptyStores
        (signEnvelope sampleLib [66] samplePackedTransfer 60000)).1
      = HttpResult.response 200 "" ∧
    (SubmitSignature sampleLib insertionOrder sampleApi 0
        (SubmitSignature sampleLib insertionOrder sampleApi 0 emptyStores
          (signEnvelope sampleLib [66] samplePackedTransfer 60000)).2
        (signEnvelope sampleLib [66] sampleShiftedTransfer 60000)).1
      = HttpResult.response 200 "" ∧
    (SubmitSignature sampleLib insertionOrder sampleApi 0
        (SubmitSignature sampleLib insertionOrder sampleApi 0 emptyStores
          (signEnvelope sampleLib [66] samplePackedTransfer 60000)).2
        (signEnvelope sampleLib [66] sampleShiftedTransfer 60000)).2.koinosTxStore.map
        (fun (e : String × Transaction) => (e.1, e.2.hash, e.2.validators))
      = [(submissionKey samplePackedTransfer, "0xV", ["0xb"]),
         (submissionKey sampleShiftedTransfer, "0xV", ["0xb"])] ∧
    submissionKey samplePackedTransfer = "0x1-1" ∧
    submissionKey sampleShiftedTransfer ≠ submissionKey samplePackedTransfer := by
  repeat' apply And.intro
  all_goals decide

end KoinosBridge
